import Mathlib

/-!
# GnssView: stream decoders

A shallow embedding of the decoding core of GnssView: the UBX-family binary
frame decoders (`src/devices/ublox.cpp`, `allystar.cpp`, `goldfish.cpp`), the
RTCM3 decoder (`src/devices/rtcm3.cpp`) and the NMEA sentence parser
(`src/core/nmeaparser.cpp`).

Conventions of the embedding

* a `QByteArray` is a list of bytes, a byte is a `Fin 256`; every read of
  the source goes through `byteAt`, which yields the byte as a natural number;
* C++ unsigned machine integers are natural numbers, reduced modulo `2 ^ w`
  wherever the source can overflow; signed ones are integers;
* a decoder object is a record of its member fields; a method takes the record
  and returns the new record together with its results;
* `qDebug` / `qWarning` output and the human readable name strings
  (`className`, `msgName`, `typeName`), on which no decision depends, are left
  out.
-/

namespace GnssView

/-- One octet of a receive buffer. -/
abbrev Byte := Fin 256

/-- The contents of a `QByteArray`. -/
abbrev QByteArray := List Byte

/-- The read `(uint8_t)data[i]`. A `QByteArray` keeps a zero byte behind its
last byte, which is what a read at index `data.length()` yields; the value 0
given further out stands for memory the array does not own. -/
def byteAt (data : QByteArray) (i : Nat) : Nat := (data.getD i 0).val

/-- What one decode call hands back: the returned boolean, the value left in
the `bytesProcessed` reference and the decoder object after the call. -/
structure Decoded (σ : Type) where
  ok : Bool
  bytesProcessed : Nat
  state : σ

/-- The statement `m_stats[key]++` on a `QMap<_, uint32_t>`, a missing key
counting as 0. -/
def bumpStat (stats : Nat → Nat) (key : Nat) : Nat → Nat :=
  fun k => if k = key then (stats k + 1) % 2 ^ 32 else stats k

/-! ## Fletcher-8 checksum shared by the UBX family -/

/-- One turn of the checksum loop: `ck_a += data[i]; ck_b += ck_a;` on two
`uint8_t` accumulators. -/
def fletcherStep (ck : Nat × Nat) (b : Byte) : Nat × Nat :=
  let ck_a := (ck.1 + b.val) % 256
  (ck_a, (ck.2 + ck_a) % 256)

/-- Model of `UbloxDecoder::calculateChecksum` (and `AllystarDecoder::calculateChecksum`,
which has the same body): the pair `(ck_a, ck_b)` over `data`. -/
def calculateChecksum (data : QByteArray) : Nat × Nat :=
  data.foldl fletcherStep (0, 0)

/-- Little-endian length field `data[i] | (data[i + 1] << 8)`. -/
def getU2 (data : QByteArray) (i : Nat) : Nat :=
  byteAt data i ||| (byteAt data (i + 1) <<< 8)

/-- Little-endian `uint32_t` at offset `i`. -/
def getU4 (data : QByteArray) (i : Nat) : Nat :=
  byteAt data i ||| (byteAt data (i + 1) <<< 8) ||| (byteAt data (i + 2) <<< 16)
    ||| (byteAt data (i + 3) <<< 24)

/-- The cast `(int32_t)` of a `uint32_t`. -/
def toInt32 (u : Nat) : Int :=
  if u % 2 ^ 32 < 2 ^ 31 then (u % 2 ^ 32 : Nat) else ((u % 2 ^ 32 : Nat) : Int) - 2 ^ 32

/-- Little-endian `int32_t` at offset `i`. -/
def getI4 (data : QByteArray) (i : Nat) : Int := toInt32 (getU4 data i)

/-! ## The sync scan shared by UBX, Allystar and Goldfish

`findNextPacket` has the same loop in the three decoders; they differ in the two
sync bytes, the header length and the way the length field is read. -/

/-- The test made at index `i` of the scan: both sync bytes, the header
inside the buffer, and the length field at most 4096. -/
def syncAt (sync1 sync2 headerLen : Nat) (lenAt : QByteArray → Nat → Nat)
    (data : QByteArray) (i : Nat) : Bool :=
  byteAt data i == sync1 && byteAt data (i + 1) == sync2 &&
    decide (i + headerLen ≤ data.length) && decide (lenAt data i ≤ 4096)

/-- The loop `for (i = startPos; i < data.length() - 1; i++)`, with `n` the
number of indices still to visit; `none` is the source's `-1`. -/
def scanFrom (test : Nat → Bool) : Nat → Nat → Option Nat
  | _, 0 => none
  | i, n + 1 => if test i then some i else scanFrom test (i + 1) n

namespace Ublox

def UBX_SYNC1 : Nat := 0xB5
def UBX_SYNC2 : Nat := 0x62
def UBX_HEADER_LEN : Nat := 6
def UBX_CHECKSUM_LEN : Nat := 2
def UBX_CLASS_NAV : Nat := 0x01
def UBX_CLASS_RXM : Nat := 0x02
def UBX_CLASS_ACK : Nat := 0x05
def UBX_CLASS_MON : Nat := 0x0A
def UBX_NAV_PVT : Nat := 0x07
def UBX_MON_VER : Nat := 0x04

/-- The length field read by the scan: `data[i + 4] | (data[i + 5] << 8)`. -/
def lenAt (data : QByteArray) (i : Nat) : Nat := getU2 data (i + 4)

/-- Model of `UbloxDecoder::findNextPacket`. -/
def findNextPacket (data : QByteArray) (startPos : Nat) : Option Nat :=
  scanFrom (syncAt UBX_SYNC1 UBX_SYNC2 UBX_HEADER_LEN lenAt data) startPos
    (data.length - 1 - startPos)

/-- Model of `UbloxDecoder::validateChecksum`: Fletcher-8 over class .. end of payload
against the two trailing bytes. -/
def validateChecksum (packet : QByteArray) : Bool :=
  if packet.length < UBX_HEADER_LEN + UBX_CHECKSUM_LEN then false
  else
    let checksumStart := 2
    let checksumEnd := packet.length - UBX_CHECKSUM_LEN
    let checksumLen := checksumEnd - checksumStart
    let ck := calculateChecksum ((packet.drop checksumStart).take checksumLen)
    ck.1 == byteAt packet checksumEnd && ck.2 == byteAt packet (checksumEnd + 1)

/-- Model of `struct UbxPacketInfo`. -/
structure UbxPacketInfo where
  msgClass : Nat
  msgId : Nat
  length : Nat
  valid : Bool
  payload : QByteArray

/-- Model of `struct UbxNavPvt`. -/
structure UbxNavPvt where
  iTOW : Nat
  year : Nat
  month : Nat
  day : Nat
  hour : Nat
  min : Nat
  sec : Nat
  valid : Nat
  lon : Int
  lat : Int
  height : Int
  hMSL : Int
  hAcc : Nat
  vAcc : Nat
  fixType : Nat
  numSV : Nat

/-- The member fields of `class UbloxDecoder`. -/
structure UbloxDecoder where
  m_lastPacket : UbxPacketInfo
  m_lastNavPvt : UbxNavPvt
  m_packetStats : Nat → Nat
  m_totalPackets : Nat

/-- Model of `UbloxDecoder::parseNavPvt`. -/
def parseNavPvt (s : UbloxDecoder) (payload : QByteArray) : Bool × UbloxDecoder :=
  if payload.length < 92 then (false, s)
  else
    (true, { s with m_lastNavPvt :=
      { iTOW := getU4 payload 0
        year := getU2 payload 4
        month := byteAt payload 6
        day := byteAt payload 7
        hour := byteAt payload 8
        min := byteAt payload 9
        sec := byteAt payload 10
        valid := byteAt payload 11
        lon := getI4 payload 24
        lat := getI4 payload 28
        height := getI4 payload 32
        hMSL := getI4 payload 36
        hAcc := getU4 payload 40
        vAcc := getU4 payload 44
        fixType := byteAt payload 20
        numSV := byteAt payload 23 } })

/-- Model of `UbloxDecoder::parseMonVer`: only the length test has an effect, the two
version strings are logged and dropped. -/
def parseMonVer (s : UbloxDecoder) (payload : QByteArray) : Bool × UbloxDecoder :=
  if payload.length < 40 then (false, s) else (true, s)

/-- Model of `UbloxDecoder::parsePacket`. -/
def parsePacket (s : UbloxDecoder) (payload : QByteArray) : Bool × UbloxDecoder :=
  if s.m_lastPacket.msgClass = UBX_CLASS_NAV then
    if s.m_lastPacket.msgId = UBX_NAV_PVT then parseNavPvt s payload else (true, s)
  else if s.m_lastPacket.msgClass = UBX_CLASS_MON then
    if s.m_lastPacket.msgId = UBX_MON_VER then parseMonVer s payload else (true, s)
  else if s.m_lastPacket.msgClass = UBX_CLASS_RXM then (true, s)
  else if s.m_lastPacket.msgClass = UBX_CLASS_ACK then (true, s)
  else (true, s)

/-- Model of `UbloxDecoder::decodePacket`. -/
def decodePacket (s : UbloxDecoder) (data : QByteArray) : Decoded UbloxDecoder :=
  let s0 : UbloxDecoder := { s with m_lastPacket := { s.m_lastPacket with valid := false } }
  match findNextPacket data 0 with
  | none => ⟨false, data.length, s0⟩
  | some packetStart =>
    if packetStart > 0 then ⟨false, packetStart, s0⟩
    else if data.length < UBX_HEADER_LEN then ⟨false, 0, s0⟩
    else
      let s1 : UbloxDecoder := { s0 with m_lastPacket :=
        { s0.m_lastPacket with
          msgClass := byteAt data 2
          msgId := byteAt data 3
          length := getU2 data 4 } }
      let packetLen := UBX_HEADER_LEN + s1.m_lastPacket.length + UBX_CHECKSUM_LEN
      if data.length < packetLen then ⟨false, 0, s1⟩
      else
        let packet := data.take packetLen
        if !validateChecksum packet then ⟨false, packetLen, s1⟩
        else
          let payload := (packet.drop UBX_HEADER_LEN).take s1.m_lastPacket.length
          let s2 : UbloxDecoder := { s1 with m_lastPacket := { s1.m_lastPacket with payload := payload } }
          let r := parsePacket s2 payload
          if r.1 then
            let key := (r.2.m_lastPacket.msgClass <<< 8) ||| r.2.m_lastPacket.msgId
            ⟨true, packetLen,
              { r.2 with
                m_lastPacket := { r.2.m_lastPacket with valid := true }
                m_totalPackets := (r.2.m_totalPackets + 1) % 2 ^ 32
                m_packetStats := bumpStat r.2.m_packetStats key }⟩
          else ⟨false, packetLen, r.2⟩

end Ublox

namespace Allystar

def ALLYSTAR_SYNC1 : Nat := 0xF1
def ALLYSTAR_SYNC2 : Nat := 0xD9
def ALLYSTAR_HEADER_LEN : Nat := 6
def ALLYSTAR_CHECKSUM_LEN : Nat := 2

/-- The length field read by the scan: `data[i + 4] | (data[i + 5] << 8)`. -/
def lenAt (data : QByteArray) (i : Nat) : Nat := getU2 data (i + 4)

/-- Model of `AllystarDecoder::findNextPacket`. -/
def findNextPacket (data : QByteArray) (startPos : Nat) : Option Nat :=
  scanFrom (syncAt ALLYSTAR_SYNC1 ALLYSTAR_SYNC2 ALLYSTAR_HEADER_LEN lenAt data) startPos
    (data.length - 1 - startPos)

/-- Model of `AllystarDecoder::validateChecksum`. -/
def validateChecksum (packet : QByteArray) : Bool :=
  if packet.length < ALLYSTAR_HEADER_LEN + ALLYSTAR_CHECKSUM_LEN then false
  else
    let checksumStart := 2
    let checksumEnd := packet.length - ALLYSTAR_CHECKSUM_LEN
    let checksumLen := checksumEnd - checksumStart
    let ck := calculateChecksum ((packet.drop checksumStart).take checksumLen)
    ck.1 == byteAt packet checksumEnd && ck.2 == byteAt packet (checksumEnd + 1)

/-- Model of `struct AllystarPacketInfo`. -/
structure AllystarPacketInfo where
  msgClass : Nat
  msgId : Nat
  length : Nat
  valid : Bool
  payload : QByteArray

/-- The member fields of `class AllystarDecoder`. -/
structure AllystarDecoder where
  m_lastPacket : AllystarPacketInfo
  m_packetStats : Nat → Nat
  m_totalPackets : Nat

/-- Model of `AllystarDecoder::parsePacket`: every message is acknowledged. -/
def parsePacket (s : AllystarDecoder) (_payload : QByteArray) : Bool × AllystarDecoder :=
  (true, s)

/-- Model of `AllystarDecoder::decodePacket`. -/
def decodePacket (s : AllystarDecoder) (data : QByteArray) : Decoded AllystarDecoder :=
  let s0 : AllystarDecoder := { s with m_lastPacket := { s.m_lastPacket with valid := false } }
  match findNextPacket data 0 with
  | none => ⟨false, data.length, s0⟩
  | some packetStart =>
    if packetStart > 0 then ⟨false, packetStart, s0⟩
    else if data.length < ALLYSTAR_HEADER_LEN then ⟨false, 0, s0⟩
    else
      let s1 : AllystarDecoder := { s0 with m_lastPacket :=
        { s0.m_lastPacket with
          msgClass := byteAt data 2
          msgId := byteAt data 3
          length := getU2 data 4 } }
      let packetLen := ALLYSTAR_HEADER_LEN + s1.m_lastPacket.length + ALLYSTAR_CHECKSUM_LEN
      if data.length < packetLen then ⟨false, 0, s1⟩
      else
        let packet := data.take packetLen
        if !validateChecksum packet then ⟨false, packetLen, s1⟩
        else
          let payload := (packet.drop ALLYSTAR_HEADER_LEN).take s1.m_lastPacket.length
          let s2 : AllystarDecoder :=
            { s1 with m_lastPacket := { s1.m_lastPacket with payload := payload } }
          let r := parsePacket s2 payload
          if r.1 then
            let key := (r.2.m_lastPacket.msgClass <<< 8) ||| r.2.m_lastPacket.msgId
            ⟨true, packetLen,
              { r.2 with
                m_lastPacket := { r.2.m_lastPacket with valid := true }
                m_totalPackets := (r.2.m_totalPackets + 1) % 2 ^ 32
                m_packetStats := bumpStat r.2.m_packetStats key }⟩
          else ⟨false, packetLen, r.2⟩

end Allystar

namespace Goldfish

def GOLDFISH_SYNC1 : Nat := 0xBC
def GOLDFISH_SYNC2 : Nat := 0xB2
def GOLDFISH_HEADER_LEN : Nat := 4
def GOLDFISH_CHECKSUM_LEN : Nat := 2

/-- The 12-bit length read by the scan:
`(data[i + 2] << 4) | ((data[i + 3] >> 4) & 0x0F)`. -/
def lenAt (data : QByteArray) (i : Nat) : Nat :=
  (byteAt data (i + 2) <<< 4) ||| ((byteAt data (i + 3) >>> 4) &&& 0x0F)

/-- Model of `GoldfishDecoder::findNextPacket`. -/
def findNextPacket (data : QByteArray) (startPos : Nat) : Option Nat :=
  scanFrom (syncAt GOLDFISH_SYNC1 GOLDFISH_SYNC2 GOLDFISH_HEADER_LEN lenAt data) startPos
    (data.length - 1 - startPos)

/-- Model of `struct GoldfishPacketInfo`. -/
structure GoldfishPacketInfo where
  msgId : Nat
  length : Nat
  valid : Bool
  payload : QByteArray

/-- The member fields of `class GoldfishDecoder`. -/
structure GoldfishDecoder where
  m_lastPacket : GoldfishPacketInfo
  m_packetStats : Nat → Nat
  m_totalPackets : Nat

/-- Model of `QByteArray::mid(pos, len)` with a signed `len`: a negative `len` takes
everything from `pos` on. -/
def mid (data : QByteArray) (pos : Nat) (len : Int) : QByteArray :=
  if len < 0 then data.drop pos else (data.drop pos).take len.toNat

/-- Model of `GoldfishDecoder::decodePacket`; the length CRC and the trailing checksum
are not looked at, `parsePacket` does nothing and its result is dropped. -/
def decodePacket (s : GoldfishDecoder) (data : QByteArray) : Decoded GoldfishDecoder :=
  let s0 : GoldfishDecoder := { s with m_lastPacket := { s.m_lastPacket with valid := false } }
  match findNextPacket data 0 with
  | none => ⟨false, data.length, s0⟩
  | some packetStart =>
    if packetStart > 0 then ⟨false, packetStart, s0⟩
    else if data.length < GOLDFISH_HEADER_LEN then ⟨false, 0, s0⟩
    else
      let length := (byteAt data 2 <<< 4) ||| (byteAt data 3 >>> 4)
      let totalLen := GOLDFISH_HEADER_LEN + length + GOLDFISH_CHECKSUM_LEN
      if data.length < totalLen then ⟨false, 0, s0⟩
      else
        let msgId := (byteAt data 4 <<< 8) ||| byteAt data 5
        ⟨true, totalLen,
          { m_lastPacket :=
              { valid := true
                msgId := msgId
                length := length
                payload := mid data (GOLDFISH_HEADER_LEN + 2) ((length : Int) - 2) }
            m_totalPackets := (s0.m_totalPackets + 1) % 2 ^ 32
            m_packetStats := bumpStat s0.m_packetStats msgId }⟩

end Goldfish

namespace Rtcm3

def RTCM3_PREAMBLE : Nat := 0xD3
def RTCM3_MAX_MSG_LEN : Nat := 1023
def RTCM3_HEADER_LEN : Nat := 3
def RTCM3_CRC_LEN : Nat := 3
def CRC24Q_POLY : Nat := 0x1864CFB

/-- One turn of the inner loop of `calculateCrc24q` on the `uint32_t` register:
`crc <<= 1; if (crc & 0x1000000) crc ^= CRC24Q_POLY;`. -/
def crcShift (crc : Nat) : Nat :=
  let crc1 := (crc <<< 1) % 2 ^ 32
  if crc1 &&& 0x1000000 ≠ 0 then crc1 ^^^ CRC24Q_POLY else crc1

/-- One turn of the outer loop: the byte is folded into bits 16..23, then the
register is shifted eight times. -/
def crcByte (crc : Nat) (b : Byte) : Nat :=
  crcShift^[8] (crc ^^^ (b.val <<< 16))

/-- Model of `Rtcm3Decoder::calculateCrc24q`. -/
def calculateCrc24q (data : QByteArray) : Nat :=
  data.foldl crcByte 0 &&& 0xFFFFFF

/-- Model of `Rtcm3Decoder::getbitu`: `len` bits from bit `pos` on, most significant
first, gathered in a `uint32_t`. -/
def getbitu (buff : QByteArray) (pos len : Nat) : Nat :=
  (List.range len).foldl
    (fun bits k =>
      ((bits <<< 1) + ((byteAt buff ((pos + k) / 8) >>> (7 - (pos + k) % 8)) &&& 1)) % 2 ^ 32)
    0

/-- A left shift of a `uint32_t`. C++ leaves a shift by 32 or more undefined;
`ub x n` is whatever the machine produces for it. -/
def shl32 (ub : Nat → Nat → Nat) (x n : Nat) : Nat :=
  if n < 32 then (x <<< n) % 2 ^ 32 else ub x n % 2 ^ 32

/-- The out-of-range shift of x86-64 and AArch64, which keep the low five
bits of the count. -/
def maskedShl (x n : Nat) : Nat := (x <<< (n % 32)) % 2 ^ 32

/-- Model of `Rtcm3Decoder::getbits`: `getbitu`, sign extended inside the `uint32_t`,
returned as `int32_t`. -/
def getbits (ub : Nat → Nat → Nat) (buff : QByteArray) (pos len : Nat) : Int :=
  let bits := getbitu buff pos len
  if len > 0 ∧ bits &&& shl32 ub 1 (len - 1) ≠ 0 then
    toInt32 (bits ||| shl32 ub 0xFFFFFFFF len)
  else toInt32 bits

/-- The 10-bit length field `(data[i + 1] & 0x03) << 8 | data[i + 2]`. -/
def lenAt (data : QByteArray) (i : Nat) : Nat :=
  ((byteAt data (i + 1) &&& 0x03) <<< 8) ||| byteAt data (i + 2)

/-- The test made at index `i` by `findNextFrame`. -/
def frameAt (data : QByteArray) (i : Nat) : Bool :=
  byteAt data i == RTCM3_PREAMBLE && decide (i + RTCM3_HEADER_LEN ≤ data.length) &&
    decide (lenAt data i ≤ RTCM3_MAX_MSG_LEN)

/-- Model of `Rtcm3Decoder::findNextFrame`: the loop runs over every index below
`data.length()`. -/
def findNextFrame (data : QByteArray) (startPos : Nat) : Option Nat :=
  scanFrom (frameAt data) startPos (data.length - startPos)

/-- Model of `Rtcm3Decoder::validateCrc`. -/
def validateCrc (frame : QByteArray) : Bool :=
  if frame.length < RTCM3_HEADER_LEN + RTCM3_CRC_LEN then false
  else
    let crcStart := frame.length - RTCM3_CRC_LEN
    let calculatedCrc := calculateCrc24q (frame.take crcStart)
    let messageCrc := (byteAt frame crcStart <<< 16) ||| (byteAt frame (crcStart + 1) <<< 8)
      ||| byteAt frame (crcStart + 2)
    calculatedCrc == messageCrc

/-- Model of `struct Rtcm3MessageInfo`. -/
structure Rtcm3MessageInfo where
  type : Nat
  stationId : Nat
  length : Nat
  valid : Bool

/-- Model of `struct Rtcm3StationInfo`; the `double` members are exact rationals here,
rounding to binary64 is not modelled. -/
structure Rtcm3StationInfo where
  stationId : Nat
  ecefX : ℚ
  ecefY : ℚ
  ecefZ : ℚ
  antennaHeight : ℚ
  hasHeight : Bool

/-- The member fields of `class Rtcm3Decoder`. -/
structure Rtcm3Decoder where
  m_lastMessage : Rtcm3MessageInfo
  m_stationInfo : Rtcm3StationInfo
  m_messageStats : Nat → Nat
  m_totalMessages : Nat

/-- Model of `Rtcm3Decoder::parseStationInfo`; the three coordinates sit at bit
positions 40, 80 and 120 and the antenna height at 158. -/
def parseStationInfo (ub : Nat → Nat → Nat) (s : Rtcm3Decoder) (data : QByteArray)
    (type : Nat) : Bool × Rtcm3Decoder :=
  if data.length < 20 then (false, s)
  else
    let bitpos := 24 + 6 + 6 + 1 + 1 + 1 + 1
    let ecef_x : Int := getbits ub data bitpos 38
    let bitpos := bitpos + 38 + 1 + 1
    let ecef_y : Int := getbits ub data bitpos 38
    let bitpos := bitpos + 38 + 2
    let ecef_z : Int := getbits ub data bitpos 38
    let bitpos := bitpos + 38
    let info : Rtcm3StationInfo :=
      { s.m_stationInfo with
        ecefX := (ecef_x : ℚ) * 0.0001
        ecefY := (ecef_y : ℚ) * 0.0001
        ecefZ := (ecef_z : ℚ) * 0.0001
        stationId := s.m_lastMessage.stationId
        hasHeight := false }
    if type = 1006 ∧ bitpos + 16 ≤ data.length * 8 then
      let height : Int := toInt32 (getbitu data bitpos 16)
      (true, { s with m_stationInfo :=
        { info with antennaHeight := (height : ℚ) * 0.0001, hasHeight := true } })
    else (true, { s with m_stationInfo := info })

/-- Model of `Rtcm3Decoder::parseTextMessage`: the text is only logged, so nothing but
the length test reaches the decoder object. -/
def parseTextMessage (s : Rtcm3Decoder) (data : QByteArray) : Bool × Rtcm3Decoder :=
  if data.length < 4 then (false, s) else (true, s)

/-- Model of `Rtcm3Decoder::parseMessage`; every type other than 1005, 1006 and 1029
ends in `return true`. -/
def parseMessage (ub : Nat → Nat → Nat) (s : Rtcm3Decoder) (data : QByteArray) :
    Bool × Rtcm3Decoder :=
  if data.length < 2 then (false, s)
  else
    let s1 : Rtcm3Decoder := { s with m_lastMessage :=
      { s.m_lastMessage with
        type := getbitu data 0 12 % 2 ^ 16
        stationId := getbitu data 12 12 % 2 ^ 16 } }
    if s1.m_lastMessage.type = 1005 ∨ s1.m_lastMessage.type = 1006 then
      parseStationInfo ub s1 data s1.m_lastMessage.type
    else if s1.m_lastMessage.type = 1029 then parseTextMessage s1 data
    else (true, s1)

/-- Model of `Rtcm3Decoder::decodeFrame`. -/
def decodeFrame (ub : Nat → Nat → Nat) (s : Rtcm3Decoder) (data : QByteArray) :
    Decoded Rtcm3Decoder :=
  let s0 : Rtcm3Decoder := { s with m_lastMessage := { s.m_lastMessage with valid := false } }
  match findNextFrame data 0 with
  | none => ⟨false, data.length, s0⟩
  | some frameStart =>
    if frameStart > 0 then ⟨false, frameStart, s0⟩
    else if data.length < RTCM3_HEADER_LEN then ⟨false, 0, s0⟩
    else
      let msgLen := ((byteAt data 1 &&& 0x03) <<< 8) ||| byteAt data 2
      let frameLen := RTCM3_HEADER_LEN + msgLen + RTCM3_CRC_LEN
      if data.length < frameLen then ⟨false, 0, s0⟩
      else
        let frame := data.take frameLen
        if !validateCrc frame then ⟨false, frameLen, s0⟩
        else
          let msgData := (frame.drop RTCM3_HEADER_LEN).take msgLen
          let r := parseMessage ub s0 msgData
          if r.1 then
            ⟨true, frameLen,
              { r.2 with
                m_lastMessage := { r.2.m_lastMessage with valid := true, length := msgLen }
                m_totalMessages := (r.2.m_totalMessages + 1) % 2 ^ 32
                m_messageStats := bumpStat r.2.m_messageStats r.2.m_lastMessage.type }⟩
          else ⟨false, frameLen, r.2⟩

end Rtcm3

/-! ## Polynomials over GF(2), for the statement of the CRC

A polynomial over GF(2) is written as the natural number whose bit `i` is the
coefficient of `x ^ i`; adding two polynomials is `^^^`, multiplying by `x` is
doubling. -/

/-- Product of two polynomials over GF(2): carry-less multiplication,
`q = q0 + x * q1` giving `q * p = q0 * p + x * (q1 * p)`. -/
def gf2Mul (q p : Nat) : Nat :=
  if h : q = 0 then 0
  else (if q % 2 = 1 then p else 0) ^^^ (2 * gf2Mul (q / 2) p)
termination_by q
decreasing_by omega

/-- The bytes of a message as one polynomial `data(x)` over GF(2): the bits of
the byte string, first byte first and most significant bit first, are the
coefficients from the highest power down. As a number this is the big-endian
value of the byte string. -/
def msgPoly (data : QByteArray) : Nat := data.foldl (fun acc b => acc * 256 + b.val) 0

/-! ## Frame shapes and fresh decoders used in the statements -/

/-- The buffer starts, at offset 0, with a complete frame of the UBX family:
the two sync bytes, a header declaring `L = data[4] + 256 * data[5]` payload
bytes, at least `6 + L + 2` bytes buffered, and the two bytes behind the
payload equal to the Fletcher-8 pair over class byte .. end of payload. -/
def UbxFamilyFrameAtStart (sync1 sync2 : Nat) (data : QByteArray) : Prop :=
  byteAt data 0 = sync1 ∧ byteAt data 1 = sync2 ∧
    6 + (byteAt data 4 + 256 * byteAt data 5) + 2 ≤ data.length ∧
    calculateChecksum ((data.drop 2).take (4 + (byteAt data 4 + 256 * byteAt data 5))) =
      (byteAt data (6 + (byteAt data 4 + 256 * byteAt data 5)),
       byteAt data (7 + (byteAt data 4 + 256 * byteAt data 5)))

/-- The buffer starts, at offset 0, with a complete RTCM3 frame: the preamble,
a header declaring `L = (data[1] % 4) * 256 + data[2]` payload bytes, at least
`3 + L + 3` bytes buffered, and the three bytes behind the payload, read
big-endian, equal to the CRC-24Q of the `3 + L` bytes before them. -/
def Rtcm3FrameAtStart (data : QByteArray) : Prop :=
  byteAt data 0 = 0xD3 ∧
    3 + ((byteAt data 1 % 4) * 256 + byteAt data 2) + 3 ≤ data.length ∧
    Rtcm3.calculateCrc24q (data.take (3 + ((byteAt data 1 % 4) * 256 + byteAt data 2))) =
      byteAt data (3 + ((byteAt data 1 % 4) * 256 + byteAt data 2)) * 65536 +
      byteAt data (4 + ((byteAt data 1 % 4) * 256 + byteAt data 2)) * 256 +
      byteAt data (5 + ((byteAt data 1 % 4) * 256 + byteAt data 2))

/-- The UBX frame `B5 62 cls id lenLo lenHi payload ckA ckB`. -/
def ubxFrame (cls id lenLo lenHi : Byte) (payload : QByteArray) (ckA ckB : Byte) : QByteArray :=
  [0xB5, 0x62, cls, id, lenLo, lenHi] ++ payload ++ [ckA, ckB]

/-- A `UbloxDecoder` as its constructor leaves it; `m_lastNavPvt` is not
initialised by the constructor and is zero here. -/
def ubloxInit : Ublox.UbloxDecoder :=
  { m_lastPacket := { msgClass := 0, msgId := 0, length := 0, valid := false, payload := [] }
    m_lastNavPvt := ⟨0, 0, 0, 0, 0, 0, 0, 0, 0, 0, 0, 0, 0, 0, 0, 0⟩
    m_packetStats := fun _ => 0
    m_totalPackets := 0 }

/-- The unsigned number written by the `len` bits of `buff` from bit `pos` on,
most significant bit first, whatever its width. -/
def bitField (buff : QByteArray) (pos len : Nat) : Nat :=
  (List.range len).foldl
    (fun acc k => 2 * acc + (byteAt buff ((pos + k) / 8) / 2 ^ (7 - (pos + k) % 8)) % 2) 0

/-- The same `len` bits read as a two's-complement signed integer. -/
def signedField (buff : QByteArray) (pos len : Nat) : Int :=
  if bitField buff pos len < 2 ^ (len - 1) then (bitField buff pos len : Int)
  else (bitField buff pos len : Int) - 2 ^ len

/-- A 20-byte payload of message type 1005, station id 0, whose ECEF X field
(bits 40..77) holds `2 ^ 31`, that is X = 214748.3648 m; Y and Z are 0. -/
def stationPayload : QByteArray :=
  [0x3E, 0xD0, 0x00, 0x00, 0x00, 0x02, 0x00, 0x00, 0x00, 0x00,
   0x00, 0x00, 0x00, 0x00, 0x00, 0x00, 0x00, 0x00, 0x00, 0x00]

/-! ## NMEA sentence parser (`src/core/nmeaparser.cpp`) -/

namespace Nmea

/-- The contents of a `QString`, one `Char` per `QChar`. -/
abbrev QString := List Char

/-- Model of `enum NmeaParseError`. -/
inductive NmeaParseError where
  | NMEA_PARSE_OK
  | NMEA_PARSE_INVALID_FORMAT
  | NMEA_PARSE_CHECKSUM_ERROR
  | NMEA_PARSE_TOO_FEW_FIELDS
  | NMEA_PARSE_UNSUPPORTED
  deriving DecidableEq, Repr

open NmeaParseError

/-- Model of `GnssPosition` of `gnsstype.h`; the `double` members are rationals.
Latitude and longitude carry the binary64 roundings of `toDegrees`; the other
members hold the exact value of the arithmetic that computes them. -/
structure GnssPosition where
  utc : Int
  status : QString
  latitude : ℚ
  longitude : ℚ
  altitude : ℚ
  undulation : ℚ
  speed : ℚ
  course : ℚ
  magnetic : ℚ
  quality : Int
  mode : QString
  dop : ℚ
  hdop : ℚ
  vdop : ℚ
  pdop : ℚ
  age : Int
  satellites : Int
  station : QString
  deriving DecidableEq

/-- The value-initialised `GnssPosition()`: numbers zero, strings empty. -/
def GnssPosition.default : GnssPosition :=
  { utc := 0, status := [], latitude := 0, longitude := 0, altitude := 0, undulation := 0,
    speed := 0, course := 0, magnetic := 0, quality := 0, mode := [], dop := 0, hdop := 0,
    vdop := 0, pdop := 0, age := 0, satellites := 0, station := [] }

/-- Model of `GnssSatellite` of `gnsstype.h`. -/
structure GnssSatellite where
  prn : Int
  elevation : Int
  azimuth : Int
  snr : Int
  system : Int
  signal : Char
  used : Bool
  deriving DecidableEq

/-- Model of `GnssInfo` of `gnsstype.h`: the snapshot handed to `newNmeaParseDone`. -/
structure GnssInfo where
  position : GnssPosition
  satellites : List GnssSatellite
  deriving DecidableEq

/-- The member fields of `class NmeaParser` that the handlers touch, and
`emitted`, the arguments of every `emit newNmeaParseDone(..)` so far, oldest
first. -/
structure NmeaParser where
  m_gnssPosition : GnssPosition
  m_gnssSatellites : List GnssSatellite
  m_gnssInfo : GnssInfo
  m_haveGprmc : Bool
  emitted : List GnssInfo
  deriving DecidableEq

/-! ### Qt text conversions

`QString::split`, `toInt` and `toDouble` belong to Qt; they are written out
here as far as the parser depends on them. -/

/-- Model of `QString::split(sep)` with the default `Qt::KeepEmptyParts`: one part more
than there are separators. -/
def split (sep : Char) : QString → List QString
  | [] => [[]]
  | c :: cs =>
    if c = sep then [] :: split sep cs
    else
      match split sep cs with
      | [] => [[c]]
      | part :: parts => (c :: part) :: parts

/-- Model of `QChar::isSpace`. -/
def isSpace (c : Char) : Bool :=
  let n := c.toNat
  (9 ≤ n && n ≤ 13) || n == 0x20 || n == 0x85 || n == 0xA0 || n == 0x1680 ||
    (0x2000 ≤ n && n ≤ 0x200A) || n == 0x2028 || n == 0x2029 || n == 0x202F ||
    n == 0x205F || n == 0x3000

/-- Model of `QString::trimmed`. -/
def trimmed (s : QString) : QString :=
  ((s.dropWhile isSpace).reverse.dropWhile isSpace).reverse

/-- The value of a digit in the given base, if it is one. -/
def digitValue (base : Nat) (c : Char) : Option Nat :=
  let n := c.toNat
  let v :=
    if 48 ≤ n ∧ n ≤ 57 then n - 48
    else if 97 ≤ n ∧ n ≤ 122 then n - 97 + 10
    else if 65 ≤ n ∧ n ≤ 90 then n - 65 + 10
    else base
  if v < base then some v else none

/-- A non-empty run of digits read in the given base. -/
def digitsValue (base : Nat) (s : QString) : Option Nat :=
  if s = [] then none
  else s.foldl (fun acc c => do
    let a ← acc
    let d ← digitValue base c
    pure (a * base + d)) (some 0)

/-- Sign and magnitude of a numeral: an optional `+` or `-`, then the rest. -/
def splitSign (s : QString) : Bool × QString :=
  match s with
  | '-' :: rest => (true, rest)
  | '+' :: rest => (false, rest)
  | _ => (false, s)

/-- The prefix `0x` or `0X` that base 16 allows in front of the digits. -/
def dropBasePrefix (base : Nat) (body : QString) : QString :=
  match base, body with
  | 16, '0' :: 'x' :: rest => rest
  | 16, '0' :: 'X' :: rest => rest
  | _, _ => body

/-- Model of `QString::toInt(&ok, base)` for base 10 and 16: surrounding white space
is skipped, a sign and (base 16) a `0x` prefix are allowed, the digits must
fill the rest, and the value must fit an `int`; `none` is `ok == false`, for
which `toInt` returns 0. -/
def toIntOk (base : Nat) (s : QString) : Option Int :=
  let (neg, body) := splitSign (trimmed s)
  match digitsValue base (dropBasePrefix base body) with
  | none => none
  | some m =>
    let v : Int := if neg then -(m : Int) else (m : Int)
    if -(2 : Int) ^ 31 ≤ v ∧ v < (2 : Int) ^ 31 then some v else none

/-- Model of `QString::toInt()` in base 10. -/
def toInt (s : QString) : Int := (toIntOk 10 s).getD 0

/-- Model of `QString::toDouble()` as an exact rational: white space skipped, optional
sign, decimal digits with an optional fraction, optional exponent; 0 when the
text is no such numeral. The texts `inf` and `nan` have no rational value and
also give 0 here. -/
def toDouble (s : QString) : ℚ :=
  let (neg, body) := splitSign (trimmed s)
  let mantExp := split 'e' (body.map Char.toLower)
  let mant := split '.' (mantExp.headD [])
  let intPart := mant.headD []
  let fracPart := (mant.tail).headD []
  let wellFormed := mantExp.length ≤ 2 ∧ mant.length ≤ 2 ∧ (intPart ≠ [] ∨ fracPart ≠ [])
  let ip := if intPart = [] then some 0 else digitsValue 10 intPart
  let fp := if fracPart = [] then some 0 else digitsValue 10 fracPart
  let ex : Option Int :=
    if mantExp.length = 2 then
      let (eneg, ebody) := splitSign ((mantExp.tail).headD [])
      (digitsValue 10 ebody).map (fun e => if eneg then -(e : Int) else (e : Int))
    else some 0
  match decide wellFormed, ip, fp, ex with
  | true, some i, some f, some e =>
    let m : ℚ := (i : ℚ) + (f : ℚ) / (10 : ℚ) ^ fracPart.length
    let v : ℚ := m * (10 : ℚ) ^ e
    if neg then -v else v
  | _, _, _, _ => 0

/-- Position of the leading binary digit of `n` (0 for `n < 2`), by halving at most
`fuel` times; `ilog2 n n` is the floor of the binary logarithm of `n`. -/
def ilog2 : Nat → Nat → Nat
  | 0, _ => 0
  | fuel + 1, n => if n < 2 then 0 else ilog2 fuel (n / 2) + 1

/-- The power `2 ^ e` for an integer exponent, as a rational. -/
def pow2 (e : Int) : ℚ := if 0 ≤ e then (2 : ℚ) ^ e.toNat else 1 / (2 : ℚ) ^ (-e).toNat

/-- The binary exponent of a rational `q ≠ 0`: the `e` with `2 ^ e ≤ |q| < 2 ^ (e + 1)`. -/
def binaryExponent (q : ℚ) : Int :=
  let e0 : Int := (ilog2 q.num.natAbs q.num.natAbs : Int) - (ilog2 q.den q.den : Int)
  if pow2 e0 ≤ |q| then e0 else e0 - 1

/-- Rounding to the nearest integer, ties to the even one. -/
def roundHalfEven (x : ℚ) : Int :=
  let n := ⌊x⌋
  let f := x - n
  if f < 1 / 2 then n else if 1 / 2 < f then n + 1 else if n % 2 = 0 then n else n + 1

/-- The IEEE 754 binary64 value nearest to `q` (ties to even): a significand of 53
bits, subnormal below `2 ^ (-1022)`. This is the rounding of every `double`
operation of `toDegrees`. Values beyond the largest finite `double`, which a
`double` rounds to infinity, keep their rounded finite value here. -/
def binary64 (q : ℚ) : ℚ :=
  if q = 0 then 0
  else
    let e := max (binaryExponent q) (-1022)
    (roundHalfEven (q / pow2 (e - 52)) : ℚ) * pow2 (e - 52)

/-- The cast `(int)` of a `double` to the 32-bit `int`: truncation towards zero
while the truncated value fits. Outside that range C++ leaves the cast
undefined; the model takes `INT_MIN`, which is what the conversion
instruction of x86-64 (`cvttsd2si`) delivers. -/
def truncToInt (q : ℚ) : Int :=
  if -(2 : ℚ) ^ 31 - 1 < q ∧ q < (2 : ℚ) ^ 31 then (if 0 ≤ q then ⌊q⌋ else ⌈q⌉)
  else -(2 : Int) ^ 31

/-- Model of `QChar::toLatin1()` as it enters `sum ^ c.toLatin1()`: a `char`, widened
to 32 bits with its sign (`char` is signed on x86-64); code points above
`0xFF` give 0. -/
def toLatin1 (c : Char) : Nat :=
  let n := c.toNat
  if n > 0xFF then 0 else if n ≥ 0x80 then 0xFFFFFF00 + n else n

/-- Model of `NmeaParser::checkSum`. `none` means that `QString::at` was called with
an index outside the sentence. -/
def checkSum (nmeaSentence : QString) (ignore : Bool) : Option Bool := do
  let c0 ← nmeaSentence[0]?
  if c0 = '$' then
    let idx : Int := (nmeaSentence.length : Int) - 3
    if idx < 0 then none
    else
      let c ← nmeaSentence[idx.toNat]?
      if c = '*' then
        if ignore then pure true
        else
          let hex := (nmeaSentence.drop (nmeaSentence.length - 2)).take 2
          let checksum : Nat := (((toIntOk 16 hex).getD 0) % 2 ^ 32).toNat
          let sum : Nat :=
            ((nmeaSentence.drop 1).take (nmeaSentence.length - 3 - 1)).foldl
              (fun sum c => sum ^^^ toLatin1 c) 0
          pure (sum == checksum)
      else pure false
  else pure false

/-- Model of `NmeaParser::toDegrees`. Every `double` operation of the source is
rounded to binary64: the conversion of the text, the division by 100, the
product `deg * 100`, the difference, the division by 60 and the sum; the
conversion `(double)deg` of an `int` and the negation are exact. The product
of an `int` and 100 is below `2 ^ 38` and so always exact, which makes the
result the same whether or not the compiler fuses it with the subtraction. -/
def toDegrees (nmea dir : QString) : ℚ :=
  let decimal : ℚ :=
    if nmea.length > 5 then
      let d := binary64 (toDouble nmea)
      let deg : Int := truncToInt (binary64 (d / 100))
      binary64 ((deg : ℚ) + binary64 (binary64 (d - binary64 ((deg : ℚ) * 100)) / 60))
    else 0
  if dir = ['W'] ∨ dir = ['S'] then -decimal else decimal

/-- What a handler or `parseNmeaSentence` returns: the error code and the
parser object after the call. `none` means that the call read a character of
a string or an element of the field list outside its bounds, for which Qt
gives no defined result. -/
abbrev Outcome := Option (NmeaParseError × NmeaParser)

/-- The part of `parseGprmc` that applies the fields of the sentence to
`m_gnssPosition` (time stamp, status, latitude and longitude, speed, course,
magnetic variation, mode). `dateTimeMs t` is the Qt call chain
`QDateTime::fromString(t, "ddMMyy hhmmss.z").addYears(100)`, read as UTC and
turned into milliseconds since the epoch; it is `none` for an invalid date. -/
def rmcApplyFields (dateTimeMs : QString → Option Int) (pos : GnssPosition)
    (data : List QString) : Option GnssPosition := do
  let d0 ← data[0]?
  let d8 ← data[8]?
  let pos : GnssPosition :=
    if d0 ≠ [] ∧ d8 ≠ [] then
      match dateTimeMs (d8 ++ [' '] ++ d0) with
      | some ms => { pos with utc := ms }
      | none => pos
    else pos
  let d1 ← data[1]?
  let pos : GnssPosition := if d1 ≠ [] then { pos with status := d1 } else pos
  let d2 ← data[2]?
  let d4 ← data[4]?
  let d3 ← data[3]?
  let d5 ← data[5]?
  let pos : GnssPosition :=
    if d2 ≠ [] ∧ d4 ≠ [] then
      { pos with latitude := toDegrees d2 d3, longitude := toDegrees d4 d5 }
    else pos
  let d6 ← data[6]?
  let pos : GnssPosition :=
    if data.length > 6 ∧ d6 ≠ [] then { pos with speed := toDouble d6 * 1.852 } else pos
  let d7 ← data[7]?
  let pos : GnssPosition :=
    if data.length > 7 ∧ d7 ≠ [] then { pos with course := toDouble d7 } else pos
  let pos : GnssPosition :=
    match data[9]? with
    | some d9 =>
      if d9 ≠ [] then
        let magVar := toDouble d9
        let magVar :=
          match data[10]? with
          | some d10 => if d10 ≠ [] ∧ d10 = ['W'] then -magVar else magVar
          | none => magVar
        { pos with magnetic := magVar }
      else pos
    | none => pos
  let pos : GnssPosition :=
    match data[11]? with
    | some d11 => if d11 ≠ [] then { pos with mode := d11 } else { pos with mode := ['N'] }
    | none => { pos with mode := ['N'] }
  pure pos

/-- Model of `NmeaParser::parseGprmc`: the field count test, the flag, the fields, then
the copy into `m_gnssInfo`, the `emit` and the reset of the accumulated
position and satellite list. -/
def parseGprmc (dateTimeMs : QString → Option Int) (p : NmeaParser) (data : List QString) :
    Outcome := do
  if data.length < 9 then pure (NMEA_PARSE_TOO_FEW_FIELDS, p)
  else
    let p : NmeaParser := { p with m_haveGprmc := true }
    let pos ← rmcApplyFields dateTimeMs p.m_gnssPosition data
    let p : NmeaParser := { p with m_gnssPosition := pos }
    let p : NmeaParser :=
      { p with m_gnssInfo := { position := GnssPosition.default, satellites := [] } }
    let p : NmeaParser :=
      if p.m_haveGprmc then
        let info : GnssInfo := { position := p.m_gnssPosition, satellites := p.m_gnssSatellites }
        { p with m_gnssInfo := info, emitted := p.emitted ++ [info] }
      else p
    pure (NMEA_PARSE_OK,
      { p with m_gnssPosition := GnssPosition.default, m_gnssSatellites := [] })

/-- The guarded update `if (data->size() > i && !data->at(i).isEmpty())` that
`parseGpgga` and `parseGsa` repeat for their optional fields: `f` is the
assignment made from field `i`. -/
def whenField (data : List QString) (i : Nat) (f : GnssPosition → QString → GnssPosition)
    (pos : GnssPosition) : GnssPosition :=
  match data[i]? with
  | some d => if d ≠ [] then f pos d else pos
  | none => pos

/-- Model of `NmeaParser::parseGpgga`. -/
def parseGpgga (p : NmeaParser) (data : List QString) : Outcome := do
  if data.length < 6 then pure (NMEA_PARSE_TOO_FEW_FIELDS, p)
  else
    let pos := p.m_gnssPosition
    let d1 ← data[1]?
    let d2 ← data[2]?
    let d3 ← data[3]?
    let d4 ← data[4]?
    let pos : GnssPosition :=
      if !p.m_haveGprmc then
        if d1 ≠ [] ∧ d3 ≠ [] then
          { pos with latitude := toDegrees d1 d2, longitude := toDegrees d3 d4 }
        else pos
      else pos
    let d5 ← data[5]?
    let pos : GnssPosition := if d5 ≠ [] then { pos with quality := toInt d5 } else pos
    let pos := whenField data 6 (fun q d => { q with satellites := toInt d }) pos
    let pos := whenField data 7 (fun q d => { q with dop := toDouble d }) pos
    let pos := whenField data 8 (fun q d => { q with altitude := toDouble d }) pos
    let pos := whenField data 10 (fun q d => { q with undulation := toDouble d }) pos
    let pos := whenField data 12 (fun q d => { q with age := toInt d }) pos
    let pos := whenField data 13 (fun q d => { q with station := d }) pos
    pure (NMEA_PARSE_OK, { p with m_gnssPosition := pos })

/-- The body of the loop of `parseGsv` at index `i`. -/
def gsvStep (data : List QString) (system : Int) (signal : Char) (hasSignalField : Bool)
    (sats : List GnssSatellite) (i : Nat) : Option (List GnssSatellite) := do
  let prn ← data[i]?
  if prn ≠ [] then
    let snr ← data[i + 3]?
    if snr ≠ [] then
      let elevation ← data[i + 1]?
      let azimuth ← data[i + 2]?
      let sig ←
        if hasSignalField then do
          let last ← data[data.length - 1]?
          last[0]?
        else pure signal
      pure (sats ++ [{ prn := toInt prn, elevation := toInt elevation, azimuth := toInt azimuth,
                       snr := toInt snr, system := system, signal := sig, used := false }])
    else pure sats
  else pure sats

/-- Model of `NmeaParser::parseGsv`: the loop `for (i = 3; i < loopEnd; i += 4)` visits,
in increasing order, the indices `i` below `loopEnd` with `i % 4 == 3`. -/
def parseGsv (p : NmeaParser) (data : List QString) (system : Int) (signal : Char) :
    Outcome := do
  let size : Int := data.length
  let hasSignalField : Bool := size % 2 == 0
  let loopEnd : Int := if hasSignalField then size - 2 else size - 1
  let indices := (List.range data.length).filter
    (fun (i : Nat) => i % 4 == 3 && decide ((i : Int) < loopEnd))
  let sats ← indices.foldlM (gsvStep data system signal hasSignalField) p.m_gnssSatellites
  pure (NMEA_PARSE_OK, { p with m_gnssSatellites := sats })

def parseGpgsv (p : NmeaParser) (data : List QString) : Outcome := parseGsv p data 1 '1'
def parseGlgsv (p : NmeaParser) (data : List QString) : Outcome := parseGsv p data 2 '1'
def parseGagsv (p : NmeaParser) (data : List QString) : Outcome := parseGsv p data 3 '7'
def parseBdgsv (p : NmeaParser) (data : List QString) : Outcome := parseGsv p data 4 '1'
def parseQzgsv (p : NmeaParser) (data : List QString) : Outcome := parseGsv p data 5 '1'
def parseNcgsv (p : NmeaParser) (data : List QString) : Outcome := parseGsv p data 6 '5'

/-- The inner loop of `parseGsa`: the first satellite in list order that
matches gets `used = true`, then `break`. -/
def markUsed (prn system : Int) (hasSystemIdField : Bool) (signalType : Char) :
    List GnssSatellite → List GnssSatellite
  | [] => []
  | sat :: rest =>
    if sat.prn = prn ∧ sat.system = system ∧ (hasSystemIdField = false ∨ sat.signal = signalType)
    then { sat with used := true } :: rest
    else sat :: markUsed prn system hasSystemIdField signalType rest

/-- The body of the loop `for (i = 2; i < 14; i++)` of `parseGsa`. -/
def gsaStep (data : List QString) (system : Int) (hasSystemIdField : Bool) (signalType : Char)
    (sats : List GnssSatellite) (i : Nat) : List GnssSatellite :=
  match data[i]? with
  | some d =>
    if d ≠ [] ∧ d ≠ ['0'] then
      let prn := toInt d
      if prn > 0 then markUsed prn system hasSystemIdField signalType sats else sats
    else sats
  | none => sats

/-- Model of `NmeaParser::parseGsa`. The local `fixType` is computed and never used. -/
def parseGsa (p : NmeaParser) (data : List QString) (defaultSystem : Int) : Outcome := do
  if data.length < 17 then pure (NMEA_PARSE_TOO_FEW_FIELDS, p)
  else
    let hasSystemIdField : Bool := data.length % 2 == 0
    let d17 := (data[17]?).getD []
    let system : Int :=
      if hasSystemIdField ∧ data.length > 17 then
        match toIntOk 10 d17 with
        | some systemId => systemId
        | none => defaultSystem
      else defaultSystem
    let signalType : Char :=
      if hasSystemIdField ∧ data.length > 17 then
        match data[18]? with
        | some d18 => d18.headD '1'
        | none => '1'
      else '1'
    let _ ← data[1]?
    let sats := (List.range' 2 12).foldl (gsaStep data system hasSystemIdField signalType)
      p.m_gnssSatellites
    let pos := p.m_gnssPosition
    let pos := whenField data 14 (fun q d => { q with pdop := toDouble d }) pos
    let pos := whenField data 15 (fun q d => { q with hdop := toDouble d }) pos
    let pos := whenField data 16 (fun q d => { q with vdop := toDouble d }) pos
    pure (NMEA_PARSE_OK, { p with m_gnssPosition := pos, m_gnssSatellites := sats })

def parseGpgsa (p : NmeaParser) (data : List QString) : Outcome := parseGsa p data 1
def parseGlgsa (p : NmeaParser) (data : List QString) : Outcome := parseGsa p data 2
def parseGagsa (p : NmeaParser) (data : List QString) : Outcome := parseGsa p data 3
def parseBdgsa (p : NmeaParser) (data : List QString) : Outcome := parseGsa p data 4
def parseQzgsa (p : NmeaParser) (data : List QString) : Outcome := parseGsa p data 5
def parseNcgsa (p : NmeaParser) (data : List QString) : Outcome := parseGsa p data 6

/-- The PRN search of `parseGngsa`: `prn` keeps the last value parsed, and the
loop stops at the first positive one. The pair is `(prn, stopped)`. -/
def gngsaStep (data : List QString) (st : Int × Bool) (i : Nat) : Int × Bool :=
  if st.2 then st
  else
    match data[i]? with
    | some d =>
      if d ≠ [] ∧ d ≠ ['0'] then
        let prn := toInt d
        (prn, decide (prn > 0))
      else st
    | none => st

/-- Model of `NmeaParser::parseGngsa`. -/
def parseGngsa (p : NmeaParser) (data : List QString) : Outcome :=
  if data.length < 18 then
    let prn := ((List.range' 2 12).foldl (gngsaStep data) (0, false)).1
    if prn ≥ 1 ∧ prn ≤ 32 then parseGsa p data 1
    else if prn ≥ 33 ∧ prn ≤ 64 then parseGsa p data 2
    else if prn ≥ 65 ∧ prn ≤ 96 then parseGsa p data 3
    else if prn ≥ 97 ∧ prn ≤ 128 then parseGsa p data 4
    else if prn ≥ 129 ∧ prn ≤ 160 then parseGsa p data 5
    else if prn ≥ 161 ∧ prn ≤ 192 then parseGsa p data 6
    else parseGsa p data 1
  else parseGsa p data 0

/-- The table `m_nmeaHashMap` as the constructor fills it. -/
def m_nmeaHashMap (dateTimeMs : QString → Option Int) :
    List (String × (NmeaParser → List QString → Outcome)) :=
  [ ("$GPGGA", parseGpgga), ("$GNGGA", parseGpgga),
    ("$GPRMC", parseGprmc dateTimeMs), ("$GNRMC", parseGprmc dateTimeMs),
    ("$INRMC", parseGprmc dateTimeMs),
    ("$GPGSV", parseGpgsv), ("$GLGSV", parseGlgsv), ("$QZGSV", parseQzgsv),
    ("$GQGSV", parseQzgsv), ("$BDGSV", parseBdgsv), ("$GBGSV", parseBdgsv),
    ("$GAGSV", parseGagsv), ("$NCGSV", parseNcgsv), ("$GIGSV", parseNcgsv),
    ("$GPGSA", parseGpgsa), ("$QZGSA", parseQzgsa), ("$BDGSA", parseBdgsa),
    ("$GAGSA", parseGagsa), ("$GNGSA", parseGngsa), ("$NCGSA", parseNcgsa) ]

/-- Model of `NmeaParser::parseNmeaSentence`. -/
def parseNmeaSentence (dateTimeMs : QString → Option Int) (p : NmeaParser)
    (sentence : QString) (ignore : Bool) : Outcome := do
  let parts := split '*' sentence
  if parts.length ≠ 2 then pure (NMEA_PARSE_INVALID_FORMAT, p)
  else
    let sumOk ← checkSum sentence ignore
    if !sumOk then pure (NMEA_PARSE_CHECKSUM_ERROR, p)
    else
      let part0 ← parts[0]?
      let fields := split ',' part0
      if fields.length < 2 then pure (NMEA_PARSE_TOO_FEW_FIELDS, p)
      else
        let c1 ← sentence[1]?
        let type : QString := if c1 = 'P' then [] else fields.headD []
        let fields : List QString := if c1 = 'P' then fields else fields.tail
        match (m_nmeaHashMap dateTimeMs).lookup (String.mk type) with
        | some handler => handler p fields
        | none => pure (NMEA_PARSE_UNSUPPORTED, p)

/-- A parser object right after construction, its `GnssPosition` members
holding `pos` and `info`. -/
def NmeaParser.fresh (pos : GnssPosition) (info : GnssInfo) : NmeaParser :=
  { m_gnssPosition := pos, m_gnssSatellites := [], m_gnssInfo := info, m_haveGprmc := false,
    emitted := [] }

end Nmea

/-! ## Sentences, drivers and sample data used in the NMEA statements -/

/-- The value of a hexadecimal digit: `0`..`9`, `A`..`F`, `a`..`f`. -/
def hexValue (c : Char) : Option Nat :=
  let n := c.toNat
  if 48 ≤ n ∧ n ≤ 57 then some (n - 48)
  else if 65 ≤ n ∧ n ≤ 70 then some (n - 55)
  else if 97 ≤ n ∧ n ≤ 102 then some (n - 87)
  else none

/-- The three tags that the constructor binds to the RMC handler. -/
def isRmcTag (k : String) : Prop := k = "$GPRMC" ∨ k = "$GNRMC" ∨ k = "$INRMC"

/-- The first comma-separated field of the part before `*`, which
`parseNmeaSentence` uses as key of the handler table. -/
def sentenceTag (sentence : Nmea.QString) : String :=
  String.mk ((Nmea.split ',' ((Nmea.split '*' sentence).headD [])).headD [])

/-- The comma-separated fields of the part of a sentence before `*`, the
sentence-type tag first: the list `fields` of `parseNmeaSentence` before the tag
is removed. -/
def sentenceFields (sentence : Nmea.QString) : List Nmea.QString :=
  Nmea.split ',' ((Nmea.split '*' sentence).headD [])

/-- The 20 tags that the constructor of `NmeaParser` puts into `m_nmeaHashMap`. -/
def registeredTags : List String :=
  [ "$GPGGA", "$GNGGA", "$GPRMC", "$GNRMC", "$INRMC", "$GPGSV", "$GLGSV", "$QZGSV", "$GQGSV",
    "$BDGSV", "$GBGSV", "$GAGSV", "$NCGSV", "$GIGSV", "$GPGSA", "$QZGSA", "$BDGSA", "$GAGSA",
    "$GNGSA", "$NCGSA" ]

/-- A caller feeding sentences one after the other to `parseNmeaSentence` of
the same parser object; the result lists the returned codes. -/
def feedAll (dateTimeMs : Nmea.QString → Option Int) (ignore : Bool) :
    Nmea.NmeaParser → List Nmea.QString → Option (List Nmea.NmeaParseError × Nmea.NmeaParser)
  | p, [] => some ([], p)
  | p, s :: rest =>
    match Nmea.parseNmeaSentence dateTimeMs p s ignore with
    | none => none
    | some (r, p1) =>
      match feedAll dateTimeMs ignore p1 rest with
      | none => none
      | some (rs, p2) => some (r :: rs, p2)

/-- A date conversion that rejects every text, for evaluating sentences. -/
def noDate : Nmea.QString → Option Int := fun _ => none

/-- A parser right after construction, its position members zero. -/
def freshParser : Nmea.NmeaParser :=
  Nmea.NmeaParser.fresh Nmea.GnssPosition.default ⟨Nmea.GnssPosition.default, []⟩

/-- The fields of `$GPGGA,123520,4807.100,N,01131.200,E,1,08,0.9,545.4,M,46.9,M,,`
behind the tag. -/
def ggaExample : List Nmea.QString :=
  Nmea.split ',' "123520,4807.100,N,01131.200,E,1,08,0.9,545.4,M,46.9,M,,".toList

/-- The XOR that `checkSum` accumulates over the characters between the first
character and the third from the end. -/
def bodyXor (s : Nmea.QString) : Nat :=
  ((s.drop 1).take (s.length - 3 - 1)).foldl (fun sum c => sum ^^^ Nmea.toLatin1 c) 0

/-- The number that `checkSum` reads from the last two characters:
`mid(size - 2, 2).toInt(&ok, 16)` stored in an `unsigned int`. -/
def trailerValue (s : Nmea.QString) : Nat :=
  (((Nmea.toIntOk 16 ((s.drop (s.length - 2)).take 2)).getD 0) % 2 ^ 32).toNat

/-- The tags whose handler tests a minimum field count (GGA 6, RMC 9, GSA 17). -/
def countedTags : List String :=
  [ "$GPGGA", "$GNGGA", "$GPRMC", "$GNRMC", "$INRMC", "$GPGSA", "$QZGSA", "$BDGSA", "$GAGSA",
    "$GNGSA", "$NCGSA" ]

/-- The tags bound to a GSV handler, which has no field count test. -/
def gsvTags : List String :=
  [ "$GPGSV", "$GLGSV", "$QZGSV", "$GQGSV", "$BDGSV", "$GBGSV", "$GAGSV", "$NCGSV", "$GIGSV" ]

/-- The constellation number that the constructor binds to each single-constellation
GSA tag, through `parseGpgsa` .. `parseNcgsa`. -/
def gsaTagSystem : List (String × Int) :=
  [ ("$GPGSA", 1), ("$GAGSA", 3), ("$BDGSA", 4), ("$QZGSA", 5), ("$NCGSA", 6) ]

/-- A GLONASS GSA sentence with 17 fields behind the tag and its right checksum. -/
def glgsaExample : Nmea.QString := "$GLGSA,A,3,65,66,67,,,,,,,,,,1.5,1.0,1.1*29".toList

/-- The bit positions that `getbitu(buff, pos, len)`, and `getbits` through it,
reads: the loop `for (i = pos; i < pos + len; i++)` takes bit `7 - i % 8` of
`buff[i / 8]`. -/
def Rtcm3.getbituReads (pos len : Nat) : List Nat := List.range' pos len

/-- The bit positions read by `Rtcm3Decoder::parseStationInfo`, call by call. -/
def Rtcm3.parseStationInfoReads (data : QByteArray) (type : Nat) : List Nat :=
  if data.length < 20 then []
  else
    let bitpos := 24 + 6 + 6 + 1 + 1 + 1 + 1
    let ecef_x := Rtcm3.getbituReads bitpos 38
    let bitpos := bitpos + 38 + 1 + 1
    let ecef_y := Rtcm3.getbituReads bitpos 38
    let bitpos := bitpos + 38 + 2
    let ecef_z := Rtcm3.getbituReads bitpos 38
    let bitpos := bitpos + 38
    ecef_x ++ ecef_y ++ ecef_z ++
      (if type = 1006 ∧ bitpos + 16 ≤ data.length * 8 then Rtcm3.getbituReads bitpos 16 else [])

/-- The bit positions read by `Rtcm3Decoder::parseTextMessage`, call by call; `numBytes`
is the `uint8_t` read at bit 76, a byte beyond the end of `data` reading as 0. -/
def Rtcm3.parseTextMessageReads (data : QByteArray) : List Nat :=
  if data.length < 4 then []
  else
    let bitpos := 24
    let refId := Rtcm3.getbituReads bitpos 12
    let bitpos := bitpos + 12 + 16 + 17
    let numChars := Rtcm3.getbituReads bitpos 7
    let bitpos := bitpos + 7
    let numBytes := Rtcm3.getbitu data bitpos 8 % 2 ^ 8
    let numBytesReads := Rtcm3.getbituReads bitpos 8
    let bitpos := bitpos + 8
    refId ++ numChars ++ numBytesReads ++
      (if bitpos + numBytes * 8 ≤ data.length * 8 then Rtcm3.getbituReads bitpos (numBytes * 8)
       else [])

/-- The bit positions of the payload read by `Rtcm3Decoder::parseMessage` and the two
parsers it calls. -/
def Rtcm3.parseMessageReads (data : QByteArray) : List Nat :=
  if data.length < 2 then []
  else
    let type := Rtcm3.getbitu data 0 12 % 2 ^ 16
    Rtcm3.getbituReads 0 12 ++ Rtcm3.getbituReads 12 12 ++
      (if type = 1005 ∨ type = 1006 then Rtcm3.parseStationInfoReads data type
       else if type = 1029 then Rtcm3.parseTextMessageReads data
       else [])

/-- The frame `D3 00 02 | 43 50 | 06 A2 7E`: a 2-byte payload of message type 1077
with its CRC-24Q. -/
def rtcmShortFrame : QByteArray := [0xD3, 0x00, 0x02, 0x43, 0x50, 0x06, 0xA2, 0x7E]

/-- The frame `D3 00 04 | 40 50 00 00 | 1E E5 D8`: a 4-byte payload of message type
1029 (text) with its CRC-24Q. -/
def rtcmTextFrame : QByteArray :=
  [0xD3, 0x00, 0x04, 0x40, 0x50, 0x00, 0x00, 0x1E, 0xE5, 0xD8]

/-- A 50-byte prefix that ends in the six bytes `B5 62 00 00 FF 0F`, a UBX header
declaring 4095 payload bytes. -/
def fakeHeaderPrefix : QByteArray := List.replicate 44 0x00 ++ [0xB5, 0x62, 0x00, 0x00, 0xFF, 0x0F]

/-- The UBX frame ACK-ACK `B5 62 05 01 02 00 06 01 0F 38`. -/
def ackFrame : QByteArray := ubxFrame 0x05 0x01 0x02 0x00 [0x06, 0x01] 0x0F 0x38

/-- The sentence contains exactly one `*`, passes `checkSum` with
`ignoreChecksum = false`, and the part before `*` splits at commas into `tag`
followed by `fields`. -/
def WellFramed (s : Nmea.QString) (tag : String) (fields : List Nmea.QString) : Prop :=
  s.count '*' = 1 ∧ Nmea.checkSum s false = some true ∧ sentenceFields s = tag.data :: fields

/-- The fields of a GSV sentence that reports one satellite: three leading
fields, then PRN, elevation, azimuth and SNR with PRN and SNR not empty, and
possibly a non-empty signal id behind them; the PRN field reads as `prn`. -/
def gsvReportsOnly (data : List Nmea.QString) (prn : Int) : Prop :=
  (data.length = 7 ∨ (data.length = 8 ∧ data[7]? ≠ some [])) ∧
    ∃ d3 d6, data[3]? = some d3 ∧ d3 ≠ [] ∧ Nmea.toInt d3 = prn ∧ data[6]? = some d6 ∧ d6 ≠ []

/-- The twelve PRN slots of a GSA field list, the fields 2..13 that the loop
`for (i = 2; i < 14; i++)` of `parseGsa` visits. -/
def gsaSlots (data : List Nmea.QString) : List Nmea.QString := (data.drop 2).take 12

/-- Index `i` is a candidate start of a UBX frame in `data`: the sync bytes
`B5 62` at `i`, the six header bytes inside the buffer, and the little-endian
length field at `i + 4` at most 4096. -/
def UbxCandidateStart (data : QByteArray) (i : Nat) : Prop :=
  byteAt data i = 0xB5 ∧ byteAt data (i + 1) = 0x62 ∧ i + 6 ≤ data.length ∧
    byteAt data (i + 4) + 256 * byteAt data (i + 5) ≤ 4096

/-- Bit `i` of a buffer, counting from the most significant bit of byte 0. -/
def bitAt (buff : QByteArray) (i : Nat) : Nat := (byteAt buff (i / 8) / 2 ^ (7 - i % 8)) % 2

/-- The unsigned integer whose `len` binary digits, most significant first, are the
bits `pos .. pos + len - 1` of the buffer. -/
def bitsValue (buff : QByteArray) (pos len : Nat) : Nat :=
  ((List.range len).map (fun k => bitAt buff (pos + k) * 2 ^ (len - 1 - k))).sum

/-- The integer value of the first of the PRN slots (fields 2..13) that is not
empty, not `0` and reads as a positive integer; 0 if there is none. -/
def firstPositivePrn (data : List Nmea.QString) : Int :=
  match (gsaSlots data).find? (fun d => decide (d ≠ [] ∧ d ≠ ['0'] ∧ Nmea.toInt d > 0)) with
  | some d => Nmea.toInt d
  | none => 0

/-- The constellation that a PRN stands for in a `$GNGSA` sentence without system id:
1..32 GPS (1), 33..64 GLONASS (2), 65..96 Galileo (3), 97..128 BeiDou (4),
129..160 QZSS (5), 161..192 NavIC (6), anything else GPS (1). -/
def constellationOfPrn (prn : Int) : Int :=
  if 1 ≤ prn ∧ prn ≤ 32 then 1
  else if 33 ≤ prn ∧ prn ≤ 64 then 2
  else if 65 ≤ prn ∧ prn ≤ 96 then 3
  else if 97 ≤ prn ∧ prn ≤ 128 then 4
  else if 129 ≤ prn ∧ prn ≤ 160 then 5
  else if 161 ≤ prn ∧ prn ≤ 192 then 6
  else 1

/-- The body of the PRN search of `parseGngsa` on a field that exists: what
`gngsaStep` does at an index whose field is `d`. -/
def gngsaFieldStep (st : Int × Bool) (d : Nmea.QString) : Int × Bool :=
  if st.2 then st
  else if d ≠ [] ∧ d ≠ ['0'] then (Nmea.toInt d, decide (Nmea.toInt d > 0)) else st

/-- The sentence is dispatched by `parseNmeaSentence` to the RMC handler with at least
9 fields behind the tag: it has one `*`, passes `checkSum`, carries one of the
three tags bound to `parseGprmc`, and the part before `*` has at least 10
comma-separated fields, the tag included. -/
def rmcDispatched (ignore : Bool) (s : Nmea.QString) : Bool :=
  decide (s.count '*' = 1) && (Nmea.checkSum s ignore == some true) &&
    decide (sentenceTag s ∈ ["$GPRMC", "$GNRMC", "$INRMC"]) &&
    decide (10 ≤ (sentenceFields s).length)

/-- Five sentences: a GSV, an unregistered `$GPXXX`, a GSA, a text without `*`, and one RMC
with eleven fields behind the tag. -/
def mixedSentences : List Nmea.QString :=
  [ "$GPGSV,2,1,02,05,40,083,46*40".toList, "$GPXXX,1,2,3*53".toList,
    "$GPGSA,A,3,05,,,,,,,,,,,,1.5,1.0,1.1*32".toList, "no star".toList,
    "$GPRMC,123519,A,4807.038,N,01131.000,E,022.4,084.4,230394,003.1,W*6A".toList ]

/-- The satellite entry that group `j` of a GSV field list stands for: the fields
`3 + 4j .. 6 + 4j` are PRN, elevation, azimuth and SNR; there is an entry only if
PRN and SNR are both not empty. -/
def gsvGroup (data : List Nmea.QString) (system : Int) (signal : Char) (j : Nat) :
    Option Nmea.GnssSatellite :=
  if data.getD (3 + 4 * j) [] ≠ [] ∧ data.getD (6 + 4 * j) [] ≠ [] then
    some { prn := Nmea.toInt (data.getD (3 + 4 * j) [])
           elevation := Nmea.toInt (data.getD (4 + 4 * j) [])
           azimuth := Nmea.toInt (data.getD (5 + 4 * j) [])
           snr := Nmea.toInt (data.getD (6 + 4 * j) [])
           system := system, signal := signal, used := false }
  else none

/-- The entries of the first `k` groups, in group order. -/
def gsvEntries (data : List Nmea.QString) (system : Int) (signal : Char) (k : Nat) :
    List Nmea.GnssSatellite :=
  (List.range k).filterMap (gsvGroup data system signal)

/-- The signal id given to the entries of a GSV field list: the first character of
the last field when the field count is even, else the default of the handler. -/
def gsvSignal (data : List Nmea.QString) (default : Char) : Char :=
  if data.length % 2 = 0 then (data.getD (data.length - 1) []).headD default else default

/-- The constellation number and default signal id that the constructor binds to each
GSV tag, through `parseGpgsv` .. `parseNcgsv`. -/
def gsvBindings : List (String × Int × Char) :=
  [ ("$GPGSV", 1, '1'), ("$GLGSV", 2, '1'), ("$GAGSV", 3, '7'), ("$BDGSV", 4, '1'),
    ("$GBGSV", 4, '1'), ("$QZGSV", 5, '1'), ("$GQGSV", 5, '1'), ("$NCGSV", 6, '5'),
    ("$GIGSV", 6, '5') ]

/-- The eleven fields `3,1,11,05,40,083,46,07,30,120,` of a GSV sentence: two groups, the
second with an empty SNR field. -/
def gsvExample : List Nmea.QString := Nmea.split ',' "3,1,11,05,40,083,46,07,30,120,".toList

/-- A satellite entry matches PRN `prn` in a GSA sentence handled with constellation
`system`: same PRN, same constellation, and, when matching is exact, the signal id
`signalType`. -/
def gsaMatches (prn system : Int) ( exact : Bool) (signalType : Char)
    (sat : Nmea.GnssSatellite) : Prop :=
  sat.prn = prn ∧ sat.system = system ∧ (exact = false ∨ sat.signal = signalType)

/-- Entry `j` is the first entry of `sats`, in list order, that matches `prn`. -/
def gsaFirstMatch (prn system : Int) ( exact : Bool) (signalType : Char)
    (sats : List Nmea.GnssSatellite) (j : Nat) : Prop :=
  (∃ sat, sats[j]? = some sat ∧ gsaMatches prn system exact signalType sat) ∧
    ∀ j' sat', j' < j → sats[j']? = some sat' → ¬ gsaMatches prn system exact signalType sat'

/-- The body of the PRN loop of `parseGsa` on a field that exists: what `gsaStep` does at an
index whose field is `d`. -/
def gsaFieldStep (system : Int) ( exact : Bool) (signalType : Char)
    (sats : List Nmea.GnssSatellite) (d : Nmea.QString) : List Nmea.GnssSatellite :=
  if d ≠ [] ∧ d ≠ ['0'] then
    if Nmea.toInt d > 0 then Nmea.markUsed (Nmea.toInt d) system exact signalType sats else sats
  else sats

/-- Some PRN field of `slots` that is not empty, not `0` and reads as a positive integer has
entry `j` of `sats` as its first match. -/
def gsaMarked (system : Int) ( exact : Bool) (signalType : Char) (slots : List Nmea.QString)
    (sats : List Nmea.GnssSatellite) (j : Nat) : Prop :=
  ∃ f ∈ slots, f ≠ [] ∧ f ≠ ['0'] ∧ 0 < Nmea.toInt f ∧
    gsaFirstMatch (Nmea.toInt f) system exact signalType sats j

/-- The constellation used for matching: the integer value of field 17 if the field
count is even and the field reads as an integer, else the default of the handler. -/
def gsaSystem (data : List Nmea.QString) (defaultSystem : Int) : Int :=
  if data.length % 2 = 0 then (Nmea.toIntOk 10 (data.getD 17 [])).getD defaultSystem
  else defaultSystem

/-- The signal id used for exact matching: the first character of field 18 if the
field count is even and that field exists and is not empty, else `1`. -/
def gsaSignal (data : List Nmea.QString) : Char :=
  if data.length % 2 = 0 then (data.getD 18 []).headD '1' else '1'

/-- A Goldfish buffer of 4 header bytes `BC B2 01 0n`, a 16-byte body and two
trailing bytes `t1 t2`: the declared length is 16 whatever `n`, `t1`, `t2`. -/
def goldfishFrame (n t1 t2 : Byte) : QByteArray :=
  [0xBC, 0xB2, 0x01, n] ++ List.replicate 16 0x55 ++ [t1, t2]

/-- Model of `AllystarDecoder::calculateChecksum`, translated from `allystar.cpp`:
`ck_a = 0; ck_b = 0;` then `ck_a += data[i]; ck_b += ck_a;` for every byte, on
two `uint8_t` accumulators. -/
def Allystar.calculateChecksum (data : QByteArray) : Nat × Nat :=
  data.foldl (fun ck b => ((ck.1 + b.val) % 256, (ck.2 + (ck.1 + b.val) % 256) % 256)) (0, 0)

/-- The sum of all bytes `d_0 + .. + d_(n-1)`. -/
def byteSum (data : QByteArray) : Nat :=
  ∑ i in Finset.range data.length, byteAt data i

/-- The weighted sum `n * d_0 + (n - 1) * d_1 + .. + 1 * d_(n-1)`. -/
def weightedSum (data : QByteArray) : Nat :=
  ∑ i in Finset.range data.length, (data.length - i) * byteAt data i

/-- A parser in the middle of an epoch: one accumulated satellite, a
latitude already set, the RMC flag set and one snapshot emitted earlier. -/
def busyParser : Nmea.NmeaParser :=
  { m_gnssPosition := { Nmea.GnssPosition.default with latitude := 48, quality := 1 }
    m_gnssSatellites := [⟨5, 40, 83, 46, 1, '1', true⟩]
    m_gnssInfo := ⟨Nmea.GnssPosition.default, []⟩
    m_haveGprmc := true
    emitted := [⟨Nmea.GnssPosition.default, []⟩] }

/-- A Galileo epoch in NMEA 4.10 form: a `$GAGSV` sentence without a trailing
signal field reporting PRN 5 (7 fields after the tag, so the entry gets the
Galileo default signal id `7`), then a `$GAGSA` sentence of 18 fields after the
tag that lists PRN 5 and ends in the system id 3. -/
def galileoEpoch : List Nmea.QString :=
  ["$GAGSV,1,1,01,05,40,083,46*51".toList,
   "$GAGSA,A,3,05,,,,,,,,,,,,1.5,1.0,1.1,3*3C".toList]

/-- The same epoch for GPS: the `$GPGSV` sentence carries the signal id `1`, the
`$GPGSA` sentence of 18 fields ends in the system id 1. -/
def gpsEpoch : List Nmea.QString :=
  ["$GPGSV,1,1,01,05,40,083,46,1*5D".toList,
   "$GPGSA,A,3,05,,,,,,,,,,,,1.5,1.0,1.1,1*2F".toList]

/-- The RTCM3 frame built around payload `p` with the six reserved header
bits `reserved`: `D3`, `(reserved << 2) | (|p| >> 8)`, `|p| & 0xFF`, the payload,
and the three bytes of `calculateCrc24q` over these `3 + |p|` bytes, most
significant first. -/
def rtcm3Frame (reserved : Nat) (p : QByteArray) : QByteArray :=
  let header : QByteArray :=
    [0xD3, Fin.ofNat ((reserved <<< 2) ||| (p.length >>> 8)), Fin.ofNat (p.length &&& 0xFF)]
  let crc := Rtcm3.calculateCrc24q (header ++ p)
  header ++ p ++
    [Fin.ofNat ((crc >>> 16) &&& 0xFF), Fin.ofNat ((crc >>> 8) &&& 0xFF), Fin.ofNat (crc &&& 0xFF)]

/-- An `Rtcm3Decoder` as its constructor leaves it; `m_stationInfo` is not
initialised by the constructor and is zero here. -/
def rtcm3Init : Rtcm3.Rtcm3Decoder :=
  { m_lastMessage := { type := 0, stationId := 0, length := 0, valid := false }
    m_stationInfo := ⟨0, 0, 0, 0, 0, false⟩
    m_messageStats := fun _ => 0
    m_totalMessages := 0 }

/-- The unsigned number written little-endian by the four bytes of `p` from
offset `i` on. -/
def le32 (p : QByteArray) (i : Nat) : Nat :=
  byteAt p i + 256 * byteAt p (i + 1) + 65536 * byteAt p (i + 2) + 16777216 * byteAt p (i + 3)

/-- The 32-bit pattern `u` read as a two's-complement integer. -/
def twosComplement32 (u : Nat) : Int := if u < 2 ^ 31 then (u : Int) else (u : Int) - 2 ^ 32

/-- A NAV-PVT payload of 92 bytes: 2024-05-17 12:34:56, fix type 3, 12
satellites, lon -1234567, lat 481234567, height 512000, hMSL -2000,
hAcc 1500, vAcc 3000000000. -/
def navPvtPayload : QByteArray :=
  [0x10, 0x27, 0x00, 0x00, 0xE8, 0x07, 0x05, 0x11, 0x0C, 0x22, 0x38, 0x07,
   0x00, 0x00, 0x00, 0x00, 0x00, 0x00, 0x00, 0x00, 0x03, 0x00, 0x00, 0x0C,
   0x79, 0x29, 0xED, 0xFF, 0x87, 0x0E, 0xAF, 0x1C, 0x00, 0xD0, 0x07, 0x00,
   0x30, 0xF8, 0xFF, 0xFF, 0xDC, 0x05, 0x00, 0x00, 0x00, 0x5E, 0xD0, 0xB2] ++
  List.replicate 44 0x00

/-- A NAV-PVT frame whose header declares 4097 payload bytes, all zero, with
the Fletcher-8 pair `19 44` of its class .. payload bytes behind them. -/
def oversizedPvtFrame : QByteArray :=
  ubxFrame 0x01 0x07 0x01 0x10 (List.replicate 4097 0x00) 0x19 0x44

/-- Model of `UbloxDecoder::resetStatistics`: `m_packetStats.clear(); m_totalPackets = 0;`. -/
def Ublox.resetStatistics (s : Ublox.UbloxDecoder) : Ublox.UbloxDecoder :=
  { s with m_packetStats := fun _ => 0, m_totalPackets := 0 }

/-- Model of `AllystarDecoder::resetStatistics`. -/
def Allystar.resetStatistics (s : Allystar.AllystarDecoder) : Allystar.AllystarDecoder :=
  { s with m_packetStats := fun _ => 0, m_totalPackets := 0 }

/-- Model of `GoldfishDecoder::resetStatistics`. -/
def Goldfish.resetStatistics (s : Goldfish.GoldfishDecoder) : Goldfish.GoldfishDecoder :=
  { s with m_packetStats := fun _ => 0, m_totalPackets := 0 }

/-- Model of `Rtcm3Decoder::resetStatistics`: `m_messageStats.clear(); m_totalMessages = 0;`. -/
def Rtcm3.resetStatistics (s : Rtcm3.Rtcm3Decoder) : Rtcm3.Rtcm3Decoder :=
  { s with m_messageStats := fun _ => 0, m_totalMessages := 0 }

/-- An `AllystarDecoder` as its constructor leaves it. -/
def allystarInit : Allystar.AllystarDecoder :=
  { m_lastPacket := { msgClass := 0, msgId := 0, length := 0, valid := false, payload := [] }
    m_packetStats := fun _ => 0
    m_totalPackets := 0 }

/-- A `GoldfishDecoder` as its constructor leaves it. -/
def goldfishInit : Goldfish.GoldfishDecoder :=
  { m_lastPacket := { msgId := 0, length := 0, valid := false, payload := [] }
    m_packetStats := fun _ => 0
    m_totalPackets := 0 }

/-- One call made on a decoder object: a decode call on a buffer, or
`resetStatistics`. -/
inductive DecoderCall where
  | decode (data : QByteArray)
  | reset

/-- The `UbloxDecoder` after one call. -/
def Ublox.call (s : Ublox.UbloxDecoder) : DecoderCall → Ublox.UbloxDecoder
  | .decode data => (Ublox.decodePacket s data).state
  | .reset => Ublox.resetStatistics s

/-- The `AllystarDecoder` after one call. -/
def Allystar.call (s : Allystar.AllystarDecoder) : DecoderCall → Allystar.AllystarDecoder
  | .decode data => (Allystar.decodePacket s data).state
  | .reset => Allystar.resetStatistics s

/-- The `GoldfishDecoder` after one call. -/
def Goldfish.call (s : Goldfish.GoldfishDecoder) : DecoderCall → Goldfish.GoldfishDecoder
  | .decode data => (Goldfish.decodePacket s data).state
  | .reset => Goldfish.resetStatistics s

/-- The `Rtcm3Decoder` after one call. -/
def Rtcm3.call (ub : Nat → Nat → Nat) (s : Rtcm3.Rtcm3Decoder) :
    DecoderCall → Rtcm3.Rtcm3Decoder
  | .decode data => (Rtcm3.decodeFrame ub s data).state
  | .reset => Rtcm3.resetStatistics s

/-- The sum of the per-key counters. Every key a decoder counts under is a
16-bit number: `(class << 8) | id` of two bytes, a two-byte message id, or a
`uint16_t` message type. -/
def statSum (stats : Nat → Nat) : Nat := ∑ k in Finset.range 65536, stats k

/-- What one call does to the counters `(t, f)`, giving `(t1, f1)`: a call that
returned true under key `key` adds 1 to the total and to the counter of `key`,
both as `uint32_t`, and keeps every other counter; a call that returned false
keeps all of them. -/
def CounterStep (ok : Bool) (key : Nat) (t : Nat) (f : Nat → Nat) (t1 : Nat) (f1 : Nat → Nat) :
    Prop :=
  (ok = true → key < 65536 ∧ t1 = (t + 1) % 2 ^ 32 ∧ f1 key = (f key + 1) % 2 ^ 32 ∧
    ∀ k, k ≠ key → f1 k = f k) ∧
  (ok = false → t1 = t ∧ f1 = f)

/-- The total and the sum of the per-key counters agree modulo `2 ^ 32`. -/
def CountersAgree (t : Nat) (f : Nat → Nat) : Prop := t % 2 ^ 32 = statSum f % 2 ^ 32

/-! ## Receive buffers of the main window (`src/mainwindow.cpp`) -/

/-- The constant `MAX_RX_BUFFER_SIZE = 64 * 1024`. -/
def MAX_RX_BUFFER_SIZE : Nat := 64 * 1024

/-- Model of `QByteArray::indexOf(c)`: the index of the first byte equal to `c`;
`none` is the `-1` of Qt. -/
def QByteArray.indexOf (c : Byte) : QByteArray → Option Nat
  | [] => none
  | b :: rest => if b = c then some 0 else (QByteArray.indexOf c rest).map (fun i => i + 1)

/-- Model of `QByteArray::indexOf(c, from)`. -/
def QByteArray.indexOfFrom (c : Byte) (buffer : QByteArray) (pos : Nat) : Option Nat :=
  (QByteArray.indexOf c (buffer.drop pos)).map (fun i => i + pos)

/-- Model of `QByteArray::lastIndexOf(c)`. -/
def QByteArray.lastIndexOf (c : Byte) (buffer : QByteArray) : Option Nat :=
  (QByteArray.indexOf c buffer.reverse).map (fun i => buffer.length - 1 - i)

/-- Model of `QByteArray::right(n)`: the last `n` bytes, the whole array if it has
no more than `n`. -/
def QByteArray.right (buffer : QByteArray) (n : Nat) : QByteArray :=
  buffer.drop (buffer.length - n)

/-- The loop `while (!sentence.isEmpty() && (sentence.endsWith('\r') ||
sentence.endsWith('\n'))) sentence.chop(1);`. -/
def stripCrLf (sentence : QByteArray) : QByteArray :=
  (sentence.reverse.dropWhile (fun b => b = 0x0D ∨ b = 0x0A)).reverse

/-- The checksum test of `processRawData` on a stripped line: true when the
line is kept. There is a test only if a `*` stands behind index 0 with at
least two bytes after it and both of them are hexadecimal digits. -/
def lineChecksumOk (sentence : QByteArray) : Bool :=
  match QByteArray.lastIndexOf 0x2A sentence with
  | none => true
  | some starPos =>
    if starPos > 0 ∧ starPos + 2 < sentence.length then
      let chk : Nat :=
        ((sentence.drop 1).take (starPos - 1)).foldl (fun chk b => chk ^^^ b.val) 0
      match Nmea.toIntOk 16 [Char.ofNat (byteAt sentence (starPos + 1))],
            Nmea.toIntOk 16 [Char.ofNat (byteAt sentence (starPos + 2))] with
      | some hi, some lo => ((hi.toNat <<< 4) ||| lo.toNat) % 256 == chk
      | _, _ => true
    else true

/-- The sanity checks between the extraction of a line and the call of
`parseNmeaSentence`: at least 6 bytes, printable ASCII only, checksum test. -/
def lineAccepted (sentence : QByteArray) : Bool :=
  decide (¬ sentence.length < 6) &&
    sentence.all (fun b => decide (¬ (b.val < 0x20 ∨ b.val > 0x7E))) &&
    lineChecksumOk sentence

/-- One turn of the loop `while (true)` of `processRawData`: `again` is false
when the turn ends in `break`, `buffer` is the receive buffer after the turn and
`sentence` the line handed to `parseNmeaSentence` in this turn, if any. -/
structure LineStep where
  again : Bool
  buffer : QByteArray
  sentence : Option QByteArray

/-- The body of the loop `while (true)` of `processRawData`. -/
def lineStep (buffer : QByteArray) : LineStep :=
  let startIdx := QByteArray.indexOf 0x24 buffer
  let startIdxAlt := QByteArray.indexOf 0x21 buffer
  let startIdx : Option Nat :=
    match startIdx, startIdxAlt with
    | none, alt => alt
    | some i, some alt => if alt < i then some alt else some i
    | some i, none => some i
  match startIdx with
  | none => ⟨false, if buffer.length > 256 then [] else buffer, none⟩
  | some i =>
    let buffer := if i > 0 then buffer.drop i else buffer
    match QByteArray.indexOfFrom 0x0A buffer 1 with
    | none => ⟨false, buffer, none⟩
    | some endIdx =>
      let sentence := stripCrLf (buffer.take (endIdx + 1))
      ⟨true, buffer.drop (endIdx + 1), if lineAccepted sentence then some sentence else none⟩

/-- The loop `while (true)` of `processRawData`, run for at most `fuel` turns:
the receive buffer when the loop is left and the lines handed to
`parseNmeaSentence`, in order. `none` means that `fuel` turns did not reach a
`break`. -/
def lineLoop : Nat → QByteArray → Option (QByteArray × List QByteArray)
  | 0, _ => none
  | fuel + 1, buffer =>
    let step := lineStep buffer
    if step.again then
      match lineLoop fuel step.buffer with
      | none => none
      | some (rest, sentences) => some (rest, step.sentence.toList ++ sentences)
    else some (step.buffer, [])

/-- The head of `processRawData`: `buffer.append(data)`, then
`if (buffer.size() > MAX_RX_BUFFER_SIZE) buffer = buffer.right(MAX_RX_BUFFER_SIZE);`. -/
def appendAndCap (buffer data : QByteArray) : QByteArray :=
  if (buffer ++ data).length > MAX_RX_BUFFER_SIZE then
    QByteArray.right (buffer ++ data) MAX_RX_BUFFER_SIZE
  else buffer ++ data

/-- The part of `class MainWindow` that `processRawData` keeps between calls:
`m_rxBuffers`, a source without an entry having the empty buffer that
`m_rxBuffers[source]` creates. -/
structure MainWindow where
  m_rxBuffers : String → QByteArray

/-- Model of `MainWindow::processRawData` as far as the receive buffers go:
the window after the call and the lines handed to `parseNmeaSentence`; the
parser call and the text output do not touch `m_rxBuffers`. Every turn that
does not end the loop removes at least one byte, so `length + 1` turns
suffice. -/
def MainWindow.processRawData (w : MainWindow) (data : QByteArray) (source : String) :
    Option (MainWindow × List QByteArray) :=
  let buffer := appendAndCap (w.m_rxBuffers source) data
  match lineLoop (buffer.length + 1) buffer with
  | none => none
  | some (rest, sentences) =>
    some (⟨fun k => if k = source then rest else w.m_rxBuffers k⟩, sentences)

/-- A sequence of `processRawData` calls, each with its chunk and source name. -/
def MainWindow.feed : MainWindow → List (QByteArray × String) →
    Option (MainWindow × List QByteArray)
  | w, [] => some (w, [])
  | w, (data, source) :: rest =>
    match MainWindow.processRawData w data source with
    | none => none
    | some (w1, out1) =>
      match MainWindow.feed w1 rest with
      | none => none
      | some (w2, out2) => some (w2, out1 ++ out2)

/-- A window that has received nothing yet. -/
def MainWindow.fresh : MainWindow := ⟨fun _ => []⟩

/-- The bytes of an ASCII text. -/
def asciiBytes (s : String) : QByteArray := s.toList.map (fun c => Fin.ofNat c.toNat)

/-! ## Decimal numerals and the degrees-and-minutes formula (specification side) -/

/-- Every character is one of the decimal digits `0`..`9`. -/
def IsDigits (ds : Nmea.QString) : Prop := ∀ c ∈ ds, 48 ≤ c.toNat ∧ c.toNat ≤ 57

/-- The number written by a run of decimal digits. -/
def digitsNat (ds : Nmea.QString) : Nat := ds.foldl (fun acc c => 10 * acc + (c.toNat - 48)) 0

/-- The value of the decimal numeral with the digits `ip` before the point and
the digits `fp` behind it. -/
def decimalValue (ip fp : Nmea.QString) : ℚ :=
  (digitsNat ip : ℚ) + (digitsNat fp : ℚ) / (10 : ℚ) ^ fp.length

/-- The formula of the specification for a value `v` written as `ddmm.mmmm`:
`floor(v / 100) + (v - 100 * floor(v / 100)) / 60`, over exact rationals. -/
def degreesAndMinutes (v : ℚ) : ℚ :=
  ((⌊v / 100⌋ : Int) : ℚ) + (v - 100 * ((⌊v / 100⌋ : Int) : ℚ)) / 60

end GnssView


/-! # Theorems -/

namespace GnssView

/-! ## The sync scan -/

theorem scanFrom_some {test : Nat → Bool} : ∀ (n i k : Nat), scanFrom test i n = some k →
    test k = true ∧ i ≤ k ∧ k < i + n ∧ ∀ j, i ≤ j → j < k → test j = false := by
  intro n
  induction n with
  | zero => intro i k h; simp [scanFrom] at h
  | succ n ih =>
    intro i k h
    unfold scanFrom at h
    by_cases ht : test i = true
    · simp only [ht, if_true, Option.some.injEq] at h
      subst h
      exact ⟨ht, le_rfl, by omega, fun j h1 h2 => by omega⟩
    · simp only [ht] at h
      obtain ⟨h1, h2, h3, h4⟩ := ih (i + 1) k h
      refine ⟨h1, by omega, by omega, fun j hj1 hj2 => ?_⟩
      by_cases hji : j = i
      · subst hji; simpa using ht
      · exact h4 j (by omega) hj2

theorem scanFrom_none {test : Nat → Bool} : ∀ (n i : Nat), scanFrom test i n = none →
    ∀ j, i ≤ j → j < i + n → test j = false := by
  intro n
  induction n with
  | zero => intro i _ j h1 h2; omega
  | succ n ih =>
    intro i h j h1 h2
    unfold scanFrom at h
    by_cases ht : test i = true
    · simp [ht] at h
    · simp only [ht] at h
      by_cases hji : j = i
      · subst hji; simpa using ht
      · exact ih (i + 1) h j (by omega) (by omega)

theorem scanFrom_all_false {test : Nat → Bool} : ∀ (n i : Nat),
    (∀ j, i ≤ j → j < i + n → test j = false) → scanFrom test i n = none := by
  intro n
  induction n with
  | zero => intro i _; rfl
  | succ n ih =>
    intro i h
    unfold scanFrom
    rw [h i le_rfl (by omega)]
    simp only [Bool.false_eq_true, if_false]
    exact ih (i + 1) (fun j h1 h2 => h j (by omega) (by omega))

theorem scanFrom_head {test : Nat → Bool} (i n : Nat) (h : test i = true) (hn : 0 < n) :
    scanFrom test i n = some i := by
  cases n with
  | zero => omega
  | succ n => simp [scanFrom, h]

/-! ## Bytes and bit fields -/

theorem byteAt_lt (data : QByteArray) (i : Nat) : byteAt data i < 256 := (data.getD i 0).isLt

theorem byteAt_take (data : QByteArray) (n i : Nat) (h : i < n) :
    byteAt (data.take n) i = byteAt data i := by
  unfold byteAt
  simp [List.getD_eq_getElem?_getD, List.getElem?_take, h]

theorem byteAt_append_left (a b : QByteArray) (i : Nat) (h : i < a.length) :
    byteAt (a ++ b) i = byteAt a i := by
  unfold byteAt
  simp [List.getD_eq_getElem?_getD, List.getElem?_append_left h]

theorem byteAt_append_right (a b : QByteArray) (i : Nat) :
    byteAt (a ++ b) (a.length + i) = byteAt b i := by
  unfold byteAt
  simp [List.getD_eq_getElem?_getD, List.getElem?_append_right]

theorem shl_or (a b k : Nat) (h : b < 2 ^ k) : (a <<< k) ||| b = a * 2 ^ k + b := by
  rw [Nat.shiftLeft_eq, Nat.mul_comm, Nat.mul_add_lt_is_or h]

theorem or_shl8 (lo hi : Nat) (h : lo < 256) : lo ||| (hi <<< 8) = lo + 256 * hi := by
  rw [Nat.lor_comm, shl_or hi lo 8 (by norm_num; omega)]
  norm_num
  omega

theorem be24_eq (a b c : Nat) (hb : b < 256) (hc : c < 256) :
    (a <<< 16) ||| (b <<< 8) ||| c = a * 65536 + b * 256 + c := by
  have h1 : b <<< 8 = b * 256 := by rw [Nat.shiftLeft_eq]
  have h2 : (a <<< 16) ||| (b <<< 8) = a * 65536 + b * 256 := by
    rw [h1, shl_or a (b * 256) 16 (by norm_num; omega)]; norm_num
  have h3 : a * 65536 + b * 256 = (a * 256 + b) <<< 8 := by
    rw [Nat.shiftLeft_eq]; ring
  calc (a <<< 16) ||| (b <<< 8) ||| c = ((a * 256 + b) <<< 8) ||| c := by rw [h2, h3]
    _ = (a * 256 + b) * 2 ^ 8 + c := shl_or _ c 8 (by norm_num; omega)
    _ = a * 65536 + b * 256 + c := by ring

theorem len12_eq (a b : Nat) (hb : b < 256) : (a <<< 4) ||| (b >>> 4) = a * 16 + b / 16 := by
  have h : b >>> 4 = b / 16 := by rw [Nat.shiftRight_eq_div_pow]
  rw [h, shl_or _ _ 4 (by norm_num; omega)]; norm_num

theorem getU2_eq (data : QByteArray) (i : Nat) :
    getU2 data i = byteAt data i + 256 * byteAt data (i + 1) :=
  or_shl8 _ _ (byteAt_lt data i)

/-! ## UBX decoder: framing -/

theorem ublox_findNextPacket_short (data : QByteArray) (h : data.length < 6) :
    Ublox.findNextPacket data 0 = none := by
  unfold Ublox.findNextPacket
  apply scanFrom_all_false
  intro j _ _
  have : ¬ (j + Ublox.UBX_HEADER_LEN ≤ data.length) := by simp [Ublox.UBX_HEADER_LEN]; omega
  simp [syncAt, this]

theorem ublox_decodePacket_short (s : Ublox.UbloxDecoder) (data : QByteArray)
    (h : data.length < 6) :
    (Ublox.decodePacket s data).ok = false ∧
    (Ublox.decodePacket s data).bytesProcessed = data.length := by
  simp [Ublox.decodePacket, ublox_findNextPacket_short data h]

theorem ublox_findNextPacket_zero (data : QByteArray) (h0 : byteAt data 0 = 0xB5)
    (h1 : byteAt data 1 = 0x62) (hlen : 6 ≤ data.length) (hL : getU2 data 4 ≤ 4096) :
    Ublox.findNextPacket data 0 = some 0 := by
  unfold Ublox.findNextPacket
  apply scanFrom_head
  · simp [syncAt, h0, h1, Ublox.UBX_SYNC1, Ublox.UBX_SYNC2, Ublox.UBX_HEADER_LEN, Ublox.lenAt, hlen, hL]
  · omega

theorem ublox_validateChecksum_take (data : QByteArray) (L : Nat)
    (hlen : 6 + L + 2 ≤ data.length) :
    Ublox.validateChecksum (data.take (6 + L + 2)) = true ↔
      calculateChecksum ((data.drop 2).take (4 + L)) =
        (byteAt data (6 + L), byteAt data (7 + L)) := by
  have hl : (data.take (6 + L + 2)).length = 6 + L + 2 := by
    rw [List.length_take]; omega
  unfold Ublox.validateChecksum
  simp only [hl, Ublox.UBX_HEADER_LEN, Ublox.UBX_CHECKSUM_LEN]
  have h1 : ¬ (6 + L + 2 < 6 + 2) := by omega
  simp only [h1, if_false]
  have e1 : 6 + L + 2 - 2 = 6 + L := by omega
  have e2 : 6 + L - 2 = 4 + L := by omega
  have e3 : 6 + L + 1 = 7 + L := by omega
  rw [e1, e2, e3, byteAt_take _ _ _ (by omega), byteAt_take _ _ _ (by omega)]
  rw [List.drop_take, List.take_take]
  have e4 : min (4 + L) (6 + L + 2 - 2) = 4 + L := by omega
  rw [e4]
  generalize calculateChecksum (List.take (4 + L) (List.drop 2 data)) = ck
  rcases ck with ⟨a, b⟩
  simp [Prod.ext_iff]

theorem ublox_parsePacket_keeps (s : Ublox.UbloxDecoder) (payload : QByteArray) :
    (Ublox.parsePacket s payload).2.m_lastPacket = s.m_lastPacket ∧
    (Ublox.parsePacket s payload).2.m_totalPackets = s.m_totalPackets ∧
    (Ublox.parsePacket s payload).2.m_packetStats = s.m_packetStats := by
  unfold Ublox.parsePacket Ublox.parseNavPvt Ublox.parseMonVer
  split_ifs <;> simp

theorem ublox_decodePacket_valid (s : Ublox.UbloxDecoder) (data : QByteArray) :
    (Ublox.decodePacket s data).state.m_lastPacket.valid = (Ublox.decodePacket s data).ok ∧
    ((Ublox.decodePacket s data).ok = true → UbxFamilyFrameAtStart 0xB5 0x62 data) := by
  unfold Ublox.decodePacket
  cases h : Ublox.findNextPacket data 0 with
  | none => simp
  | some k =>
    obtain ⟨hk, _, _, _⟩ := scanFrom_some _ _ _ h
    simp only [Ublox.UBX_HEADER_LEN, Ublox.UBX_CHECKSUM_LEN, getU2_eq, Nat.reduceAdd]
    by_cases hk0 : k > 0
    · simp [hk0]
    · have hk0' : k = 0 := by omega
      subst hk0'
      simp only [gt_iff_lt, lt_self_iff_false, if_false]
      by_cases h6 : data.length < 6
      · simp [h6]
      · simp only [h6, if_false]
        by_cases hw : data.length < 6 + (byteAt data 4 + 256 * byteAt data 5) + 2
        · simp [hw]
        · simp only [hw, if_false]
          by_cases hv : Ublox.validateChecksum
              (data.take (6 + (byteAt data 4 + 256 * byteAt data 5) + 2)) = true
          · simp only [hv, Bool.not_true, Bool.false_eq_true, if_false]
            split_ifs with hp
            · refine ⟨rfl, fun _ => ?_⟩
              simp only [syncAt, Bool.and_eq_true, beq_iff_eq, decide_eq_true_eq] at hk
              refine ⟨hk.1.1.1, hk.1.1.2, by omega, ?_⟩
              exact (ublox_validateChecksum_take data _ (by omega)).1 hv
            · simp [(ublox_parsePacket_keeps _ _).1]
          · simp [hv]

theorem ublox_decodePacket_bytes (s : Ublox.UbloxDecoder) (data : QByteArray) :
    (Ublox.decodePacket s data).bytesProcessed ≤ data.length ∧
    ((Ublox.decodePacket s data).ok = true →
      (Ublox.decodePacket s data).bytesProcessed
        = 6 + (byteAt data 4 + 256 * byteAt data 5) + 2) := by
  unfold Ublox.decodePacket
  cases h : Ublox.findNextPacket data 0 with
  | none => simp
  | some k =>
    obtain ⟨_, _, hk, _⟩ := scanFrom_some _ _ _ h
    simp only [Ublox.UBX_HEADER_LEN, Ublox.UBX_CHECKSUM_LEN, getU2_eq, Nat.reduceAdd]
    split_ifs <;> simp <;> omega

/-! ## Allystar decoder: framing -/

theorem allystar_findNextPacket_short (data : QByteArray) (h : data.length < 6) :
    Allystar.findNextPacket data 0 = none := by
  unfold Allystar.findNextPacket
  apply scanFrom_all_false
  intro j _ _
  have : ¬ (j + Allystar.ALLYSTAR_HEADER_LEN ≤ data.length) := by simp [Allystar.ALLYSTAR_HEADER_LEN]; omega
  simp [syncAt, this]

theorem allystar_decodePacket_short (s : Allystar.AllystarDecoder) (data : QByteArray)
    (h : data.length < 6) :
    (Allystar.decodePacket s data).ok = false ∧
    (Allystar.decodePacket s data).bytesProcessed = data.length := by
  simp [Allystar.decodePacket, allystar_findNextPacket_short data h]

theorem allystar_findNextPacket_zero (data : QByteArray) (h0 : byteAt data 0 = 0xF1)
    (h1 : byteAt data 1 = 0xD9) (hlen : 6 ≤ data.length) (hL : getU2 data 4 ≤ 4096) :
    Allystar.findNextPacket data 0 = some 0 := by
  unfold Allystar.findNextPacket
  apply scanFrom_head
  · simp [syncAt, h0, h1, Allystar.ALLYSTAR_SYNC1, Allystar.ALLYSTAR_SYNC2, Allystar.ALLYSTAR_HEADER_LEN, Allystar.lenAt, hlen, hL]
  · omega

theorem allystar_validateChecksum_take (data : QByteArray) (L : Nat)
    (hlen : 6 + L + 2 ≤ data.length) :
    Allystar.validateChecksum (data.take (6 + L + 2)) = true ↔
      calculateChecksum ((data.drop 2).take (4 + L)) =
        (byteAt data (6 + L), byteAt data (7 + L)) := by
  have hl : (data.take (6 + L + 2)).length = 6 + L + 2 := by
    rw [List.length_take]; omega
  unfold Allystar.validateChecksum
  simp only [hl, Allystar.ALLYSTAR_HEADER_LEN, Allystar.ALLYSTAR_CHECKSUM_LEN]
  have h1 : ¬ (6 + L + 2 < 6 + 2) := by omega
  simp only [h1, if_false]
  have e1 : 6 + L + 2 - 2 = 6 + L := by omega
  have e2 : 6 + L - 2 = 4 + L := by omega
  have e3 : 6 + L + 1 = 7 + L := by omega
  rw [e1, e2, e3, byteAt_take _ _ _ (by omega), byteAt_take _ _ _ (by omega)]
  rw [List.drop_take, List.take_take]
  have e4 : min (4 + L) (6 + L + 2 - 2) = 4 + L := by omega
  rw [e4]
  generalize calculateChecksum (List.take (4 + L) (List.drop 2 data)) = ck
  rcases ck with ⟨a, b⟩
  simp [Prod.ext_iff]

theorem allystar_parsePacket_keeps (s : Allystar.AllystarDecoder) (payload : QByteArray) :
    (Allystar.parsePacket s payload).2.m_lastPacket = s.m_lastPacket ∧
    (Allystar.parsePacket s payload).2.m_totalPackets = s.m_totalPackets ∧
    (Allystar.parsePacket s payload).2.m_packetStats = s.m_packetStats := by
  simp [Allystar.parsePacket]

theorem allystar_decodePacket_valid (s : Allystar.AllystarDecoder) (data : QByteArray) :
    (Allystar.decodePacket s data).state.m_lastPacket.valid = (Allystar.decodePacket s data).ok ∧
    ((Allystar.decodePacket s data).ok = true → UbxFamilyFrameAtStart 0xF1 0xD9 data) := by
  unfold Allystar.decodePacket
  cases h : Allystar.findNextPacket data 0 with
  | none => simp
  | some k =>
    obtain ⟨hk, _, _, _⟩ := scanFrom_some _ _ _ h
    simp only [Allystar.ALLYSTAR_HEADER_LEN, Allystar.ALLYSTAR_CHECKSUM_LEN, getU2_eq, Nat.reduceAdd]
    by_cases hk0 : k > 0
    · simp [hk0]
    · have hk0' : k = 0 := by omega
      subst hk0'
      simp only [gt_iff_lt, lt_self_iff_false, if_false]
      by_cases h6 : data.length < 6
      · simp [h6]
      · simp only [h6, if_false]
        by_cases hw : data.length < 6 + (byteAt data 4 + 256 * byteAt data 5) + 2
        · simp [hw]
        · simp only [hw, if_false]
          by_cases hv : Allystar.validateChecksum
              (data.take (6 + (byteAt data 4 + 256 * byteAt data 5) + 2)) = true
          · simp only [hv, Bool.not_true, Bool.false_eq_true, if_false]
            split_ifs with hp
            · refine ⟨rfl, fun _ => ?_⟩
              simp only [syncAt, Bool.and_eq_true, beq_iff_eq, decide_eq_true_eq] at hk
              refine ⟨hk.1.1.1, hk.1.1.2, by omega, ?_⟩
              exact (allystar_validateChecksum_take data _ (by omega)).1 hv
            · simp [(allystar_parsePacket_keeps _ _).1]
          · simp [hv]

theorem allystar_decodePacket_bytes (s : Allystar.AllystarDecoder) (data : QByteArray) :
    (Allystar.decodePacket s data).bytesProcessed ≤ data.length ∧
    ((Allystar.decodePacket s data).ok = true →
      (Allystar.decodePacket s data).bytesProcessed
        = 6 + (byteAt data 4 + 256 * byteAt data 5) + 2) := by
  unfold Allystar.decodePacket
  cases h : Allystar.findNextPacket data 0 with
  | none => simp
  | some k =>
    obtain ⟨_, _, hk, _⟩ := scanFrom_some _ _ _ h
    simp only [Allystar.ALLYSTAR_HEADER_LEN, Allystar.ALLYSTAR_CHECKSUM_LEN, getU2_eq, Nat.reduceAdd]
    split_ifs <;> simp <;> omega

/-! ## UBX decoder: waiting and accepting -/

theorem ublox_decodePacket_wait (s : Ublox.UbloxDecoder) (data : QByteArray)
    (h0 : byteAt data 0 = 0xB5) (h1 : byteAt data 1 = 0x62) (h6 : 6 ≤ data.length)
    (hL : byteAt data 4 + 256 * byteAt data 5 ≤ 4096)
    (hshort : data.length < 6 + (byteAt data 4 + 256 * byteAt data 5) + 2) :
    (Ublox.decodePacket s data).ok = false ∧ (Ublox.decodePacket s data).bytesProcessed = 0 ∧
    (Ublox.decodePacket s data).state.m_totalPackets = s.m_totalPackets ∧
    (Ublox.decodePacket s data).state.m_packetStats = s.m_packetStats := by
  have hf := ublox_findNextPacket_zero data h0 h1 h6 (by rw [getU2_eq]; exact hL)
  unfold Ublox.decodePacket
  simp only [hf, Ublox.UBX_HEADER_LEN, Ublox.UBX_CHECKSUM_LEN, getU2_eq, Nat.reduceAdd]
  have h6' : ¬ data.length < 6 := by omega
  simp [h6', hshort]

theorem ublox_decodePacket_accept (s : Ublox.UbloxDecoder) (data : QByteArray)
    (h0 : byteAt data 0 = 0xB5) (h1 : byteAt data 1 = 0x62)
    (hL : byteAt data 4 + 256 * byteAt data 5 ≤ 4096)
    (hlen : 6 + (byteAt data 4 + 256 * byteAt data 5) + 2 ≤ data.length)
    (hck : calculateChecksum ((data.drop 2).take (4 + (byteAt data 4 + 256 * byteAt data 5))) =
      (byteAt data (6 + (byteAt data 4 + 256 * byteAt data 5)),
       byteAt data (7 + (byteAt data 4 + 256 * byteAt data 5))))
    (hpvt : ¬ (byteAt data 2 = 0x01 ∧ byteAt data 3 = 0x07 ∧
      byteAt data 4 + 256 * byteAt data 5 < 92))
    (hver : ¬ (byteAt data 2 = 0x0A ∧ byteAt data 3 = 0x04 ∧
      byteAt data 4 + 256 * byteAt data 5 < 40)) :
    (Ublox.decodePacket s data).ok = true ∧
    (Ublox.decodePacket s data).bytesProcessed
      = 6 + (byteAt data 4 + 256 * byteAt data 5) + 2 := by
  have hf := ublox_findNextPacket_zero data h0 h1 (by omega) (by rw [getU2_eq]; exact hL)
  have hv := (ublox_validateChecksum_take data _ hlen).2 hck
  unfold Ublox.decodePacket
  simp only [hf, Ublox.UBX_HEADER_LEN, Ublox.UBX_CHECKSUM_LEN, getU2_eq, Nat.reduceAdd]
  have h6' : ¬ data.length < 6 := by omega
  have hlen' : ¬ data.length < 6 + (byteAt data 4 + 256 * byteAt data 5) + 2 := by omega
  simp only [gt_iff_lt, lt_self_iff_false, if_false, h6', hlen', hv, Bool.not_true,
    Bool.false_eq_true]
  have hp : (Ublox.parsePacket
      { s with m_lastPacket :=
        { msgClass := byteAt data 2, msgId := byteAt data 3,
          length := byteAt data 4 + 256 * byteAt data 5, valid := false,
          payload := List.take (byteAt data 4 + 256 * byteAt data 5)
            (List.drop 6 (List.take (6 + (byteAt data 4 + 256 * byteAt data 5) + 2) data)) } }
      (List.take (byteAt data 4 + 256 * byteAt data 5)
            (List.drop 6 (List.take (6 + (byteAt data 4 + 256 * byteAt data 5) + 2) data)))).1
      = true := by
    have hpl : (List.take (byteAt data 4 + 256 * byteAt data 5)
            (List.drop 6 (List.take (6 + (byteAt data 4 + 256 * byteAt data 5) + 2) data))).length
        = byteAt data 4 + 256 * byteAt data 5 := by
      simp only [List.length_take, List.length_drop]; omega
    unfold Ublox.parsePacket Ublox.parseNavPvt Ublox.parseMonVer
    simp only [hpl, Ublox.UBX_CLASS_NAV, Ublox.UBX_NAV_PVT, Ublox.UBX_CLASS_MON,
      Ublox.UBX_MON_VER, Ublox.UBX_CLASS_RXM, Ublox.UBX_CLASS_ACK]
    split_ifs <;> first | rfl | (exfalso; simp_all)
  simp [hp]

theorem ubxFrame_length (cls id lenLo lenHi : Byte) (payload : QByteArray) (ckA ckB : Byte) :
    (ubxFrame cls id lenLo lenHi payload ckA ckB).length = payload.length + 8 := by
  simp [ubxFrame]

theorem ubxFrame_header (cls id lenLo lenHi : Byte) (payload : QByteArray) (ckA ckB : Byte)
    (data : QByteArray)
    (hd : ∀ i, i < 6 → byteAt data i = byteAt (ubxFrame cls id lenLo lenHi payload ckA ckB) i) :
    byteAt data 0 = 0xB5 ∧ byteAt data 1 = 0x62 ∧ byteAt data 2 = cls.val ∧
    byteAt data 3 = id.val ∧ byteAt data 4 = lenLo.val ∧ byteAt data 5 = lenHi.val := by
  refine ⟨?_, ?_, ?_, ?_, ?_, ?_⟩ <;>
    (rw [hd _ (by omega)]; simp [ubxFrame, byteAt]) <;> rfl

/-! ## Goldfish decoder: framing -/

theorem goldfish_decodePacket_bytes (s : Goldfish.GoldfishDecoder) (data : QByteArray) :
    (Goldfish.decodePacket s data).bytesProcessed ≤ data.length ∧
    ((Goldfish.decodePacket s data).ok = true →
      (Goldfish.decodePacket s data).bytesProcessed
        = 4 + (byteAt data 2 * 16 + byteAt data 3 / 16) + 2) := by
  unfold Goldfish.decodePacket
  cases h : Goldfish.findNextPacket data 0 with
  | none => simp
  | some k =>
    obtain ⟨_, _, hk, _⟩ := scanFrom_some _ _ _ h
    simp only [Goldfish.GOLDFISH_HEADER_LEN, Goldfish.GOLDFISH_CHECKSUM_LEN,
      len12_eq _ _ (byteAt_lt _ _)]
    split_ifs <;> simp <;> omega

/-! ## RTCM3 decoder: framing -/

theorem rtcm3_lenAt_eq (data : QByteArray) (i : Nat) :
    Rtcm3.lenAt data i = (byteAt data (i + 1) % 4) * 256 + byteAt data (i + 2) := by
  unfold Rtcm3.lenAt
  have h := Nat.and_pow_two_sub_one_eq_mod (byteAt data (i + 1)) 2
  norm_num at h
  rw [h, shl_or _ _ 8 (by have := byteAt_lt data (i + 2); norm_num; omega)]
  norm_num

theorem rtcm3_lenAt_le (data : QByteArray) (i : Nat) : Rtcm3.lenAt data i ≤ 1023 := by
  rw [rtcm3_lenAt_eq]
  have := byteAt_lt data (i + 2)
  omega

theorem rtcm3_validateCrc_take (data : QByteArray) (L : Nat) (hlen : 3 + L + 3 ≤ data.length) :
    Rtcm3.validateCrc (data.take (3 + L + 3)) = true ↔
      Rtcm3.calculateCrc24q (data.take (3 + L)) =
        byteAt data (3 + L) * 65536 + byteAt data (4 + L) * 256 + byteAt data (5 + L) := by
  have hl : (data.take (3 + L + 3)).length = 3 + L + 3 := by
    rw [List.length_take]; omega
  unfold Rtcm3.validateCrc
  simp only [hl, Rtcm3.RTCM3_HEADER_LEN, Rtcm3.RTCM3_CRC_LEN]
  have h1 : ¬ (3 + L + 3 < 3 + 3) := by omega
  simp only [h1, if_false]
  have e1 : 3 + L + 3 - 3 = 3 + L := by omega
  have e3 : 3 + L + 1 = 4 + L := by omega
  have e4 : 3 + L + 2 = 5 + L := by omega
  rw [e1, e3, e4, byteAt_take _ _ _ (by omega), byteAt_take _ _ _ (by omega),
    byteAt_take _ _ _ (by omega), List.take_take]
  have e5 : min (3 + L) (3 + L + 3) = 3 + L := by omega
  rw [e5, be24_eq _ _ _ (byteAt_lt _ _) (byteAt_lt _ _)]
  simp

theorem rtcm3_parseMessage_keeps (ub : Nat → Nat → Nat) (s : Rtcm3.Rtcm3Decoder)
    (data : QByteArray) :
    (Rtcm3.parseMessage ub s data).2.m_lastMessage.valid = s.m_lastMessage.valid ∧
    (Rtcm3.parseMessage ub s data).2.m_totalMessages = s.m_totalMessages ∧
    (Rtcm3.parseMessage ub s data).2.m_messageStats = s.m_messageStats := by
  unfold Rtcm3.parseMessage Rtcm3.parseStationInfo Rtcm3.parseTextMessage
  dsimp only
  split_ifs <;> simp

theorem rtcm3_decodeFrame_valid (ub : Nat → Nat → Nat) (s : Rtcm3.Rtcm3Decoder)
    (data : QByteArray) :
    (Rtcm3.decodeFrame ub s data).state.m_lastMessage.valid = (Rtcm3.decodeFrame ub s data).ok ∧
    ((Rtcm3.decodeFrame ub s data).ok = true → Rtcm3FrameAtStart data) := by
  unfold Rtcm3.decodeFrame
  cases h : Rtcm3.findNextFrame data 0 with
  | none => simp
  | some k =>
    obtain ⟨hk, _, _, _⟩ := scanFrom_some _ _ _ h
    have hL := rtcm3_lenAt_eq data 0
    simp only [Rtcm3.lenAt, Nat.zero_add] at hL
    simp only [Rtcm3.RTCM3_HEADER_LEN, Rtcm3.RTCM3_CRC_LEN, hL]
    by_cases hk0 : k > 0
    · simp [hk0]
    · have hk0' : k = 0 := by omega
      subst hk0'
      simp only [gt_iff_lt, lt_self_iff_false, if_false]
      by_cases h6 : data.length < 3
      · simp [h6]
      · simp only [h6, if_false]
        by_cases hw : data.length < 3 + ((byteAt data 1 % 4) * 256 + byteAt data 2) + 3
        · simp [hw]
        · simp only [hw, if_false]
          by_cases hv : Rtcm3.validateCrc
              (data.take (3 + ((byteAt data 1 % 4) * 256 + byteAt data 2) + 3)) = true
          · simp only [hv, Bool.not_true, Bool.false_eq_true, if_false]
            split_ifs with hp
            · refine ⟨rfl, fun _ => ?_⟩
              simp only [Rtcm3.frameAt, Bool.and_eq_true, beq_iff_eq, decide_eq_true_eq] at hk
              refine ⟨hk.1.1, by omega, ?_⟩
              exact (rtcm3_validateCrc_take data _ (by omega)).1 hv
            · simp [(rtcm3_parseMessage_keeps _ _ _).1]
          · simp [hv]

theorem rtcm3_decodeFrame_bytes (ub : Nat → Nat → Nat) (s : Rtcm3.Rtcm3Decoder)
    (data : QByteArray) :
    (Rtcm3.decodeFrame ub s data).bytesProcessed ≤ data.length ∧
    ((Rtcm3.decodeFrame ub s data).ok = true →
      (Rtcm3.decodeFrame ub s data).bytesProcessed
        = 3 + ((byteAt data 1 % 4) * 256 + byteAt data 2) + 3) := by
  unfold Rtcm3.decodeFrame
  cases h : Rtcm3.findNextFrame data 0 with
  | none => simp
  | some k =>
    obtain ⟨_, _, hk, _⟩ := scanFrom_some _ _ _ h
    have hL := rtcm3_lenAt_eq data 0
    simp only [Rtcm3.lenAt, Nat.zero_add] at hL
    simp only [Rtcm3.RTCM3_HEADER_LEN, Rtcm3.RTCM3_CRC_LEN, hL]
    split_ifs <;> simp <;> omega

/-! ## Claims on the binary frame decoders -/

/-- Claim C1. For every buffer and every prior decoder state, after
`UbloxDecoder::decodePacket`, `AllystarDecoder::decodePacket` and
`Rtcm3Decoder::decodeFrame` the valid flag of the last-frame descriptor equals
the returned boolean, and the call returns true only if the buffer starts at
offset 0 with a complete frame (header, declared payload length, checksum or
CRC bytes) whose trailing Fletcher-8 pair, respectively big-endian CRC-24Q,
equals the value computed from the data. -/
theorem valid_flag_only_for_checked_frame (data : QByteArray) :
    (∀ s : Ublox.UbloxDecoder,
      (Ublox.decodePacket s data).state.m_lastPacket.valid = (Ublox.decodePacket s data).ok ∧
      ((Ublox.decodePacket s data).ok = true → UbxFamilyFrameAtStart 0xB5 0x62 data)) ∧
    (∀ s : Allystar.AllystarDecoder,
      (Allystar.decodePacket s data).state.m_lastPacket.valid
        = (Allystar.decodePacket s data).ok ∧
      ((Allystar.decodePacket s data).ok = true → UbxFamilyFrameAtStart 0xF1 0xD9 data)) ∧
    (∀ (ub : Nat → Nat → Nat) (s : Rtcm3.Rtcm3Decoder),
      (Rtcm3.decodeFrame ub s data).state.m_lastMessage.valid
        = (Rtcm3.decodeFrame ub s data).ok ∧
      ((Rtcm3.decodeFrame ub s data).ok = true → Rtcm3FrameAtStart data)) :=
  ⟨fun s => ublox_decodePacket_valid s data, fun s => allystar_decodePacket_valid s data,
    fun ub s => rtcm3_decodeFrame_valid ub s data⟩

/-- Claim C4. Let `F = B5 62 cls id lenLo lenHi payload ckA ckB` be a UBX frame
whose payload has the declared length `lenLo + 256 * lenHi <= 4096`, whose
checksum bytes are the Fletcher-8 pair over class .. end of payload, and which
is neither a NAV-PVT shorter than 92 bytes nor a MON-VER shorter than 40. Then
`decodePacket` on the first `k` bytes of `F`, `6 <= k < L + 8`, returns false
with `bytesProcessed = 0` and unchanged statistics, and on `F` followed by any
bytes it returns true with `bytesProcessed = L + 8`. -/
theorem ubx_incremental_buffering (s : Ublox.UbloxDecoder) (cls id lenLo lenHi : Byte)
    (payload : QByteArray) (ckA ckB : Byte)
    (hlen : payload.length = lenLo.val + 256 * lenHi.val)
    (hmax : payload.length ≤ 4096)
    (hck : calculateChecksum ([cls, id, lenLo, lenHi] ++ payload) = (ckA.val, ckB.val))
    (hpvt : ¬ (cls.val = 0x01 ∧ id.val = 0x07 ∧ payload.length < 92))
    (hver : ¬ (cls.val = 0x0A ∧ id.val = 0x04 ∧ payload.length < 40)) :
    (∀ k, 6 ≤ k → k < payload.length + 8 →
      (Ublox.decodePacket s ((ubxFrame cls id lenLo lenHi payload ckA ckB).take k)).ok = false ∧
      (Ublox.decodePacket s
        ((ubxFrame cls id lenLo lenHi payload ckA ckB).take k)).bytesProcessed = 0 ∧
      (Ublox.decodePacket s
        ((ubxFrame cls id lenLo lenHi payload ckA ckB).take k)).state.m_totalPackets
          = s.m_totalPackets ∧
      (Ublox.decodePacket s
        ((ubxFrame cls id lenLo lenHi payload ckA ckB).take k)).state.m_packetStats
          = s.m_packetStats) ∧
    (∀ rest : QByteArray,
      (Ublox.decodePacket s (ubxFrame cls id lenLo lenHi payload ckA ckB ++ rest)).ok = true ∧
      (Ublox.decodePacket s
        (ubxFrame cls id lenLo lenHi payload ckA ckB ++ rest)).bytesProcessed
          = payload.length + 8) := by
  constructor
  · intro k hk6 hk
    have hl := ubxFrame_length cls id lenLo lenHi payload ckA ckB
    obtain ⟨h0, h1, _, _, h4, h5⟩ := ubxFrame_header cls id lenLo lenHi payload ckA ckB
      ((ubxFrame cls id lenLo lenHi payload ckA ckB).take k)
      (fun i hi => byteAt_take _ _ _ (by omega))
    have hkl : ((ubxFrame cls id lenLo lenHi payload ckA ckB).take k).length = k := by
      rw [List.length_take]; omega
    apply ublox_decodePacket_wait s _ h0 h1
    · omega
    · rw [h4, h5]; omega
    · rw [h4, h5]; omega
  · intro rest
    have hl := ubxFrame_length cls id lenLo lenHi payload ckA ckB
    obtain ⟨h0, h1, h2, h3, h4, h5⟩ := ubxFrame_header cls id lenLo lenHi payload ckA ckB
      (ubxFrame cls id lenLo lenHi payload ckA ckB ++ rest)
      (fun i hi => byteAt_append_left _ _ _ (by omega))
    have hL : byteAt (ubxFrame cls id lenLo lenHi payload ckA ckB ++ rest) 4 +
        256 * byteAt (ubxFrame cls id lenLo lenHi payload ckA ckB ++ rest) 5
          = payload.length := by
      rw [h4, h5]; omega
    have hacc := ublox_decodePacket_accept s
      (ubxFrame cls id lenLo lenHi payload ckA ckB ++ rest) h0 h1
      (by rw [hL]; exact hmax) (by rw [hL, List.length_append]; omega)
      (by
        rw [hL]
        have e1 : (ubxFrame cls id lenLo lenHi payload ckA ckB ++ rest).drop 2
            = ([cls, id, lenLo, lenHi] ++ payload) ++ ([ckA, ckB] ++ rest) := by
          simp [ubxFrame]
        have e2 : ([cls, id, lenLo, lenHi] ++ payload).length = 4 + payload.length := by
          simp; omega
        rw [e1, ← e2, List.take_left]
        have e3 : ubxFrame cls id lenLo lenHi payload ckA ckB ++ rest
            = ([0xB5, 0x62, cls, id, lenLo, lenHi] ++ payload) ++ ([ckA, ckB] ++ rest) := by
          simp [ubxFrame]
        have e4 : ([(0xB5 : Byte), 0x62, cls, id, lenLo, lenHi] ++ payload).length
            = 6 + payload.length := by simp; omega
        have e5 : 7 + payload.length
            = ([(0xB5 : Byte), 0x62, cls, id, lenLo, lenHi] ++ payload).length + 1 := by omega
        rw [hck, e3, e5, byteAt_append_right, ← e4, ← Nat.add_zero (List.length _),
          byteAt_append_right]
        simp [byteAt])
      (by rw [hL, h2, h3]; exact hpvt) (by rw [hL, h2, h3]; exact hver)
    rw [hL] at hacc
    exact ⟨hacc.1, by rw [hacc.2]; omega⟩

/-- Claim C4 at the ACK-ACK frame `B5 62 05 01 02 00 06 01 0F 38`: its first 7
bytes are kept (`bytesProcessed = 0`), the whole frame is decoded with
`bytesProcessed = 10`. -/
theorem ubx_incremental_buffering_witness :
    ([0x06, 0x01] : QByteArray).length = (0x02 : Byte).val + 256 * (0x00 : Byte).val ∧
    calculateChecksum ([0x05, 0x01, 0x02, 0x00] ++ [0x06, 0x01])
      = ((0x0F : Byte).val, (0x38 : Byte).val) ∧
    (Ublox.decodePacket ubloxInit
      ((ubxFrame 0x05 0x01 0x02 0x00 [0x06, 0x01] 0x0F 0x38).take 7)).ok = false ∧
    (Ublox.decodePacket ubloxInit
      ((ubxFrame 0x05 0x01 0x02 0x00 [0x06, 0x01] 0x0F 0x38).take 7)).bytesProcessed = 0 ∧
    (Ublox.decodePacket ubloxInit
      (ubxFrame 0x05 0x01 0x02 0x00 [0x06, 0x01] 0x0F 0x38 ++ [])).ok = true ∧
    (Ublox.decodePacket ubloxInit
      (ubxFrame 0x05 0x01 0x02 0x00 [0x06, 0x01] 0x0F 0x38 ++ [])).bytesProcessed = 10 :=
  have h := ubx_incremental_buffering ubloxInit 0x05 0x01 0x02 0x00 [0x06, 0x01] 0x0F 0x38
    (by decide) (by decide) (by decide) (by decide) (by decide)
  ⟨by decide, by decide, (h.1 7 (by decide) (by decide)).1, (h.1 7 (by decide) (by decide)).2.1,
    (h.2 []).1, (h.2 []).2⟩

/-- Claim C5. For every buffer and every decoder state, each of
`UbloxDecoder::decodePacket`, `AllystarDecoder::decodePacket`,
`GoldfishDecoder::decodePacket` and `Rtcm3Decoder::decodeFrame` leaves in
`bytesProcessed` a value that is at most the buffer length, and when the call
returns true that value is the full frame size (header + declared length +
checksum bytes, hence positive). -/
theorem bytesProcessed_within_buffer (data : QByteArray) :
    (∀ s : Ublox.UbloxDecoder,
      (Ublox.decodePacket s data).bytesProcessed ≤ data.length ∧
      ((Ublox.decodePacket s data).ok = true →
        (Ublox.decodePacket s data).bytesProcessed
          = 6 + (byteAt data 4 + 256 * byteAt data 5) + 2 ∧
        0 < (Ublox.decodePacket s data).bytesProcessed)) ∧
    (∀ s : Allystar.AllystarDecoder,
      (Allystar.decodePacket s data).bytesProcessed ≤ data.length ∧
      ((Allystar.decodePacket s data).ok = true →
        (Allystar.decodePacket s data).bytesProcessed
          = 6 + (byteAt data 4 + 256 * byteAt data 5) + 2 ∧
        0 < (Allystar.decodePacket s data).bytesProcessed)) ∧
    (∀ s : Goldfish.GoldfishDecoder,
      (Goldfish.decodePacket s data).bytesProcessed ≤ data.length ∧
      ((Goldfish.decodePacket s data).ok = true →
        (Goldfish.decodePacket s data).bytesProcessed
          = 4 + (byteAt data 2 * 16 + byteAt data 3 / 16) + 2 ∧
        0 < (Goldfish.decodePacket s data).bytesProcessed)) ∧
    (∀ (ub : Nat → Nat → Nat) (s : Rtcm3.Rtcm3Decoder),
      (Rtcm3.decodeFrame ub s data).bytesProcessed ≤ data.length ∧
      ((Rtcm3.decodeFrame ub s data).ok = true →
        (Rtcm3.decodeFrame ub s data).bytesProcessed
          = 3 + ((byteAt data 1 % 4) * 256 + byteAt data 2) + 3 ∧
        0 < (Rtcm3.decodeFrame ub s data).bytesProcessed)) := by
  refine ⟨fun s => ?_, fun s => ?_, fun s => ?_, fun ub s => ?_⟩
  · obtain ⟨h1, h2⟩ := ublox_decodePacket_bytes s data
    exact ⟨h1, fun h => ⟨h2 h, by rw [h2 h]; omega⟩⟩
  · obtain ⟨h1, h2⟩ := allystar_decodePacket_bytes s data
    exact ⟨h1, fun h => ⟨h2 h, by rw [h2 h]; omega⟩⟩
  · obtain ⟨h1, h2⟩ := goldfish_decodePacket_bytes s data
    exact ⟨h1, fun h => ⟨h2 h, by rw [h2 h]; omega⟩⟩
  · obtain ⟨h1, h2⟩ := rtcm3_decodeFrame_bytes ub s data
    exact ⟨h1, fun h => ⟨h2 h, by rw [h2 h]; omega⟩⟩

/-- Claim C8, as the code behaves: a buffer holding only the start of a UBX
header, here the five bytes `B5 62 01 07 5C`, is not kept. `findNextPacket`
accepts a sync position only with the whole header buffered and so returns
`-1`; `decodePacket` answers false with `bytesProcessed = 5`, the whole
buffer, for every decoder state. -/
theorem ubx_partial_header_is_discarded (s : Ublox.UbloxDecoder) :
    byteAt [0xB5, 0x62, 0x01, 0x07, 0x5C] 0 = 0xB5 ∧
    byteAt [0xB5, 0x62, 0x01, 0x07, 0x5C] 1 = 0x62 ∧
    (Ublox.decodePacket s [0xB5, 0x62, 0x01, 0x07, 0x5C]).ok = false ∧
    (Ublox.decodePacket s [0xB5, 0x62, 0x01, 0x07, 0x5C]).bytesProcessed = 5 :=
  ⟨by decide, by decide, (ublox_decodePacket_short s _ (by decide)).1,
    (ublox_decodePacket_short s _ (by decide)).2⟩

/-! ## CRC-24Q as a remainder over GF(2) -/

theorem gf2Mul_zero (p : Nat) : gf2Mul 0 p = 0 := by
  rw [gf2Mul]; simp

theorem two_mul_xor (a b : Nat) : 2 * (a ^^^ b) = (2 * a) ^^^ (2 * b) := by
  apply Nat.eq_of_testBit_eq
  intro j
  have h := fun x => @Nat.testBit_mul_pow_two 1 x j
  simp only [pow_one] at h
  simp only [Nat.testBit_xor, h]
  by_cases hj : j ≥ 1 <;> simp [hj]

theorem gf2Mul_bit (q p : Nat) :
    gf2Mul q p = (if q % 2 = 1 then p else 0) ^^^ (2 * gf2Mul (q / 2) p) := by
  by_cases hq : q = 0
  · subst hq; simp [gf2Mul_zero]
  · rw [gf2Mul]; simp [hq]

theorem gf2Mul_double (q p : Nat) : gf2Mul (2 * q) p = 2 * gf2Mul q p := by
  rw [gf2Mul_bit]
  have h2 : 2 * q % 2 = 0 := by omega
  have h3 : 2 * q / 2 = q := by omega
  simp [h2, h3]

theorem gf2Mul_double_succ (q p : Nat) : gf2Mul (2 * q + 1) p = p ^^^ (2 * gf2Mul q p) := by
  rw [gf2Mul_bit]
  have h2 : (2 * q + 1) % 2 = 1 := by omega
  have h3 : (2 * q + 1) / 2 = q := by omega
  simp [h2, h3]

theorem xor_mod_two (a b : Nat) : (a ^^^ b) % 2 = (a % 2 + b % 2) % 2 := by
  have h := Nat.testBit_xor a b 0
  simp only [Nat.testBit_zero] at h
  rcases Nat.mod_two_eq_zero_or_one a with ha | ha <;>
    rcases Nat.mod_two_eq_zero_or_one b with hb | hb <;>
    rcases Nat.mod_two_eq_zero_or_one (a ^^^ b) with hab | hab <;>
    simp [ha, hb, hab] at h ⊢

theorem xor_div_two (a b : Nat) : (a ^^^ b) / 2 = (a / 2) ^^^ (b / 2) := by
  apply Nat.eq_of_testBit_eq
  intro j
  simp only [Nat.testBit_xor, ← Nat.shiftRight_one, Nat.testBit_shiftRight]

theorem gf2Mul_xor (p : Nat) : ∀ (n a b : Nat), a + b ≤ n →
    gf2Mul (a ^^^ b) p = gf2Mul a p ^^^ gf2Mul b p := by
  intro n
  induction n with
  | zero =>
    intro a b h
    have ha : a = 0 := by omega
    have hb : b = 0 := by omega
    subst ha; subst hb
    simp [gf2Mul_zero]
  | succ n ih =>
    intro a b h
    by_cases hz : a = 0 ∧ b = 0
    · obtain ⟨ha, hb⟩ := hz
      subst ha; subst hb
      simp [gf2Mul_zero]
    · have hrec := ih (a / 2) (b / 2) (by omega)
      rw [gf2Mul_bit (a ^^^ b), gf2Mul_bit a, gf2Mul_bit b, xor_div_two, hrec, two_mul_xor,
        xor_mod_two]
      generalize 2 * gf2Mul (a / 2) p = x
      generalize 2 * gf2Mul (b / 2) p = y
      rcases Nat.mod_two_eq_zero_or_one a with ha | ha <;>
        rcases Nat.mod_two_eq_zero_or_one b with hb | hb <;>
        simp only [ha, hb] <;> norm_num <;>
        (apply Nat.eq_of_testBit_eq; intro j; simp only [Nat.testBit_xor];
         cases p.testBit j <;> cases x.testBit j <;> cases y.testBit j <;> rfl)

theorem xor_top_bit (a b n : Nat) (ha1 : 2 ^ n ≤ a) (ha2 : a < 2 ^ (n + 1)) (hb : b < 2 ^ n) :
    2 ^ n ≤ b ^^^ a ∧ b ^^^ a < 2 ^ (n + 1) := by
  constructor
  · apply Nat.testBit_implies_ge
    rw [Nat.testBit_xor, Nat.testBit_lt_two_pow hb]
    have : a.testBit n = true := by
      rw [Nat.testBit_to_div_mod]
      simp only [decide_eq_true_eq]
      have h1 : a / 2 ^ n = 1 := by
        apply Nat.div_eq_of_lt_le
        · simpa using ha1
        · rw [pow_succ] at ha2; omega
      rw [h1]
    simp [this]
  · exact Nat.xor_lt_two_pow (lt_of_lt_of_le hb (Nat.pow_le_pow_of_le_right Nat.zero_lt_two (by omega))) ha2

theorem gf2Mul_degree (p d : Nat) (hp1 : 2 ^ d ≤ p) (hp2 : p < 2 ^ (d + 1)) :
    ∀ (n q : Nat), q ≤ n → q ≠ 0 → ∃ k, 2 ^ (d + k) ≤ gf2Mul q p ∧ gf2Mul q p < 2 ^ (d + k + 1) := by
  intro n
  induction n with
  | zero => intro q h1 h2; omega
  | succ n ih =>
    intro q h1 h2
    rw [gf2Mul_bit]
    by_cases hq : q / 2 = 0
    · have hq1 : q = 1 := by omega
      subst hq1
      refine ⟨0, ?_⟩
      simp [gf2Mul_zero, hp1, hp2]
    · obtain ⟨k, hk1, hk2⟩ := ih (q / 2) (by omega) hq
      refine ⟨k + 1, ?_⟩
      have e1 : 2 ^ (d + (k + 1)) = 2 * 2 ^ (d + k) := by rw [← Nat.add_assoc, pow_succ]; ring
      have e2 : 2 ^ (d + (k + 1) + 1) = 2 * 2 ^ (d + k + 1) := by
        rw [pow_succ (n := d + (k + 1))]
        rw [show d + (k + 1) = d + k + 1 by omega]; ring
      have hb : (if q % 2 = 1 then p else 0) < 2 ^ (d + (k + 1)) := by
        have : 2 ^ (d + 1) ≤ 2 ^ (d + (k + 1)) := Nat.pow_le_pow_of_le_right Nat.zero_lt_two (by omega)
        split_ifs <;> omega
      exact xor_top_bit _ _ _ (by omega) (by omega) hb

theorem gf2_remainder_unique (p d : Nat) (hp1 : 2 ^ d ≤ p) (hp2 : p < 2 ^ (d + 1))
    (q q' r r' : Nat) (hr : r < 2 ^ d) (hr' : r' < 2 ^ d)
    (h : gf2Mul q p ^^^ r = gf2Mul q' p ^^^ r') : r = r' := by
  have hx : gf2Mul (q ^^^ q') p = r ^^^ r' := by
    rw [gf2Mul_xor p (q + q') q q' le_rfl]
    have h2 : (gf2Mul q p ^^^ r) ^^^ (gf2Mul q' p ^^^ r) = (gf2Mul q' p ^^^ r') ^^^ (gf2Mul q' p ^^^ r) := by
      rw [h]
    generalize gf2Mul q p = x at h2 ⊢
    generalize gf2Mul q' p = y at h2 ⊢
    apply Nat.eq_of_testBit_eq
    intro j
    have h3 := congrArg (fun z => Nat.testBit z j) h2
    simp only [Nat.testBit_xor] at h3 ⊢
    revert h3
    cases x.testBit j <;> cases y.testBit j <;> cases r.testBit j <;> cases r'.testBit j <;> simp
  have hlt : r ^^^ r' < 2 ^ d := Nat.xor_lt_two_pow hr hr'
  by_cases hq : q ^^^ q' = 0
  · rw [hq, gf2Mul_zero] at hx
    apply Nat.eq_of_testBit_eq
    intro j
    have h3 := congrArg (fun z => Nat.testBit z j) hx
    simp only [Nat.testBit_xor, Nat.zero_testBit] at h3
    revert h3
    cases r.testBit j <;> cases r'.testBit j <;> simp
  · obtain ⟨k, hk1, _⟩ := gf2Mul_degree p d hp1 hp2 _ _ le_rfl hq
    rw [hx] at hk1
    have : 2 ^ d ≤ 2 ^ (d + k) := Nat.pow_le_pow_of_le_right Nat.zero_lt_two (by omega)
    omega

theorem mul_add_lt_is_xor {b i : Nat} (b_lt : b < 2 ^ i) (a : Nat) :
    2 ^ i * a + b = (2 ^ i * a) ^^^ b := by
  apply Nat.eq_of_testBit_eq
  intro j
  simp only [Nat.testBit_mul_pow_two_add _ b_lt, Nat.testBit_xor, Nat.testBit_mul_pow_two]
  by_cases j_lt : j < i
  · simp [Nat.not_le_of_lt, j_lt]
  · have i_le : i ≤ j := Nat.le_of_not_lt j_lt
    have b_lt_j : b < 2 ^ j :=
      lt_of_lt_of_le b_lt (Nat.pow_le_pow_of_le_right Nat.zero_lt_two i_le)
    simp [i_le, j_lt, Nat.testBit_lt_two_pow, b_lt_j]

theorem crcShift_step (c q A : Nat) (hc : c < 2 ^ 24) (hA : gf2Mul q Rtcm3.CRC24Q_POLY ^^^ c = A) :
    Rtcm3.crcShift c < 2 ^ 24 ∧ ∃ q', gf2Mul q' Rtcm3.CRC24Q_POLY ^^^ Rtcm3.crcShift c = 2 * A := by
  have h1 : (c <<< 1) % 2 ^ 32 = 2 * c := by
    rw [Nat.shiftLeft_eq, Nat.mod_eq_of_lt (by omega)]; omega
  unfold Rtcm3.crcShift
  simp only [h1]
  have hand : (2 * c) &&& 0x1000000 ≠ 0 ↔ 2 ^ 24 ≤ 2 * c := by
    have ht : (2 * c).testBit 24 = true ↔ 2 ^ 24 ≤ 2 * c := by
      rw [Nat.testBit_to_div_mod]
      simp only [decide_eq_true_eq]
      omega
    rw [← ht]
    have : (0x1000000 : Nat) = 2 ^ 24 := by norm_num
    rw [this, Nat.and_two_pow]
    by_cases hb : (2 * c).testBit 24 <;> simp [hb]
  by_cases hb : 2 ^ 24 ≤ 2 * c
  · have hb' : (2 * c) &&& 0x1000000 ≠ 0 := hand.2 hb
    simp only [hb', ne_eq, not_false_eq_true, if_true]
    constructor
    · apply Nat.lt_pow_two_of_testBit
      intro i hi
      rw [Nat.testBit_xor]
      by_cases h24 : i = 24
      · subst h24
        have t1 : (2 * c).testBit 24 = true := by
          rw [Nat.testBit_to_div_mod]; simp only [decide_eq_true_eq]; omega
        have t2 : Rtcm3.CRC24Q_POLY.testBit 24 = true := by decide
        simp [t1, t2]
      · have hi' : 25 ≤ i := by omega
        have p25 : (2 : Nat) ^ 25 ≤ 2 ^ i := Nat.pow_le_pow_of_le_right Nat.zero_lt_two hi'
        have t1 : (2 * c).testBit i = false := Nat.testBit_lt_two_pow (by omega)
        have t2 : Rtcm3.CRC24Q_POLY.testBit i = false :=
          Nat.testBit_lt_two_pow (lt_of_lt_of_le (by decide) p25)
        simp [t1, t2]
    · refine ⟨2 * q + 1, ?_⟩
      rw [gf2Mul_double_succ, ← hA, two_mul_xor]
      generalize gf2Mul q Rtcm3.CRC24Q_POLY = m
      apply Nat.eq_of_testBit_eq
      intro j
      simp only [Nat.testBit_xor]
      cases Rtcm3.CRC24Q_POLY.testBit j <;> cases (2 * m).testBit j <;> cases (2 * c).testBit j <;> rfl
  · have hb' : ¬ ((2 * c) &&& 0x1000000 ≠ 0) := fun h => hb (hand.1 h)
    simp only [hb', if_false]
    refine ⟨by omega, 2 * q, ?_⟩
    rw [gf2Mul_double, ← hA, two_mul_xor]

theorem crcShift_iterate (n : Nat) : ∀ (c q A : Nat), c < 2 ^ 24 →
    gf2Mul q Rtcm3.CRC24Q_POLY ^^^ c = A →
    Rtcm3.crcShift^[n] c < 2 ^ 24 ∧ ∃ q', gf2Mul q' Rtcm3.CRC24Q_POLY ^^^ Rtcm3.crcShift^[n] c = 2 ^ n * A := by
  induction n with
  | zero => intro c q A hc hA; exact ⟨hc, q, by simpa using hA⟩
  | succ n ih =>
    intro c q A hc hA
    obtain ⟨h1, q1, hq1⟩ := crcShift_step c q A hc hA
    obtain ⟨h2, q2, hq2⟩ := ih (Rtcm3.crcShift c) q1 (2 * A) h1 hq1
    rw [Function.iterate_succ_apply]
    exact ⟨h2, q2, by rw [hq2]; ring⟩

theorem xor_assoc_swap (m c d : Nat) : m ^^^ (c ^^^ d) = (m ^^^ c) ^^^ d := by
  rw [Nat.xor_assoc]

theorem crcByte_step (c q M : Nat) (b : Byte) (hc : c < 2 ^ 24)
    (hM : gf2Mul q Rtcm3.CRC24Q_POLY ^^^ c = M * 2 ^ 24) :
    Rtcm3.crcByte c b < 2 ^ 24 ∧
    ∃ q', gf2Mul q' Rtcm3.CRC24Q_POLY ^^^ Rtcm3.crcByte c b = (M * 256 + b.val) * 2 ^ 24 := by
  have hb : b.val < 256 := b.isLt
  have hb16 : b.val <<< 16 < 2 ^ 24 := by rw [Nat.shiftLeft_eq]; omega
  have hc0 : c ^^^ (b.val <<< 16) < 2 ^ 24 := Nat.xor_lt_two_pow hc hb16
  have hA : gf2Mul q Rtcm3.CRC24Q_POLY ^^^ (c ^^^ (b.val <<< 16)) = (M * 2 ^ 24) ^^^ (b.val <<< 16) := by
    rw [xor_assoc_swap, hM]
  obtain ⟨h1, q', hq'⟩ := crcShift_iterate 8 _ q _ hc0 hA
  refine ⟨h1, q', ?_⟩
  unfold Rtcm3.crcByte
  rw [hq']
  have e1 : (M * 2 ^ 24) ^^^ (b.val <<< 16) = 2 ^ 16 * (M * 256 + b.val) := by
    have e2 : M * 2 ^ 24 = 2 ^ 24 * M := by ring
    have e3 : b.val <<< 16 = b.val * 2 ^ 16 := Nat.shiftLeft_eq _ _
    rw [e2, e3, ← mul_add_lt_is_xor (by omega)]
    ring
  rw [e1]; ring

theorem crc_register (data : QByteArray) :
    data.foldl Rtcm3.crcByte 0 < 2 ^ 24 ∧
    ∃ q, gf2Mul q Rtcm3.CRC24Q_POLY ^^^ data.foldl Rtcm3.crcByte 0 = msgPoly data * 2 ^ 24 := by
  induction data using List.reverseRecOn with
  | nil => exact ⟨by norm_num, 0, by simp [gf2Mul_zero, msgPoly]⟩
  | append_singleton data b ih =>
    obtain ⟨h1, q, hq⟩ := ih
    have := crcByte_step _ q _ b h1 hq
    simpa [List.foldl_append, msgPoly] using this

set_option maxRecDepth 100000 in
theorem crc24q_check_value :
    Rtcm3.calculateCrc24q [0x31, 0x32, 0x33, 0x34, 0x35, 0x36, 0x37, 0x38, 0x39] = 0xCDE703 := by
  decide

/-- Claim C6. For every byte sequence `calculateCrc24q` is the remainder of
`data(x) * x ^ 24` modulo the polynomial `0x1864CFB` over GF(2): it is below
`2 ^ 24` (degree below 24), some quotient `q` gives
`q * 0x1864CFB + crc = data(x) * x ^ 24`, and no other value below `2 ^ 24` has
such a quotient. For the nine ASCII bytes `123456789` it is `0xCDE703`. -/
theorem crc24q_is_gf2_remainder :
    (∀ data : QByteArray,
      Rtcm3.calculateCrc24q data < 2 ^ 24 ∧
      (∃ q, gf2Mul q 0x1864CFB ^^^ Rtcm3.calculateCrc24q data = msgPoly data * 2 ^ 24) ∧
      (∀ q r, r < 2 ^ 24 → gf2Mul q 0x1864CFB ^^^ r = msgPoly data * 2 ^ 24 →
        r = Rtcm3.calculateCrc24q data)) ∧
    Rtcm3.calculateCrc24q [0x31, 0x32, 0x33, 0x34, 0x35, 0x36, 0x37, 0x38, 0x39] = 0xCDE703 := by
  refine ⟨fun data => ?_, crc24q_check_value⟩
  obtain ⟨h1, q, hq⟩ := crc_register data
  have hm : Rtcm3.calculateCrc24q data = data.foldl Rtcm3.crcByte 0 := by
    unfold Rtcm3.calculateCrc24q
    have h := Nat.and_pow_two_sub_one_of_lt_two_pow h1
    norm_num at h
    exact h
  rw [hm]
  have hq' : gf2Mul q 0x1864CFB ^^^ data.foldl Rtcm3.crcByte 0 = msgPoly data * 2 ^ 24 := hq
  refine ⟨h1, ⟨q, hq'⟩, fun q2 r hr h => ?_⟩
  exact gf2_remainder_unique 0x1864CFB 24 (by norm_num) (by norm_num) q2 q r _ hr h1
    (by rw [h, hq'])

/-! ## RTCM3 station coordinates -/

theorem toInt32_lt (u : Nat) : toInt32 u < 2 ^ 31 := by
  unfold toInt32
  have := Nat.mod_lt u (by norm_num : 0 < 2 ^ 32)
  split_ifs with h
  · exact_mod_cast h
  · omega

theorem getbits_lt (ub : Nat → Nat → Nat) (buff : QByteArray) (pos len : Nat) :
    Rtcm3.getbits ub buff pos len < 2 ^ 31 := by
  unfold Rtcm3.getbits
  dsimp only
  split_ifs <;> exact toInt32_lt _

set_option maxRecDepth 100000 in
theorem stationPayload_field : stationPayload.length = 20 ∧
    Rtcm3.getbitu stationPayload 0 12 = 1005 ∧ signedField stationPayload 40 38 = 2 ^ 31 := by
  decide

set_option maxRecDepth 100000 in
theorem stationPayload_masked (s : Rtcm3.Rtcm3Decoder) :
    (Rtcm3.parseStationInfo Rtcm3.maskedShl s stationPayload 1005).2.m_stationInfo.ecefX
      = -214748.3648 := by
  have h : Rtcm3.getbits Rtcm3.maskedShl stationPayload 40 38 = -2147483648 := by decide
  have hl : ¬ stationPayload.length < 20 := by decide
  unfold Rtcm3.parseStationInfo
  simp only [hl, if_false, Nat.reduceAdd, h]
  norm_num

/-- Claim C9, as the code behaves. `getbits` returns an `int32_t`, so a 38-bit
coordinate is cut to 32 bits. For the 20-byte type 1005 payload
`stationPayload`, whose X field holds `2 ^ 31` (X = 214748.3648 m),
`parseStationInfo` succeeds and, whatever the machine does with the two
out-of-range shifts in `getbits`, the stored `ecefX` is not
`0.0001 * 2 ^ 31`; with the shift of x86-64 and AArch64 it is -214748.3648. -/
theorem station_ecef_truncated (ub : Nat → Nat → Nat) (s : Rtcm3.Rtcm3Decoder) :
    stationPayload.length = 20 ∧ Rtcm3.getbitu stationPayload 0 12 = 1005 ∧
    signedField stationPayload 40 38 = 2 ^ 31 ∧
    (Rtcm3.parseStationInfo ub s stationPayload 1005).1 = true ∧
    (Rtcm3.parseStationInfo ub s stationPayload 1005).2.m_stationInfo.ecefX
      ≠ 0.0001 * ((2 ^ 31 : Int) : ℚ) ∧
    (Rtcm3.parseStationInfo Rtcm3.maskedShl s stationPayload 1005).2.m_stationInfo.ecefX
      = -214748.3648 := by
  refine ⟨stationPayload_field.1, stationPayload_field.2.1, stationPayload_field.2.2, ?_, ?_,
    stationPayload_masked s⟩
  · have hl : ¬ stationPayload.length < 20 := by decide
    unfold Rtcm3.parseStationInfo
    simp [hl]
  · have hl : ¬ stationPayload.length < 20 := by decide
    have hb := getbits_lt ub stationPayload 40 38
    unfold Rtcm3.parseStationInfo
    simp only [hl, if_false, Nat.reduceAdd]
    intro h
    have h2 : ((Rtcm3.getbits ub stationPayload 40 38 : Int) : ℚ) = ((2 ^ 31 : Int) : ℚ) := by
      have h3 : (1005 : Nat) = 1006 ↔ False := by decide
      simp only [h3, false_and, if_false] at h
      have h4 : ((Rtcm3.getbits ub stationPayload 40 38 : Int) : ℚ) * 0.0001
          = 0.0001 * ((2 ^ 31 : Int) : ℚ) := h
      rw [mul_comm] at h4
      exact mul_left_cancel₀ (by norm_num) h4
    have h5 : Rtcm3.getbits ub stationPayload 40 38 = 2 ^ 31 := by exact_mod_cast h2
    omega

/-! ## NMEA parser -/

open Nmea Nmea.NmeaParseError

theorem nine_fields (data : List QString) (h : 9 ≤ data.length) :
    ∃ d0 d1 d2 d3 d4 d5 d6 d7 d8 rest, data = d0 :: d1 :: d2 :: d3 :: d4 :: d5 :: d6 :: d7 :: d8 :: rest := by
  rcases data with _ | ⟨d0, _ | ⟨d1, _ | ⟨d2, _ | ⟨d3, _ | ⟨d4, _ | ⟨d5, _ | ⟨d6, _ | ⟨d7, _ | ⟨d8, rest⟩⟩⟩⟩⟩⟩⟩⟩⟩ <;>
    simp at h
  exact ⟨d0, d1, d2, d3, d4, d5, d6, d7, d8, rest, rfl⟩

theorem rmcApplyFields_isSome (dt : QString → Option Int) (pos : GnssPosition)
    (data : List QString) (h : 9 ≤ data.length) :
    ∃ pos', rmcApplyFields dt pos data = some pos' := by
  obtain ⟨d0, d1, d2, d3, d4, d5, d6, d7, d8, rest, rfl⟩ := nine_fields data h
  simp [rmcApplyFields]

theorem parseGprmc_facts (dt : QString → Option Int) (p : NmeaParser) (data : List QString)
    (r : NmeaParseError) (p' : NmeaParser) (h : parseGprmc dt p data = some (r, p')) :
    (r = NMEA_PARSE_OK ∨ r = NMEA_PARSE_TOO_FEW_FIELDS) ∧
    (p'.m_haveGprmc = true ↔ (p.m_haveGprmc = true ∨ 9 ≤ data.length)) := by
  by_cases hl : data.length < 9
  · simp only [parseGprmc, hl, if_true] at h
    have h' : (NMEA_PARSE_TOO_FEW_FIELDS, p) = (r, p') := by simpa using h
    obtain ⟨rfl, rfl⟩ := Prod.mk.inj h'
    exact ⟨Or.inr rfl, by constructor <;> intro h <;> [exact Or.inl h; (rcases h with h | h <;> [exact h; omega])]⟩
  · obtain ⟨pos', hpos⟩ := rmcApplyFields_isSome dt p.m_gnssPosition data (by omega)
    simp only [parseGprmc, hl, if_false, hpos] at h
    simp at h
    obtain ⟨rfl, rfl⟩ := h
    exact ⟨Or.inl rfl, by constructor <;> intro _ <;> [exact Or.inr (by omega); rfl]⟩

theorem parseGpgga_facts (p : NmeaParser) (data : List QString)
    (r : NmeaParseError) (p' : NmeaParser) (h : parseGpgga p data = some (r, p')) :
    (r = NMEA_PARSE_OK ∨ r = NMEA_PARSE_TOO_FEW_FIELDS) ∧ p'.m_haveGprmc = p.m_haveGprmc := by
  by_cases hl : data.length < 6
  · simp only [parseGpgga, hl, if_true] at h
    have h' : (NMEA_PARSE_TOO_FEW_FIELDS, p) = (r, p') := by simpa using h
    obtain ⟨rfl, rfl⟩ := Prod.mk.inj h'
    exact ⟨Or.inr rfl, rfl⟩
  · rcases data with _ | ⟨d0, _ | ⟨d1, _ | ⟨d2, _ | ⟨d3, _ | ⟨d4, _ | ⟨d5, rest⟩⟩⟩⟩⟩⟩ <;>
      simp at hl
    simp only [parseGpgga] at h
    simp at h
    obtain ⟨rfl, rfl⟩ := h
    exact ⟨Or.inl rfl, rfl⟩

theorem parseGsv_facts (p : NmeaParser) (data : List QString) (system : Int) (signal : Char)
    (r : NmeaParseError) (p' : NmeaParser) (h : parseGsv p data system signal = some (r, p')) :
    r = NMEA_PARSE_OK ∧ p'.m_haveGprmc = p.m_haveGprmc := by
  simp only [parseGsv, bind, Option.bind_eq_some, pure] at h
  obtain ⟨sats, _, h⟩ := h
  simp at h
  obtain ⟨rfl, rfl⟩ := h
  exact ⟨rfl, rfl⟩

theorem parseGsa_facts (p : NmeaParser) (data : List QString) (defaultSystem : Int)
    (r : NmeaParseError) (p' : NmeaParser) (h : parseGsa p data defaultSystem = some (r, p')) :
    (r = NMEA_PARSE_OK ∨ r = NMEA_PARSE_TOO_FEW_FIELDS) ∧ p'.m_haveGprmc = p.m_haveGprmc := by
  by_cases hl : data.length < 17
  · simp only [parseGsa, hl, if_true] at h
    have h' : (NMEA_PARSE_TOO_FEW_FIELDS, p) = (r, p') := by simpa using h
    obtain ⟨rfl, rfl⟩ := Prod.mk.inj h'
    exact ⟨Or.inr rfl, rfl⟩
  · simp only [parseGsa, hl, if_false] at h
    cases h1 : data[1]? with
    | none => simp [h1] at h
    | some d1 =>
      simp [h1] at h
      obtain ⟨rfl, rfl⟩ := h
      exact ⟨Or.inl rfl, rfl⟩

theorem parseGngsa_facts (p : NmeaParser) (data : List QString)
    (r : NmeaParseError) (p' : NmeaParser) (h : parseGngsa p data = some (r, p')) :
    (r = NMEA_PARSE_OK ∨ r = NMEA_PARSE_TOO_FEW_FIELDS) ∧ p'.m_haveGprmc = p.m_haveGprmc := by
  unfold parseGngsa at h
  dsimp only at h
  split_ifs at h <;> exact parseGsa_facts _ _ _ _ _ h


theorem lookup_mem {α : Type} (l : List (String × α)) (k : String) (v : α)
    (h : l.lookup k = some v) : (k, v) ∈ l := by
  induction l with
  | nil => simp [List.lookup] at h
  | cons x xs ih =>
    obtain ⟨k', v'⟩ := x
    unfold List.lookup at h
    by_cases hk : k == k'
    · simp only [hk] at h
      have hk' : k = k' := by simpa using hk
      have hv : v' = v := by simpa using h
      subst hk'; subst hv
      exact List.mem_cons_self _ _
    · simp only [hk] at h
      exact List.mem_cons_of_mem _ (ih h)

theorem table_entry_facts (dt : QString → Option Int) (k : String)
    (handler : NmeaParser → List QString → Outcome)
    (hmem : (k, handler) ∈ m_nmeaHashMap dt) (p : NmeaParser) (data : List QString)
    (r : NmeaParseError) (p' : NmeaParser) (h : handler p data = some (r, p')) :
    (r = NMEA_PARSE_OK ∨ r = NMEA_PARSE_TOO_FEW_FIELDS) ∧
    (p'.m_haveGprmc = true ↔ (p.m_haveGprmc = true ∨ (isRmcTag k ∧ 9 ≤ data.length))) := by
  have gga : ∀ k', k = k' → ¬ isRmcTag k' → handler = parseGpgga → _ := fun k' hk hn hh => by
    subst hh; subst hk
    obtain ⟨h1, h2⟩ := parseGpgga_facts p data r p' h
    exact (⟨h1, by rw [h2]; simp [hn]⟩ :
      (r = NMEA_PARSE_OK ∨ r = NMEA_PARSE_TOO_FEW_FIELDS) ∧
      (p'.m_haveGprmc = true ↔ (p.m_haveGprmc = true ∨ (isRmcTag k ∧ 9 ≤ data.length))))
  have gsv : ∀ k' sys sig, k = k' → ¬ isRmcTag k' → handler = (fun p d => parseGsv p d sys sig) → _ :=
    fun k' sys sig hk hn hh => by
    subst hh; subst hk
    obtain ⟨h1, h2⟩ := parseGsv_facts p data sys sig r p' h
    exact (⟨Or.inl h1, by rw [h2]; simp [hn]⟩ :
      (r = NMEA_PARSE_OK ∨ r = NMEA_PARSE_TOO_FEW_FIELDS) ∧
      (p'.m_haveGprmc = true ↔ (p.m_haveGprmc = true ∨ (isRmcTag k ∧ 9 ≤ data.length))))
  have gsa : ∀ k' sys, k = k' → ¬ isRmcTag k' → handler = (fun p d => parseGsa p d sys) → _ :=
    fun k' sys hk hn hh => by
    subst hh; subst hk
    obtain ⟨h1, h2⟩ := parseGsa_facts p data sys r p' h
    exact (⟨h1, by rw [h2]; simp [hn]⟩ :
      (r = NMEA_PARSE_OK ∨ r = NMEA_PARSE_TOO_FEW_FIELDS) ∧
      (p'.m_haveGprmc = true ↔ (p.m_haveGprmc = true ∨ (isRmcTag k ∧ 9 ≤ data.length))))
  have gngsa : ∀ k', k = k' → ¬ isRmcTag k' → handler = parseGngsa → _ := fun k' hk hn hh => by
    subst hh; subst hk
    obtain ⟨h1, h2⟩ := parseGngsa_facts p data r p' h
    exact (⟨h1, by rw [h2]; simp [hn]⟩ :
      (r = NMEA_PARSE_OK ∨ r = NMEA_PARSE_TOO_FEW_FIELDS) ∧
      (p'.m_haveGprmc = true ↔ (p.m_haveGprmc = true ∨ (isRmcTag k ∧ 9 ≤ data.length))))
  have rmc : ∀ k', k = k' → isRmcTag k' → handler = parseGprmc dt → _ := fun k' hk hn hh => by
    subst hh; subst hk
    obtain ⟨h1, h2⟩ := parseGprmc_facts dt p data r p' h
    exact (⟨h1, by rw [h2]; simp [hn]⟩ :
      (r = NMEA_PARSE_OK ∨ r = NMEA_PARSE_TOO_FEW_FIELDS) ∧
      (p'.m_haveGprmc = true ↔ (p.m_haveGprmc = true ∨ (isRmcTag k ∧ 9 ≤ data.length))))
  simp only [m_nmeaHashMap, List.mem_cons, Prod.mk.injEq, List.mem_singleton, List.not_mem_nil,
    or_false] at hmem
  rcases hmem with ⟨hk, hh⟩ | ⟨hk, hh⟩ | ⟨hk, hh⟩ | ⟨hk, hh⟩ | ⟨hk, hh⟩ | ⟨hk, hh⟩ | ⟨hk, hh⟩ |
    ⟨hk, hh⟩ | ⟨hk, hh⟩ | ⟨hk, hh⟩ | ⟨hk, hh⟩ | ⟨hk, hh⟩ | ⟨hk, hh⟩ | ⟨hk, hh⟩ | ⟨hk, hh⟩ |
    ⟨hk, hh⟩ | ⟨hk, hh⟩ | ⟨hk, hh⟩ | ⟨hk, hh⟩ | ⟨hk, hh⟩
  · exact gga _ hk (by unfold isRmcTag; decide) hh
  · exact gga _ hk (by unfold isRmcTag; decide) hh
  · exact rmc _ hk (by unfold isRmcTag; decide) hh
  · exact rmc _ hk (by unfold isRmcTag; decide) hh
  · exact rmc _ hk (by unfold isRmcTag; decide) hh
  · exact gsv _ 1 '1' hk (by unfold isRmcTag; decide) hh
  · exact gsv _ 2 '1' hk (by unfold isRmcTag; decide) hh
  · exact gsv _ 5 '1' hk (by unfold isRmcTag; decide) hh
  · exact gsv _ 5 '1' hk (by unfold isRmcTag; decide) hh
  · exact gsv _ 4 '1' hk (by unfold isRmcTag; decide) hh
  · exact gsv _ 4 '1' hk (by unfold isRmcTag; decide) hh
  · exact gsv _ 3 '7' hk (by unfold isRmcTag; decide) hh
  · exact gsv _ 6 '5' hk (by unfold isRmcTag; decide) hh
  · exact gsv _ 6 '5' hk (by unfold isRmcTag; decide) hh
  · exact gsa _ 1 hk (by unfold isRmcTag; decide) hh
  · exact gsa _ 5 hk (by unfold isRmcTag; decide) hh
  · exact gsa _ 4 hk (by unfold isRmcTag; decide) hh
  · exact gsa _ 3 hk (by unfold isRmcTag; decide) hh
  · exact gngsa _ hk (by unfold isRmcTag; decide) hh
  · exact gsa _ 6 hk (by unfold isRmcTag; decide) hh


theorem parseNmeaSentence_facts (dt : QString → Option Int) (p : NmeaParser)
    (sentence : QString) (ignore : Bool) (r : NmeaParseError) (p' : NmeaParser)
    (h : parseNmeaSentence dt p sentence ignore = some (r, p')) :
    (p.m_haveGprmc = true → p'.m_haveGprmc = true) ∧
    (p'.m_haveGprmc = true → p.m_haveGprmc = true ∨ isRmcTag (sentenceTag sentence)) ∧
    (r = NMEA_PARSE_CHECKSUM_ERROR →
      (split '*' sentence).length = 2 ∧ checkSum sentence ignore = some false) ∧
    (checkSum sentence ignore = some false → (split '*' sentence).length = 2 →
      r = NMEA_PARSE_CHECKSUM_ERROR) := by
  unfold parseNmeaSentence at h
  by_cases hparts : (split '*' sentence).length ≠ 2
  · rw [if_pos hparts] at h
    simp at h
    obtain ⟨rfl, rfl⟩ := h
    exact ⟨id, Or.inl, by simp, fun _ h2 => absurd h2 hparts⟩
  · have hparts' : (split '*' sentence).length = 2 := by simpa using hparts
    rw [if_neg hparts] at h
    cases hcs : checkSum sentence ignore with
    | none => simp [hcs] at h
    | some sumOk =>
      cases sumOk with
      | false =>
        simp [hcs] at h
        obtain ⟨rfl, rfl⟩ := h
        exact ⟨id, Or.inl, fun _ => ⟨hparts', rfl⟩, fun _ _ => rfl⟩
      | true =>
        simp only [hcs, bind, Option.bind, Bool.not_true, Bool.false_eq_true, if_false] at h
        obtain ⟨part0, rest, hsplit⟩ : ∃ part0 rest, split '*' sentence = part0 :: rest := by
          cases hs : split '*' sentence with
          | nil => rw [hs] at hparts'; simp at hparts'
          | cons a b => exact ⟨a, b, rfl⟩
        simp only [hsplit, List.getElem?_cons_zero] at h
        by_cases hfl : (split ',' part0).length < 2
        · simp only [hfl, if_true] at h
          simp at h
          obtain ⟨rfl, rfl⟩ := h
          exact ⟨id, Or.inl, by simp, by simp⟩
        · simp only [hfl, if_false] at h
          cases hc1 : sentence[1]? with
          | none => simp [hc1] at h
          | some c1 =>
            simp only [hc1] at h
            by_cases hP : c1 = 'P'
            · simp only [hP, if_true] at h
              have hl : List.lookup (String.mk []) (m_nmeaHashMap dt) = none := by
                simp [m_nmeaHashMap, List.lookup]
              rw [hl] at h
              simp at h
              obtain ⟨rfl, rfl⟩ := h
              exact ⟨id, Or.inl, by simp, by simp⟩
            · simp only [hP, if_false] at h
              cases hl : List.lookup (String.mk ((split ',' part0).headD [])) (m_nmeaHashMap dt) with
              | none =>
                rw [hl] at h
                simp at h
                obtain ⟨rfl, rfl⟩ := h
                exact ⟨id, Or.inl, by simp, by simp⟩
              | some handler =>
                rw [hl] at h
                have hh : handler p (split ',' part0).tail = some (r, p') := h
                obtain ⟨h1, h2⟩ := table_entry_facts dt _ handler (lookup_mem _ _ _ hl) p _ r p' hh
                have htag : sentenceTag sentence = String.mk ((split ',' part0).headD []) := by
                  simp [sentenceTag, hsplit]
                refine ⟨fun hp => h2.2 (Or.inl hp), fun hp' => ?_, ?_, by simp⟩
                · rcases h2.1 hp' with hp | ⟨ht, _⟩
                  · exact Or.inl hp
                  · exact Or.inr (by rw [htag]; exact ht)
                · intro hr
                  rcases h1 with h1 | h1 <;> rw [h1] at hr <;> simp at hr

theorem whenField_latitude (data : List QString) (i : Nat)
    (f : GnssPosition → QString → GnssPosition) (hf : ∀ q d, (f q d).latitude = q.latitude)
    (pos : GnssPosition) : (whenField data i f pos).latitude = pos.latitude := by
  unfold whenField
  cases data[i]? with
  | none => rfl
  | some d => dsimp only; split_ifs <;> simp [hf]

theorem whenField_longitude (data : List QString) (i : Nat)
    (f : GnssPosition → QString → GnssPosition) (hf : ∀ q d, (f q d).longitude = q.longitude)
    (pos : GnssPosition) : (whenField data i f pos).longitude = pos.longitude := by
  unfold whenField
  cases data[i]? with
  | none => rfl
  | some d => dsimp only; split_ifs <;> simp [hf]

theorem gga_position_gate (p : NmeaParser) (data : List QString) (h6 : 6 ≤ data.length)
    (hlat : data.getD 1 [] ≠ []) (hlon : data.getD 3 [] ≠ []) :
    ∃ p', parseGpgga p data = some (NMEA_PARSE_OK, p') ∧
      (p.m_haveGprmc = false →
        p'.m_gnssPosition.latitude = toDegrees (data.getD 1 []) (data.getD 2 []) ∧
        p'.m_gnssPosition.longitude = toDegrees (data.getD 3 []) (data.getD 4 [])) ∧
      (p.m_haveGprmc = true →
        p'.m_gnssPosition.latitude = p.m_gnssPosition.latitude ∧
        p'.m_gnssPosition.longitude = p.m_gnssPosition.longitude) := by
  rcases data with _ | ⟨d0, _ | ⟨d1, _ | ⟨d2, _ | ⟨d3, _ | ⟨d4, _ | ⟨d5, rest⟩⟩⟩⟩⟩⟩ <;>
    simp at h6
  simp only [List.getD_cons_succ, List.getD_cons_zero] at hlat hlon
  have hl : ¬ (d0 :: d1 :: d2 :: d3 :: d4 :: d5 :: rest).length < 6 := by simp
  simp only [parseGpgga, hl, if_false]
  simp only [List.getElem?_cons_succ, List.getElem?_cons_zero, bind, Option.bind, pure,
    List.getD_cons_succ, List.getD_cons_zero]
  refine ⟨_, rfl, ?_, ?_⟩
  · intro hflag
    dsimp only
    simp only [whenField_latitude, whenField_longitude, implies_true]
    simp [hflag, hlat, hlon]
    split_ifs <;> simp
  · intro hflag
    dsimp only
    simp only [whenField_latitude, whenField_longitude, implies_true]
    simp [hflag]
    split_ifs <;> simp

theorem split_length (sep : Char) (s : QString) : (split sep s).length = s.count sep + 1 := by
  induction s with
  | nil => simp [split]
  | cons c cs ih =>
    unfold split
    by_cases h : c = sep
    · subst h
      simp [ih]
    · simp only [h, if_false]
      have hc : (c :: cs).count sep = cs.count sep := by
        rw [List.count_cons]
        simp [h]
      rw [hc, ← ih]
      cases hsp : split sep cs with
      | nil => rw [hsp] at ih; simp at ih
      | cons a b => simp

theorem hexValue_range (c : Char) (v : Nat) (h : hexValue c = some v) :
    ((48 ≤ c.toNat ∧ c.toNat ≤ 57 ∧ v = c.toNat - 48) ∨
     (65 ≤ c.toNat ∧ c.toNat ≤ 70 ∧ v = c.toNat - 55) ∨
     (97 ≤ c.toNat ∧ c.toNat ≤ 102 ∧ v = c.toNat - 87)) ∧ v < 16 := by
  unfold hexValue at h
  dsimp only at h
  split_ifs at h with h1 h2 h3 <;> simp at h <;> omega

theorem char_ne_of_toNat (c d : Char) (h : c.toNat ≠ d.toNat) : c ≠ d := by
  intro e; exact h (by rw [e])

theorem digitValue_hex (c : Char) (v : Nat) (h : hexValue c = some v) :
    digitValue 16 c = some v := by
  obtain ⟨hr, hv⟩ := hexValue_range c v h
  unfold digitValue
  dsimp only
  rcases hr with ⟨a, b, e⟩ | ⟨a, b, e⟩ | ⟨a, b, e⟩
  · have h1 : 48 ≤ c.toNat ∧ c.toNat ≤ 57 := ⟨a, b⟩
    simp only [h1, and_self, if_true]
    have : c.toNat - 48 < 16 := by omega
    simp [this, e]
  · have h1 : ¬ (48 ≤ c.toNat ∧ c.toNat ≤ 57) := by omega
    have h2 : ¬ (97 ≤ c.toNat ∧ c.toNat ≤ 122) := by omega
    have h3 : 65 ≤ c.toNat ∧ c.toNat ≤ 90 := by omega
    simp only [h1, h2, h3, and_self, if_true, if_false]
    have : c.toNat - 65 + 10 < 16 := by omega
    simp only [this, if_true, e]
    congr 1; omega
  · have h1 : ¬ (48 ≤ c.toNat ∧ c.toNat ≤ 57) := by omega
    have h2 : 97 ≤ c.toNat ∧ c.toNat ≤ 122 := by omega
    simp only [h1, h2, and_self, if_true, if_false]
    have : c.toNat - 97 + 10 < 16 := by omega
    simp only [this, if_true, e]
    congr 1; omega

theorem isSpace_hex (c : Char) (v : Nat) (h : hexValue c = some v) : isSpace c = false := by
  obtain ⟨hr, _⟩ := hexValue_range c v h
  unfold isSpace
  simp only [Bool.or_eq_false_iff, Bool.and_eq_false_iff, decide_eq_false_iff_not, beq_eq_false_iff_ne]
  omega

theorem toIntOk_hex (h1 h2 : Char) (v1 v2 : Nat) (hv1 : hexValue h1 = some v1)
    (hv2 : hexValue h2 = some v2) : toIntOk 16 [h1, h2] = some ((16 * v1 + v2 : Nat) : Int) := by
  have s1 := isSpace_hex h1 v1 hv1
  have s2 := isSpace_hex h2 v2 hv2
  obtain ⟨r1, b1⟩ := hexValue_range h1 v1 hv1
  obtain ⟨r2, b2⟩ := hexValue_range h2 v2 hv2
  have ht : trimmed [h1, h2] = [h1, h2] := by
    simp [trimmed, List.dropWhile, s1, s2]
  have n1 : h1 ≠ '-' := char_ne_of_toNat _ _ (by have : ('-' : Char).toNat = 45 := rfl; omega)
  have n2 : h1 ≠ '+' := char_ne_of_toNat _ _ (by have : ('+' : Char).toNat = 43 := rfl; omega)
  have n3 : h2 ≠ 'x' := char_ne_of_toNat _ _ (by have : ('x' : Char).toNat = 120 := rfl; omega)
  have n4 : h2 ≠ 'X' := char_ne_of_toNat _ _ (by have : ('X' : Char).toNat = 88 := rfl; omega)
  have hs : splitSign [h1, h2] = (false, [h1, h2]) := by
    unfold splitSign
    split
    · next heq => simp at heq; exact absurd heq.1 n1
    · next heq => simp at heq; exact absurd heq.1 n2
    · rfl
  have hd : digitsValue 16 [h1, h2] = some (16 * v1 + v2) := by
    simp [digitsValue, digitValue_hex h1 v1 hv1, digitValue_hex h2 v2 hv2]
    ring
  have hm : dropBasePrefix 16 [h1, h2] = [h1, h2] := by
    unfold dropBasePrefix
    split
    · next heq => simp at heq; exact absurd heq.2.1 n3
    · next heq => simp at heq; exact absurd heq.2.1 n4
    · rfl
  unfold toIntOk
  rw [ht, hs]
  dsimp only
  rw [hm, hd]
  simp only [Bool.false_eq_true, if_false]
  have : -(2 : Int) ^ 31 ≤ ((16 * v1 + v2 : Nat) : Int) ∧ ((16 * v1 + v2 : Nat) : Int) < (2 : Int) ^ 31 := by
    constructor <;> omega
  simp only [this, and_self, if_true]



theorem hex_ne_star (c : Char) (v : Nat) (h : hexValue c = some v) : c ≠ '*' := by
  obtain ⟨hr, _⟩ := hexValue_range c v h
  exact char_ne_of_toNat _ _ (by have : ('*' : Char).toNat = 42 := rfl; omega)

theorem toLatin1_ascii (c : Char) (h : c.toNat < 128) : toLatin1 c = c.toNat := by
  unfold toLatin1
  dsimp only
  have h1 : ¬ c.toNat > 0xFF := by omega
  have h2 : ¬ c.toNat ≥ 0x80 := by omega
  simp only [h1, h2, if_false]

theorem foldl_xor_ascii (body : QString) (h : ∀ c ∈ body, c.toNat < 128) (a : Nat) :
    body.foldl (fun sum c => sum ^^^ toLatin1 c) a = body.foldl (fun sum c => sum ^^^ c.toNat) a := by
  induction body generalizing a with
  | nil => rfl
  | cons c cs ih =>
    simp only [List.foldl_cons]
    rw [toLatin1_ascii c (h c (List.mem_cons_self _ _))]
    exact ih (fun d hd => h d (List.mem_cons_of_mem _ hd)) _

theorem checkSum_framed (body : QString) (h1 h2 : Char) (v1 v2 : Nat)
    (hbody : ∀ c ∈ body, c.toNat < 128)
    (hv1 : hexValue h1 = some v1) (hv2 : hexValue h2 = some v2) :
    checkSum ('$' :: (body ++ ['*', h1, h2])) false
      = some (body.foldl (fun sum c => sum ^^^ c.toNat) 0 == 16 * v1 + v2) := by
  have hlen : ('$' :: (body ++ ['*', h1, h2])).length = body.length + 4 := by simp
  have hidx : ((('$' :: (body ++ ['*', h1, h2])).length : Int) - 3).toNat = body.length + 1 := by
    rw [hlen]; omega
  have hneg : ¬ ((('$' :: (body ++ ['*', h1, h2])).length : Int) - 3 < 0) := by
    rw [hlen]; omega
  have hstar : ('$' :: (body ++ ['*', h1, h2]))[body.length + 1]? = some '*' := by
    rw [List.getElem?_cons_succ, List.getElem?_append_right (le_refl _)]
    simp
  have hhex : (('$' :: (body ++ ['*', h1, h2])).drop
      (('$' :: (body ++ ['*', h1, h2])).length - 2)).take 2 = [h1, h2] := by
    rw [hlen]
    have e : body.length + 4 - 2 = (body.length + 1) + 1 := by omega
    rw [e, List.drop_succ_cons]
    have e2 : body.length + 1 = (body ++ ['*']).length := by simp
    have e3 : body ++ ['*', h1, h2] = (body ++ ['*']) ++ [h1, h2] := by simp
    rw [e2, e3, List.drop_left]
    rfl
  have hbd : (('$' :: (body ++ ['*', h1, h2])).drop 1).take
      (('$' :: (body ++ ['*', h1, h2])).length - 3 - 1) = body := by
    rw [hlen]
    have e : body.length + 4 - 3 - 1 = body.length := by omega
    rw [e]
    simp
  unfold checkSum
  simp only [List.getElem?_cons_zero, bind, Option.bind, if_true, hneg, if_false, hidx, hstar,
    Bool.false_eq_true, hhex, hbd, toIntOk_hex h1 h2 v1 v2 hv1 hv2, Option.getD_some, pure]
  rw [foldl_xor_ascii body hbody]
  have hb1 := (hexValue_range h1 v1 hv1).2
  have hb2 := (hexValue_range h2 v2 hv2).2
  have : (((16 * v1 + v2 : Nat) : Int) % 2 ^ 32).toNat = 16 * v1 + v2 := by omega
  rw [this]

theorem framed_split (body : QString) (h1 h2 : Char) (v1 v2 : Nat)
    (hbody : ∀ c ∈ body, c ≠ '*')
    (hv1 : hexValue h1 = some v1) (hv2 : hexValue h2 = some v2) :
    (split '*' ('$' :: (body ++ ['*', h1, h2]))).length = 2 := by
  rw [split_length]
  have hc : body.count '*' = 0 := List.count_eq_zero.2 (fun h => hbody _ h rfl)
  have n1 := hex_ne_star h1 v1 hv1
  have n2 := hex_ne_star h2 v2 hv2
  have n0 : ('$' : Char) ≠ '*' := by decide
  simp [List.count_cons, List.count_append, hc, n1, n2, n0]

theorem rmc_closes_epoch_aux (dt : QString → Option Int) (p : NmeaParser) (data : List QString)
    (h : 9 ≤ data.length) :
    ∃ pos', rmcApplyFields dt p.m_gnssPosition data = some pos' ∧
      parseGprmc dt p data = some (NMEA_PARSE_OK,
        { m_gnssPosition := GnssPosition.default
          m_gnssSatellites := []
          m_gnssInfo := { position := pos', satellites := p.m_gnssSatellites }
          m_haveGprmc := true
          emitted := p.emitted ++ [{ position := pos', satellites := p.m_gnssSatellites }] }) := by
  obtain ⟨pos', hpos⟩ := rmcApplyFields_isSome dt p.m_gnssPosition data h
  have hl : ¬ data.length < 9 := by omega
  refine ⟨pos', hpos, ?_⟩
  simp only [parseGprmc, hl, if_false, hpos]
  rfl

/-! ## Claims on the NMEA parser -/

/-- Claim C2. For every ASCII sentence `$ body * h1 h2` whose body holds no `*`
and whose last two characters are hexadecimal digits of values `v1`, `v2`:
`parseNmeaSentence(sentence, false)` returns `NMEA_PARSE_CHECKSUM_ERROR` if and
only if `16 * v1 + v2` differs from the XOR of the character codes of the body. -/
theorem checksum_error_iff_mismatch (dt : QString → Option Int) (p : NmeaParser)
    (body : QString) (h1 h2 : Char) (v1 v2 : Nat)
    (hascii : ∀ c ∈ body, c.toNat < 128) (hstar : ∀ c ∈ body, c ≠ '*')
    (hv1 : hexValue h1 = some v1) (hv2 : hexValue h2 = some v2) :
    (∃ p', parseNmeaSentence dt p ('$' :: (body ++ ['*', h1, h2])) false
        = some (NMEA_PARSE_CHECKSUM_ERROR, p')) ↔
      16 * v1 + v2 ≠ body.foldl (fun sum c => sum ^^^ c.toNat) 0 := by
  have hs := framed_split body h1 h2 v1 v2 hstar hv1 hv2
  have hc := checkSum_framed body h1 h2 v1 v2 hascii hv1 hv2
  constructor
  · rintro ⟨p', hp'⟩ heq
    have hf := (parseNmeaSentence_facts dt p _ false _ p' hp').2.2.1 rfl
    rw [hc] at hf
    simp [heq] at hf
  · intro hne
    refine ⟨p, ?_⟩
    have hcf : checkSum ('$' :: (body ++ ['*', h1, h2])) false = some false := by
      rw [hc]
      have : (List.foldl (fun sum c => sum ^^^ c.toNat) 0 body == 16 * v1 + v2) = false := by
        simp only [beq_eq_false_iff_ne]
        exact fun h => hne h.symm
      rw [this]
    unfold parseNmeaSentence
    rw [if_neg (by simp [hs])]
    simp [hcf]

/-- Claim C2 at `$GPXXX,1,2,3*53` and `$GPXXX,1,2,3*1A`: the XOR of the body is
`0x53`, so only the second sentence is answered with the checksum error. -/
theorem checksum_error_iff_mismatch_witness :
    (∀ c ∈ "GPXXX,1,2,3".toList, c.toNat < 128) ∧ (∀ c ∈ "GPXXX,1,2,3".toList, c ≠ '*') ∧
    hexValue '1' = some 1 ∧ hexValue 'A' = some 10 ∧
    ((∃ p', parseNmeaSentence noDate freshParser ('$' :: ("GPXXX,1,2,3".toList ++ ['*', '1', 'A']))
        false = some (NMEA_PARSE_CHECKSUM_ERROR, p')) ↔
      16 * 1 + 10 ≠ "GPXXX,1,2,3".toList.foldl (fun sum c => sum ^^^ c.toNat) 0) :=
  ⟨by decide, by decide, by decide, by decide,
    checksum_error_iff_mismatch noDate freshParser "GPXXX,1,2,3".toList '1' 'A' 1 10
      (by decide) (by decide) (by decide) (by decide)⟩

set_option maxRecDepth 100000 in
/-- Claim C7, as the code behaves: three sentences on which the parser reads
outside a string or the field list (the model's `none`). On `$*`, `checkSum`
calls `at(size - 3)` with index -1, with either value of `ignoreChecksum`; on
`$GPGSV,1,1,01,05,40,083*6E` (six fields, correct checksum) the GSV loop reads
field `i + 3 = 6`; on `$GPGSV,3,1,12,01,40,083,46,*68` (correct checksum) it
reads the first character of the empty last field. -/
theorem nmea_reads_out_of_range :
    parseNmeaSentence noDate freshParser "$*".toList false = none ∧
    parseNmeaSentence noDate freshParser "$*".toList true = none ∧
    parseNmeaSentence noDate freshParser "$GPGSV,1,1,01,05,40,083*6E".toList false = none ∧
    parseNmeaSentence noDate freshParser "$GPGSV,3,1,12,01,40,083,46,*68".toList false = none := by
  decide

/-- Claim C10 fails as stated: from a fresh parser, the RMC sentence closes the
first epoch (one snapshot emitted, both codes OK), the GGA sentence that follows
has six or more fields and non-empty latitude and longitude fields of values
48.1183.. and 11.52 (as `toDegrees` rounds them), no RMC was processed since
the snapshot, and yet the
accumulated latitude and longitude after it are still 0. -/
theorem gga_after_closed_epoch_not_applied :
    (feedAll noDate false freshParser
      ["$GPRMC,123519,A,4807.038,N,01131.000,E,022.4,084.4,230394,003.1,W*6A".toList,
       "$GPGGA,123520,4807.100,N,01131.200,E,1,08,0.9,545.4,M,46.9,M,,*45".toList]).map
      (fun r => (r.1, r.2.emitted.length, r.2.m_gnssPosition.latitude,
        r.2.m_gnssPosition.longitude))
      = some ([NMEA_PARSE_OK, NMEA_PARSE_OK], 1, 0, 0) ∧
    toDegrees "4807.100".toList "N".toList = 105813334018403 / 2199023255552 ∧
    toDegrees "01131.200".toList "E".toList = 6485183463413515 / 562949953421312 := by
  decide!

/-- Claim C10, amended. A GGA sentence with at least 6 fields and non-empty
latitude and longitude fields overwrites the accumulated latitude and longitude
exactly when the flag `m_haveGprmc` is false; every RMC sentence with at least
9 fields leaves the flag true; no call of `parseNmeaSentence` clears the flag,
and a call that sets it is for a sentence with one of the three RMC tags. So
GGA overwrites if and only if no RMC has been processed since construction. -/
theorem gga_overwrites_iff_no_rmc_since_construction :
    (∀ (p : NmeaParser) (data : List QString), 6 ≤ data.length →
      data.getD 1 [] ≠ [] → data.getD 3 [] ≠ [] →
      ∃ p', parseGpgga p data = some (NMEA_PARSE_OK, p') ∧
        (p.m_haveGprmc = false →
          p'.m_gnssPosition.latitude = toDegrees (data.getD 1 []) (data.getD 2 []) ∧
          p'.m_gnssPosition.longitude = toDegrees (data.getD 3 []) (data.getD 4 [])) ∧
        (p.m_haveGprmc = true →
          p'.m_gnssPosition.latitude = p.m_gnssPosition.latitude ∧
          p'.m_gnssPosition.longitude = p.m_gnssPosition.longitude)) ∧
    (∀ (dt : QString → Option Int) (p : NmeaParser) (data : List QString), 9 ≤ data.length →
      ∃ p', parseGprmc dt p data = some (NMEA_PARSE_OK, p') ∧ p'.m_haveGprmc = true) ∧
    (∀ (dt : QString → Option Int) (p : NmeaParser) (sentence : QString) (ignore : Bool)
      (r : NmeaParseError) (p' : NmeaParser),
      parseNmeaSentence dt p sentence ignore = some (r, p') →
        (p.m_haveGprmc = true → p'.m_haveGprmc = true) ∧
        (p'.m_haveGprmc = true → p.m_haveGprmc = true ∨ isRmcTag (sentenceTag sentence))) := by
  refine ⟨fun p data h6 hlat hlon => gga_position_gate p data h6 hlat hlon,
    fun dt p data h9 => ?_, fun dt p sentence ignore r p' h => ?_⟩
  · obtain ⟨pos', _, h⟩ := rmc_closes_epoch_aux dt p data h9
    exact ⟨_, h, rfl⟩
  · obtain ⟨h1, h2, _⟩ := parseNmeaSentence_facts dt p sentence ignore r p' h
    exact ⟨h1, h2⟩

set_option maxRecDepth 100000 in
/-- Claim C10, amended, at the GGA fields of `ggaExample` on a fresh parser
(flag false: latitude and longitude are taken from the sentence). -/
theorem gga_overwrites_iff_no_rmc_since_construction_witness :
    6 ≤ ggaExample.length ∧ ggaExample.getD 1 [] ≠ [] ∧ ggaExample.getD 3 [] ≠ [] ∧
    ∃ p', parseGpgga freshParser ggaExample = some (NMEA_PARSE_OK, p') ∧
      (freshParser.m_haveGprmc = false →
        p'.m_gnssPosition.latitude = toDegrees (ggaExample.getD 1 []) (ggaExample.getD 2 []) ∧
        p'.m_gnssPosition.longitude = toDegrees (ggaExample.getD 3 []) (ggaExample.getD 4 [])) ∧
      (freshParser.m_haveGprmc = true →
        p'.m_gnssPosition.latitude = freshParser.m_gnssPosition.latitude ∧
        p'.m_gnssPosition.longitude = freshParser.m_gnssPosition.longitude) :=
  ⟨by decide, by decide, by decide,
    gga_overwrites_iff_no_rmc_since_construction.1 freshParser ggaExample
      (by decide) (by decide) (by decide)⟩

/-! ## The dispatcher `parseNmeaSentence` -/


theorem split_head (sentence : QString) (h : (split '*' sentence).length = 2) :
    (split '*' sentence)[0]? = some ((split '*' sentence).headD []) := by
  cases hs : split '*' sentence with
  | nil => rw [hs] at h; simp at h
  | cons a b => simp

theorem parse_invalid (dt : QString → Option Int) (p : NmeaParser) (s : QString) (ignore : Bool)
    (h : (split '*' s).length ≠ 2) :
    parseNmeaSentence dt p s ignore = some (NMEA_PARSE_INVALID_FORMAT, p) := by
  unfold parseNmeaSentence
  rw [if_pos h]
  rfl

theorem parse_checksum (dt : QString → Option Int) (p : NmeaParser) (s : QString) (ignore : Bool)
    (h : (split '*' s).length = 2) (hc : checkSum s ignore = some false) :
    parseNmeaSentence dt p s ignore = some (NMEA_PARSE_CHECKSUM_ERROR, p) := by
  unfold parseNmeaSentence
  rw [if_neg (by simp [h])]
  simp [hc]

theorem parse_fault (dt : QString → Option Int) (p : NmeaParser) (s : QString) (ignore : Bool)
    (h : (split '*' s).length = 2) (hc : checkSum s ignore = none) :
    parseNmeaSentence dt p s ignore = none := by
  unfold parseNmeaSentence
  rw [if_neg (by simp [h])]
  simp [hc]

theorem parse_tooFew (dt : QString → Option Int) (p : NmeaParser) (s : QString) (ignore : Bool)
    (h : (split '*' s).length = 2) (hc : checkSum s ignore = some true)
    (hf : (sentenceFields s).length < 2) :
    parseNmeaSentence dt p s ignore = some (NMEA_PARSE_TOO_FEW_FIELDS, p) := by
  unfold parseNmeaSentence
  rw [if_neg (by simp [h])]
  unfold sentenceFields at hf
  simp only [hc, split_head s h, bind, Option.bind, Bool.not_true, Bool.false_eq_true, if_false,
    hf, if_true]
  rfl

theorem parse_dispatch (dt : QString → Option Int) (p : NmeaParser) (s : QString) (ignore : Bool)
    (h : (split '*' s).length = 2) (hc : checkSum s ignore = some true)
    (hf : 2 ≤ (sentenceFields s).length) (c1 : Char) (hc1 : s[1]? = some c1) :
    parseNmeaSentence dt p s ignore =
      match (m_nmeaHashMap dt).lookup
          (String.mk (if c1 = 'P' then [] else (sentenceFields s).headD [])) with
      | some handler => handler p (if c1 = 'P' then sentenceFields s else (sentenceFields s).tail)
      | none => some (NMEA_PARSE_UNSUPPORTED, p) := by
  unfold parseNmeaSentence
  rw [if_neg (by simp [h])]
  unfold sentenceFields at hf ⊢
  have hf' : ¬ (split ',' ((split '*' s).headD [])).length < 2 := by omega
  simp only [hc, split_head s h, bind, Option.bind, Bool.not_true, Bool.false_eq_true, if_false,
    hf', hc1]
  rfl

theorem checkSum_true_shape (s : QString) (ignore : Bool) (b : Bool)
    (h : checkSum s ignore = some b) :
    s[0]? ≠ none ∧ (s[0]? = some '$' → 3 ≤ s.length) ∧ (b = true → s[0]? = some '$') := by
  unfold checkSum at h
  cases h0 : s[0]? with
  | none => simp [h0] at h
  | some c0 =>
    simp only [h0, bind, Option.bind] at h
    refine ⟨by simp, ?_, ?_⟩
    · intro hc
      have hc' : c0 = '$' := by simpa using hc
      simp only [hc', if_true] at h
      by_cases hneg : (s.length : Int) - 3 < 0
      · simp [hneg] at h
      · omega
    · intro hb
      by_cases hc : c0 = '$'
      · rw [hc]
      · simp only [hc, if_false] at h
        simp [pure] at h
        rw [hb] at h
        simp at h


theorem getElem?_one_of_length (s : QString) (h : 3 ≤ s.length) : ∃ c1, s[1]? = some c1 := by
  rcases s with _ | ⟨a, _ | ⟨b, t⟩⟩
  · simp at h
  · simp at h
  · exact ⟨b, by simp⟩

theorem parse_cases (dt : QString → Option Int) (p : NmeaParser) (s : QString) (ignore : Bool)
    (r : NmeaParseError) (p' : NmeaParser)
    (h : parseNmeaSentence dt p s ignore = some (r, p')) (hl : (split '*' s).length = 2) :
    (checkSum s ignore = some false ∧ r = NMEA_PARSE_CHECKSUM_ERROR ∧ p' = p) ∨
    (checkSum s ignore = some true ∧ (sentenceFields s).length < 2 ∧
      r = NMEA_PARSE_TOO_FEW_FIELDS ∧ p' = p) ∨
    (checkSum s ignore = some true ∧ 2 ≤ (sentenceFields s).length ∧ ∃ c1, s[1]? = some c1 ∧
      (((m_nmeaHashMap dt).lookup
          (String.mk (if c1 = 'P' then [] else (sentenceFields s).headD [])) = none ∧
        r = NMEA_PARSE_UNSUPPORTED ∧ p' = p) ∨
       ∃ handler, (m_nmeaHashMap dt).lookup
          (String.mk (if c1 = 'P' then [] else (sentenceFields s).headD [])) = some handler ∧
        handler p (if c1 = 'P' then sentenceFields s else (sentenceFields s).tail)
          = some (r, p'))) := by
  cases hcs : checkSum s ignore with
  | none => rw [parse_fault dt p s ignore hl hcs] at h; simp at h
  | some b =>
    cases b with
    | false =>
      rw [parse_checksum dt p s ignore hl hcs] at h
      simp at h
      exact Or.inl ⟨rfl, h.1.symm, h.2.symm⟩
    | true =>
      by_cases hf : (sentenceFields s).length < 2
      · rw [parse_tooFew dt p s ignore hl hcs hf] at h
        simp at h
        exact Or.inr (Or.inl ⟨rfl, hf, h.1.symm, h.2.symm⟩)
      · obtain ⟨h0, h3, h4⟩ := checkSum_true_shape s ignore true hcs
        obtain ⟨c1, hc1⟩ := getElem?_one_of_length s (h3 (h4 rfl))
        rw [parse_dispatch dt p s ignore hl hcs (by omega) c1 hc1] at h
        refine Or.inr (Or.inr ⟨rfl, by omega, c1, hc1, ?_⟩)
        cases hlk : (m_nmeaHashMap dt).lookup
            (String.mk (if c1 = 'P' then [] else (sentenceFields s).headD [])) with
        | none =>
          rw [hlk] at h
          simp at h
          exact Or.inl ⟨rfl, h.1.symm, h.2.symm⟩
        | some handler =>
          rw [hlk] at h
          exact Or.inr ⟨handler, rfl, h⟩

theorem parse_not_invalid (dt : QString → Option Int) (p : NmeaParser) (s : QString)
    (ignore : Bool) (r : NmeaParseError) (p' : NmeaParser)
    (h : parseNmeaSentence dt p s ignore = some (r, p')) (hl : (split '*' s).length = 2) :
    r ≠ NMEA_PARSE_INVALID_FORMAT := by
  rcases parse_cases dt p s ignore r p' h hl with ⟨_, hr, _⟩ | ⟨_, _, hr, _⟩ |
    ⟨_, _, c1, _, ⟨_, hr, _⟩ | ⟨handler, hlk, hh⟩⟩
  · rw [hr]; decide
  · rw [hr]; decide
  · rw [hr]; decide
  · obtain ⟨h1, _⟩ := table_entry_facts dt _ handler (lookup_mem _ _ _ hlk) p _ r p' hh
    rcases h1 with h1 | h1 <;> rw [h1] <;> decide

/-- Claim C12. For every sentence, parser state and value of `ignoreChecksum`,
`parseNmeaSentence` returns `NMEA_PARSE_INVALID_FORMAT` if and only if the
sentence does not contain exactly one `*`; in that case the parser object is
left as it was. -/
theorem invalid_format_iff_not_one_star (dt : QString → Option Int) (p : NmeaParser)
    (s : QString) (ignore : Bool) :
    ((∃ p', parseNmeaSentence dt p s ignore = some (NMEA_PARSE_INVALID_FORMAT, p')) ↔
      s.count '*' ≠ 1) ∧
    (s.count '*' ≠ 1 →
      parseNmeaSentence dt p s ignore = some (NMEA_PARSE_INVALID_FORMAT, p)) := by
  have hlen := split_length '*' s
  have hfwd : s.count '*' ≠ 1 →
      parseNmeaSentence dt p s ignore = some (NMEA_PARSE_INVALID_FORMAT, p) :=
    fun hc => parse_invalid dt p s ignore (by omega)
  refine ⟨⟨?_, fun hc => ⟨p, hfwd hc⟩⟩, hfwd⟩
  rintro ⟨p', hp'⟩ hc
  exact parse_not_invalid dt p s ignore _ p' hp' (by omega) rfl


theorem table_keys (dt : QString → Option Int) :
    (m_nmeaHashMap dt).map Prod.fst = registeredTags := rfl

theorem lookup_none_of_not_mem {α : Type} (l : List (String × α)) (k : String)
    (h : k ∉ l.map Prod.fst) : l.lookup k = none := by
  induction l with
  | nil => rfl
  | cons x xs ih =>
    obtain ⟨k', v'⟩ := x
    simp only [List.map_cons, List.mem_cons, not_or] at h
    unfold List.lookup
    have hk : (k == k') = false := by simpa using h.1
    simp only [hk]
    exact ih h.2

theorem parse_unsupported (dt : QString → Option Int) (p : NmeaParser) (s : QString)
    (ignore : Bool) (h1 : s.count '*' = 1) (hcs : checkSum s ignore = some true)
    (hf : 2 ≤ (sentenceFields s).length)
    (hu : String.mk ((sentenceFields s).headD []) ∉ registeredTags ∨ s[1]? = some 'P') :
    parseNmeaSentence dt p s ignore = some (NMEA_PARSE_UNSUPPORTED, p) := by
  have hl : (split '*' s).length = 2 := by rw [split_length, h1]
  obtain ⟨h0, h3, h4⟩ := checkSum_true_shape s ignore true hcs
  obtain ⟨c1, hc1⟩ := getElem?_one_of_length s (h3 (h4 rfl))
  rw [parse_dispatch dt p s ignore hl hcs hf c1 hc1]
  have hlk : (m_nmeaHashMap dt).lookup
      (String.mk (if c1 = 'P' then [] else (sentenceFields s).headD [])) = none := by
    apply lookup_none_of_not_mem
    rw [table_keys]
    by_cases hP : c1 = 'P'
    · simp only [hP, if_true]
      decide
    · simp only [hP, if_false]
      rcases hu with hu | hu
      · exact hu
      · rw [hc1] at hu
        exact absurd (Option.some.inj hu) hP
  rw [hlk]

/-- Claim C13. For every sentence that contains exactly one `*`, passes the
checksum step and has at least two comma-separated fields before the `*`: if
its first field is not one of the 20 registered tags, or its second character
is `P`, `parseNmeaSentence` returns `NMEA_PARSE_UNSUPPORTED` and the parser
object (accumulated position, satellite list, emitted snapshots) is unchanged. -/
theorem unsupported_without_handler (dt : QString → Option Int) (p : NmeaParser) (s : QString)
    (ignore : Bool) (h1 : s.count '*' = 1) (hcs : checkSum s ignore = some true)
    (hf : 2 ≤ (sentenceFields s).length)
    (hu : sentenceTag s ∉ registeredTags ∨ s[1]? = some 'P') :
    parseNmeaSentence dt p s ignore = some (NMEA_PARSE_UNSUPPORTED, p) :=
  parse_unsupported dt p s ignore h1 hcs hf hu

set_option maxRecDepth 100000 in
/-- Claim C13 at `$GPXXX,1,2,3*53` (unregistered tag) on a fresh parser. -/
theorem unsupported_without_handler_witness :
    "$GPXXX,1,2,3*53".toList.count '*' = 1 ∧
    checkSum "$GPXXX,1,2,3*53".toList false = some true ∧
    2 ≤ (sentenceFields "$GPXXX,1,2,3*53".toList).length ∧
    (sentenceTag "$GPXXX,1,2,3*53".toList ∉ registeredTags ∨
      "$GPXXX,1,2,3*53".toList[1]? = some 'P') ∧
    parseNmeaSentence noDate freshParser "$GPXXX,1,2,3*53".toList false
      = some (NMEA_PARSE_UNSUPPORTED, freshParser) :=
  ⟨by decide, by decide, by decide, by decide,
    unsupported_without_handler noDate freshParser "$GPXXX,1,2,3*53".toList false
      (by decide) (by decide) (by decide) (by decide)⟩

set_option maxRecDepth 100000 in
/-- Claim C18 fails as stated: the XOR of `GPXXX,1,2,3` is `0x53`, not `0x1A`, so
`$GPXXX,1,2,3*1A` is answered with the checksum error and not with
`NMEA_PARSE_UNSUPPORTED`. -/
theorem gpxxx_1A_is_checksum_error :
    "GPXXX,1,2,3".toList.foldl (fun sum c => sum ^^^ c.toNat) 0 = 0x53 ∧
    parseNmeaSentence noDate freshParser "$GPXXX,1,2,3*1A".toList false
      = some (NMEA_PARSE_CHECKSUM_ERROR, freshParser) ∧
    parseNmeaSentence noDate freshParser "$GPXXX,1,2,3*1A".toList false
      ≠ some (NMEA_PARSE_UNSUPPORTED, freshParser) := by
  decide

set_option maxRecDepth 100000 in
/-- Claim C18, amended. For every parser state, `$GPXXX,1,2,3*1A` with
`ignoreChecksum = false` returns `NMEA_PARSE_CHECKSUM_ERROR` (hence not
`NMEA_PARSE_INVALID_FORMAT`); the same sentence with `ignoreChecksum = true`, and
the sentence with its right checksum, `$GPXXX,1,2,3*53`, return
`NMEA_PARSE_UNSUPPORTED`. The parser object is unchanged each time. -/
theorem gpxxx_unsupported_with_right_checksum (dt : QString → Option Int) (p : NmeaParser) :
    parseNmeaSentence dt p "$GPXXX,1,2,3*1A".toList false
      = some (NMEA_PARSE_CHECKSUM_ERROR, p) ∧
    parseNmeaSentence dt p "$GPXXX,1,2,3*1A".toList true
      = some (NMEA_PARSE_UNSUPPORTED, p) ∧
    parseNmeaSentence dt p "$GPXXX,1,2,3*53".toList false
      = some (NMEA_PARSE_UNSUPPORTED, p) :=
  ⟨parse_checksum dt p _ false (by decide) (by decide),
    parse_unsupported dt p _ true (by decide) (by decide) (by decide) (by decide),
    parse_unsupported dt p _ false (by decide) (by decide) (by decide) (by decide)⟩

theorem split_headD_prefix (sep : Char) (s : QString) :
    ∃ t, s = (split sep s).headD [] ++ t := by
  induction s with
  | nil => exact ⟨[], by simp [split]⟩
  | cons c cs ih =>
    obtain ⟨t, ht⟩ := ih
    unfold split
    by_cases hc : c = sep
    · exact ⟨c :: cs, by simp [hc]⟩
    · simp only [hc, if_false]
      cases hs : split sep cs with
      | nil => exact ⟨cs, by simp⟩
      | cons part parts =>
        rw [hs] at ht
        refine ⟨t, ?_⟩
        simp only [List.headD_cons, List.cons_append] at ht ⊢
        rw [← ht]

theorem sentence_second_char (s : QString) (h : 2 ≤ ((sentenceFields s).headD []).length) :
    s[1]? = ((sentenceFields s).headD [])[1]? := by
  obtain ⟨t1, h1⟩ := split_headD_prefix '*' s
  obtain ⟨t2, h2⟩ := split_headD_prefix ',' ((split '*' s).headD [])
  have hs : s = (sentenceFields s).headD [] ++ (t2 ++ t1) := by
    unfold sentenceFields
    rw [← List.append_assoc, ← h2, ← h1]
  generalize (sentenceFields s).headD [] = tag at hs h
  rw [hs]
  exact List.getElem?_append_left (by omega)

theorem registered_second_char (k : String) (h : k ∈ registeredTags) :
    2 ≤ k.data.length ∧ k.data[1]? ≠ some 'P' := by
  simp only [registeredTags, List.mem_cons, List.mem_singleton, List.not_mem_nil, or_false] at h
  rcases h with h | h | h | h | h | h | h | h | h | h | h | h | h | h | h | h | h | h | h | h <;>
    subst h <;> decide

theorem parse_registered (dt : QString → Option Int) (p : NmeaParser) (s : QString)
    (ignore : Bool) (handler : NmeaParser → List QString → Outcome)
    (h1 : s.count '*' = 1) (hcs : checkSum s ignore = some true)
    (hf : 2 ≤ (sentenceFields s).length)
    (hlk : (m_nmeaHashMap dt).lookup (sentenceTag s) = some handler) :
    parseNmeaSentence dt p s ignore = handler p (sentenceFields s).tail := by
  have hl : (split '*' s).length = 2 := by rw [split_length, h1]
  have hmem : sentenceTag s ∈ registeredTags := by
    rw [← table_keys dt]
    exact List.mem_map_of_mem Prod.fst (lookup_mem _ _ _ hlk)
  obtain ⟨hk2, hkP⟩ := registered_second_char _ hmem
  have hsc := sentence_second_char s hk2
  obtain ⟨h0, h3, h4⟩ := checkSum_true_shape s ignore true hcs
  obtain ⟨c1, hc1⟩ := getElem?_one_of_length s (h3 (h4 rfl))
  have hP : c1 ≠ 'P' := by
    intro hc
    apply hkP
    show ((sentenceFields s).headD [])[1]? = some 'P'
    rw [← hsc, hc1, hc]
  rw [parse_dispatch dt p s ignore hl hcs hf c1 hc1]
  simp only [hP, if_false]
  have hlk' : (m_nmeaHashMap dt).lookup (String.mk ((sentenceFields s).headD [])) = some handler :=
    hlk
  rw [hlk']

theorem parse_code_cases (dt : QString → Option Int) (p : NmeaParser) (s : QString)
    (ignore : Bool) (r : NmeaParseError) (p' : NmeaParser)
    (h : parseNmeaSentence dt p s ignore = some (r, p')) :
    (r = NMEA_PARSE_INVALID_FORMAT ∧ s.count '*' ≠ 1 ∧ p' = p) ∨
    (r = NMEA_PARSE_CHECKSUM_ERROR ∧ s.count '*' = 1 ∧ checkSum s ignore = some false ∧ p' = p) ∨
    ((r = NMEA_PARSE_OK ∨ r = NMEA_PARSE_TOO_FEW_FIELDS ∨ r = NMEA_PARSE_UNSUPPORTED) ∧
      s.count '*' = 1 ∧ checkSum s ignore = some true) := by
  have hlen := split_length '*' s
  by_cases hc : s.count '*' = 1
  · have hl : (split '*' s).length = 2 := by omega
    rcases parse_cases dt p s ignore r p' h hl with ⟨hcs, hr, hp⟩ | ⟨hcs, _, hr, _⟩ |
      ⟨hcs, _, c1, _, ⟨_, hr, _⟩ | ⟨handler, hlk, hh⟩⟩
    · exact Or.inr (Or.inl ⟨hr, hc, hcs, hp⟩)
    · exact Or.inr (Or.inr ⟨Or.inr (Or.inl hr), hc, hcs⟩)
    · exact Or.inr (Or.inr ⟨Or.inr (Or.inr hr), hc, hcs⟩)
    · obtain ⟨hr, _⟩ := table_entry_facts dt _ handler (lookup_mem _ _ _ hlk) p _ r p' hh
      rcases hr with hr | hr
      · exact Or.inr (Or.inr ⟨Or.inl hr, hc, hcs⟩)
      · exact Or.inr (Or.inr ⟨Or.inr (Or.inl hr), hc, hcs⟩)
  · rw [parse_invalid dt p s ignore (by omega)] at h
    simp at h
    exact Or.inl ⟨h.1.symm, hc, h.2.symm⟩

theorem checkSum_false_iff (s : QString) (ignore : Bool) (hne : s ≠ []) :
    checkSum s ignore = some false ↔
      (s.head? ≠ some '$' ∨ (3 ≤ s.length ∧ (s[s.length - 3]? ≠ some '*' ∨
        (ignore = false ∧ bodyXor s ≠ trailerValue s)))) := by
  rcases s with _ | ⟨c0, t⟩
  · exact absurd rfl hne
  · unfold checkSum bodyXor trailerValue
    by_cases hc : c0 = '$'
    · subst hc
      by_cases hlen : ((('$' :: t).length : Int) - 3 < 0)
      · have h3 : ¬ 3 ≤ ('$' :: t).length := by omega
        constructor
        · intro h
          simp only [List.getElem?_cons_zero, bind, Option.bind, if_true, hlen] at h
          exact absurd h (by simp)
        · rintro (h | ⟨h, _⟩)
          · simp at h
          · exact absurd h h3
      · have h3 : 3 ≤ ('$' :: t).length := by omega
        have hidx : (((('$' :: t).length : Int) - 3).toNat) = ('$' :: t).length - 3 := by omega
        have hlt : ('$' :: t).length - 3 < ('$' :: t).length := by omega
        obtain ⟨c, hcget⟩ : ∃ c, ('$' :: t)[('$' :: t).length - 3]? = some c :=
          ⟨_, List.getElem?_eq_getElem hlt⟩
        simp only [List.getElem?_cons_zero, bind, Option.bind, if_true, hlen, if_false, hidx,
          hcget, List.head?_cons, ne_eq, not_true_eq_false, false_or, h3, true_and]
        by_cases hstar : c = '*'
        · subst hstar
          cases ignore <;> simp [pure]
        · simp [hstar, pure]
    · simp [hc, pure]

theorem count_one_ne_nil (s : QString) (h : s.count '*' = 1) : s ≠ [] := by
  intro hs
  rw [hs] at h
  simp at h

set_option maxRecDepth 100000 in
/-- Claim C16 fails as stated: `!AIVDM,1*4A` carries the right checksum (the XOR
of `AIVDM,1` is `0x4A`), and `parseNmeaSentence` answers it with
`NMEA_PARSE_CHECKSUM_ERROR`, with `ignoreChecksum = true` as well as with
`ignoreChecksum = false`. -/
theorem bang_sentence_is_checksum_error :
    "AIVDM,1".toList.foldl (fun sum c => sum ^^^ c.toNat) 0 = 0x4A ∧
    parseNmeaSentence noDate freshParser "!AIVDM,1*4A".toList true
      = some (NMEA_PARSE_CHECKSUM_ERROR, freshParser) ∧
    parseNmeaSentence noDate freshParser "!AIVDM,1*4A".toList false
      = some (NMEA_PARSE_CHECKSUM_ERROR, freshParser) := by
  decide

/-- Claim C16, amended. `parseNmeaSentence` returns `NMEA_PARSE_CHECKSUM_ERROR` if
and only if the sentence contains exactly one `*` and either does not begin
with `$`, or has at least 3 characters and its third character from the end
is not `*`, or `ignoreChecksum` is false and the XOR of the characters between
the first and the third from the end differs from the number read from the
last two. The parser object is then unchanged. The first two cases do not
depend on `ignoreChecksum`: every sentence with exactly one `*` that begins
with `!` is answered with the checksum error. -/
theorem checksum_error_exact (dt : QString → Option Int) (p : NmeaParser) (s : QString)
    (ignore : Bool) :
    ((∃ p', parseNmeaSentence dt p s ignore = some (NMEA_PARSE_CHECKSUM_ERROR, p')) ↔
      s.count '*' = 1 ∧
        (s.head? ≠ some '$' ∨ (3 ≤ s.length ∧ (s[s.length - 3]? ≠ some '*' ∨
          (ignore = false ∧ bodyXor s ≠ trailerValue s))))) ∧
    (∀ p', parseNmeaSentence dt p s ignore = some (NMEA_PARSE_CHECKSUM_ERROR, p') → p' = p) ∧
    (s.count '*' = 1 → s.head? = some '!' →
      parseNmeaSentence dt p s ignore = some (NMEA_PARSE_CHECKSUM_ERROR, p)) := by
  have hback : s.count '*' = 1 → checkSum s ignore = some false →
      parseNmeaSentence dt p s ignore = some (NMEA_PARSE_CHECKSUM_ERROR, p) := fun h1 hcs =>
    parse_checksum dt p s ignore (by rw [split_length, h1]) hcs
  refine ⟨⟨?_, ?_⟩, ?_, ?_⟩
  · rintro ⟨p', hp'⟩
    rcases parse_code_cases dt p s ignore _ p' hp' with ⟨hr, _⟩ | ⟨_, h1, hcs, _⟩ | ⟨hr, _⟩
    · exact absurd hr (by decide)
    · exact ⟨h1, (checkSum_false_iff s ignore (count_one_ne_nil s h1)).mp hcs⟩
    · rcases hr with hr | hr | hr <;> exact absurd hr (by decide)
  · rintro ⟨h1, hc⟩
    exact ⟨p, hback h1 ((checkSum_false_iff s ignore (count_one_ne_nil s h1)).mpr hc)⟩
  · intro p' hp'
    rcases parse_code_cases dt p s ignore _ p' hp' with ⟨hr, _⟩ | ⟨_, _, _, hp⟩ | ⟨hr, _⟩
    · exact absurd hr (by decide)
    · exact hp
    · rcases hr with hr | hr | hr <;> exact absurd hr (by decide)
  · intro h1 hb
    refine hback h1 ((checkSum_false_iff s ignore (count_one_ne_nil s h1)).mpr (Or.inl ?_))
    rw [hb]
    decide

theorem parseGpgga_short (p : NmeaParser) (data : List QString) (h : data.length < 6) :
    parseGpgga p data = some (NMEA_PARSE_TOO_FEW_FIELDS, p) := by
  simp only [parseGpgga, h, if_true]
  rfl

theorem parseGprmc_short (dt : QString → Option Int) (p : NmeaParser) (data : List QString)
    (h : data.length < 9) : parseGprmc dt p data = some (NMEA_PARSE_TOO_FEW_FIELDS, p) := by
  simp only [parseGprmc, h, if_true]
  rfl

theorem parseGsa_short (p : NmeaParser) (data : List QString) (n : Int) (h : data.length < 17) :
    parseGsa p data n = some (NMEA_PARSE_TOO_FEW_FIELDS, p) := by
  simp only [parseGsa, h, if_true]
  rfl

theorem parseGngsa_short (p : NmeaParser) (data : List QString) (h : data.length < 17) :
    parseGngsa p data = some (NMEA_PARSE_TOO_FEW_FIELDS, p) := by
  unfold parseGngsa
  dsimp only
  split_ifs <;> exact parseGsa_short p data _ h

theorem parseGsv_one (p : NmeaParser) (data : List QString) (system : Int) (signal : Char)
    (h : data.length = 1) : parseGsv p data system signal = some (NMEA_PARSE_OK, p) := by
  rcases data with _ | ⟨d, _ | ⟨e, t⟩⟩
  · simp at h
  · rfl
  · simp at h

theorem counted_lookup (dt : QString → Option Int) (k : String) (h : k ∈ countedTags) :
    ∃ handler, (m_nmeaHashMap dt).lookup k = some handler ∧
      ∀ p data, data.length = 1 → handler p data = some (NMEA_PARSE_TOO_FEW_FIELDS, p) := by
  simp only [countedTags, List.mem_cons, List.mem_singleton, List.not_mem_nil, or_false] at h
  rcases h with h | h | h | h | h | h | h | h | h | h | h <;> subst h <;>
    refine ⟨_, rfl, fun p data hd => ?_⟩ <;>
    first
      | exact parseGpgga_short p data (by omega)
      | exact parseGprmc_short dt p data (by omega)
      | exact parseGsa_short p data _ (by omega)
      | exact parseGngsa_short p data (by omega)

theorem gsv_lookup (dt : QString → Option Int) (k : String) (h : k ∈ gsvTags) :
    ∃ handler, (m_nmeaHashMap dt).lookup k = some handler ∧
      ∀ p data, data.length = 1 → handler p data = some (NMEA_PARSE_OK, p) := by
  simp only [gsvTags, List.mem_cons, List.mem_singleton, List.not_mem_nil, or_false] at h
  rcases h with h | h | h | h | h | h | h | h | h <;> subst h <;>
    exact ⟨_, rfl, fun p data hd => parseGsv_one p data _ _ hd⟩

set_option maxRecDepth 100000 in
/-- Claim C17 fails as stated: `$GPGSV,1*48` and `$GPXXX,1*52` contain one `*` and
pass the checksum step, and one field remains after the tag is removed, yet
the first is answered with `NMEA_PARSE_OK` and the second with
`NMEA_PARSE_UNSUPPORTED`. -/
theorem one_field_after_tag_not_too_few :
    "$GPGSV,1*48".toList.count '*' = 1 ∧ checkSum "$GPGSV,1*48".toList false = some true ∧
    (sentenceFields "$GPGSV,1*48".toList).tail.length < 2 ∧
    parseNmeaSentence noDate freshParser "$GPGSV,1*48".toList false
      = some (NMEA_PARSE_OK, freshParser) ∧
    "$GPXXX,1*52".toList.count '*' = 1 ∧ checkSum "$GPXXX,1*52".toList false = some true ∧
    (sentenceFields "$GPXXX,1*52".toList).tail.length < 2 ∧
    parseNmeaSentence noDate freshParser "$GPXXX,1*52".toList false
      = some (NMEA_PARSE_UNSUPPORTED, freshParser) := by
  decide

/-- Claim C17, amended. For every sentence that contains exactly one `*` and passes
the checksum step, `parseNmeaSentence` counts the comma-separated fields of
the part before `*` with the tag included: with fewer than 2 it returns
`NMEA_PARSE_TOO_FEW_FIELDS`. With exactly 2 (one field behind the tag) the
answer is that of the handler: `NMEA_PARSE_TOO_FEW_FIELDS` for the GGA, RMC and
GSA tags, `NMEA_PARSE_OK` for the GSV tags, `NMEA_PARSE_UNSUPPORTED` for a tag that
is not registered. The parser object is unchanged in all four cases. -/
theorem too_few_fields_counts_the_tag (dt : QString → Option Int) (p : NmeaParser)
    (s : QString) (ignore : Bool) (h1 : s.count '*' = 1)
    (hcs : checkSum s ignore = some true) :
    ((sentenceFields s).length < 2 →
      parseNmeaSentence dt p s ignore = some (NMEA_PARSE_TOO_FEW_FIELDS, p)) ∧
    ((sentenceFields s).length = 2 → sentenceTag s ∈ countedTags →
      parseNmeaSentence dt p s ignore = some (NMEA_PARSE_TOO_FEW_FIELDS, p)) ∧
    ((sentenceFields s).length = 2 → sentenceTag s ∈ gsvTags →
      parseNmeaSentence dt p s ignore = some (NMEA_PARSE_OK, p)) ∧
    ((sentenceFields s).length = 2 → sentenceTag s ∉ registeredTags →
      parseNmeaSentence dt p s ignore = some (NMEA_PARSE_UNSUPPORTED, p)) := by
  have hl : (split '*' s).length = 2 := by rw [split_length, h1]
  refine ⟨fun hf => parse_tooFew dt p s ignore hl hcs hf, fun hf hk => ?_, fun hf hk => ?_,
    fun hf hk => parse_unsupported dt p s ignore h1 hcs (by omega) (Or.inl hk)⟩
  · obtain ⟨handler, hlk, hh⟩ := counted_lookup dt _ hk
    rw [parse_registered dt p s ignore handler h1 hcs (by omega) hlk]
    exact hh p _ (by rw [List.length_tail, hf])
  · obtain ⟨handler, hlk, hh⟩ := gsv_lookup dt _ hk
    rw [parse_registered dt p s ignore handler h1 hcs (by omega) hlk]
    exact hh p _ (by rw [List.length_tail, hf])

set_option maxRecDepth 100000 in
/-- Claim C17 (amended) at `$GPGGA,1*4B` on a fresh parser. -/
theorem too_few_fields_counts_the_tag_witness :
    "$GPGGA,1*4B".toList.count '*' = 1 ∧ checkSum "$GPGGA,1*4B".toList false = some true ∧
    (sentenceFields "$GPGGA,1*4B".toList).length = 2 ∧
    sentenceTag "$GPGGA,1*4B".toList ∈ countedTags ∧
    parseNmeaSentence noDate freshParser "$GPGGA,1*4B".toList false
      = some (NMEA_PARSE_TOO_FEW_FIELDS, freshParser) :=
  ⟨by decide, by decide, by decide, by decide,
    (too_few_fields_counts_the_tag noDate freshParser "$GPGGA,1*4B".toList false
      (by decide) (by decide)).2.1 (by decide) (by decide)⟩

theorem parseGsa_ok (p : NmeaParser) (data : List QString) (n : Int) (h : 17 ≤ data.length) :
    ∃ p', parseGsa p data n = some (NMEA_PARSE_OK, p') := by
  have hl : ¬ data.length < 17 := by omega
  obtain ⟨d1, h1⟩ : ∃ d1, data[1]? = some d1 := ⟨_, List.getElem?_eq_getElem (by omega)⟩
  simp only [parseGsa, hl, if_false, h1, bind, Option.bind]
  exact ⟨_, rfl⟩

theorem parseGngsa_ok (p : NmeaParser) (data : List QString) (h : 17 ≤ data.length) :
    ∃ p', parseGngsa p data = some (NMEA_PARSE_OK, p') := by
  unfold parseGngsa
  dsimp only
  split_ifs <;> exact parseGsa_ok p data _ h

theorem gsa_lookup (dt : QString → Option Int) (k : String) (n : Int)
    (h : (k, n) ∈ gsaTagSystem) :
    (m_nmeaHashMap dt).lookup k = some (fun p data => parseGsa p data n) := by
  simp only [gsaTagSystem, List.mem_cons, List.mem_singleton, List.not_mem_nil, or_false,
    Prod.mk.injEq] at h
  rcases h with ⟨hk, hn⟩ | ⟨hk, hn⟩ | ⟨hk, hn⟩ | ⟨hk, hn⟩ | ⟨hk, hn⟩ <;> subst hk <;> subst hn <;>
    rfl

set_option maxRecDepth 100000 in
/-- Claim C19 fails for `$GLGSA`: the constructor does not register that tag (its
handler `parseGlgsa` exists and would accept the sentence), so a 17-field
`$GLGSA` sentence with a correct checksum is answered with
`NMEA_PARSE_UNSUPPORTED` and the parser object is unchanged. The other six tags
are dispatched as claimed: `$GPGSA`, `$GAGSA`, `$BDGSA`, `$QZGSA`, `$NCGSA` to
`parseGsa` with constellation 1, 3, 4, 5, 6 and `$GNGSA` to `parseGngsa`, each
returning `NMEA_PARSE_OK` for at least 17 fields. -/
theorem glgsa_is_unsupported (dt : QString → Option Int) (p : NmeaParser) :
    (glgsaExample.count '*' = 1 ∧ checkSum glgsaExample false = some true ∧
      sentenceTag glgsaExample = "$GLGSA" ∧ (sentenceFields glgsaExample).tail.length = 17 ∧
      (∃ p', parseGlgsa p (sentenceFields glgsaExample).tail = some (NMEA_PARSE_OK, p')) ∧
      parseNmeaSentence dt p glgsaExample false = some (NMEA_PARSE_UNSUPPORTED, p)) ∧
    (∀ (s : QString) (ignore : Bool), s.count '*' = 1 → checkSum s ignore = some true →
      17 ≤ (sentenceFields s).tail.length →
      (∀ k n, (k, n) ∈ gsaTagSystem → sentenceTag s = k →
        parseNmeaSentence dt p s ignore = parseGsa p (sentenceFields s).tail n ∧
        ∃ p', parseNmeaSentence dt p s ignore = some (NMEA_PARSE_OK, p')) ∧
      (sentenceTag s = "$GNGSA" →
        parseNmeaSentence dt p s ignore = parseGngsa p (sentenceFields s).tail ∧
        ∃ p', parseNmeaSentence dt p s ignore = some (NMEA_PARSE_OK, p'))) := by
  refine ⟨⟨by decide, by decide, by decide, by decide, parseGsa_ok p _ 2 (by decide),
    parse_unsupported dt p _ false (by decide) (by decide) (by decide) (Or.inl (by decide))⟩, ?_⟩
  intro s ignore h1 hcs hf
  have hf2 : 2 ≤ (sentenceFields s).length := by
    rw [List.length_tail] at hf
    omega
  refine ⟨fun k n hk htag => ?_, fun htag => ?_⟩
  · have hlk := gsa_lookup dt k n hk
    rw [← htag] at hlk
    have hp := parse_registered dt p s ignore _ h1 hcs hf2 hlk
    exact ⟨hp, by rw [hp]; exact parseGsa_ok p _ n hf⟩
  · have hlk : (m_nmeaHashMap dt).lookup (sentenceTag s) = some parseGngsa := by
      rw [htag]
      rfl
    have hp := parse_registered dt p s ignore _ h1 hcs hf2 hlk
    exact ⟨hp, by rw [hp]; exact parseGngsa_ok p _ hf⟩

/-! ## RTCM3 decoder: short buffers and bit reads -/

theorem rtcm3_findNextFrame_short (data : QByteArray) (h : data.length < 3) :
    Rtcm3.findNextFrame data 0 = none := by
  unfold Rtcm3.findNextFrame
  apply scanFrom_all_false
  intro j _ _
  have : ¬ (j + Rtcm3.RTCM3_HEADER_LEN ≤ data.length) := by simp [Rtcm3.RTCM3_HEADER_LEN]; omega
  simp [Rtcm3.frameAt, this]

theorem rtcm3_decodeFrame_short (ub : Nat → Nat → Nat) (s : Rtcm3.Rtcm3Decoder)
    (data : QByteArray) (h : data.length < 3) :
    (Rtcm3.decodeFrame ub s data).ok = false ∧
    (Rtcm3.decodeFrame ub s data).bytesProcessed = data.length := by
  simp [Rtcm3.decodeFrame, rtcm3_findNextFrame_short data h]

theorem rtcm3_findNextFrame_zero (data : QByteArray) (h0 : byteAt data 0 = 0xD3)
    (hlen : 3 ≤ data.length) : Rtcm3.findNextFrame data 0 = some 0 := by
  unfold Rtcm3.findNextFrame
  apply scanFrom_head
  · have hL := rtcm3_lenAt_le data 0
    simp [Rtcm3.frameAt, h0, Rtcm3.RTCM3_PREAMBLE, Rtcm3.RTCM3_HEADER_LEN,
      Rtcm3.RTCM3_MAX_MSG_LEN, hlen, hL]
  · omega

theorem rtcm3_decodeFrame_wait (ub : Nat → Nat → Nat) (s : Rtcm3.Rtcm3Decoder)
    (data : QByteArray) (h0 : byteAt data 0 = 0xD3) (h3 : 3 ≤ data.length)
    (hshort : data.length < 3 + ((byteAt data 1 % 4) * 256 + byteAt data 2) + 3) :
    (Rtcm3.decodeFrame ub s data).ok = false ∧
    (Rtcm3.decodeFrame ub s data).bytesProcessed = 0 := by
  have hf := rtcm3_findNextFrame_zero data h0 h3
  have hL := rtcm3_lenAt_eq data 0
  simp only [Rtcm3.lenAt, Nat.zero_add] at hL
  unfold Rtcm3.decodeFrame
  simp only [hf, Rtcm3.RTCM3_HEADER_LEN, Rtcm3.RTCM3_CRC_LEN, hL]
  have h3' : ¬ data.length < 3 := by omega
  simp [h3', hshort]

theorem rtcm3_decodeFrame_accept (ub : Nat → Nat → Nat) (s : Rtcm3.Rtcm3Decoder)
    (data : QByteArray) (h : Rtcm3FrameAtStart data)
    (hp : ∀ s', (Rtcm3.parseMessage ub s'
      (((data.take (3 + ((byteAt data 1 % 4) * 256 + byteAt data 2) + 3)).drop 3).take
        ((byteAt data 1 % 4) * 256 + byteAt data 2))).1 = true) :
    (Rtcm3.decodeFrame ub s data).ok = true ∧
    (Rtcm3.decodeFrame ub s data).bytesProcessed
      = 3 + ((byteAt data 1 % 4) * 256 + byteAt data 2) + 3 := by
  obtain ⟨h0, hlen, hcrc⟩ := h
  have hf := rtcm3_findNextFrame_zero data h0 (by omega)
  have hv := (rtcm3_validateCrc_take data _ hlen).2 hcrc
  have hL := rtcm3_lenAt_eq data 0
  simp only [Rtcm3.lenAt, Nat.zero_add] at hL
  unfold Rtcm3.decodeFrame
  simp only [hf, Rtcm3.RTCM3_HEADER_LEN, Rtcm3.RTCM3_CRC_LEN, hL]
  have h3' : ¬ data.length < 3 := by omega
  have hlen' : ¬ data.length < 3 + ((byteAt data 1 % 4) * 256 + byteAt data 2) + 3 := by omega
  simp only [gt_iff_lt, lt_self_iff_false, if_false, h3', hlen', hv, Bool.not_true,
    Bool.false_eq_true, hp, if_true]
  constructor <;> trivial

/-- Claim C15, as the code behaves. A buffer of 1 or 2 bytes is never kept:
`findNextFrame` accepts the preamble only with the whole 3-byte header buffered,
so it returns `-1` and `decodeFrame` answers false with `bytesProcessed` equal to
the buffer length (1 or 2, not 0), also when the first byte is `0xD3`; the
branch `data.length() < RTCM3_HEADER_LEN` behind it cannot be reached. The second
half of the claim holds: a buffer that starts with `0xD3` and a complete
header but holds fewer than `3 + L + 3` bytes is answered with false and
`bytesProcessed = 0`. -/
theorem rtcm3_partial_header_is_discarded (ub : Nat → Nat → Nat) (s : Rtcm3.Rtcm3Decoder) :
    (byteAt [0xD3] 0 = 0xD3 ∧ (Rtcm3.decodeFrame ub s [0xD3]).ok = false ∧
      (Rtcm3.decodeFrame ub s [0xD3]).bytesProcessed = 1) ∧
    (byteAt [0xD3, 0x00] 0 = 0xD3 ∧ (Rtcm3.decodeFrame ub s [0xD3, 0x00]).ok = false ∧
      (Rtcm3.decodeFrame ub s [0xD3, 0x00]).bytesProcessed = 2) ∧
    (∀ data : QByteArray, data.length = 1 ∨ data.length = 2 →
      (Rtcm3.decodeFrame ub s data).ok = false ∧
      (Rtcm3.decodeFrame ub s data).bytesProcessed = data.length) ∧
    (∀ data : QByteArray, byteAt data 0 = 0xD3 → 3 ≤ data.length →
      data.length < 3 + ((byteAt data 1 % 4) * 256 + byteAt data 2) + 3 →
      (Rtcm3.decodeFrame ub s data).ok = false ∧
      (Rtcm3.decodeFrame ub s data).bytesProcessed = 0) :=
  ⟨⟨by decide, rtcm3_decodeFrame_short ub s _ (by decide)⟩,
    ⟨by decide, rtcm3_decodeFrame_short ub s _ (by decide)⟩,
    fun data h => rtcm3_decodeFrame_short ub s data (by omega),
    fun data h0 h3 hs => rtcm3_decodeFrame_wait ub s data h0 h3 hs⟩

theorem mem_getbituReads (pos len k : Nat) :
    k ∈ Rtcm3.getbituReads pos len ↔ pos ≤ k ∧ k < pos + len := by
  unfold Rtcm3.getbituReads
  rw [List.mem_range']
  constructor
  · rintro ⟨i, hi, rfl⟩
    omega
  · rintro ⟨h1, h2⟩
    exact ⟨k - pos, by omega, by omega⟩

theorem parseStationInfoReads_bound (data : QByteArray) (type k : Nat)
    (h : k ∈ Rtcm3.parseStationInfoReads data type) : k < 8 * data.length := by
  unfold Rtcm3.parseStationInfoReads at h
  by_cases hl : data.length < 20
  · simp [hl] at h
  · simp only [hl, if_false, List.mem_append, mem_getbituReads] at h
    rcases h with ((h | h) | h) | h
    · omega
    · omega
    · omega
    · split_ifs at h with hc
      · rw [mem_getbituReads] at h
        omega
      · simp at h

theorem parseTextMessageReads_bound (data : QByteArray) (k : Nat) (hl : 11 ≤ data.length)
    (h : k ∈ Rtcm3.parseTextMessageReads data) : k < 8 * data.length := by
  unfold Rtcm3.parseTextMessageReads at h
  have hl4 : ¬ data.length < 4 := by omega
  simp only [hl4, if_false, List.mem_append, mem_getbituReads] at h
  rcases h with ((h | h) | h) | h
  · omega
  · omega
  · omega
  · split_ifs at h with hc
    · rw [mem_getbituReads] at h
      omega
    · simp at h

theorem parseMessageReads_bound (data : QByteArray) (k : Nat)
    (hl : 11 ≤ data.length ∨ (3 ≤ data.length ∧ Rtcm3.getbitu data 0 12 % 2 ^ 16 ≠ 1029))
    (h : k ∈ Rtcm3.parseMessageReads data) : k < 8 * data.length := by
  unfold Rtcm3.parseMessageReads at h
  have hl2 : ¬ data.length < 2 := by omega
  simp only [hl2, if_false, List.mem_append, mem_getbituReads] at h
  rcases h with (h | h) | h
  · omega
  · omega
  · split_ifs at h with h1 h2
    · exact parseStationInfoReads_bound data _ k h
    · rcases hl with hl | ⟨_, hl⟩
      · exact parseTextMessageReads_bound data k hl h
      · exact absurd h2 hl
    · simp at h

theorem parseMessage_short_ok (ub : Nat → Nat → Nat) (s : Rtcm3.Rtcm3Decoder) :
    (Rtcm3.parseMessage ub s [0x43, 0x50]).1 = true := by
  have ht : Rtcm3.getbitu [0x43, 0x50] 0 12 % 65536 = 1077 := by decide
  simp [Rtcm3.parseMessage, ht]

theorem parseMessage_text_ok (ub : Nat → Nat → Nat) (s : Rtcm3.Rtcm3Decoder) :
    (Rtcm3.parseMessage ub s [0x40, 0x50, 0x00, 0x00]).1 = true := by
  have ht : Rtcm3.getbitu [0x40, 0x50, 0x00, 0x00] 0 12 % 65536 = 1029 := by decide
  simp [Rtcm3.parseMessage, Rtcm3.parseTextMessage, ht]

set_option maxRecDepth 100000 in
/-- Claim C14 fails on short payloads. `parseMessage` tests `length < 2` and then reads
bits 0..23, and `parseTextMessage` tests `length < 4` and then reads bits 24..35 and
69..83. The frame `D3 00 02 43 50 06 A2 7E` passes the CRC and is decoded (true,
8 bytes) while bit 23 of its 2-byte payload is read; the frame
`D3 00 04 40 50 00 00 1E E5 D8` (type 1029) passes the CRC and is decoded while
bit 83 of its 4-byte payload is read. Payloads of at least 11 bytes, and
payloads of at least 3 bytes of a type other than 1029, are read inside
their bounds, and so is every payload by `parseStationInfo`. -/
theorem rtcm3_reads_past_short_payload (ub : Nat → Nat → Nat) (s : Rtcm3.Rtcm3Decoder) :
    (Rtcm3FrameAtStart rtcmShortFrame ∧ (Rtcm3.decodeFrame ub s rtcmShortFrame).ok = true ∧
      (Rtcm3.decodeFrame ub s rtcmShortFrame).bytesProcessed = 8 ∧
      ((rtcmShortFrame.take 8).drop 3).take 2 = [0x43, 0x50] ∧
      23 ∈ Rtcm3.parseMessageReads [0x43, 0x50] ∧
      ¬ 23 < 8 * ([0x43, 0x50] : QByteArray).length) ∧
    (Rtcm3FrameAtStart rtcmTextFrame ∧ (Rtcm3.decodeFrame ub s rtcmTextFrame).ok = true ∧
      (Rtcm3.decodeFrame ub s rtcmTextFrame).bytesProcessed = 10 ∧
      ((rtcmTextFrame.take 10).drop 3).take 4 = [0x40, 0x50, 0x00, 0x00] ∧
      83 ∈ Rtcm3.parseMessageReads [0x40, 0x50, 0x00, 0x00] ∧
      ¬ 83 < 8 * ([0x40, 0x50, 0x00, 0x00] : QByteArray).length) ∧
    (∀ (data : QByteArray) (k : Nat),
      11 ≤ data.length ∨ (3 ≤ data.length ∧ Rtcm3.getbitu data 0 12 % 2 ^ 16 ≠ 1029) →
      k ∈ Rtcm3.parseMessageReads data → k < 8 * data.length) ∧
    (∀ (data : QByteArray) (type k : Nat),
      k ∈ Rtcm3.parseStationInfoReads data type → k < 8 * data.length) := by
  have hA : Rtcm3FrameAtStart rtcmShortFrame := by
    unfold Rtcm3FrameAtStart
    decide
  have hB : Rtcm3FrameAtStart rtcmTextFrame := by
    unfold Rtcm3FrameAtStart
    decide
  have h1 := rtcm3_decodeFrame_accept ub s rtcmShortFrame hA
    (fun s' => parseMessage_short_ok ub s')
  have h2 := rtcm3_decodeFrame_accept ub s rtcmTextFrame hB
    (fun s' => parseMessage_text_ok ub s')
  exact ⟨⟨hA, h1.1, h1.2, by decide, by decide, by decide⟩,
    ⟨hB, h2.1, h2.2, by decide, by decide, by decide⟩,
    fun data k hl hk => parseMessageReads_bound data k hl hk,
    fun data type k hk => parseStationInfoReads_bound data type k hk⟩

/-! ## UBX decoder: resynchronisation after a prefix -/

theorem scanFrom_first {test : Nat → Bool} : ∀ (n i k : Nat),
    (∀ j, i ≤ j → j < k → test j = false) → test k = true → i ≤ k → k < i + n →
    scanFrom test i n = some k := by
  intro n
  induction n with
  | zero => intro i k _ _ h1 h2; omega
  | succ n ih =>
    intro i k hf ht h1 h2
    unfold scanFrom
    by_cases hik : i = k
    · subst hik
      simp [ht]
    · rw [hf i le_rfl (by omega)]
      simp only [Bool.false_eq_true, if_false]
      exact ih (i + 1) k (fun j hj1 hj2 => hf j (by omega) hj2) ht (by omega) (by omega)

theorem ublox_decodePacket_skip (s : Ublox.UbloxDecoder) (data : QByteArray) (k : Nat)
    (hk : 0 < k) (hf : Ublox.findNextPacket data 0 = some k) :
    (Ublox.decodePacket s data).ok = false ∧ (Ublox.decodePacket s data).bytesProcessed = k := by
  unfold Ublox.decodePacket
  simp [hf, hk]

theorem ubxFrame_accept (s : Ublox.UbloxDecoder) (cls id lenLo lenHi : Byte)
    (payload : QByteArray) (ckA ckB : Byte)
    (hlen : payload.length = lenLo.val + 256 * lenHi.val)
    (hmax : payload.length ≤ 4096)
    (hck : calculateChecksum ([cls, id, lenLo, lenHi] ++ payload) = (ckA.val, ckB.val))
    (hpvt : ¬ (cls.val = 0x01 ∧ id.val = 0x07 ∧ payload.length < 92))
    (hver : ¬ (cls.val = 0x0A ∧ id.val = 0x04 ∧ payload.length < 40)) (rest : QByteArray) :
    (Ublox.decodePacket s (ubxFrame cls id lenLo lenHi payload ckA ckB ++ rest)).ok = true ∧
    (Ublox.decodePacket s
      (ubxFrame cls id lenLo lenHi payload ckA ckB ++ rest)).bytesProcessed
        = payload.length + 8 := by
  have hl := ubxFrame_length cls id lenLo lenHi payload ckA ckB
  obtain ⟨h0, h1, h2, h3, h4, h5⟩ := ubxFrame_header cls id lenLo lenHi payload ckA ckB
    (ubxFrame cls id lenLo lenHi payload ckA ckB ++ rest)
    (fun i hi => byteAt_append_left _ _ _ (by omega))
  have hL : byteAt (ubxFrame cls id lenLo lenHi payload ckA ckB ++ rest) 4 +
      256 * byteAt (ubxFrame cls id lenLo lenHi payload ckA ckB ++ rest) 5
        = payload.length := by
    rw [h4, h5]; omega
  have hacc := ublox_decodePacket_accept s
    (ubxFrame cls id lenLo lenHi payload ckA ckB ++ rest) h0 h1
    (by rw [hL]; exact hmax) (by rw [hL, List.length_append]; omega)
    (by
      rw [hL]
      have e1 : (ubxFrame cls id lenLo lenHi payload ckA ckB ++ rest).drop 2
          = ([cls, id, lenLo, lenHi] ++ payload) ++ ([ckA, ckB] ++ rest) := by
        simp [ubxFrame]
      have e2 : ([cls, id, lenLo, lenHi] ++ payload).length = 4 + payload.length := by
        simp; omega
      rw [e1, ← e2, List.take_left]
      have e3 : ubxFrame cls id lenLo lenHi payload ckA ckB ++ rest
          = ([0xB5, 0x62, cls, id, lenLo, lenHi] ++ payload) ++ ([ckA, ckB] ++ rest) := by
        simp [ubxFrame]
      have e4 : ([(0xB5 : Byte), 0x62, cls, id, lenLo, lenHi] ++ payload).length
          = 6 + payload.length := by simp; omega
      have e5 : 7 + payload.length
          = ([(0xB5 : Byte), 0x62, cls, id, lenLo, lenHi] ++ payload).length + 1 := by omega
      rw [hck, e3, e5, byteAt_append_right, ← e4, ← Nat.add_zero (List.length _),
        byteAt_append_right]
      simp [byteAt])
    (by rw [hL, h2, h3]; exact hpvt) (by rw [hL, h2, h3]; exact hver)
  rw [hL] at hacc
  exact ⟨hacc.1, by rw [hacc.2]; omega⟩

theorem ubxFrame_sync_after (g : QByteArray) (cls id lenLo lenHi : Byte)
    (payload : QByteArray) (ckA ckB : Byte)
    (hlen : payload.length = lenLo.val + 256 * lenHi.val) (hmax : payload.length ≤ 4096) :
    syncAt Ublox.UBX_SYNC1 Ublox.UBX_SYNC2 Ublox.UBX_HEADER_LEN Ublox.lenAt
      (g ++ ubxFrame cls id lenLo lenHi payload ckA ckB) g.length = true := by
  have hl := ubxFrame_length cls id lenLo lenHi payload ckA ckB
  have hb : ∀ i, byteAt (g ++ ubxFrame cls id lenLo lenHi payload ckA ckB) (g.length + i)
      = byteAt (ubxFrame cls id lenLo lenHi payload ckA ckB) i :=
    fun i => byteAt_append_right g _ i
  obtain ⟨h0, h1, _, _, h4, h5⟩ := ubxFrame_header cls id lenLo lenHi payload ckA ckB
    (ubxFrame cls id lenLo lenHi payload ckA ckB) (fun i _ => rfl)
  have e0 := hb 0
  rw [Nat.add_zero] at e0
  have e4 : byteAt (g ++ ubxFrame cls id lenLo lenHi payload ckA ckB) (g.length + 4 + 0)
      = lenLo.val := by rw [Nat.add_zero, hb 4, h4]
  have e5 : byteAt (g ++ ubxFrame cls id lenLo lenHi payload ckA ckB) (g.length + 4 + 1)
      = lenHi.val := by rw [Nat.add_assoc, hb 5, h5]
  simp only [syncAt, Ublox.UBX_SYNC1, Ublox.UBX_SYNC2, Ublox.UBX_HEADER_LEN, Ublox.lenAt,
    getU2_eq, e0, hb 1, h0, h1, List.length_append, hl, Bool.and_eq_true, beq_iff_eq,
    decide_eq_true_eq]
  rw [Nat.add_zero] at e4
  rw [e4, e5]
  refine ⟨⟨⟨trivial, trivial⟩, by omega⟩, by omega⟩

set_option maxRecDepth 100000 in
/-- Claim C20 fails as stated: a prefix may itself hold a UBX header. With the
50-byte prefix `00 .. 00 B5 62 00 00 FF 0F` before the valid frame ACK-ACK, the
first call skips 44 bytes and returns false; the second call finds the header
declaring 4095 payload bytes at offset 0, and returns false with
`bytesProcessed = 0` to wait for 4103 bytes. Neither call returns true. -/
theorem ubx_resync_blocked_by_fake_header :
    fakeHeaderPrefix.length = 50 ∧
    calculateChecksum ([0x05, 0x01, 0x02, 0x00] ++ [0x06, 0x01])
      = ((0x0F : Byte).val, (0x38 : Byte).val) ∧
    (Ublox.decodePacket ubloxInit (fakeHeaderPrefix ++ ackFrame)).ok = false ∧
    (Ublox.decodePacket ubloxInit (fakeHeaderPrefix ++ ackFrame)).bytesProcessed = 44 ∧
    (Ublox.decodePacket (Ublox.decodePacket ubloxInit (fakeHeaderPrefix ++ ackFrame)).state
      ((fakeHeaderPrefix ++ ackFrame).drop 44)).ok = false ∧
    (Ublox.decodePacket (Ublox.decodePacket ubloxInit (fakeHeaderPrefix ++ ackFrame)).state
      ((fakeHeaderPrefix ++ ackFrame).drop 44)).bytesProcessed = 0 := by
  have h1 := ublox_decodePacket_skip ubloxInit (fakeHeaderPrefix ++ ackFrame) 44 (by decide)
    (by decide)
  have h2 := ublox_decodePacket_wait
    (Ublox.decodePacket ubloxInit (fakeHeaderPrefix ++ ackFrame)).state
    ((fakeHeaderPrefix ++ ackFrame).drop 44) (by decide) (by decide) (by decide) (by decide)
    (by decide)
  exact ⟨by decide, by decide, h1.1, h1.2, h2.1, h2.2.1⟩

/-- Claim C20, amended. Let `F` be a valid UBX frame (declared length equal to the
payload length and at most 4096, Fletcher-8 pair correct, neither a NAV-PVT
shorter than 92 bytes nor a MON-VER shorter than 40) and `g` a non-empty
prefix, of 50 bytes or any other length, such that no offset inside `g` passes
the test of `findNextPacket` in `g ++ F` (sync bytes `B5 62`, six header bytes
buffered, length field at most 4096). Then the first `decodePacket` on `g ++ F`
returns false with `bytesProcessed = |g|`, dropping that many bytes leaves
exactly `F`, and the second call returns true with `bytesProcessed = |F|`. -/
theorem ubx_resync_after_clean_garbage (s : Ublox.UbloxDecoder) (g : QByteArray)
    (cls id lenLo lenHi : Byte) (payload : QByteArray) (ckA ckB : Byte)
    (hg : 0 < g.length)
    (hlen : payload.length = lenLo.val + 256 * lenHi.val)
    (hmax : payload.length ≤ 4096)
    (hck : calculateChecksum ([cls, id, lenLo, lenHi] ++ payload) = (ckA.val, ckB.val))
    (hpvt : ¬ (cls.val = 0x01 ∧ id.val = 0x07 ∧ payload.length < 92))
    (hver : ¬ (cls.val = 0x0A ∧ id.val = 0x04 ∧ payload.length < 40))
    (hclean : ∀ i, i < g.length →
      syncAt Ublox.UBX_SYNC1 Ublox.UBX_SYNC2 Ublox.UBX_HEADER_LEN Ublox.lenAt
        (g ++ ubxFrame cls id lenLo lenHi payload ckA ckB) i = false) :
    (Ublox.decodePacket s (g ++ ubxFrame cls id lenLo lenHi payload ckA ckB)).ok = false ∧
    (Ublox.decodePacket s (g ++ ubxFrame cls id lenLo lenHi payload ckA ckB)).bytesProcessed
      = g.length ∧
    (g ++ ubxFrame cls id lenLo lenHi payload ckA ckB).drop
      (Ublox.decodePacket s (g ++ ubxFrame cls id lenLo lenHi payload ckA ckB)).bytesProcessed
      = ubxFrame cls id lenLo lenHi payload ckA ckB ∧
    (Ublox.decodePacket
      (Ublox.decodePacket s (g ++ ubxFrame cls id lenLo lenHi payload ckA ckB)).state
      ((g ++ ubxFrame cls id lenLo lenHi payload ckA ckB).drop
        (Ublox.decodePacket s
          (g ++ ubxFrame cls id lenLo lenHi payload ckA ckB)).bytesProcessed)).ok = true ∧
    (Ublox.decodePacket
      (Ublox.decodePacket s (g ++ ubxFrame cls id lenLo lenHi payload ckA ckB)).state
      ((g ++ ubxFrame cls id lenLo lenHi payload ckA ckB).drop
        (Ublox.decodePacket s
          (g ++ ubxFrame cls id lenLo lenHi payload ckA ckB)).bytesProcessed)).bytesProcessed
      = (ubxFrame cls id lenLo lenHi payload ckA ckB).length := by
  have hl := ubxFrame_length cls id lenLo lenHi payload ckA ckB
  have hfind : Ublox.findNextPacket (g ++ ubxFrame cls id lenLo lenHi payload ckA ckB) 0
      = some g.length := by
    unfold Ublox.findNextPacket
    apply scanFrom_first
    · exact fun j _ hj => hclean j hj
    · exact ubxFrame_sync_after g cls id lenLo lenHi payload ckA ckB hlen hmax
    · omega
    · rw [List.length_append, hl]
      omega
  obtain ⟨h1, h2⟩ := ublox_decodePacket_skip s _ g.length hg hfind
  have hacc := ubxFrame_accept
    (Ublox.decodePacket s (g ++ ubxFrame cls id lenLo lenHi payload ckA ckB)).state
    cls id lenLo lenHi payload ckA ckB hlen hmax hck hpvt hver []
  rw [List.append_nil] at hacc
  rw [h2, List.drop_left]
  exact ⟨h1, rfl, rfl, hacc.1, by rw [hacc.2, hl]⟩

set_option maxRecDepth 100000 in
/-- Claim C20 (amended) at 50 zero bytes followed by the frame ACK-ACK
`B5 62 05 01 02 00 06 01 0F 38`: the first call skips 50 bytes, the second
decodes the 10 bytes of the frame. -/
theorem ubx_resync_after_clean_garbage_witness :
    (List.replicate 50 (0x00 : Byte)).length = 50 ∧
    (Ublox.decodePacket ubloxInit
      (List.replicate 50 0x00 ++ ubxFrame 0x05 0x01 0x02 0x00 [0x06, 0x01] 0x0F 0x38)).ok
      = false ∧
    (Ublox.decodePacket ubloxInit
      (List.replicate 50 0x00
        ++ ubxFrame 0x05 0x01 0x02 0x00 [0x06, 0x01] 0x0F 0x38)).bytesProcessed = 50 ∧
    (Ublox.decodePacket
      (Ublox.decodePacket ubloxInit
        (List.replicate 50 0x00 ++ ubxFrame 0x05 0x01 0x02 0x00 [0x06, 0x01] 0x0F 0x38)).state
      ((List.replicate 50 0x00 ++ ubxFrame 0x05 0x01 0x02 0x00 [0x06, 0x01] 0x0F 0x38).drop
        (Ublox.decodePacket ubloxInit
          (List.replicate 50 0x00
            ++ ubxFrame 0x05 0x01 0x02 0x00 [0x06, 0x01] 0x0F 0x38)).bytesProcessed)).ok
      = true :=
  have h := ubx_resync_after_clean_garbage ubloxInit (List.replicate 50 0x00)
    0x05 0x01 0x02 0x00 [0x06, 0x01] 0x0F 0x38
    (by decide) (by decide) (by decide) (by decide) (by decide) (by decide) (by decide)
  ⟨by decide, h.1, h.2.1, h.2.2.2.1⟩

/-! ## Epoch aggregation -/

theorem parseGsv_one_satellite (p : NmeaParser) (data : List QString) (prn : Int)
    (system : Int) (signal : Char) (h : gsvReportsOnly data prn) :
    ∃ sat : GnssSatellite, sat.prn = prn ∧ sat.system = system ∧ sat.used = false ∧
      parseGsv p data system signal = some (NMEA_PARSE_OK,
        { p with m_gnssSatellites := p.m_gnssSatellites ++ [sat] }) := by
  obtain ⟨hlen, d3', d6', h3, hne3, hprn, h6, hne6⟩ := h
  rcases hlen with hlen | ⟨hlen, h7⟩
  · rcases data with _ | ⟨d0, _ | ⟨d1, _ | ⟨d2, _ | ⟨d3, _ | ⟨d4, _ | ⟨d5, _ | ⟨d6, _ | ⟨d7, t⟩⟩⟩⟩⟩⟩⟩⟩ <;>
      simp at hlen
    simp only [List.getElem?_cons_succ, List.getElem?_cons_zero, Option.some.injEq] at h3 h6
    subst h3
    subst h6
    have hidx : (List.range 7).filter (fun (i : Nat) => i % 4 == 3 && decide (i < 6))
        = [3] := by decide
    refine ⟨{ prn := toInt d3, elevation := toInt d4, azimuth := toInt d5, snr := toInt d6,
              system := system, signal := signal, used := false }, hprn, rfl, rfl, ?_⟩
    simp [parseGsv, gsvStep, hidx, hne3, hne6]
  · rcases data with _ | ⟨d0, _ | ⟨d1, _ | ⟨d2, _ | ⟨d3, _ | ⟨d4, _ | ⟨d5, _ | ⟨d6, _ | ⟨d7, _ | ⟨d8, t⟩⟩⟩⟩⟩⟩⟩⟩⟩ <;>
      simp at hlen
    simp only [List.getElem?_cons_succ, List.getElem?_cons_zero, Option.some.injEq] at h3 h6
    subst h3
    subst h6
    have hne7 : d7 ≠ [] := by simpa using h7
    obtain ⟨c, t7, rfl⟩ : ∃ c t7, d7 = c :: t7 := by
      cases d7 with
      | nil => exact absurd rfl hne7
      | cons c t7 => exact ⟨c, t7, rfl⟩
    have hidx : (List.range 8).filter (fun (i : Nat) => i % 4 == 3 && decide (i < 6))
        = [3] := by decide
    refine ⟨{ prn := toInt d3, elevation := toInt d4, azimuth := toInt d5, snr := toInt d6,
              system := system, signal := c, used := false }, hprn, rfl, rfl, ?_⟩
    simp [parseGsv, gsvStep, hidx, hne3, hne6]

theorem toInt_pos_ne (d : QString) (h : 0 < toInt d) : d ≠ [] ∧ d ≠ ['0'] := by
  constructor
  · intro hd
    rw [hd] at h
    revert h
    decide
  · intro hd
    rw [hd] at h
    revert h
    decide

theorem gsaStep_pair (data : List QString) (A B : GnssSatellite) (u : Bool) (i : Nat)
    (hAs : A.system = 1) (hb : ∀ d, data[i]? = some d → toInt d ≠ B.prn) :
    ∃ u', gsaStep data 1 false '1' [{ A with used := u }, B] i = [{ A with used := u' }, B] ∧
      (u = true → u' = true) ∧
      (∀ d, data[i]? = some d → toInt d = A.prn → 0 < A.prn → u' = true) := by
  unfold gsaStep
  cases hd : data[i]? with
  | none => exact ⟨u, rfl, id, fun d h => by simp at h⟩
  | some d =>
    have hdb := hb d hd
    by_cases hg : d ≠ [] ∧ d ≠ ['0']
    · by_cases hp : toInt d > 0
      · by_cases ha : A.prn = toInt d
        · refine ⟨true, ?_, fun _ => rfl, fun _ _ _ _ => rfl⟩
          simp [hg, hp, markUsed, ha, hAs]
        · refine ⟨u, ?_, id, fun d' h' he _ => ?_⟩
          · have hdb' : ¬ B.prn = toInt d := fun h => hdb h.symm
            simp [hg, hp, markUsed, ha, hdb']
          · have : d' = d := by simpa using h'.symm
            rw [this] at he
            exact absurd he.symm ha
      · refine ⟨u, ?_, id, fun d' h' he hpos => ?_⟩
        · simp [hg, hp]
        · have : d' = d := by simpa using h'.symm
          rw [this] at he
          omega
    · refine ⟨u, ?_, id, fun d' h' he hpos => ?_⟩
      · simp only [hg, if_false]
      · have : d' = d := by simpa using h'.symm
        rw [this] at he
        exact absurd (toInt_pos_ne d (by omega)) hg

theorem gsa_fold_pair (data : List QString) (A B : GnssSatellite) (hAs : A.system = 1) :
    ∀ (l : List Nat) (u : Bool), (∀ i ∈ l, ∀ d, data[i]? = some d → toInt d ≠ B.prn) →
      ∃ u', l.foldl (gsaStep data 1 false '1') [{ A with used := u }, B]
          = [{ A with used := u' }, B] ∧
        (u = true → u' = true) ∧
        ((∃ i ∈ l, ∃ d, data[i]? = some d ∧ toInt d = A.prn ∧ 0 < A.prn) → u' = true) := by
  intro l
  induction l with
  | nil =>
    intro u _
    exact ⟨u, rfl, id, fun ⟨i, hi, _⟩ => by simp at hi⟩
  | cons i l ih =>
    intro u hb
    obtain ⟨u1, h1, hk1, hs1⟩ := gsaStep_pair data A B u i hAs (hb i (List.mem_cons_self _ _))
    obtain ⟨u2, h2, hk2, hs2⟩ := ih u1 (fun j hj => hb j (List.mem_cons_of_mem _ hj))
    refine ⟨u2, ?_, fun hu => hk2 (hk1 hu), ?_⟩
    · rw [List.foldl_cons, h1, h2]
    · rintro ⟨j, hj, d, hd, he, hpos⟩
      rcases List.mem_cons.mp hj with rfl | hj'
      · exact hk2 (hs1 d hd he hpos)
      · exact hs2 ⟨j, hj', d, hd, he, hpos⟩

theorem parseGsa_marks (p : NmeaParser) (gsa : List QString) (A B : GnssSatellite)
    (hsats : p.m_gnssSatellites = [A, B]) (hAs : A.system = 1) (hAu : A.used = false)
    (hpos : 0 < A.prn) (hlen : gsa.length = 17)
    (hin : ∃ i d, 2 ≤ i ∧ i < 14 ∧ gsa[i]? = some d ∧ toInt d = A.prn)
    (hout : ∀ i d, 2 ≤ i → i < 14 → gsa[i]? = some d → toInt d ≠ B.prn) :
    ∃ pos', parseGsa p gsa 1 = some (NMEA_PARSE_OK,
      { p with m_gnssPosition := pos', m_gnssSatellites := [{ A with used := true }, B] }) := by
  have hl : ¬ gsa.length < 17 := by omega
  obtain ⟨d1, h1⟩ : ∃ d1, gsa[1]? = some d1 := ⟨_, List.getElem?_eq_getElem (by omega)⟩
  have hA : A = { A with used := false } := by
    cases A
    simp only at hAu
    subst hAu
    rfl
  obtain ⟨u', hf, _, hs⟩ := gsa_fold_pair gsa A B hAs (List.range' 2 12) false
    (fun i hi d hd => by
      rw [List.mem_range'] at hi
      obtain ⟨k, hk, rfl⟩ := hi
      exact hout _ d (by omega) (by omega) hd)
  have hu : u' = true := by
    apply hs
    obtain ⟨i, d, hi1, hi2, hd, he⟩ := hin
    exact ⟨i, by rw [List.mem_range']; exact ⟨i - 2, by omega, by omega⟩, d, hd, he, hpos⟩
  rw [hu, ← hA] at hf
  have hodd : (gsa.length % 2 == 0) = false := by rw [hlen]; rfl
  have hgt : ¬ gsa.length > 17 := by omega
  simp only [parseGsa, hl, if_false, h1, bind, Option.bind, hodd, Bool.false_eq_true, false_and,
    hsats, hf]
  exact ⟨_, rfl⟩

theorem parse_framed (dt : QString → Option Int) (p : NmeaParser) (s : QString) (tag : String)
    (fields : List QString) (handler : NmeaParser → List QString → Outcome)
    (h : WellFramed s tag fields) (hf : 1 ≤ fields.length)
    (hlk : (m_nmeaHashMap dt).lookup tag = some handler) :
    parseNmeaSentence dt p s false = handler p fields := by
  obtain ⟨h1, hcs, hfl⟩ := h
  have htag : sentenceTag s = tag := by
    show String.mk ((sentenceFields s).headD []) = tag
    rw [hfl]
    rfl
  have hp := parse_registered dt p s false handler h1 hcs (by rw [hfl]; simp; omega)
    (by rw [htag]; exact hlk)
  rw [hp, hfl]
  rfl

theorem gsaSlots_mem (gsa : List QString) (d : QString) :
    d ∈ gsaSlots gsa ↔ ∃ i, 2 ≤ i ∧ i < 14 ∧ gsa[i]? = some d := by
  unfold gsaSlots
  rw [List.mem_iff_getElem?]
  constructor
  · rintro ⟨k, hk⟩
    by_cases h : k < 12
    · rw [List.getElem?_take_of_lt h, List.getElem?_drop] at hk
      exact ⟨2 + k, by omega, by omega, hk⟩
    · rw [List.getElem?_take_eq_none (by omega)] at hk
      simp at hk
  · rintro ⟨i, h1, h2, hd⟩
    refine ⟨i - 2, ?_⟩
    rw [List.getElem?_take_of_lt (by omega), List.getElem?_drop]
    have : 2 + (i - 2) = i := by omega
    rw [this, hd]

/-- Claim C11. Start from a freshly constructed parser and feed, in this order, a
`$GPGSV` sentence reporting one satellite with PRN `a > 0` (PRN and SNR fields not
empty), a `$GPGSV` sentence reporting one satellite with PRN `b`, a `$GPGSA`
sentence of 17 fields one of whose 12 PRN slots reads as `a` and none as `b`
(so `a` and `b` differ), and a `$GPRMC` sentence of at least 9 fields, each
with one `*` and a correct checksum. Then the four calls return
`NMEA_PARSE_OK`, exactly one snapshot is emitted, and its satellite list is
`[a, b]` in this order, both of constellation 1, `a` with `used = true` and `b`
with `used = false`. -/
theorem epoch_aggregation (dt : QString → Option Int) (pos : GnssPosition) (info : GnssInfo)
    (a b : Int) (sA sB sGsa sRmc : QString) (gsvA gsvB gsa rmc : List QString)
    (ha : 0 < a)
    (hA : WellFramed sA "$GPGSV" gsvA) (hgA : gsvReportsOnly gsvA a)
    (hB : WellFramed sB "$GPGSV" gsvB) (hgB : gsvReportsOnly gsvB b)
    (hG : WellFramed sGsa "$GPGSA" gsa) (hlen : gsa.length = 17)
    (hin : ∃ d ∈ gsaSlots gsa, toInt d = a) (hout : ∀ d ∈ gsaSlots gsa, toInt d ≠ b)
    (hR : WellFramed sRmc "$GPRMC" rmc) (hrmc : 9 ≤ rmc.length) :
    ∃ p', feedAll dt false (NmeaParser.fresh pos info) [sA, sB, sGsa, sRmc]
        = some ([NMEA_PARSE_OK, NMEA_PARSE_OK, NMEA_PARSE_OK, NMEA_PARSE_OK], p') ∧
      p'.emitted.map (fun e => e.satellites.map (fun sat => (sat.prn, sat.system, sat.used)))
        = [[(a, 1, true), (b, 1, false)]] := by
  have hlA : 1 ≤ gsvA.length := by rcases hgA.1 with h | ⟨h, _⟩ <;> omega
  have hlB : 1 ≤ gsvB.length := by rcases hgB.1 with h | ⟨h, _⟩ <;> omega
  obtain ⟨A, hAp, hAs, hAu, h1⟩ :=
    parseGsv_one_satellite ⟨pos, [], info, false, []⟩ gsvA a 1 '1' hgA
  obtain ⟨B, hBp, hBs, hBu, h2⟩ :=
    parseGsv_one_satellite ⟨pos, [A], info, false, []⟩ gsvB b 1 '1' hgB
  obtain ⟨posG, h3⟩ := parseGsa_marks ⟨pos, [A, B], info, false, []⟩ gsa A B rfl hAs hAu
    (by rw [hAp]; exact ha) hlen
    (by
      obtain ⟨d, hd, he⟩ := hin
      obtain ⟨i, hi1, hi2, hi⟩ := (gsaSlots_mem gsa d).mp hd
      exact ⟨i, d, hi1, hi2, hi, by rw [hAp]; exact he⟩)
    (fun i d hi1 hi2 hd => by
      rw [hBp]
      exact hout d ((gsaSlots_mem gsa d).mpr ⟨i, hi1, hi2, hd⟩))
  obtain ⟨posR, _, h4⟩ := rmc_closes_epoch_aux dt
    ⟨posG, [{ A with used := true }, B], info, false, []⟩ rmc hrmc
  have g1 : parseNmeaSentence dt (NmeaParser.fresh pos info) sA false
      = some (NMEA_PARSE_OK, ⟨pos, [A], info, false, []⟩) :=
    (parse_framed dt _ sA "$GPGSV" gsvA parseGpgsv hA hlA rfl).trans h1
  have g2 : parseNmeaSentence dt ⟨pos, [A], info, false, []⟩ sB false
      = some (NMEA_PARSE_OK, ⟨pos, [A, B], info, false, []⟩) :=
    (parse_framed dt _ sB "$GPGSV" gsvB parseGpgsv hB hlB rfl).trans h2
  have g3 : parseNmeaSentence dt ⟨pos, [A, B], info, false, []⟩ sGsa false
      = some (NMEA_PARSE_OK, ⟨posG, [{ A with used := true }, B], info, false, []⟩) :=
    (parse_framed dt _ sGsa "$GPGSA" gsa parseGpgsa hG (by omega) rfl).trans h3
  have g4 : parseNmeaSentence dt ⟨posG, [{ A with used := true }, B], info, false, []⟩ sRmc false
      = some (NMEA_PARSE_OK,
          ⟨GnssPosition.default, [], ⟨posR, [{ A with used := true }, B]⟩, true,
            [] ++ [⟨posR, [{ A with used := true }, B]⟩]⟩) :=
    (parse_framed dt _ sRmc "$GPRMC" rmc (parseGprmc dt) hR (by omega) rfl).trans h4
  refine ⟨⟨GnssPosition.default, [], ⟨posR, [{ A with used := true }, B]⟩, true,
            [] ++ [⟨posR, [{ A with used := true }, B]⟩]⟩, ?_, ?_⟩
  · simp only [feedAll, g1, g2, g3, g4]
  · simp [hAp, hAs, hBp, hBs, hBu]

set_option maxRecDepth 100000 in
/-- Claim C11 at `$GPGSV,2,1,02,05,40,083,46*40`, `$GPGSV,2,2,02,07,30,120,41*49`,
`$GPGSA,A,3,05,,,,,,,,,,,,1.5,1.0,1.1*32` and
`$GPRMC,123519,A,4807.038,N,01131.000,E,022.4,084.4,230394,003.1,W*6A`, with
`a = 5` and `b = 7`. -/
theorem epoch_aggregation_witness :
    checkSum "$GPGSV,2,1,02,05,40,083,46*40".toList false = some true ∧
    checkSum "$GPGSV,2,2,02,07,30,120,41*49".toList false = some true ∧
    checkSum "$GPGSA,A,3,05,,,,,,,,,,,,1.5,1.0,1.1*32".toList false = some true ∧
    checkSum "$GPRMC,123519,A,4807.038,N,01131.000,E,022.4,084.4,230394,003.1,W*6A".toList false
      = some true ∧
    ∃ p', feedAll noDate false (NmeaParser.fresh GnssPosition.default ⟨GnssPosition.default, []⟩)
          [ "$GPGSV,2,1,02,05,40,083,46*40".toList, "$GPGSV,2,2,02,07,30,120,41*49".toList,
            "$GPGSA,A,3,05,,,,,,,,,,,,1.5,1.0,1.1*32".toList,
            "$GPRMC,123519,A,4807.038,N,01131.000,E,022.4,084.4,230394,003.1,W*6A".toList ]
        = some ([NMEA_PARSE_OK, NMEA_PARSE_OK, NMEA_PARSE_OK, NMEA_PARSE_OK], p') ∧
      p'.emitted.map (fun e => e.satellites.map (fun sat => (sat.prn, sat.system, sat.used)))
        = [[(5, 1, true), (7, 1, false)]] :=
  ⟨by decide, by decide, by decide, by decide,
    epoch_aggregation noDate GnssPosition.default ⟨GnssPosition.default, []⟩ 5 7
      "$GPGSV,2,1,02,05,40,083,46*40".toList "$GPGSV,2,2,02,07,30,120,41*49".toList
      "$GPGSA,A,3,05,,,,,,,,,,,,1.5,1.0,1.1*32".toList
      "$GPRMC,123519,A,4807.038,N,01131.000,E,022.4,084.4,230394,003.1,W*6A".toList
      (split ',' "2,1,02,05,40,083,46".toList) (split ',' "2,2,02,07,30,120,41".toList)
      (split ',' "A,3,05,,,,,,,,,,,,1.5,1.0,1.1".toList)
      (split ',' "123519,A,4807.038,N,01131.000,E,022.4,084.4,230394,003.1,W".toList)
      (by decide)
      (by unfold WellFramed; decide)
      (by
        unfold gsvReportsOnly
        exact ⟨Or.inl (by decide), "05".toList, "46".toList, by decide, by decide, by decide,
          by decide, by decide⟩)
      (by unfold WellFramed; decide)
      (by
        unfold gsvReportsOnly
        exact ⟨Or.inl (by decide), "07".toList, "41".toList, by decide, by decide, by decide,
          by decide, by decide⟩)
      (by unfold WellFramed; decide)
      (by decide)
      ⟨"05".toList, by decide, by decide⟩
      (by decide)
      (by unfold WellFramed; decide)
      (by decide)⟩

/-! ## UBX decoder: rejected frames and noise; Fletcher-8 under appending -/

theorem syncAt_iff_candidate (data : QByteArray) (i : Nat) :
    syncAt Ublox.UBX_SYNC1 Ublox.UBX_SYNC2 Ublox.UBX_HEADER_LEN Ublox.lenAt data i = true ↔
      UbxCandidateStart data i := by
  simp only [syncAt, Ublox.UBX_SYNC1, Ublox.UBX_SYNC2, Ublox.UBX_HEADER_LEN, Ublox.lenAt,
    getU2_eq, Bool.and_eq_true, beq_iff_eq, decide_eq_true_eq, UbxCandidateStart]
  constructor
  · rintro ⟨⟨⟨h1, h2⟩, h3⟩, h4⟩
    exact ⟨h1, h2, h3, h4⟩
  · rintro ⟨h1, h2, h3, h4⟩
    exact ⟨⟨⟨h1, h2⟩, h3⟩, h4⟩

theorem ublox_decodePacket_none (s : Ublox.UbloxDecoder) (data : QByteArray)
    (hf : Ublox.findNextPacket data 0 = none) :
    (Ublox.decodePacket s data).ok = false ∧
    (Ublox.decodePacket s data).bytesProcessed = data.length ∧
    (Ublox.decodePacket s data).state.m_totalPackets = s.m_totalPackets ∧
    (Ublox.decodePacket s data).state.m_packetStats = s.m_packetStats := by
  unfold Ublox.decodePacket
  simp [hf]

theorem ublox_decodePacket_skip_stats (s : Ublox.UbloxDecoder) (data : QByteArray) (k : Nat)
    (hk : 0 < k) (hf : Ublox.findNextPacket data 0 = some k) :
    (Ublox.decodePacket s data).ok = false ∧ (Ublox.decodePacket s data).bytesProcessed = k ∧
    (Ublox.decodePacket s data).state.m_totalPackets = s.m_totalPackets ∧
    (Ublox.decodePacket s data).state.m_packetStats = s.m_packetStats := by
  unfold Ublox.decodePacket
  simp [hf, hk]

theorem ublox_decodePacket_reject (s : Ublox.UbloxDecoder) (data : QByteArray)
    (h0 : byteAt data 0 = 0xB5) (h1 : byteAt data 1 = 0x62)
    (hL : byteAt data 4 + 256 * byteAt data 5 ≤ 4096)
    (hlen : 6 + (byteAt data 4 + 256 * byteAt data 5) + 2 ≤ data.length)
    (hck : calculateChecksum ((data.drop 2).take (4 + (byteAt data 4 + 256 * byteAt data 5))) ≠
      (byteAt data (6 + (byteAt data 4 + 256 * byteAt data 5)),
       byteAt data (7 + (byteAt data 4 + 256 * byteAt data 5)))) :
    (Ublox.decodePacket s data).ok = false ∧
    (Ublox.decodePacket s data).bytesProcessed
      = (byteAt data 4 + 256 * byteAt data 5) + 8 ∧
    (Ublox.decodePacket s data).state.m_lastPacket.valid = false ∧
    (Ublox.decodePacket s data).state.m_totalPackets = s.m_totalPackets ∧
    (Ublox.decodePacket s data).state.m_packetStats = s.m_packetStats := by
  have hf := ublox_findNextPacket_zero data h0 h1 (by omega) (by rw [getU2_eq]; exact hL)
  have hv : Ublox.validateChecksum
      (data.take (6 + (byteAt data 4 + 256 * byteAt data 5) + 2)) = false := by
    cases hb : Ublox.validateChecksum (data.take (6 + (byteAt data 4 + 256 * byteAt data 5) + 2))
    · rfl
    · exact absurd ((ublox_validateChecksum_take data _ hlen).1 hb) hck
  unfold Ublox.decodePacket
  simp only [hf, Ublox.UBX_HEADER_LEN, Ublox.UBX_CHECKSUM_LEN, getU2_eq, Nat.reduceAdd]
  have h6' : ¬ data.length < 6 := by omega
  have hlen' : ¬ data.length < 6 + (byteAt data 4 + 256 * byteAt data 5) + 2 := by omega
  simp only [gt_iff_lt, lt_self_iff_false, if_false, h6', hlen', hv, Bool.not_false, if_true]
  refine ⟨trivial, by omega, trivial, trivial, trivial⟩

/-- Claim C21. For every buffer that starts with `B5 62` and a header declaring a
payload length `L = data[4] + 256 * data[5] <= 4096`, holds at least `L + 8` bytes,
and whose bytes at offsets `L + 6`, `L + 7` are not the Fletcher-8 pair of the
bytes `2 .. L + 5`: `decodePacket` returns false with `bytesProcessed = L + 8`, the
valid flag of the descriptor is false, and the total and the per-(class, id)
counters are those of the state before the call. -/
theorem ubx_checksum_failure_consumes_frame (s : Ublox.UbloxDecoder) (data : QByteArray)
    (h0 : byteAt data 0 = 0xB5) (h1 : byteAt data 1 = 0x62)
    (hL : byteAt data 4 + 256 * byteAt data 5 ≤ 4096)
    (hlen : (byteAt data 4 + 256 * byteAt data 5) + 8 ≤ data.length)
    (hck : calculateChecksum ((data.drop 2).take (4 + (byteAt data 4 + 256 * byteAt data 5))) ≠
      (byteAt data (6 + (byteAt data 4 + 256 * byteAt data 5)),
       byteAt data (7 + (byteAt data 4 + 256 * byteAt data 5)))) :
    (Ublox.decodePacket s data).ok = false ∧
    (Ublox.decodePacket s data).bytesProcessed
      = (byteAt data 4 + 256 * byteAt data 5) + 8 ∧
    (Ublox.decodePacket s data).state.m_lastPacket.valid = false ∧
    (Ublox.decodePacket s data).state.m_totalPackets = s.m_totalPackets ∧
    (Ublox.decodePacket s data).state.m_packetStats = s.m_packetStats :=
  ublox_decodePacket_reject s data h0 h1 hL (by omega) hck

/-- Claim C21 at the ACK-ACK frame with its last byte changed,
`B5 62 05 01 02 00 06 01 0F 39`, followed by one more byte: false, 10 bytes
consumed. -/
theorem ubx_checksum_failure_consumes_frame_witness :
    calculateChecksum [0x05, 0x01, 0x02, 0x00, 0x06, 0x01] ≠ (0x0F, 0x39) ∧
    (Ublox.decodePacket ubloxInit
      [0xB5, 0x62, 0x05, 0x01, 0x02, 0x00, 0x06, 0x01, 0x0F, 0x39, 0xB5]).ok = false ∧
    (Ublox.decodePacket ubloxInit
      [0xB5, 0x62, 0x05, 0x01, 0x02, 0x00, 0x06, 0x01, 0x0F, 0x39, 0xB5]).bytesProcessed = 10 ∧
    (Ublox.decodePacket ubloxInit
      [0xB5, 0x62, 0x05, 0x01, 0x02, 0x00, 0x06, 0x01, 0x0F, 0x39, 0xB5]).state.m_totalPackets
      = 0 :=
  have h := ubx_checksum_failure_consumes_frame ubloxInit
    [0xB5, 0x62, 0x05, 0x01, 0x02, 0x00, 0x06, 0x01, 0x0F, 0x39, 0xB5]
    (by decide) (by decide) (by decide) (by decide) (by decide)
  ⟨by decide, h.1, h.2.1, h.2.2.2.1⟩

/-- Claim C22. With a candidate start defined as in `UbxCandidateStart`: if the buffer
has no candidate start, `decodePacket` returns false with `bytesProcessed` equal to
the buffer length; if its smallest candidate start `k` is positive, it returns
false with `bytesProcessed = k`. In both cases the total and the
per-(class, id) counters are unchanged. -/
theorem ubx_noise_is_dropped (s : Ublox.UbloxDecoder) (data : QByteArray) :
    ((∀ i, ¬ UbxCandidateStart data i) →
      (Ublox.decodePacket s data).ok = false ∧
      (Ublox.decodePacket s data).bytesProcessed = data.length ∧
      (Ublox.decodePacket s data).state.m_totalPackets = s.m_totalPackets ∧
      (Ublox.decodePacket s data).state.m_packetStats = s.m_packetStats) ∧
    (∀ k, 0 < k → UbxCandidateStart data k → (∀ j, j < k → ¬ UbxCandidateStart data j) →
      (Ublox.decodePacket s data).ok = false ∧
      (Ublox.decodePacket s data).bytesProcessed = k ∧
      (Ublox.decodePacket s data).state.m_totalPackets = s.m_totalPackets ∧
      (Ublox.decodePacket s data).state.m_packetStats = s.m_packetStats) := by
  have hfalse : ∀ i, ¬ UbxCandidateStart data i →
      syncAt Ublox.UBX_SYNC1 Ublox.UBX_SYNC2 Ublox.UBX_HEADER_LEN Ublox.lenAt data i = false := by
    intro i hi
    cases hb : syncAt Ublox.UBX_SYNC1 Ublox.UBX_SYNC2 Ublox.UBX_HEADER_LEN Ublox.lenAt data i
    · rfl
    · exact absurd ((syncAt_iff_candidate data i).1 hb) hi
  constructor
  · intro hno
    apply ublox_decodePacket_none
    unfold Ublox.findNextPacket
    exact scanFrom_all_false _ _ (fun j _ _ => hfalse j (hno j))
  · intro k hk hc hmin
    apply ublox_decodePacket_skip_stats s data k hk
    unfold Ublox.findNextPacket
    have h6 : k + 6 ≤ data.length := hc.2.2.1
    exact scanFrom_first _ _ _ (fun j _ hj => hfalse j (hmin j hj))
      ((syncAt_iff_candidate data k).2 hc) (by omega) (by omega)

/-- Claim C25 fails as stated: appending the byte `00` to the empty sequence, or to
`80 80` (whose `ck_a` is 0), leaves both components of the Fletcher-8 pair as they
were. -/
theorem fletcher_append_zero_unchanged :
    calculateChecksum (([] : QByteArray) ++ [0x00]) = calculateChecksum [] ∧
    calculateChecksum (([0x80, 0x80] : QByteArray) ++ [0x00]) = calculateChecksum [0x80, 0x80] := by
  decide

theorem calculateChecksum_lt (s : QByteArray) :
    (calculateChecksum s).1 < 256 ∧ (calculateChecksum s).2 < 256 := by
  unfold calculateChecksum
  induction s using List.reverseRecOn with
  | nil => exact ⟨by decide, by decide⟩
  | append_singleton s b _ =>
    rw [List.foldl_append]
    simp only [List.foldl_cons, List.foldl_nil, fletcherStep]
    exact ⟨Nat.mod_lt _ (by norm_num), Nat.mod_lt _ (by norm_num)⟩

/-- Claim C25, amended. For every byte sequence `s` and byte `b`, the Fletcher-8 pair
over `s ++ [b]` equals the pair over `s` if and only if `b = 0` and the `ck_a` of `s`
is 0; in every other case at least one component differs: `ck_a` when `b` is
not 0, `ck_b` when `b = 0` and `ck_a` is not 0. -/
theorem fletcher_append_changes_iff (s : QByteArray) (b : Byte) :
    (calculateChecksum (s ++ [b]) = calculateChecksum s ↔
      b.val = 0 ∧ (calculateChecksum s).1 = 0) ∧
    (b.val ≠ 0 → (calculateChecksum (s ++ [b])).1 ≠ (calculateChecksum s).1) ∧
    (b.val = 0 → (calculateChecksum s).1 ≠ 0 →
      (calculateChecksum (s ++ [b])).1 = (calculateChecksum s).1 ∧
      (calculateChecksum (s ++ [b])).2 ≠ (calculateChecksum s).2) := by
  obtain ⟨ha, hb⟩ := calculateChecksum_lt s
  have hb' : b.val < 256 := b.isLt
  have e : calculateChecksum (s ++ [b]) = fletcherStep (calculateChecksum s) b := by
    unfold calculateChecksum
    rw [List.foldl_append]
    rfl
  rw [e]
  generalize calculateChecksum s = ck at ha hb
  obtain ⟨x, y⟩ := ck
  simp only [fletcherStep, Prod.mk.injEq] at ha hb ⊢
  refine ⟨⟨fun ⟨h1, h2⟩ => ?_, fun ⟨h1, h2⟩ => ?_⟩, fun h => ?_, fun h1 h2 => ?_⟩
  · omega
  · subst h2
    rw [h1]
    omega
  · omega
  · rw [h1]
    omega

/-! ## CRC-24Q: every single-byte change is detected -/

theorem crcShift_cases (c : Nat) (hc : c < 2 ^ 24) :
    Rtcm3.crcShift c = if 2 ^ 24 ≤ 2 * c then (2 * c) ^^^ Rtcm3.CRC24Q_POLY else 2 * c := by
  have h1 : (c <<< 1) % 2 ^ 32 = 2 * c := by
    rw [Nat.shiftLeft_eq, Nat.mod_eq_of_lt (by omega)]; omega
  unfold Rtcm3.crcShift
  simp only [h1]
  have hand : (2 * c) &&& 0x1000000 ≠ 0 ↔ 2 ^ 24 ≤ 2 * c := by
    have ht : (2 * c).testBit 24 = true ↔ 2 ^ 24 ≤ 2 * c := by
      rw [Nat.testBit_to_div_mod]
      simp only [decide_eq_true_eq]
      omega
    rw [← ht]
    have : (0x1000000 : Nat) = 2 ^ 24 := by norm_num
    rw [this, Nat.and_two_pow]
    by_cases hb : (2 * c).testBit 24 <;> simp [hb]
  by_cases hb : 2 ^ 24 ≤ 2 * c
  · rw [if_pos (hand.2 hb), if_pos hb]
  · rw [if_neg (fun h => hb (hand.1 h)), if_neg hb]

theorem crcShift_lt (c : Nat) (hc : c < 2 ^ 24) : Rtcm3.crcShift c < 2 ^ 24 :=
  (crcShift_step c 0 _ hc rfl).1

theorem xor_cancel_right (a b p : Nat) (h : a ^^^ p = b ^^^ p) : a = b := by
  have := congrArg (fun x => x ^^^ p) h
  simpa [Nat.xor_assoc] using this

theorem crcShift_injective (c d : Nat) (hc : c < 2 ^ 24) (hd : d < 2 ^ 24)
    (h : Rtcm3.crcShift c = Rtcm3.crcShift d) : c = d := by
  rw [crcShift_cases c hc, crcShift_cases d hd] at h
  have hodd : Rtcm3.CRC24Q_POLY % 2 = 1 := by decide
  by_cases h1 : 2 ^ 24 ≤ 2 * c <;> by_cases h2 : 2 ^ 24 ≤ 2 * d
  · rw [if_pos h1, if_pos h2] at h
    have := xor_cancel_right _ _ _ h
    omega
  · rw [if_pos h1, if_neg h2] at h
    have := congrArg (· % 2) h
    simp only [xor_mod_two, hodd] at this
    omega
  · rw [if_neg h1, if_pos h2] at h
    have := congrArg (· % 2) h
    simp only [xor_mod_two, hodd] at this
    omega
  · rw [if_neg h1, if_neg h2] at h
    omega

theorem crcShift_iter_lt (n c : Nat) (hc : c < 2 ^ 24) : Rtcm3.crcShift^[n] c < 2 ^ 24 :=
  (crcShift_iterate n c 0 _ hc rfl).1

theorem crcShift_iter_injective (n : Nat) : ∀ (c d : Nat), c < 2 ^ 24 → d < 2 ^ 24 →
    Rtcm3.crcShift^[n] c = Rtcm3.crcShift^[n] d → c = d := by
  induction n with
  | zero => intro c d _ _ h; exact h
  | succ n ih =>
    intro c d hc hd h
    rw [Function.iterate_succ_apply, Function.iterate_succ_apply] at h
    exact crcShift_injective c d hc hd (ih _ _ (crcShift_lt c hc) (crcShift_lt d hd) h)

theorem byte_shl16_lt (b : Byte) : b.val <<< 16 < 2 ^ 24 := by
  have := b.isLt
  rw [Nat.shiftLeft_eq]
  omega

theorem crcByte_lt (c : Nat) (b : Byte) (hc : c < 2 ^ 24) : Rtcm3.crcByte c b < 2 ^ 24 :=
  crcShift_iter_lt 8 _ (Nat.xor_lt_two_pow hc (byte_shl16_lt b))

theorem crcByte_injective_register (c d : Nat) (b : Byte) (hc : c < 2 ^ 24) (hd : d < 2 ^ 24)
    (h : Rtcm3.crcByte c b = Rtcm3.crcByte d b) : c = d := by
  unfold Rtcm3.crcByte at h
  exact xor_cancel_right _ _ _ (crcShift_iter_injective 8 _ _
    (Nat.xor_lt_two_pow hc (byte_shl16_lt b)) (Nat.xor_lt_two_pow hd (byte_shl16_lt b)) h)

theorem crcByte_injective_byte (c : Nat) (a b : Byte) (hc : c < 2 ^ 24)
    (h : Rtcm3.crcByte c a = Rtcm3.crcByte c b) : a = b := by
  unfold Rtcm3.crcByte at h
  have h1 := crcShift_iter_injective 8 _ _
    (Nat.xor_lt_two_pow hc (byte_shl16_lt a)) (Nat.xor_lt_two_pow hc (byte_shl16_lt b)) h
  have h2 : a.val <<< 16 = b.val <<< 16 := by
    have := congrArg (fun x => c ^^^ x) h1
    simpa [← Nat.xor_assoc] using this
  rw [Nat.shiftLeft_eq, Nat.shiftLeft_eq] at h2
  exact Fin.ext (by omega)

theorem crc_fold_lt (data : QByteArray) : ∀ c, c < 2 ^ 24 → data.foldl Rtcm3.crcByte c < 2 ^ 24 := by
  induction data with
  | nil => intro c hc; exact hc
  | cons b t ih => intro c hc; exact ih _ (crcByte_lt c b hc)

theorem crc_fold_injective (data : QByteArray) : ∀ c d, c < 2 ^ 24 → d < 2 ^ 24 →
    data.foldl Rtcm3.crcByte c = data.foldl Rtcm3.crcByte d → c = d := by
  induction data with
  | nil => intro c d _ _ h; exact h
  | cons b t ih =>
    intro c d hc hd h
    exact crcByte_injective_register c d b hc hd
      (ih _ _ (crcByte_lt c b hc) (crcByte_lt d b hd) h)

theorem calculateCrc24q_eq_fold (data : QByteArray) :
    Rtcm3.calculateCrc24q data = data.foldl Rtcm3.crcByte 0 := by
  unfold Rtcm3.calculateCrc24q
  have h := crc_fold_lt data 0 (by norm_num)
  have e : (0xFFFFFF : Nat) = 2 ^ 24 - 1 := by norm_num
  rw [e, Nat.and_pow_two_sub_one_eq_mod, Nat.mod_eq_of_lt h]

theorem crc_one_byte (pre suf : QByteArray) (a b : Byte) (h : a ≠ b) :
    Rtcm3.calculateCrc24q (pre ++ a :: suf) ≠ Rtcm3.calculateCrc24q (pre ++ b :: suf) := by
  rw [calculateCrc24q_eq_fold, calculateCrc24q_eq_fold, List.foldl_append, List.foldl_append,
    List.foldl_cons, List.foldl_cons]
  intro he
  have hr := crc_fold_lt pre 0 (by norm_num)
  exact h (crcByte_injective_byte _ a b hr
    (crc_fold_injective suf _ _ (crcByte_lt _ a hr) (crcByte_lt _ b hr) he))

theorem split_at_index (d : QByteArray) (i : Nat) (hi : i < d.length) :
    ∃ a, d[i]? = some a ∧ d = d.take i ++ a :: d.drop (i + 1) := by
  refine ⟨d[i], List.getElem?_eq_getElem hi, ?_⟩
  rw [← List.drop_eq_getElem_cons hi, List.take_append_drop]

theorem crc_differs_at_one_index (d d' : QByteArray) (i : Nat) (hlen : d.length = d'.length)
    (hi : i < d.length) (hne : d[i]? ≠ d'[i]?) (hsame : ∀ j, j ≠ i → d[j]? = d'[j]?) :
    Rtcm3.calculateCrc24q d ≠ Rtcm3.calculateCrc24q d' := by
  obtain ⟨a, ha, hd⟩ := split_at_index d i hi
  obtain ⟨b, hb, hd'⟩ := split_at_index d' i (by omega)
  have hpre : d'.take i = d.take i := by
    apply List.ext_getElem?
    intro j
    by_cases hj : j < i
    · rw [List.getElem?_take_of_lt hj, List.getElem?_take_of_lt hj, hsame j (by omega)]
    · rw [List.getElem?_take_eq_none (by omega), List.getElem?_take_eq_none (by omega)]
  have hsuf : d'.drop (i + 1) = d.drop (i + 1) := by
    apply List.ext_getElem?
    intro j
    rw [List.getElem?_drop, List.getElem?_drop, hsame (i + 1 + j) (by omega)]
  rw [hpre, hsuf] at hd'
  rw [hd, hd']
  apply crc_one_byte
  intro hab
  rw [ha, hb, hab] at hne
  exact hne rfl

theorem byteAt_set_ne (d : QByteArray) (i k : Nat) (b : Byte) (h : k ≠ i) :
    byteAt (d.set i b) k = byteAt d k := by
  unfold byteAt
  rw [List.getD_eq_getElem?_getD, List.getD_eq_getElem?_getD, List.getElem?_set_ne (Ne.symm h)]

/-- Claim C23. Two byte sequences of equal length that differ at exactly one index
have different `calculateCrc24q` values, whatever their length. Consequently, if
`validateCrc` accepts a frame, it rejects the frame obtained by writing a
different byte at any index in front of the three CRC bytes. -/
theorem crc24q_detects_single_byte_change :
    (∀ (d d' : QByteArray) (i : Nat), d.length = d'.length → i < d.length →
      d[i]? ≠ d'[i]? → (∀ j, j ≠ i → d[j]? = d'[j]?) →
      Rtcm3.calculateCrc24q d ≠ Rtcm3.calculateCrc24q d') ∧
    (∀ (frame : QByteArray) (i : Nat) (b : Byte), Rtcm3.validateCrc frame = true →
      i + 3 < frame.length → frame[i]? ≠ some b →
      Rtcm3.validateCrc (frame.set i b) = false) := by
  refine ⟨crc_differs_at_one_index, ?_⟩
  intro frame i b hv hi hb
  unfold Rtcm3.validateCrc at hv ⊢
  simp only [Rtcm3.RTCM3_HEADER_LEN, Rtcm3.RTCM3_CRC_LEN, List.length_set] at hv ⊢
  have h6 : ¬ frame.length < 3 + 3 := by
    intro h
    simp [h] at hv
  simp only [h6, if_false, beq_iff_eq] at hv
  simp only [h6, if_false, beq_eq_false_iff_ne, ne_eq]
  rw [byteAt_set_ne _ _ _ _ (by omega), byteAt_set_ne _ _ _ _ (by omega),
    byteAt_set_ne _ _ _ _ (by omega), ← hv]
  apply crc_differs_at_one_index _ _ i
  · simp
  · rw [List.length_take, List.length_set]
    omega
  · rw [List.getElem?_take_of_lt (by omega), List.getElem?_take_of_lt (by omega),
      List.getElem?_set_eq_of_lt _ (by omega)]
    exact fun h => hb h.symm
  · intro j hj
    by_cases hjn : j < frame.length - 3
    · rw [List.getElem?_take_of_lt hjn, List.getElem?_take_of_lt hjn,
        List.getElem?_set_ne (Ne.symm hj)]
    · rw [List.getElem?_take_eq_none (by omega), List.getElem?_take_eq_none (by omega)]

/-! ## NMEA checksum: every single-character change is rejected -/

theorem xor_fold_init (l : QString) : ∀ a : Nat,
    l.foldl (fun sum c => sum ^^^ toLatin1 c) a
      = a ^^^ l.foldl (fun sum c => sum ^^^ toLatin1 c) 0 := by
  induction l with
  | nil => intro a; simp
  | cons c t ih =>
    intro a
    simp only [List.foldl_cons]
    rw [ih (a ^^^ toLatin1 c), ih (0 ^^^ toLatin1 c), Nat.zero_xor, Nat.xor_assoc]

theorem xor_fold_one_char (P Q : QString) (c c' : Char)
    (h : (P ++ c :: Q).foldl (fun sum c => sum ^^^ toLatin1 c) 0
      = (P ++ c' :: Q).foldl (fun sum c => sum ^^^ toLatin1 c) 0) :
    toLatin1 c = toLatin1 c' := by
  rw [List.foldl_append, List.foldl_append, List.foldl_cons, List.foldl_cons,
    xor_fold_init Q (_ ^^^ toLatin1 c), xor_fold_init Q (_ ^^^ toLatin1 c')] at h
  have h1 := xor_cancel_right _ _ _ h
  have h2 := congrArg (fun x => List.foldl (fun sum c => sum ^^^ toLatin1 c) 0 P ^^^ x) h1
  simpa [← Nat.xor_assoc] using h2

theorem list_split_at {α : Type} (l : List α) (i : Nat) (hi : i < l.length) :
    ∃ a, l[i]? = some a ∧ l = l.take i ++ a :: l.drop (i + 1) := by
  refine ⟨l[i], List.getElem?_eq_getElem hi, ?_⟩
  rw [← List.drop_eq_getElem_cons hi, List.take_append_drop]

theorem body_of_changed (s : QString) (i : Nat) (c' : Char) (hi1 : 1 ≤ i)
    (hi2 : i + 3 < s.length) :
    ∃ (P Q : QString) (c : Char), s[i]? = some c ∧
      (s.drop 1).take (s.length - 3 - 1) = P ++ c :: Q ∧
      ((s.set i c').drop 1).take ((s.set i c').length - 3 - 1) = P ++ c' :: Q := by
  obtain ⟨c, hc, hB⟩ := list_split_at (s.drop 1) (i - 1) (by rw [List.length_drop]; omega)
  have hci : s[i]? = some c := by
    rw [List.getElem?_drop] at hc
    have : 1 + (i - 1) = i := by omega
    rw [this] at hc
    exact hc
  have hB' : (s.set i c').drop 1 = (s.drop 1).take (i - 1) ++ c' :: (s.drop 1).drop (i - 1 + 1) := by
    rw [List.drop_set, if_neg (by omega),
      List.set_eq_take_cons_drop c' (by rw [List.length_drop]; omega)]
  have hPl : ((s.drop 1).take (i - 1)).length = i - 1 := by
    rw [List.length_take, List.length_drop]
    omega
  have hn : s.length - 3 - 1 = ((s.drop 1).take (i - 1)).length + ((s.length - 4 - i) + 1) := by
    rw [hPl]
    omega
  refine ⟨(s.drop 1).take (i - 1), ((s.drop 1).drop (i - 1 + 1)).take (s.length - 4 - i), c, hci,
    ?_, ?_⟩
  · conv_lhs => rw [hB]
    rw [hn, List.take_append, List.take_succ_cons]
  · rw [hB', List.length_set, hn, List.take_append, List.take_succ_cons]

theorem checkSum_true_facts (s : QString) (h : checkSum s false = some true) :
    s.head? = some '$' ∧ 3 ≤ s.length ∧ s[s.length - 3]? = some '*' ∧
      bodyXor s = trailerValue s := by
  obtain ⟨h0, h3, h4⟩ := checkSum_true_shape s false true h
  have hne : s ≠ [] := by
    intro hs
    rw [hs] at h0
    exact h0 rfl
  have hhead : s.head? = some '$' := by
    have := h4 rfl
    cases s with
    | nil => exact absurd rfl hne
    | cons a t => simpa using this
  have hlen := h3 (h4 rfl)
  have hnf : ¬ checkSum s false = some false := by
    rw [h]
    simp
  rw [checkSum_false_iff s false hne] at hnf
  push_neg at hnf
  obtain ⟨_, hr⟩ := hnf
  obtain ⟨hs, hx⟩ := hr hlen
  exact ⟨hhead, hlen, hs, hx rfl⟩

/-- Claim C24. Let an ASCII sentence pass `checkSum` with `ignoreChecksum = false`, so
that it begins with `$` and has its `*` third from the end. Writing a different
ASCII character at an index strictly between the two yields a sentence that
`parseNmeaSentence` answers with `NMEA_PARSE_CHECKSUM_ERROR` or with
`NMEA_PARSE_INVALID_FORMAT`; the parser object is unchanged. -/
theorem nmea_single_char_change_rejected (dt : QString → Option Int) (p : NmeaParser)
    (s : QString) (i : Nat) (c' : Char) (hascii : ∀ c ∈ s, c.toNat < 128)
    (hcs : checkSum s false = some true) (hi1 : 1 ≤ i) (hi2 : i + 3 < s.length)
    (hc' : c'.toNat < 128) (hne : s[i]? ≠ some c') :
    parseNmeaSentence dt p (s.set i c') false = some (NMEA_PARSE_CHECKSUM_ERROR, p) ∨
    parseNmeaSentence dt p (s.set i c') false = some (NMEA_PARSE_INVALID_FORMAT, p) := by
  obtain ⟨hhead, hlen, hstar, hx⟩ := checkSum_true_facts s hcs
  by_cases hcount : (s.set i c').count '*' = 1
  · left
    apply parse_checksum dt p _ false (by rw [split_length, hcount])
    rw [checkSum_false_iff _ false (count_one_ne_nil _ hcount)]
    refine Or.inr ⟨by rw [List.length_set]; exact hlen, Or.inr ⟨rfl, ?_⟩⟩
    obtain ⟨P, Q, c, hc, hb, hb'⟩ := body_of_changed s i c' hi1 hi2
    have ht : trailerValue (s.set i c') = trailerValue s := by
      unfold trailerValue
      rw [List.length_set, List.drop_set_of_lt c' s (by omega)]
    rw [ht, ← hx]
    unfold bodyXor
    rw [hb, hb']
    intro he
    have hl := xor_fold_one_char P Q c' c he
    have hcm : c ∈ s := List.mem_iff_getElem?.2 ⟨i, hc⟩
    rw [toLatin1_ascii c' hc', toLatin1_ascii c (hascii c hcm)] at hl
    apply hne
    rw [hc]
    have hcc : Char.ofNat c.toNat = Char.ofNat c'.toNat := by rw [hl]
    rw [Char.ofNat_toNat, Char.ofNat_toNat] at hcc
    rw [hcc]
  · right
    exact parse_invalid dt p _ false (by rw [split_length]; omega)

set_option maxRecDepth 100000 in
/-- Claim C24 at `$GPGGA,1*4B` with the character at index 5 changed from `A` to `B`. -/
theorem nmea_single_char_change_rejected_witness :
    checkSum "$GPGGA,1*4B".toList false = some true ∧
    "$GPGGA,1*4B".toList.set 5 'B' = "$GPGGB,1*4B".toList ∧
    (parseNmeaSentence noDate freshParser ("$GPGGA,1*4B".toList.set 5 'B') false
        = some (NMEA_PARSE_CHECKSUM_ERROR, freshParser) ∨
      parseNmeaSentence noDate freshParser ("$GPGGA,1*4B".toList.set 5 'B') false
        = some (NMEA_PARSE_INVALID_FORMAT, freshParser)) :=
  ⟨by decide, by decide,
    nmea_single_char_change_rejected noDate freshParser "$GPGGA,1*4B".toList 5 'B'
      (by decide) (by decide) (by decide) (by decide) (by decide) (by decide)⟩

/-! ## RTCM3 bit extraction -/

theorem bitField_succ (buff : QByteArray) (pos n : Nat) :
    bitField buff pos (n + 1) = 2 * bitField buff pos n + bitAt buff (pos + n) := by
  unfold bitField bitAt
  rw [List.range_succ, List.foldl_append]
  rfl

theorem bitField_lt (buff : QByteArray) (pos : Nat) : ∀ n, bitField buff pos n < 2 ^ n := by
  intro n
  induction n with
  | zero => simp [bitField]
  | succ n ih =>
    rw [bitField_succ, pow_succ]
    have : bitAt buff (pos + n) < 2 := Nat.mod_lt _ (by norm_num)
    omega

theorem getbitu_succ (buff : QByteArray) (pos n : Nat) :
    Rtcm3.getbitu buff pos (n + 1)
      = ((Rtcm3.getbitu buff pos n <<< 1) +
          ((byteAt buff ((pos + n) / 8) >>> (7 - (pos + n) % 8)) &&& 1)) % 2 ^ 32 := by
  unfold Rtcm3.getbitu
  rw [List.range_succ, List.foldl_append]
  rfl

theorem getbitu_eq_bitField (buff : QByteArray) (pos : Nat) : ∀ n, n ≤ 32 →
    Rtcm3.getbitu buff pos n = bitField buff pos n := by
  intro n
  induction n with
  | zero => intro _; rfl
  | succ n ih =>
    intro hn
    have hlt := bitField_lt buff pos (n + 1)
    have hp : (2 : Nat) ^ (n + 1) ≤ 2 ^ 32 := Nat.pow_le_pow_right (by norm_num) hn
    rw [getbitu_succ, ih (by omega), Nat.shiftLeft_eq, Nat.shiftRight_eq_div_pow,
      Nat.and_one_is_mod, pow_one, Nat.mul_comm]
    rw [bitField_succ] at hlt ⊢
    unfold bitAt at hlt ⊢
    exact Nat.mod_eq_of_lt (by omega)

theorem bitsValue_succ (buff : QByteArray) (pos n : Nat) :
    bitsValue buff pos (n + 1) = 2 * bitsValue buff pos n + bitAt buff (pos + n) := by
  unfold bitsValue
  rw [List.range_succ, List.map_append, List.sum_append, ← List.sum_map_mul_left]
  have hc : (List.range n).map (fun k => bitAt buff (pos + k) * 2 ^ (n + 1 - 1 - k))
      = (List.range n).map (fun k => 2 * (bitAt buff (pos + k) * 2 ^ (n - 1 - k))) := by
    apply List.map_congr_left
    intro k hk
    rw [List.mem_range] at hk
    have e : n + 1 - 1 - k = (n - 1 - k) + 1 := by omega
    rw [e, pow_succ]
    ring
  rw [hc]
  simp

theorem bitField_eq_bitsValue (buff : QByteArray) (pos : Nat) : ∀ n,
    bitField buff pos n = bitsValue buff pos n := by
  intro n
  induction n with
  | zero => rfl
  | succ n ih => rw [bitField_succ, bitsValue_succ, ih]

theorem getbitu_type (data : QByteArray) :
    Rtcm3.getbitu data 0 12 = byteAt data 0 * 16 + byteAt data 1 / 16 := by
  rw [getbitu_eq_bitField data 0 12 (by norm_num)]
  have h0 := byteAt_lt data 0
  have h1 := byteAt_lt data 1
  simp only [bitField, List.range, List.range.loop, List.foldl_cons, List.foldl_nil]
  norm_num
  omega

theorem getbitu_stationId (data : QByteArray) :
    Rtcm3.getbitu data 12 12 = (byteAt data 1 % 16) * 256 + byteAt data 2 := by
  rw [getbitu_eq_bitField data 12 12 (by norm_num)]
  have h1 := byteAt_lt data 1
  have h2 := byteAt_lt data 2
  simp only [bitField, List.range, List.range.loop, List.foldl_cons, List.foldl_nil]
  norm_num
  omega

theorem parseMessage_type (ub : Nat → Nat → Nat) (s : Rtcm3.Rtcm3Decoder) (data : QByteArray)
    (h : 2 ≤ data.length) :
    (Rtcm3.parseMessage ub s data).2.m_lastMessage.type = Rtcm3.getbitu data 0 12 % 2 ^ 16 ∧
    (Rtcm3.parseMessage ub s data).2.m_lastMessage.stationId
      = Rtcm3.getbitu data 12 12 % 2 ^ 16 := by
  have hl : ¬ data.length < 2 := by omega
  unfold Rtcm3.parseMessage Rtcm3.parseStationInfo Rtcm3.parseTextMessage
  simp only [hl, if_false]
  split_ifs <;> exact ⟨rfl, rfl⟩

/-- Claim C26. For `len <= 32` and `pos + len` inside the buffer, `getbitu(buff, pos, len)` is the
unsigned integer whose binary digits, most significant first, are the bits
`pos .. pos + len - 1` of the buffer (bit `i` being bit `7 - i % 8` of byte `i / 8`).
Hence for every payload of at least 3 bytes `parseMessage` leaves
`type = (b0 << 4) | (b1 >> 4)` and `stationId = ((b1 & 0x0F) << 8) | b2` in the descriptor,
whatever the message type. -/
theorem getbitu_reads_msb_first :
    (∀ (buff : QByteArray) (pos len : Nat), len ≤ 32 → pos + len ≤ 8 * buff.length →
      Rtcm3.getbitu buff pos len = bitsValue buff pos len) ∧
    (∀ (ub : Nat → Nat → Nat) (s : Rtcm3.Rtcm3Decoder) (data : QByteArray), 3 ≤ data.length →
      (Rtcm3.parseMessage ub s data).2.m_lastMessage.type
        = (byteAt data 0 <<< 4) ||| (byteAt data 1 >>> 4) ∧
      (Rtcm3.parseMessage ub s data).2.m_lastMessage.stationId
        = ((byteAt data 1 &&& 0x0F) <<< 8) ||| byteAt data 2) := by
  constructor
  · intro buff pos len hlen _
    rw [getbitu_eq_bitField buff pos len hlen, bitField_eq_bitsValue]
  · intro ub s data hl
    obtain ⟨ht, hs⟩ := parseMessage_type ub s data (by omega)
    have h0 := byteAt_lt data 0
    have h1 := byteAt_lt data 1
    have h2 := byteAt_lt data 2
    have hand : byteAt data 1 &&& 0x0F = byteAt data 1 % 16 := by
      have := Nat.and_pow_two_sub_one_eq_mod (byteAt data 1) 4
      norm_num at this
      exact this
    have e1 : Rtcm3.getbitu data 0 12 % 2 ^ 16 = byteAt data 0 * 16 + byteAt data 1 / 16 := by
      rw [getbitu_type]
      exact Nat.mod_eq_of_lt (by omega)
    have e2 : Rtcm3.getbitu data 12 12 % 2 ^ 16 = byteAt data 1 % 16 * 256 + byteAt data 2 := by
      rw [getbitu_stationId]
      exact Nat.mod_eq_of_lt (by omega)
    have r1 : (byteAt data 0 <<< 4) ||| (byteAt data 1 >>> 4)
        = byteAt data 0 * 16 + byteAt data 1 / 16 := len12_eq _ _ h1
    have r2 : ((byteAt data 1 &&& 0x0F) <<< 8) ||| byteAt data 2
        = byteAt data 1 % 16 * 256 + byteAt data 2 := by
      rw [hand, shl_or (byteAt data 1 % 16) (byteAt data 2) 8 (by norm_num; omega)]
      norm_num
    exact ⟨by rw [ht, e1, r1], by rw [hs, e2, r2]⟩

/-! ## GNGSA: constellation from the PRN range -/

theorem gngsa_fold_none (data : List QString) (st : Int × Bool) : ∀ (n start : Nat),
    data.length ≤ start → (List.range' start n).foldl (gngsaStep data) st = st := by
  intro n
  induction n with
  | zero => intro start _; rfl
  | succ n ih =>
    intro start h
    have hnone : data[start]? = none := List.getElem?_eq_none h
    rw [List.range'_succ, List.foldl_cons]
    have hs : gngsaStep data st start = st := by
      unfold gngsaStep
      rw [hnone]
      split_ifs <;> rfl
    rw [hs]
    exact ih (start + 1) (by omega)

theorem gngsa_fold_slots (data : List QString) : ∀ (n start : Nat) (st : Int × Bool),
    (List.range' start n).foldl (gngsaStep data) st
      = ((data.drop start).take n).foldl gngsaFieldStep st := by
  intro n
  induction n with
  | zero => intro start st; simp
  | succ n ih =>
    intro start st
    by_cases h : start < data.length
    · rw [List.drop_eq_getElem_cons h, List.take_succ_cons, List.range'_succ, List.foldl_cons,
        List.foldl_cons, ih (start + 1)]
      congr 1
      unfold gngsaStep gngsaFieldStep
      rw [List.getElem?_eq_getElem h]
    · rw [gngsa_fold_none data st (n + 1) start (by omega), List.drop_eq_nil_of_le (by omega)]
      rfl

theorem gngsa_fold_stop (ds : List QString) : ∀ (st : Int × Bool), st.2 = true →
    ds.foldl gngsaFieldStep st = st := by
  induction ds with
  | nil => intro st _; rfl
  | cons d t ih =>
    intro st h
    rw [List.foldl_cons]
    have hs : gngsaFieldStep st d = st := by
      unfold gngsaFieldStep
      rw [if_pos h]
    rw [hs]
    exact ih st h

theorem gngsa_fold_find (ds : List QString) : ∀ (st : Int × Bool), st.2 = false → st.1 ≤ 0 →
    match ds.find? (fun d => decide (d ≠ [] ∧ d ≠ ['0'] ∧ toInt d > 0)) with
    | some d => ds.foldl gngsaFieldStep st = (toInt d, true)
    | none => (ds.foldl gngsaFieldStep st).1 ≤ 0 := by
  induction ds with
  | nil => intro st _ h; exact h
  | cons d t ih =>
    intro st h2 h1
    have hst : ¬ st.2 = true := by rw [h2]; simp
    rw [List.foldl_cons, List.find?_cons]
    by_cases hP : d ≠ [] ∧ d ≠ ['0'] ∧ toInt d > 0
    · have hg : d ≠ [] ∧ d ≠ ['0'] := ⟨hP.1, hP.2.1⟩
      have hd : decide (d ≠ [] ∧ d ≠ ['0'] ∧ toInt d > 0) = true := decide_eq_true hP
      have hs : gngsaFieldStep st d = (toInt d, true) := by
        unfold gngsaFieldStep
        rw [if_neg hst, if_pos hg, decide_eq_true hP.2.2]
      rw [hd, hs]
      exact gngsa_fold_stop t (toInt d, true) rfl
    · have hd : decide (d ≠ [] ∧ d ≠ ['0'] ∧ toInt d > 0) = false := decide_eq_false hP
      rw [hd]
      by_cases hg : d ≠ [] ∧ d ≠ ['0']
      · have hn : ¬ toInt d > 0 := fun h => hP ⟨hg.1, hg.2, h⟩
        have hs : gngsaFieldStep st d = (toInt d, false) := by
          unfold gngsaFieldStep
          rw [if_neg hst, if_pos hg, decide_eq_false hn]
        rw [hs]
        exact ih (toInt d, false) rfl (by simpa using hn)
      · have hs : gngsaFieldStep st d = st := by
          unfold gngsaFieldStep
          rw [if_neg hst, if_neg hg]
        rw [hs]
        exact ih st h2 h1

theorem gngsa_prn (data : List QString) :
    constellationOfPrn ((List.range' 2 12).foldl (gngsaStep data) (0, false)).1
      = constellationOfPrn (firstPositivePrn data) := by
  rw [gngsa_fold_slots data 12 2 (0, false)]
  have h := gngsa_fold_find (gsaSlots data) (0, false) rfl (le_refl _)
  unfold firstPositivePrn
  unfold gsaSlots at h ⊢
  cases hf : ((data.drop 2).take 12).find? (fun d => decide (d ≠ [] ∧ d ≠ ['0'] ∧ toInt d > 0)) with
  | some d =>
    rw [hf] at h
    simp only at h
    rw [h]
  | none =>
    rw [hf] at h
    simp only at h ⊢
    unfold constellationOfPrn
    generalize ((List.take 12 (List.drop 2 data)).foldl gngsaFieldStep (0, false)).1 = x at h
    split_ifs <;> first | rfl | omega

theorem parseGngsa_eq (p : NmeaParser) (data : List QString) (h : data.length < 18) :
    parseGngsa p data = parseGsa p data (constellationOfPrn (firstPositivePrn data)) := by
  rw [← gngsa_prn data]
  unfold parseGngsa constellationOfPrn
  simp only [h, if_true]
  generalize ((List.range' 2 12).foldl (gngsaStep data) (0, false)).1 = x
  split_ifs <;> rfl

/-- Claim C29. For every `$GNGSA` field list with fewer than 18 fields, `parseGngsa` is
`parseGsa` with the default constellation that `constellationOfPrn` assigns to the
first PRN slot that is not empty, not `0` and reads as a positive integer (to 0 if
there is none): 1 for 1..32, 2 for 33..64, 3 for 65..96, 4 for 97..128, 5 for
129..160, 6 for 161..192 and 1 otherwise. -/
theorem gngsa_guesses_constellation (p : NmeaParser) (data : List QString)
    (h : data.length < 18) :
    parseGngsa p data = parseGsa p data (constellationOfPrn (firstPositivePrn data)) :=
  parseGngsa_eq p data h

set_option maxRecDepth 100000 in
/-- Claim C29 at the 17 fields `A,3,,70,71,,,,,,,,,,1.5,1.0,1.1`: the first positive PRN
is 70, so the sentence is handled as Galileo (3). -/
theorem gngsa_guesses_constellation_witness :
    (split ',' "A,3,,70,71,,,,,,,,,,1.5,1.0,1.1".toList).length < 18 ∧
    firstPositivePrn (split ',' "A,3,,70,71,,,,,,,,,,1.5,1.0,1.1".toList) = 70 ∧
    constellationOfPrn (firstPositivePrn (split ',' "A,3,,70,71,,,,,,,,,,1.5,1.0,1.1".toList))
      = 3 ∧
    parseGngsa freshParser (split ',' "A,3,,70,71,,,,,,,,,,1.5,1.0,1.1".toList)
      = parseGsa freshParser (split ',' "A,3,,70,71,,,,,,,,,,1.5,1.0,1.1".toList)
          (constellationOfPrn
            (firstPositivePrn (split ',' "A,3,,70,71,,,,,,,,,,1.5,1.0,1.1".toList))) :=
  ⟨by decide, by decide, by decide,
    gngsa_guesses_constellation freshParser (split ',' "A,3,,70,71,,,,,,,,,,1.5,1.0,1.1".toList)
      (by decide)⟩

/-! ## Snapshots are emitted by RMC sentences only -/

theorem rmcDispatched_iff (ignore : Bool) (s : QString) :
    rmcDispatched ignore s = true ↔
      s.count '*' = 1 ∧ checkSum s ignore = some true ∧ isRmcTag (sentenceTag s) ∧
        9 ≤ (sentenceFields s).tail.length := by
  unfold rmcDispatched isRmcTag
  simp only [Bool.and_eq_true, decide_eq_true_eq, beq_iff_eq, List.mem_cons, List.mem_singleton,
    List.not_mem_nil, or_false, List.length_tail]
  constructor
  · rintro ⟨⟨⟨h1, h2⟩, h3⟩, h4⟩
    exact ⟨h1, h2, h3, by omega⟩
  · rintro ⟨h1, h2, h3, h4⟩
    exact ⟨⟨⟨h1, h2⟩, h3⟩, by omega⟩

theorem parseGpgga_emitted (p : NmeaParser) (data : List QString)
    (r : NmeaParseError) (p' : NmeaParser) (h : parseGpgga p data = some (r, p')) :
    p'.emitted = p.emitted := by
  by_cases hl : data.length < 6
  · rw [parseGpgga_short p data hl] at h
    simp at h
    rw [← h.2]
  · rcases data with _ | ⟨d0, _ | ⟨d1, _ | ⟨d2, _ | ⟨d3, _ | ⟨d4, _ | ⟨d5, rest⟩⟩⟩⟩⟩⟩ <;>
      simp at hl
    simp only [parseGpgga] at h
    simp at h
    obtain ⟨_, rfl⟩ := h
    rfl

theorem parseGsv_emitted (p : NmeaParser) (data : List QString) (system : Int) (signal : Char)
    (r : NmeaParseError) (p' : NmeaParser) (h : parseGsv p data system signal = some (r, p')) :
    p'.emitted = p.emitted := by
  simp only [parseGsv, bind, Option.bind_eq_some, pure] at h
  obtain ⟨sats, _, h⟩ := h
  simp at h
  obtain ⟨_, rfl⟩ := h
  rfl

theorem parseGsa_emitted (p : NmeaParser) (data : List QString) (defaultSystem : Int)
    (r : NmeaParseError) (p' : NmeaParser) (h : parseGsa p data defaultSystem = some (r, p')) :
    p'.emitted = p.emitted := by
  by_cases hl : data.length < 17
  · rw [parseGsa_short p data _ hl] at h
    simp at h
    rw [← h.2]
  · simp only [parseGsa, hl, if_false] at h
    cases h1 : data[1]? with
    | none => simp [h1] at h
    | some d1 =>
      simp [h1] at h
      obtain ⟨_, rfl⟩ := h
      rfl

theorem parseGngsa_emitted (p : NmeaParser) (data : List QString)
    (r : NmeaParseError) (p' : NmeaParser) (h : parseGngsa p data = some (r, p')) :
    p'.emitted = p.emitted := by
  unfold parseGngsa at h
  dsimp only at h
  split_ifs at h <;> exact parseGsa_emitted _ _ _ _ _ h

theorem parseGprmc_emitted (dt : QString → Option Int) (p : NmeaParser) (data : List QString)
    (r : NmeaParseError) (p' : NmeaParser) (h : parseGprmc dt p data = some (r, p')) :
    ∃ new, p'.emitted = p.emitted ++ new ∧ (9 ≤ data.length → new.length = 1) ∧
      (¬ 9 ≤ data.length → new = []) := by
  by_cases hl : data.length < 9
  · rw [parseGprmc_short dt p data hl] at h
    simp at h
    exact ⟨[], by rw [← h.2]; simp, fun h9 => by omega, fun _ => rfl⟩
  · obtain ⟨pos', _, he⟩ := rmc_closes_epoch_aux dt p data (by omega)
    rw [he] at h
    simp at h
    exact ⟨[⟨pos', p.m_gnssSatellites⟩], by rw [← h.2], fun _ => rfl, fun h9 => by omega⟩

theorem emitted_keep (p p' : NmeaParser) (k : String) (data : List QString)
    (he : p'.emitted = p.emitted) (hn : ¬ isRmcTag k) :
    ∃ new, p'.emitted = p.emitted ++ new ∧ (isRmcTag k ∧ 9 ≤ data.length → new.length = 1) ∧
      (¬ (isRmcTag k ∧ 9 ≤ data.length) → new = []) :=
  ⟨[], by rw [he]; simp, fun hh => absurd hh.1 hn, fun _ => rfl⟩

theorem emitted_rmc (dt : QString → Option Int) (p p' : NmeaParser) (k : String)
    (data : List QString) (r : NmeaParseError) (h : parseGprmc dt p data = some (r, p'))
    (hn : isRmcTag k) :
    ∃ new, p'.emitted = p.emitted ++ new ∧ (isRmcTag k ∧ 9 ≤ data.length → new.length = 1) ∧
      (¬ (isRmcTag k ∧ 9 ≤ data.length) → new = []) := by
  obtain ⟨new, h1, h2, h3⟩ := parseGprmc_emitted dt p data r p' h
  exact ⟨new, h1, fun hh => h2 hh.2, fun hh => h3 (fun h9 => hh ⟨hn, h9⟩)⟩

theorem table_entry_emitted (dt : QString → Option Int) (k : String)
    (handler : NmeaParser → List QString → Outcome)
    (hmem : (k, handler) ∈ m_nmeaHashMap dt) (p : NmeaParser) (data : List QString)
    (r : NmeaParseError) (p' : NmeaParser) (h : handler p data = some (r, p')) :
    ∃ new, p'.emitted = p.emitted ++ new ∧ (isRmcTag k ∧ 9 ≤ data.length → new.length = 1) ∧
      (¬ (isRmcTag k ∧ 9 ≤ data.length) → new = []) := by
  simp only [m_nmeaHashMap, List.mem_cons, Prod.mk.injEq, List.mem_singleton, List.not_mem_nil,
    or_false] at hmem
  rcases hmem with ⟨hk, hh⟩ | ⟨hk, hh⟩ | ⟨hk, hh⟩ | ⟨hk, hh⟩ | ⟨hk, hh⟩ | ⟨hk, hh⟩ | ⟨hk, hh⟩ |
    ⟨hk, hh⟩ | ⟨hk, hh⟩ | ⟨hk, hh⟩ | ⟨hk, hh⟩ | ⟨hk, hh⟩ | ⟨hk, hh⟩ | ⟨hk, hh⟩ | ⟨hk, hh⟩ |
    ⟨hk, hh⟩ | ⟨hk, hh⟩ | ⟨hk, hh⟩ | ⟨hk, hh⟩ | ⟨hk, hh⟩ <;> subst hh <;> subst hk
  · exact emitted_keep _ _ _ _ (parseGpgga_emitted p data r p' h) (by unfold isRmcTag; decide)
  · exact emitted_keep _ _ _ _ (parseGpgga_emitted p data r p' h) (by unfold isRmcTag; decide)
  · exact emitted_rmc dt _ _ _ _ r h (by unfold isRmcTag; decide)
  · exact emitted_rmc dt _ _ _ _ r h (by unfold isRmcTag; decide)
  · exact emitted_rmc dt _ _ _ _ r h (by unfold isRmcTag; decide)
  · exact emitted_keep _ _ _ _ (parseGsv_emitted p data 1 '1' r p' h) (by unfold isRmcTag; decide)
  · exact emitted_keep _ _ _ _ (parseGsv_emitted p data 2 '1' r p' h) (by unfold isRmcTag; decide)
  · exact emitted_keep _ _ _ _ (parseGsv_emitted p data 5 '1' r p' h) (by unfold isRmcTag; decide)
  · exact emitted_keep _ _ _ _ (parseGsv_emitted p data 5 '1' r p' h) (by unfold isRmcTag; decide)
  · exact emitted_keep _ _ _ _ (parseGsv_emitted p data 4 '1' r p' h) (by unfold isRmcTag; decide)
  · exact emitted_keep _ _ _ _ (parseGsv_emitted p data 4 '1' r p' h) (by unfold isRmcTag; decide)
  · exact emitted_keep _ _ _ _ (parseGsv_emitted p data 3 '7' r p' h) (by unfold isRmcTag; decide)
  · exact emitted_keep _ _ _ _ (parseGsv_emitted p data 6 '5' r p' h) (by unfold isRmcTag; decide)
  · exact emitted_keep _ _ _ _ (parseGsv_emitted p data 6 '5' r p' h) (by unfold isRmcTag; decide)
  · exact emitted_keep _ _ _ _ (parseGsa_emitted p data 1 r p' h) (by unfold isRmcTag; decide)
  · exact emitted_keep _ _ _ _ (parseGsa_emitted p data 5 r p' h) (by unfold isRmcTag; decide)
  · exact emitted_keep _ _ _ _ (parseGsa_emitted p data 4 r p' h) (by unfold isRmcTag; decide)
  · exact emitted_keep _ _ _ _ (parseGsa_emitted p data 3 r p' h) (by unfold isRmcTag; decide)
  · exact emitted_keep _ _ _ _ (parseGngsa_emitted p data r p' h) (by unfold isRmcTag; decide)
  · exact emitted_keep _ _ _ _ (parseGsa_emitted p data 6 r p' h) (by unfold isRmcTag; decide)

theorem rmc_tag_registered (k : String) (h : isRmcTag k) : k ∈ registeredTags := by
  unfold isRmcTag at h
  rcases h with h | h | h <;> subst h <;> decide

theorem parse_emitted (dt : QString → Option Int) (p : NmeaParser) (s : QString)
    (ignore : Bool) (r : NmeaParseError) (p' : NmeaParser)
    (h : parseNmeaSentence dt p s ignore = some (r, p')) :
    ∃ new, p'.emitted = p.emitted ++ new ∧
      new.length = (if rmcDispatched ignore s then 1 else 0) := by
  have hlen := split_length '*' s
  have hno : ¬ rmcDispatched ignore s = true → p' = p →
      ∃ new, p'.emitted = p.emitted ++ new ∧
        new.length = (if rmcDispatched ignore s then 1 else 0) := by
    intro hd hp
    exact ⟨[], by rw [hp]; simp, by simp [hd]⟩
  by_cases hc : s.count '*' = 1
  · have hl : (split '*' s).length = 2 := by omega
    rcases parse_cases dt p s ignore r p' h hl with ⟨hcs, _, hp⟩ | ⟨hcs, hf, _, hp⟩ |
      ⟨hcs, hf, c1, hc1, ⟨hlk, _, hp⟩ | ⟨handler, hlk, hh⟩⟩
    · refine hno (fun hd => ?_) hp
      rw [rmcDispatched_iff, hcs] at hd
      simp at hd
    · refine hno (fun hd => ?_) hp
      rw [rmcDispatched_iff, List.length_tail] at hd
      omega
    · refine hno (fun hd => ?_) hp
      rw [rmcDispatched_iff] at hd
      obtain ⟨_, _, htag, _⟩ := hd
      have hreg := rmc_tag_registered _ htag
      obtain ⟨hk2, hkP⟩ := registered_second_char _ hreg
      have hsc := sentence_second_char s hk2
      have hP : c1 ≠ 'P' := by
        intro hcP
        apply hkP
        show ((sentenceFields s).headD [])[1]? = some 'P'
        rw [← hsc, hc1, hcP]
      rw [if_neg hP] at hlk
      have hin : sentenceTag s ∈ (m_nmeaHashMap dt).map Prod.fst := by
        rw [table_keys]
        exact hreg
      have hnone := hlk
      have : (m_nmeaHashMap dt).lookup (sentenceTag s) ≠ none := by
        intro hn
        rw [List.lookup_eq_none_iff] at hn
        obtain ⟨⟨k, v⟩, hm, hkv⟩ := List.mem_map.1 hin
        have h1 : k = sentenceTag s := by simpa using hkv
        have h2 : ¬ sentenceTag s = k := by simpa using hn (k, v) hm
        exact h2 h1.symm
      exact this hnone
    · have hP : c1 ≠ 'P' := by
        intro hcP
        rw [if_pos hcP] at hlk
        have : (m_nmeaHashMap dt).lookup (String.mk []) = none := rfl
        rw [this] at hlk
        simp at hlk
      rw [if_neg hP] at hlk hh
      obtain ⟨new, h1, h2, h3⟩ :=
        table_entry_emitted dt _ handler (lookup_mem _ _ _ hlk) p _ r p' hh
      refine ⟨new, h1, ?_⟩
      by_cases hd : rmcDispatched ignore s = true
      · rw [if_pos hd]
        rw [rmcDispatched_iff] at hd
        exact h2 ⟨hd.2.2.1, hd.2.2.2⟩
      · rw [if_neg hd]
        have : ¬ (isRmcTag (String.mk ((sentenceFields s).headD [])) ∧
            9 ≤ (sentenceFields s).tail.length) := by
          intro hh2
          apply hd
          rw [rmcDispatched_iff]
          exact ⟨hc, hcs, hh2.1, hh2.2⟩
        rw [h3 this]
        rfl
  · rw [parse_invalid dt p s ignore (by omega)] at h
    simp at h
    refine hno (fun hd => ?_) h.2.symm
    rw [rmcDispatched_iff] at hd
    exact hc hd.1

theorem feedAll_emitted (dt : QString → Option Int) (ignore : Bool) : ∀ (ss : List QString)
    (p : NmeaParser) (rs : List NmeaParseError) (p' : NmeaParser),
    feedAll dt ignore p ss = some (rs, p') →
    ∃ new, p'.emitted = p.emitted ++ new ∧
      new.length = (ss.filter (rmcDispatched ignore)).length := by
  intro ss
  induction ss with
  | nil =>
    intro p rs p' h
    simp only [feedAll, Option.some.injEq, Prod.mk.injEq] at h
    exact ⟨[], by rw [← h.2]; simp, rfl⟩
  | cons s rest ih =>
    intro p rs p' h
    unfold feedAll at h
    cases h1 : parseNmeaSentence dt p s ignore with
    | none => rw [h1] at h; simp at h
    | some out =>
      obtain ⟨r, p1⟩ := out
      rw [h1] at h
      simp only at h
      cases h2 : feedAll dt ignore p1 rest with
      | none => rw [h2] at h; simp at h
      | some out2 =>
        obtain ⟨rs2, p2⟩ := out2
        rw [h2] at h
        simp only [Option.some.injEq, Prod.mk.injEq] at h
        obtain ⟨new1, e1, l1⟩ := parse_emitted dt p s ignore r p1 h1
        obtain ⟨new2, e2, l2⟩ := ih p1 rs2 p2 h2
        refine ⟨new1 ++ new2, by rw [← h.2, e2, e1, List.append_assoc], ?_⟩
        rw [List.length_append, l1, l2, List.filter_cons]
        by_cases hd : rmcDispatched ignore s = true
        · simp only [hd, if_true, List.length_cons]
          omega
        · simp only [hd, Bool.false_eq_true, if_false]
          omega

theorem feedAll_fault_prefix (dt : QString → Option Int) (ignore : Bool) :
    ∀ (ss : List QString) (p : NmeaParser), feedAll dt ignore p ss = none →
    ∃ pre s post rs p1, ss = pre ++ s :: post ∧ feedAll dt ignore p pre = some (rs, p1) ∧
      parseNmeaSentence dt p1 s ignore = none := by
  intro ss
  induction ss with
  | nil =>
    intro p h
    simp [feedAll] at h
  | cons s rest ih =>
    intro p h
    cases h1 : parseNmeaSentence dt p s ignore with
    | none => exact ⟨[], s, rest, [], p, rfl, rfl, h1⟩
    | some out =>
      obtain ⟨r, p1⟩ := out
      unfold feedAll at h
      rw [h1] at h
      simp only at h
      cases h2 : feedAll dt ignore p1 rest with
      | some out2 => rw [h2] at h; simp at h
      | none =>
        obtain ⟨pre, s', post, rs, p2, e, hp, hf⟩ := ih p1 h2
        refine ⟨s :: pre, s', post, r :: rs, p2, by rw [e]; rfl, ?_, hf⟩
        unfold feedAll
        rw [h1]
        simp only [hp]

set_option maxRecDepth 100000 in
/-- Claim C30 fails on sequences that hold a faulting sentence (the defect of claim
C7). The sequence of the six-field GSV sentence `$GPGSV,1,1,01,05,40,083*6E`
followed by one RMC sentence with eleven fields behind the tag holds one
sentence dispatched to the RMC handler, but the GSV handler reads the field
list out of range on the first sentence and the sequence has no defined
outcome: no parser state with one snapshot results. The five sentences
`mixedSentences`, none of them faulting, give one snapshot for their one RMC
sentence. In general, for every
sequence either every call returns, and then the number of snapshots emitted
equals the number of sentences dispatched to the RMC handler with at least 9
fields (none if there is no such sentence), or the sequence has a first
sentence on which `parseNmeaSentence` reads out of range, and up to that
sentence the snapshots emitted are as many as the RMC sentences dispatched. -/
theorem snapshots_count_rmc_sentences_or_fault :
    (feedAll noDate false freshParser
      ["$GPGSV,1,1,01,05,40,083*6E".toList,
       "$GPRMC,123519,A,4807.038,N,01131.000,E,022.4,084.4,230394,003.1,W*6A".toList] = none ∧
      (["$GPGSV,1,1,01,05,40,083*6E".toList,
        "$GPRMC,123519,A,4807.038,N,01131.000,E,022.4,084.4,230394,003.1,W*6A".toList].filter
          (rmcDispatched false)).length = 1) ∧
    ((feedAll noDate false freshParser mixedSentences).map (fun r => r.2.emitted.length)
        = some 1 ∧
      (mixedSentences.filter (rmcDispatched false)).length = 1) ∧
    (∀ (dt : QString → Option Int) (ignore : Bool) (p : NmeaParser) (ss : List QString),
      (∃ rs p', feedAll dt ignore p ss = some (rs, p') ∧
        p'.emitted.length = p.emitted.length + (ss.filter (rmcDispatched ignore)).length ∧
        ((∀ s ∈ ss, rmcDispatched ignore s = false) → p'.emitted = p.emitted)) ∨
      (feedAll dt ignore p ss = none ∧
        ∃ pre s post rs p1, ss = pre ++ s :: post ∧
          feedAll dt ignore p pre = some (rs, p1) ∧
          parseNmeaSentence dt p1 s ignore = none ∧
          p1.emitted.length
            = p.emitted.length + (pre.filter (rmcDispatched ignore)).length)) := by
  refine ⟨by decide, by decide, ?_⟩
  intro dt ignore p ss
  cases hf : feedAll dt ignore p ss with
  | none =>
    right
    obtain ⟨pre, s, post, rs, p1, e, hp, hn⟩ := feedAll_fault_prefix dt ignore ss p hf
    obtain ⟨new, e1, l1⟩ := feedAll_emitted dt ignore pre p rs p1 hp
    exact ⟨rfl, pre, s, post, rs, p1, e, hp, hn, by rw [e1, List.length_append, l1]⟩
  | some out =>
    left
    obtain ⟨rs, p'⟩ := out
    obtain ⟨new, e, l⟩ := feedAll_emitted dt ignore ss p rs p' hf
    refine ⟨rs, p', rfl, by rw [e, List.length_append, l], fun hnone => ?_⟩
    have h0 : ss.filter (rmcDispatched ignore) = [] := by
      rw [List.filter_eq_nil_iff]
      intro s hs
      rw [hnone s hs]
      simp
    rw [h0] at l
    rw [e, List.eq_nil_of_length_eq_zero l, List.append_nil]

/-! ## GSV: one entry per group -/

theorem filter_mod4_range (k : Nat) :
    (List.range (2 + 4 * k)).filter (fun i => i % 4 == 3)
      = (List.range k).map (fun j => 3 + 4 * j) := by
  induction k with
  | zero => decide
  | succ k ih =>
    have e : 2 + 4 * (k + 1) = (((2 + 4 * k + 1) + 1) + 1) + 1 := by omega
    rw [e, List.range_succ, List.range_succ, List.range_succ, List.range_succ]
    simp only [List.filter_append, ih, List.range_succ (n := k), List.map_append, List.map_cons,
      List.map_nil, List.append_assoc]
    have h0 : (2 + 4 * k) % 4 = 2 := by omega
    have h1 : (2 + 4 * k + 1) % 4 = 3 := by omega
    have h2 : (2 + 4 * k + 1 + 1) % 4 = 0 := by omega
    have h3 : (2 + 4 * k + 1 + 1 + 1) % 4 = 1 := by omega
    simp [List.filter_cons, h0, h1, h2, h3]
    omega

theorem gsv_indices (n k : Nat) (hn : 2 + 4 * k ≤ n) :
    (List.range n).filter (fun (i : Nat) => i % 4 == 3 && decide ((i : Int) < ((2 + 4 * k : Nat) : Int)))
      = (List.range k).map (fun j => 3 + 4 * j) := by
  obtain ⟨m, rfl⟩ : ∃ m, n = (2 + 4 * k) + m := ⟨n - (2 + 4 * k), by omega⟩
  rw [List.range_add, List.filter_append, ← filter_mod4_range k]
  have h2 : ((List.range m).map (fun x => 2 + 4 * k + x)).filter
      (fun (i : Nat) => i % 4 == 3 && decide ((i : Int) < ((2 + 4 * k : Nat) : Int))) = [] := by
    rw [List.filter_eq_nil_iff]
    intro i hi
    rw [List.mem_map] at hi
    obtain ⟨x, _, rfl⟩ := hi
    simp only [Bool.and_eq_true, beq_iff_eq, decide_eq_true_eq, not_and, not_lt]
    intro _
    omega
  rw [h2, List.append_nil]
  apply List.filter_congr
  intro i hi
  rw [List.mem_range] at hi
  have : ((i : Int) < ((2 + 4 * k : Nat) : Int)) := by omega
  rw [decide_eq_true this, Bool.and_true]

theorem getD_eq_of_lt (data : List QString) (i : Nat) (h : i < data.length) :
    data[i]? = some (data.getD i []) := by
  rw [List.getD_eq_getElem?_getD, List.getElem?_eq_getElem h]
  rfl

theorem gsvStep_group (data : List QString) (system : Int) (signal sig : Char)
    ( hasSig : Bool) (sats : List GnssSatellite) (j : Nat) (hj : 6 + 4 * j < data.length)
    (hsig : hasSig = true → ∃ t, data.getD (data.length - 1) [] = sig :: t)
    (hnosig : hasSig = false → sig = signal) :
    gsvStep data system signal hasSig sats (3 + 4 * j)
      = some (sats ++ (gsvGroup data system sig j).toList) := by
  have e3 := getD_eq_of_lt data (3 + 4 * j) (by omega)
  have e4 : data[3 + 4 * j + 1]? = some (data.getD (4 + 4 * j) []) := by
    rw [← getD_eq_of_lt data (4 + 4 * j) (by omega)]
    congr 1
    omega
  have e5 : data[3 + 4 * j + 2]? = some (data.getD (5 + 4 * j) []) := by
    rw [← getD_eq_of_lt data (5 + 4 * j) (by omega)]
    congr 1
    omega
  have e6 : data[3 + 4 * j + 3]? = some (data.getD (6 + 4 * j) []) := by
    rw [← getD_eq_of_lt data (6 + 4 * j) (by omega)]
    congr 1
    omega
  have el := getD_eq_of_lt data (data.length - 1) (by omega)
  unfold gsvStep gsvGroup
  simp only [e3, e4, e5, e6, el, bind, Option.bind, pure]
  by_cases h3 : data.getD (3 + 4 * j) [] ≠ []
  · by_cases h6 : data.getD (6 + 4 * j) [] ≠ []
    · simp only [h3, h6, ne_eq, not_false_eq_true, and_self, if_true, Option.toList]
      cases hs : hasSig with
      | true =>
        obtain ⟨t, ht⟩ := hsig hs
        have ht' := ht
        rw [List.getD_eq_getElem?_getD] at ht'
        simp [ht, ht']
      | false =>
        simp [hnosig hs]
    · simp only [h3, h6, ne_eq, not_false_eq_true, if_true, if_false, and_false, Option.toList,
        List.append_nil]
  · simp only [h3, if_false, false_and, Option.toList, List.append_nil]

theorem gsvEntries_succ (data : List QString) (system : Int) (signal : Char) (k : Nat) :
    gsvEntries data system signal (k + 1)
      = gsvEntries data system signal k ++ (gsvGroup data system signal k).toList := by
  unfold gsvEntries
  rw [List.range_succ, List.filterMap_append]
  congr 1

theorem gsv_fold (data : List QString) (system : Int) (signal sig : Char) ( hasSig : Bool)
    (sats : List GnssSatellite)
    (hsig : hasSig = true → ∃ t, data.getD (data.length - 1) [] = sig :: t)
    (hnosig : hasSig = false → sig = signal) :
    ∀ k, 2 + 4 * k < data.length →
      ((List.range k).map (fun j => 3 + 4 * j)).foldlM (gsvStep data system signal hasSig) sats
        = some (sats ++ gsvEntries data system sig k) := by
  intro k
  induction k with
  | zero => intro _; simp [gsvEntries]
  | succ k ih =>
    intro hk
    rw [List.range_succ, List.map_append, List.foldlM_append, ih (by omega)]
    simp only [List.map_cons, List.map_nil, List.foldlM_cons, List.foldlM_nil, bind, Option.bind]
    rw [gsvStep_group data system signal sig hasSig _ k (by omega) hsig hnosig,
      gsvEntries_succ, List.append_assoc]
    rfl

/-- Claim C27. For every GSV field list of `3 + 4k` fields, or of `4 + 4k` fields with a
non-empty last field, the handler `parseGsv` with constellation `c` and default
signal id returns `NMEA_PARSE_OK` and appends to the accumulated satellite list, in
group order, one entry for each of the `k` groups whose PRN and SNR fields are
not empty (`gsvEntries`): `prn`, `elevation`, `azimuth`, `snr` the integer values of the four
fields, `system = c`, `used = false`, `signal` the first character of the last field for an
even field count and the default otherwise. Everything else in the parser
object, the earlier satellite entries and the position included, is
unchanged. The constructor binds the nine GSV tags to the constellations and
defaults of `gsvBindings`. -/
theorem gsv_appends_one_entry_per_group (dt : QString → Option Int) (p : NmeaParser)
    (data : List QString) (c : Int) (signal : Char) (k : Nat)
    (hsize : data.length = 3 + 4 * k ∨
      (data.length = 4 + 4 * k ∧ data.getD (data.length - 1) [] ≠ [])) :
    parseGsv p data c signal = some (NMEA_PARSE_OK,
      { p with m_gnssSatellites :=
          p.m_gnssSatellites ++ gsvEntries data c (gsvSignal data signal) k }) ∧
    (∀ tag c' sig, (tag, c', sig) ∈ gsvBindings →
      (m_nmeaHashMap dt).lookup tag = some (fun q d => parseGsv q d c' sig)) := by
  constructor
  · rcases hsize with h | ⟨h, hlast⟩
    · have hodd : (((data.length : Nat) : Int) % 2 == 0) = false := by
        rw [h]
        simp only [beq_eq_false_iff_ne, ne_eq]
        omega
      have hle : ((data.length : Nat) : Int) - 1 = ((2 + 4 * k : Nat) : Int) := by
        rw [h]
        omega
      have hsg : gsvSignal data signal = signal := by
        unfold gsvSignal
        rw [if_neg (by omega)]
      unfold parseGsv
      simp only [hodd, Bool.false_eq_true, if_false, hle, gsv_indices data.length k (by omega),
        gsv_fold data c signal signal false p.m_gnssSatellites (by simp) (fun _ => rfl) k
          (by omega), hsg, bind, Option.bind, pure]
    · have heven : (((data.length : Nat) : Int) % 2 == 0) = true := by
        rw [h]
        simp only [beq_iff_eq]
        omega
      have hle : ((data.length : Nat) : Int) - 2 = ((2 + 4 * k : Nat) : Int) := by
        rw [h]
        omega
      obtain ⟨ch, t, hct⟩ : ∃ ch t, data.getD (data.length - 1) [] = ch :: t := by
        cases hd : data.getD (data.length - 1) [] with
        | nil => exact absurd hd hlast
        | cons ch t => exact ⟨ch, t, rfl⟩
      have hsg : gsvSignal data signal = ch := by
        unfold gsvSignal
        rw [if_pos (by omega), hct]
        rfl
      unfold parseGsv
      simp only [heven, if_true, hle, gsv_indices data.length k (by omega),
        gsv_fold data c signal ch true p.m_gnssSatellites (fun _ => ⟨t, hct⟩) (by simp) k
          (by omega), hsg, bind, Option.bind, pure]
  · intro tag c' sig hmem
    simp only [gsvBindings, List.mem_cons, List.mem_singleton, List.not_mem_nil, or_false,
      Prod.mk.injEq] at hmem
    rcases hmem with ⟨h1, h2, h3⟩ | ⟨h1, h2, h3⟩ | ⟨h1, h2, h3⟩ | ⟨h1, h2, h3⟩ | ⟨h1, h2, h3⟩ |
      ⟨h1, h2, h3⟩ | ⟨h1, h2, h3⟩ | ⟨h1, h2, h3⟩ | ⟨h1, h2, h3⟩ <;>
      subst h1 <;> subst h2 <;> subst h3 <;> rfl

set_option maxRecDepth 100000 in
/-- Claim C27 at `gsvExample` with the GPS handler: of the two groups only the first has
an SNR, and one entry is appended. -/
theorem gsv_appends_one_entry_per_group_witness :
    gsvExample.length = 3 + 4 * 2 ∧
    gsvEntries gsvExample 1 (gsvSignal gsvExample '1') 2
      = [{ prn := 5, elevation := 40, azimuth := 83, snr := 46, system := 1, signal := '1',
           used := false }] ∧
    parseGsv freshParser gsvExample 1 '1' = some (NMEA_PARSE_OK,
      { freshParser with m_gnssSatellites :=
          freshParser.m_gnssSatellites ++ gsvEntries gsvExample 1 (gsvSignal gsvExample '1') 2 }) :=
  ⟨by decide, by decide,
    (gsv_appends_one_entry_per_group noDate freshParser gsvExample 1 '1' 2
      (Or.inl (by decide))).1⟩

/-! ## GSA: which entries are marked as used -/

theorem markUsed_length (prn system : Int) (ex : Bool) (sg : Char) :
    ∀ l : List GnssSatellite, (markUsed prn system ex sg l).length = l.length := by
  intro l
  induction l with
  | nil => rfl
  | cons a t ih =>
    unfold markUsed
    split_ifs
    · rfl
    · simp [ih]

theorem markUsed_spec (prn system : Int) (ex : Bool) (sg : Char) :
    ∀ (l : List GnssSatellite) (j : Nat) (sat : GnssSatellite), l[j]? = some sat →
      ∃ u, (markUsed prn system ex sg l)[j]? = some { sat with used := u } ∧
        (u = true ↔ sat.used = true ∨ gsaFirstMatch prn system ex sg l j) := by
  intro l
  induction l with
  | nil => intro j sat h; simp at h
  | cons a t ih =>
    intro j sat h
    simp only [gsaFirstMatch, gsaMatches] at ih ⊢
    unfold markUsed
    by_cases hm : a.prn = prn ∧ a.system = system ∧ (ex = false ∨ a.signal = sg)
    · rw [if_pos hm]
      cases j with
      | zero =>
        simp only [List.getElem?_cons_zero, Option.some.injEq] at h
        subst h
        exact ⟨true, by simp, fun _ => Or.inr ⟨⟨a, by simp, hm⟩, fun j' _ hj' => by omega⟩,
          fun _ => rfl⟩
      | succ j =>
        simp only [List.getElem?_cons_succ] at h
        refine ⟨sat.used, by simp [h], fun hu => Or.inl hu, fun hu => ?_⟩
        rcases hu with hu | ⟨_, hfirst⟩
        · exact hu
        · exact absurd hm (hfirst 0 a (by omega) (by simp))
    · rw [if_neg hm]
      cases j with
      | zero =>
        simp only [List.getElem?_cons_zero, Option.some.injEq] at h
        subst h
        refine ⟨a.used, by simp, fun hu => Or.inl hu, fun hu => ?_⟩
        rcases hu with hu | ⟨⟨s0, hs0, hm0⟩, _⟩
        · exact hu
        · simp only [List.getElem?_cons_zero, Option.some.injEq] at hs0
          subst hs0
          exact absurd hm0 hm
      | succ j =>
        simp only [List.getElem?_cons_succ] at h
        obtain ⟨u, hu1, hu2⟩ := ih j sat h
        refine ⟨u, by simp [hu1], ?_⟩
        rw [hu2]
        constructor
        · rintro (hu | ⟨⟨s0, hs0, hm0⟩, hfirst⟩)
          · exact Or.inl hu
          · refine Or.inr ⟨⟨s0, by simpa using hs0, hm0⟩, fun j' sat' hj' hs' => ?_⟩
            cases j' with
            | zero =>
              simp only [List.getElem?_cons_zero, Option.some.injEq] at hs'
              subst hs'
              exact hm
            | succ j' =>
              simp only [List.getElem?_cons_succ] at hs'
              exact hfirst j' sat' (by omega) hs'
        · rintro (hu | ⟨⟨s0, hs0, hm0⟩, hfirst⟩)
          · exact Or.inl hu
          · refine Or.inr ⟨⟨s0, by simpa using hs0, hm0⟩, fun j' sat' hj' hs' => ?_⟩
            exact hfirst (j' + 1) sat' (by omega) (by simpa using hs')

theorem firstMatch_congr (prn system : Int) (ex : Bool) (sg : Char)
    (orig cur : List GnssSatellite) (hlen : cur.length = orig.length)
    (h : ∀ (j : Nat) (sat : GnssSatellite), orig[j]? = some sat →
      ∃ u, cur[j]? = some { sat with used := u }) (j : Nat) :
    gsaFirstMatch prn system ex sg cur j ↔ gsaFirstMatch prn system ex sg orig j := by
  have back : ∀ (j : Nat) (c : GnssSatellite), cur[j]? = some c →
      ∃ (o : GnssSatellite) (u : Bool), orig[j]? = some o ∧ c = { o with used := u } := by
    intro j c hc
    have hj : j < orig.length := by
      rw [← hlen]
      by_contra hn
      rw [List.getElem?_eq_none (by omega)] at hc
      simp at hc
    obtain ⟨u, hu⟩ := h j orig[j] (List.getElem?_eq_getElem hj)
    rw [hc] at hu
    exact ⟨orig[j], u, List.getElem?_eq_getElem hj, Option.some.inj hu⟩
  simp only [gsaFirstMatch, gsaMatches]
  constructor
  · rintro ⟨⟨c, hc, hm⟩, hfirst⟩
    obtain ⟨o, u, ho, rfl⟩ := back j c hc
    refine ⟨⟨o, ho, hm⟩, fun j' o' hj' ho' => ?_⟩
    obtain ⟨u', hu'⟩ := h j' o' ho'
    have hnm := hfirst j' _ hj' hu'
    exact hnm
  · rintro ⟨⟨o, ho, hm⟩, hfirst⟩
    obtain ⟨u, hu⟩ := h j o ho
    refine ⟨⟨_, hu, hm⟩, fun j' c' hj' hc' => ?_⟩
    obtain ⟨o', u', ho', rfl⟩ := back j' c' hc'
    exact hfirst j' o' hj' ho'

theorem gsaFieldStep_spec (system : Int) (ex : Bool) (sg : Char) (orig cur : List GnssSatellite)
    (done : List QString) (f : QString) (hlen : cur.length = orig.length)
    (h : ∀ (j : Nat) (sat : GnssSatellite), orig[j]? = some sat → ∃ u, cur[j]? = some { sat with used := u } ∧
      (u = true ↔ sat.used = true ∨ gsaMarked system ex sg done orig j)) :
    (gsaFieldStep system ex sg cur f).length = orig.length ∧
    ∀ (j : Nat) (sat : GnssSatellite), orig[j]? = some sat →
      ∃ u, (gsaFieldStep system ex sg cur f)[j]? = some { sat with used := u } ∧
        (u = true ↔ sat.used = true ∨ gsaMarked system ex sg (done ++ [f]) orig j) := by
  by_cases hv : (f ≠ [] ∧ f ≠ ['0']) ∧ toInt f > 0
  · have hs : gsaFieldStep system ex sg cur f = markUsed (toInt f) system ex sg cur := by
      unfold gsaFieldStep
      rw [if_pos hv.1, if_pos hv.2]
    rw [hs, markUsed_length, hlen]
    refine ⟨rfl, fun j sat ho => ?_⟩
    obtain ⟨u, hu1, hu2⟩ := h j sat ho
    obtain ⟨u', hu1', hu2'⟩ := markUsed_spec (toInt f) system ex sg cur j _ hu1
    refine ⟨u', hu1', ?_⟩
    rw [hu2', firstMatch_congr (toInt f) system ex sg orig cur hlen
      (fun j sat ho => (h j sat ho).imp (fun _ hh => hh.1)) j]
    show u = true ∨ _ ↔ _
    rw [hu2]
    simp only [gsaMarked, List.mem_append, List.mem_singleton]
    constructor
    · rintro ((hu | ⟨g, hg, hr⟩) | hfm)
      · exact Or.inl hu
      · exact Or.inr ⟨g, Or.inl hg, hr⟩
      · exact Or.inr ⟨f, Or.inr rfl, hv.1.1, hv.1.2, hv.2, hfm⟩
    · rintro (hu | ⟨g, hg | hg, hr⟩)
      · exact Or.inl (Or.inl hu)
      · exact Or.inl (Or.inr ⟨g, hg, hr⟩)
      · subst hg
        exact Or.inr hr.2.2.2
  · have hs : gsaFieldStep system ex sg cur f = cur := by
      unfold gsaFieldStep
      by_cases hg : f ≠ [] ∧ f ≠ ['0']
      · rw [if_pos hg, if_neg (fun hp => hv ⟨hg, hp⟩)]
      · rw [if_neg hg]
    rw [hs]
    refine ⟨hlen, fun j sat ho => ?_⟩
    obtain ⟨u, hu1, hu2⟩ := h j sat ho
    refine ⟨u, hu1, ?_⟩
    rw [hu2]
    simp only [gsaMarked, List.mem_append, List.mem_singleton]
    constructor
    · rintro (hu | ⟨g, hg, hr⟩)
      · exact Or.inl hu
      · exact Or.inr ⟨g, Or.inl hg, hr⟩
    · rintro (hu | ⟨g, hg | hg, hr⟩)
      · exact Or.inl hu
      · exact Or.inr ⟨g, hg, hr⟩
      · subst hg
        exact absurd ⟨⟨hr.1, hr.2.1⟩, hr.2.2.1⟩ hv

theorem gsa_fold_spec (system : Int) (ex : Bool) (sg : Char) (orig : List GnssSatellite) :
    ∀ (ds : List QString) (cur : List GnssSatellite) (done : List QString),
      cur.length = orig.length →
      (∀ (j : Nat) (sat : GnssSatellite), orig[j]? = some sat → ∃ u, cur[j]? = some { sat with used := u } ∧
        (u = true ↔ sat.used = true ∨ gsaMarked system ex sg done orig j)) →
      (ds.foldl (gsaFieldStep system ex sg) cur).length = orig.length ∧
      ∀ (j : Nat) (sat : GnssSatellite), orig[j]? = some sat →
        ∃ u, (ds.foldl (gsaFieldStep system ex sg) cur)[j]? = some { sat with used := u } ∧
          (u = true ↔ sat.used = true ∨ gsaMarked system ex sg (done ++ ds) orig j) := by
  intro ds
  induction ds with
  | nil =>
    intro cur done hlen h
    rw [List.append_nil]
    exact ⟨hlen, h⟩
  | cons f t ih =>
    intro cur done hlen h
    obtain ⟨hl1, h1⟩ := gsaFieldStep_spec system ex sg orig cur done f hlen h
    have := ih (gsaFieldStep system ex sg cur f) (done ++ [f]) hl1 h1
    rw [List.append_assoc] at this
    exact this

theorem gsa_fold_none (data : List QString) (system : Int) (ex : Bool) (sg : Char)
    (sats : List GnssSatellite) : ∀ (n start : Nat), data.length ≤ start →
    (List.range' start n).foldl (gsaStep data system ex sg) sats = sats := by
  intro n
  induction n with
  | zero => intro start _; rfl
  | succ n ih =>
    intro start h
    have hnone : data[start]? = none := List.getElem?_eq_none h
    rw [List.range'_succ, List.foldl_cons]
    have hs : gsaStep data system ex sg sats start = sats := by
      unfold gsaStep
      rw [hnone]
    rw [hs]
    exact ih (start + 1) (by omega)

theorem gsa_fold_slots (data : List QString) (system : Int) (ex : Bool) (sg : Char) :
    ∀ (n start : Nat) (sats : List GnssSatellite),
    (List.range' start n).foldl (gsaStep data system ex sg) sats
      = ((data.drop start).take n).foldl (gsaFieldStep system ex sg) sats := by
  intro n
  induction n with
  | zero => intro start sats; simp
  | succ n ih =>
    intro start sats
    by_cases h : start < data.length
    · rw [List.drop_eq_getElem_cons h, List.take_succ_cons, List.range'_succ, List.foldl_cons,
        List.foldl_cons, ih (start + 1)]
      congr 1
      unfold gsaStep gsaFieldStep
      rw [List.getElem?_eq_getElem h]
    · rw [gsa_fold_none data system ex sg sats (n + 1) start (by omega),
        List.drop_eq_nil_of_le (by omega)]
      rfl

theorem whenField_getD (data : List QString) (i : Nat)
    (f : GnssPosition → QString → GnssPosition) (pos : GnssPosition) (h : i < data.length) :
    whenField data i f pos = if data.getD i [] ≠ [] then f pos (data.getD i []) else pos := by
  unfold whenField
  rw [getD_eq_of_lt data i h]

theorem parseGsa_eq (p : NmeaParser) (data : List QString) (d : Int) (h : 17 ≤ data.length) :
    parseGsa p data d = some (NMEA_PARSE_OK,
      { p with
        m_gnssPosition :=
          whenField data 16 (fun q x => { q with vdop := toDouble x })
            (whenField data 15 (fun q x => { q with hdop := toDouble x })
              (whenField data 14 (fun q x => { q with pdop := toDouble x }) p.m_gnssPosition))
        m_gnssSatellites :=
          (gsaSlots data).foldl
            (gsaFieldStep (gsaSystem data d) (data.length % 2 == 0) (gsaSignal data))
            p.m_gnssSatellites }) := by
  have hl : ¬ data.length < 17 := by omega
  obtain ⟨d1, h1⟩ : ∃ d1, data[1]? = some d1 := ⟨_, List.getElem?_eq_getElem (by omega)⟩
  unfold gsaSlots
  rw [← gsa_fold_slots data (gsaSystem data d) (data.length % 2 == 0) (gsaSignal data) 12 2]
  by_cases hpar : data.length % 2 = 0
  · have hev : (data.length % 2 == 0) = true := by simp [hpar]
    have hgt : data.length > 17 := by omega
    have hsys : gsaSystem data d
        = (match toIntOk 10 (data[17]?.getD []) with
          | some systemId => systemId
          | none => d) := by
      unfold gsaSystem
      rw [if_pos hpar, List.getD_eq_getElem?_getD]
      cases toIntOk 10 (data[17]?.getD []) <;> rfl
    have hsig : gsaSignal data
        = (match data[18]? with
          | some d18 => d18.headD '1'
          | none => '1') := by
      unfold gsaSignal
      rw [if_pos hpar, List.getD_eq_getElem?_getD]
      cases data[18]? <;> rfl
    rw [hsys, hsig]
    simp only [parseGsa, hl, if_false, h1, bind, Option.bind, hev, hgt, and_self, if_true, pure]
  · have hod : (data.length % 2 == 0) = false := by simp [hpar]
    have hsys : gsaSystem data d = d := by
      unfold gsaSystem
      rw [if_neg hpar]
    have hsig : gsaSignal data = '1' := by
      unfold gsaSignal
      rw [if_neg hpar]
    rw [hsys, hsig]
    simp only [parseGsa, hl, if_false, h1, bind, Option.bind, hod, Bool.false_eq_true,
      false_and, pure]

/-- Claim C28. Let a GSA field list be handled with default constellation `d`, and let
`exact`, `S` and `sig` be as in the claim (`data.length % 2 == 0`, `gsaSystem`, `gsaSignal`). With fewer
than 17 fields `parseGsa` returns `NMEA_PARSE_TOO_FEW_FIELDS` and changes nothing. With at
least 17 it returns `NMEA_PARSE_OK`; the satellite list keeps its length and order,
every entry keeps all its fields except possibly `used`, and an entry has
`used = true` afterwards if and only if it had before or it is, for some PRN field
among 2..13 that is not empty, not `0` and reads as `p > 0`, the first entry in list
order with `prn = p`, `system = S` and (matching not exact, or `signal = sig`). PDOP, HDOP
and VDOP are set from the fields 14, 15, 16 that are not empty; the rest of the
position and of the parser object is unchanged. -/
theorem gsa_marks_first_matching_entry (p : NmeaParser) (data : List QString) (d : Int) :
    (data.length < 17 → parseGsa p data d = some (NMEA_PARSE_TOO_FEW_FIELDS, p)) ∧
    (17 ≤ data.length → ∃ p', parseGsa p data d = some (NMEA_PARSE_OK, p') ∧
      p'.m_gnssSatellites.length = p.m_gnssSatellites.length ∧
      (∀ (j : Nat) (sat : GnssSatellite), p.m_gnssSatellites[j]? = some sat →
        ∃ u, p'.m_gnssSatellites[j]? = some { sat with used := u } ∧
          (u = true ↔ sat.used = true ∨
            gsaMarked (gsaSystem data d) (data.length % 2 == 0) (gsaSignal data) (gsaSlots data)
              p.m_gnssSatellites j)) ∧
      p'.m_gnssPosition =
        { p.m_gnssPosition with
          pdop := if data.getD 14 [] ≠ [] then toDouble (data.getD 14 [])
            else p.m_gnssPosition.pdop
          hdop := if data.getD 15 [] ≠ [] then toDouble (data.getD 15 [])
            else p.m_gnssPosition.hdop
          vdop := if data.getD 16 [] ≠ [] then toDouble (data.getD 16 [])
            else p.m_gnssPosition.vdop } ∧
      p'.m_gnssInfo = p.m_gnssInfo ∧ p'.m_haveGprmc = p.m_haveGprmc ∧
      p'.emitted = p.emitted) := by
  refine ⟨fun h => parseGsa_short p data d h, fun h => ?_⟩
  obtain ⟨hlen, hspec⟩ := gsa_fold_spec (gsaSystem data d) (data.length % 2 == 0) (gsaSignal data)
    p.m_gnssSatellites (gsaSlots data) p.m_gnssSatellites [] rfl
    (fun j sat hs => ⟨sat.used, hs, by
      constructor
      · exact fun hu => Or.inl hu
      · rintro (hu | ⟨f, hf, _⟩)
        · exact hu
        · simp at hf⟩)
  rw [List.nil_append] at hspec
  refine ⟨_, parseGsa_eq p data d h, hlen, hspec, ?_, rfl, rfl, rfl⟩
  dsimp only
  rw [whenField_getD data 16 _ _ (by omega), whenField_getD data 15 _ _ (by omega),
    whenField_getD data 14 _ _ (by omega)]
  by_cases h14 : data.getD 14 [] = [] <;> by_cases h15 : data.getD 15 [] = [] <;>
    by_cases h16 : data.getD 16 [] = [] <;>
    simp only [h14, h15, h16, ne_eq, not_true_eq_false, not_false_eq_true, if_true, if_false]

/-! ## Goldfish decoder: acceptance without checks (C31) -/

theorem goldfish_lenAt_eq (data : QByteArray) (i : Nat) :
    Goldfish.lenAt data i = byteAt data (i + 2) * 16 + byteAt data (i + 3) / 16 := by
  unfold Goldfish.lenAt
  have hb := byteAt_lt data (i + 3)
  have h := Nat.and_pow_two_sub_one_eq_mod (byteAt data (i + 3) >>> 4) 4
  norm_num at h
  have h2 : byteAt data (i + 3) >>> 4 = byteAt data (i + 3) / 16 := by
    rw [Nat.shiftRight_eq_div_pow]
  rw [h, h2, Nat.mod_eq_of_lt (by omega), shl_or _ _ 4 (by norm_num; omega)]
  norm_num

theorem goldfish_findNextPacket_zero (data : QByteArray) (h0 : byteAt data 0 = 0xBC)
    (h1 : byteAt data 1 = 0xB2) (hlen : 4 ≤ data.length) :
    Goldfish.findNextPacket data 0 = some 0 := by
  unfold Goldfish.findNextPacket
  apply scanFrom_head
  · have hL : Goldfish.lenAt data 0 ≤ 4096 := by
      rw [goldfish_lenAt_eq]
      have := byteAt_lt data (0 + 2)
      have := byteAt_lt data (0 + 3)
      omega
    simp [syncAt, h0, h1, Goldfish.GOLDFISH_SYNC1, Goldfish.GOLDFISH_SYNC2,
      Goldfish.GOLDFISH_HEADER_LEN, hlen, hL]
  · omega

/-- Claim C31: a buffer that starts with `BC B2` and holds at least `6 + L` bytes,
`L = (byte2 << 4) | (byte3 >> 4)`, is decoded by `GoldfishDecoder::decodePacket`
as true with `bytesProcessed = 6 + L` and `valid = true`; nothing is assumed
on the low nibble of byte 3 or on the two trailing bytes, so no length CRC and
no checksum is enforced. -/
theorem goldfish_accepts_on_structure_alone (s : Goldfish.GoldfishDecoder) (data : QByteArray)
    (h0 : byteAt data 0 = 0xBC) (h1 : byteAt data 1 = 0xB2)
    (hlen : 6 + ((byteAt data 2 <<< 4) ||| (byteAt data 3 >>> 4)) ≤ data.length) :
    (Goldfish.decodePacket s data).ok = true ∧
    (Goldfish.decodePacket s data).bytesProcessed
      = 6 + ((byteAt data 2 <<< 4) ||| (byteAt data 3 >>> 4)) ∧
    (Goldfish.decodePacket s data).state.m_lastPacket.valid = true := by
  have hf := goldfish_findNextPacket_zero data h0 h1 (by omega)
  unfold Goldfish.decodePacket
  simp only [hf, Goldfish.GOLDFISH_HEADER_LEN, Goldfish.GOLDFISH_CHECKSUM_LEN]
  have h4 : ¬ data.length < 4 := by omega
  have hl : ¬ data.length < 4 + ((byteAt data 2 <<< 4) ||| (byteAt data 3 >>> 4)) + 2 := by
    omega
  simp only [gt_iff_lt, lt_self_iff_false, if_false, h4, hl]
  refine ⟨trivial, by omega, trivial⟩

/-- Claim C31 at `BC B2 01 0F`, sixteen body bytes and the trailer `DE AD`, on a fresh decoder. -/
theorem goldfish_accepts_on_structure_alone_witness :
    (Goldfish.decodePacket ⟨⟨0, 0, false, []⟩, fun _ => 0, 0⟩ (goldfishFrame 0x0F 0xDE 0xAD)).ok
      = true ∧
    (Goldfish.decodePacket ⟨⟨0, 0, false, []⟩, fun _ => 0, 0⟩
      (goldfishFrame 0x0F 0xDE 0xAD)).bytesProcessed = 22 :=
  have h := goldfish_accepts_on_structure_alone ⟨⟨0, 0, false, []⟩, fun _ => 0, 0⟩
    (goldfishFrame 0x0F 0xDE 0xAD) (by decide) (by decide) (by decide)
  ⟨h.1, h.2.1⟩

/-! ## Fletcher-8 in closed form (C38) -/

theorem byteAt_append_last (l : QByteArray) (b : Byte) : byteAt (l ++ [b]) l.length = b.val := by
  have h := byteAt_append_right l [b] 0
  rw [Nat.add_zero] at h
  rw [h]
  rfl

theorem byteSum_append (l : QByteArray) (b : Byte) : byteSum (l ++ [b]) = byteSum l + b.val := by
  unfold byteSum
  rw [List.length_append, List.length_singleton, Finset.sum_range_succ, byteAt_append_last]
  congr 1
  apply Finset.sum_congr rfl
  intro i hi
  exact byteAt_append_left l [b] i (Finset.mem_range.1 hi)

theorem weightedSum_append (l : QByteArray) (b : Byte) :
    weightedSum (l ++ [b]) = weightedSum l + byteSum (l ++ [b]) := by
  rw [byteSum_append]
  unfold weightedSum byteSum
  rw [List.length_append, List.length_singleton, Finset.sum_range_succ, byteAt_append_last]
  have e : ∑ i in Finset.range l.length, (l.length + 1 - i) * byteAt (l ++ [b]) i
      = ∑ i in Finset.range l.length, ((l.length - i) * byteAt l i + byteAt l i) := by
    apply Finset.sum_congr rfl
    intro i hi
    have hi' := Finset.mem_range.1 hi
    rw [byteAt_append_left l [b] i hi']
    have : l.length + 1 - i = (l.length - i) + 1 := by omega
    rw [this]
    ring
  rw [e, Finset.sum_add_distrib]
  have : l.length + 1 - l.length = 1 := by omega
  rw [this]
  ring

theorem allystar_calculateChecksum_eq (data : QByteArray) :
    Allystar.calculateChecksum data = calculateChecksum data := rfl

/-- Claim C38: for every byte sequence `d_0 .. d_(n-1)` the running update
`ck_a += byte; ck_b += ck_a` started from `(0, 0)`, which is `calculateChecksum`,
returns `ck_a = (sum of all d_i) mod 256` and
`ck_b = (sum over i of (n - i) * d_i) mod 256`; the Allystar decoder's
`calculateChecksum` computes the same pair. -/
theorem fletcher_closed_form (data : QByteArray) :
    calculateChecksum data = data.foldl fletcherStep (0, 0) ∧
    calculateChecksum data = (byteSum data % 256, weightedSum data % 256) ∧
    Allystar.calculateChecksum data = (byteSum data % 256, weightedSum data % 256) := by
  have key : calculateChecksum data = (byteSum data % 256, weightedSum data % 256) := by
    induction data using List.reverseRecOn with
    | nil => rfl
    | append_singleton l b ih =>
      have hs : calculateChecksum (l ++ [b]) = fletcherStep (calculateChecksum l) b := by
        unfold calculateChecksum
        rw [List.foldl_append]
        rfl
      rw [hs, ih, weightedSum_append, byteSum_append]
      unfold fletcherStep
      simp only [Prod.mk.injEq]
      constructor
      · omega
      · omega
  exact ⟨rfl, key, (allystar_calculateChecksum_eq data).trans key⟩

/-! ## Sign extension in getbits (C39) -/

theorem parseGprmc_keeps (dt : QString → Option Int) (p : NmeaParser) (data : List QString)
    (r : NmeaParseError) (p' : NmeaParser) (h : parseGprmc dt p data = some (r, p')) :
    r = NMEA_PARSE_OK ∨ p' = p := by
  by_cases hl : data.length < 9
  · rw [parseGprmc_short dt p data hl] at h
    obtain ⟨_, rfl⟩ := Prod.mk.inj (Option.some.inj h)
    exact Or.inr rfl
  · exact Or.inl (by
      rcases (parseGprmc_facts dt p data r p' h).1 with h1 | h1
      · exact h1
      · exfalso
        obtain ⟨pos', hpos⟩ := rmcApplyFields_isSome dt p.m_gnssPosition data (by omega)
        simp only [parseGprmc, hl, if_false, hpos] at h
        simp at h
        rw [← h.1] at h1
        exact NmeaParseError.noConfusion h1)

theorem parseGpgga_keeps (p : NmeaParser) (data : List QString)
    (r : NmeaParseError) (p' : NmeaParser) (h : parseGpgga p data = some (r, p')) :
    r = NMEA_PARSE_OK ∨ p' = p := by
  by_cases hl : data.length < 6
  · rw [parseGpgga_short p data hl] at h
    obtain ⟨_, rfl⟩ := Prod.mk.inj (Option.some.inj h)
    exact Or.inr rfl
  · rcases data with _ | ⟨d0, _ | ⟨d1, _ | ⟨d2, _ | ⟨d3, _ | ⟨d4, _ | ⟨d5, rest⟩⟩⟩⟩⟩⟩ <;>
      simp at hl
    simp only [parseGpgga] at h
    simp at h
    first
    | exact Or.inl h.1.symm
    | (rw [if_neg (by omega)] at h
       obtain ⟨h1, _⟩ := Prod.mk.inj (Option.some.inj h)
       exact Or.inl h1.symm)

theorem parseGsa_keeps (p : NmeaParser) (data : List QString) (d : Int)
    (r : NmeaParseError) (p' : NmeaParser) (h : parseGsa p data d = some (r, p')) :
    r = NMEA_PARSE_OK ∨ p' = p := by
  by_cases hl : data.length < 17
  · rw [parseGsa_short p data d hl] at h
    obtain ⟨_, rfl⟩ := Prod.mk.inj (Option.some.inj h)
    exact Or.inr rfl
  · obtain ⟨q, hq⟩ := parseGsa_ok p data d (by omega)
    rw [hq] at h
    obtain ⟨h1, _⟩ := Prod.mk.inj (Option.some.inj h)
    exact Or.inl h1.symm

theorem parseGngsa_keeps (p : NmeaParser) (data : List QString)
    (r : NmeaParseError) (p' : NmeaParser) (h : parseGngsa p data = some (r, p')) :
    r = NMEA_PARSE_OK ∨ p' = p := by
  unfold parseGngsa at h
  dsimp only at h
  split_ifs at h <;> exact parseGsa_keeps _ _ _ _ _ h

theorem table_entry_keeps (dt : QString → Option Int) (k : String)
    (handler : NmeaParser → List QString → Outcome)
    (hmem : (k, handler) ∈ m_nmeaHashMap dt) (p : NmeaParser) (data : List QString)
    (r : NmeaParseError) (p' : NmeaParser) (h : handler p data = some (r, p')) :
    r = NMEA_PARSE_OK ∨ p' = p := by
  simp only [m_nmeaHashMap, List.mem_cons, Prod.mk.injEq, List.mem_singleton, List.not_mem_nil,
    or_false] at hmem
  rcases hmem with ⟨_, hh⟩ | ⟨_, hh⟩ | ⟨_, hh⟩ | ⟨_, hh⟩ | ⟨_, hh⟩ | ⟨_, hh⟩ | ⟨_, hh⟩ |
    ⟨_, hh⟩ | ⟨_, hh⟩ | ⟨_, hh⟩ | ⟨_, hh⟩ | ⟨_, hh⟩ | ⟨_, hh⟩ | ⟨_, hh⟩ | ⟨_, hh⟩ |
    ⟨_, hh⟩ | ⟨_, hh⟩ | ⟨_, hh⟩ | ⟨_, hh⟩ | ⟨_, hh⟩ <;> subst hh <;>
    first
    | exact parseGpgga_keeps _ _ _ _ h
    | exact parseGprmc_keeps _ _ _ _ _ h
    | exact parseGngsa_keeps _ _ _ _ h
    | exact parseGsa_keeps _ _ _ _ _ h
    | exact Or.inl (parseGsv_facts _ _ _ _ _ _ h).1

/-- Claim C36: whenever `parseNmeaSentence` returns a result other than
`NMEA_PARSE_OK` (so `NMEA_PARSE_INVALID_FORMAT`, `NMEA_PARSE_CHECKSUM_ERROR`,
`NMEA_PARSE_TOO_FEW_FIELDS` or `NMEA_PARSE_UNSUPPORTED`), the parser object after
the call equals the one before it: the accumulated position, the accumulated
satellite list and the RMC-seen flag are unchanged and no snapshot is emitted. -/
theorem non_ok_result_leaves_parser_unchanged (dt : QString → Option Int) (p : NmeaParser)
    (s : QString) (ignore : Bool) (r : NmeaParseError) (p' : NmeaParser)
    (h : parseNmeaSentence dt p s ignore = some (r, p')) (hr : r ≠ NMEA_PARSE_OK) :
    (r = NMEA_PARSE_INVALID_FORMAT ∨ r = NMEA_PARSE_CHECKSUM_ERROR ∨
      r = NMEA_PARSE_TOO_FEW_FIELDS ∨ r = NMEA_PARSE_UNSUPPORTED) ∧
    p'.m_gnssPosition = p.m_gnssPosition ∧ p'.m_gnssSatellites = p.m_gnssSatellites ∧
    p'.m_haveGprmc = p.m_haveGprmc ∧ p'.emitted = p.emitted ∧ p' = p := by
  have hcode : r = NMEA_PARSE_INVALID_FORMAT ∨ r = NMEA_PARSE_CHECKSUM_ERROR ∨
      r = NMEA_PARSE_TOO_FEW_FIELDS ∨ r = NMEA_PARSE_UNSUPPORTED := by
    cases r
    · exact absurd rfl hr
    · exact Or.inl rfl
    · exact Or.inr (Or.inl rfl)
    · exact Or.inr (Or.inr (Or.inl rfl))
    · exact Or.inr (Or.inr (Or.inr rfl))
  have hp : p' = p := by
    by_cases hl : (split '*' s).length = 2
    · rcases parse_cases dt p s ignore r p' h hl with ⟨_, _, hp⟩ | ⟨_, _, _, hp⟩ |
        ⟨_, _, c1, _, ⟨_, _, hp⟩ | ⟨handler, hlk, hh⟩⟩
      · exact hp
      · exact hp
      · exact hp
      · rcases table_entry_keeps dt _ handler (lookup_mem _ _ _ hlk) p _ r p' hh with h1 | h1
        · exact absurd h1 hr
        · exact h1
    · unfold parseNmeaSentence at h
      simp only [ne_eq, hl, not_false_eq_true, if_true, pure] at h
      obtain ⟨_, rfl⟩ := Prod.mk.inj (Option.some.inj h)
      rfl
  subst hp
  exact ⟨hcode, rfl, rfl, rfl, rfl, rfl⟩

set_option maxRecDepth 100000 in
/-- Claim C36 at `$GPRMC,1,2*48` (too few fields for the RMC handler) on `busyParser`. -/
theorem non_ok_result_leaves_parser_unchanged_witness :
    parseNmeaSentence noDate busyParser "$GPRMC,1,2*48".toList false
      = some (NMEA_PARSE_TOO_FEW_FIELDS, busyParser) ∧
    busyParser.m_gnssSatellites = busyParser.m_gnssSatellites :=
  ⟨by decide,
    (non_ok_result_leaves_parser_unchanged noDate busyParser "$GPRMC,1,2*48".toList false
      NMEA_PARSE_TOO_FEW_FIELDS busyParser (by decide) (by decide)).2.2.1⟩

/-! ## GSA with a system id and signal matching (C35) -/

theorem gsaSignal_18 (data : List QString) (h : data.length = 18) : gsaSignal data = '1' := by
  unfold gsaSignal
  have h18 : data.getD 18 [] = [] := by
    rw [List.getD_eq_getElem?_getD, List.getElem?_eq_none (by omega)]
    rfl
  rw [h18]
  simp

set_option maxRecDepth 100000 in
/-- Claim C35 does not hold for a signal id other than `1`. A GSA sentence of 18
fields has the system-id field but no signal field, so `parseGsa` matches with
`signalType = '1'`: every entry that is not yet used and whose signal id differs
from `1` is left exactly as it was, whatever PRN and system id the sentence
lists. On the Galileo epoch `galileoEpoch` both sentences are answered with
`NMEA_PARSE_OK` and the satellite (PRN 5, constellation 3, signal `7`) keeps
`used = false`; on the GPS epoch `gpsEpoch`, whose entry has signal `1`, the
satellite is marked. -/
theorem gsa_with_system_id_marks_only_signal_1 :
    (∀ (p : NmeaParser) (data : List QString) (d : Int), data.length = 18 →
      ∃ p', parseGsa p data d = some (NMEA_PARSE_OK, p') ∧
        ∀ (j : Nat) (sat : GnssSatellite), p.m_gnssSatellites[j]? = some sat →
          sat.used = false → sat.signal ≠ '1' → p'.m_gnssSatellites[j]? = some sat) ∧
    (feedAll noDate false freshParser galileoEpoch).map
        (fun x => (x.1, x.2.m_gnssSatellites))
      = some ([NMEA_PARSE_OK, NMEA_PARSE_OK], [⟨5, 40, 83, 46, 3, '7', false⟩]) ∧
    (feedAll noDate false freshParser gpsEpoch).map
        (fun x => (x.1, x.2.m_gnssSatellites))
      = some ([NMEA_PARSE_OK, NMEA_PARSE_OK], [⟨5, 40, 83, 46, 1, '1', true⟩]) := by
  refine ⟨?_, by decide, by decide⟩
  intro p data d hlen
  refine ⟨_, parseGsa_eq p data d (by omega), ?_⟩
  intro j sat hs hu hsig
  obtain ⟨_, hspec⟩ := gsa_fold_spec (gsaSystem data d) (data.length % 2 == 0) (gsaSignal data)
    p.m_gnssSatellites (gsaSlots data) p.m_gnssSatellites [] rfl
    (fun j sat hs => ⟨sat.used, hs, by
      constructor
      · exact fun hu => Or.inl hu
      · rintro (hu | ⟨f, hf, _⟩)
        · exact hu
        · simp at hf⟩)
  rw [List.nil_append] at hspec
  obtain ⟨u, hu1, hu2⟩ := hspec j sat hs
  dsimp only
  rw [hu1]
  have huf : u = false := by
    cases u with
    | false => rfl
    | true =>
      exfalso
      rcases hu2.1 rfl with h | ⟨f, _, _, _, _, ⟨sat', hs', hm⟩, _⟩
      · rw [hu] at h
        exact Bool.noConfusion h
      · rw [hs] at hs'
        obtain rfl := Option.some.inj hs'
        unfold gsaMatches at hm
        rcases hm.2.2 with hx | hx
        · rw [hlen] at hx
          exact Bool.noConfusion hx
        · rw [gsaSignal_18 data hlen] at hx
          exact hsig hx
  rw [huf, ← hu]

/-! ## toDegrees (C33) -/

/-! ### Rounding to binary64 -/

theorem ilog2_spec : ∀ (fuel n : Nat), n ≤ fuel → 1 ≤ n →
    2 ^ ilog2 fuel n ≤ n ∧ n < 2 ^ (ilog2 fuel n + 1) := by
  intro fuel
  induction fuel with
  | zero => intro n h1 h2; omega
  | succ fuel ih =>
    intro n h1 h2
    unfold ilog2
    by_cases hn : n < 2
    · rw [if_pos hn]
      have : n = 1 := by omega
      subst this
      norm_num
    · rw [if_neg hn]
      obtain ⟨ha, hb⟩ := ih (n / 2) (by omega) (by omega)
      rw [pow_succ, pow_succ]
      rw [pow_succ] at hb
      omega

theorem pow2_eq (e : Int) : pow2 e = (2 : ℚ) ^ e := by
  unfold pow2
  by_cases h : 0 ≤ e
  · rw [if_pos h]
    obtain ⟨n, rfl⟩ := Int.eq_ofNat_of_zero_le h
    simp
  · rw [if_neg h]
    obtain ⟨n, rfl⟩ : ∃ n : Nat, e = -(n : Int) := ⟨(-e).toNat, by omega⟩
    simp

theorem pow2_pos (e : Int) : 0 < pow2 e := by
  rw [pow2_eq]
  positivity

theorem binaryExponent_spec (q : ℚ) (hq : q ≠ 0) :
    (2 : ℚ) ^ binaryExponent q ≤ |q| ∧ |q| < (2 : ℚ) ^ (binaryExponent q + 1) := by
  have hn : 1 ≤ q.num.natAbs := by
    have : q.num ≠ 0 := Rat.num_ne_zero.2 hq
    omega
  have hd : 1 ≤ q.den := q.den_pos
  obtain ⟨a1, a2⟩ := ilog2_spec q.num.natAbs q.num.natAbs le_rfl hn
  obtain ⟨b1, b2⟩ := ilog2_spec q.den q.den le_rfl hd
  have habs : |q| = (q.num.natAbs : ℚ) / (q.den : ℚ) := by
    have e : |(q.num : ℚ)| = (q.num.natAbs : ℚ) := by
      rw [Nat.cast_natAbs, Int.cast_abs]
    conv_lhs => rw [← Rat.num_div_den q]
    rw [abs_div, Nat.abs_cast, e]
  unfold binaryExponent
  simp only
  rw [pow2_eq]
  generalize ilog2 q.num.natAbs q.num.natAbs = a at a1 a2 ⊢
  generalize ilog2 q.den q.den = b at b1 b2 ⊢
  have hdq : (0 : ℚ) < (q.den : ℚ) := by exact_mod_cast hd
  have A1 : (2 : ℚ) ^ a ≤ (q.num.natAbs : ℚ) := by exact_mod_cast a1
  have A2 : (q.num.natAbs : ℚ) < (2 : ℚ) ^ (a + 1) := by exact_mod_cast a2
  have B1 : (2 : ℚ) ^ b ≤ (q.den : ℚ) := by exact_mod_cast b1
  have B2 : (q.den : ℚ) < (2 : ℚ) ^ (b + 1) := by exact_mod_cast b2
  have hup : |q| < (2 : ℚ) ^ ((a : Int) - b + 1) := by
    rw [habs, div_lt_iff₀ hdq]
    have e : (2 : ℚ) ^ ((a : Int) - b + 1) = (2 : ℚ) ^ (a + 1) / (2 : ℚ) ^ b := by
      rw [eq_div_iff (by positivity), ← zpow_natCast, ← zpow_natCast, ← zpow_add₀ (by norm_num)]
      congr 1
      push_cast
      ring
    rw [e]
    calc (q.num.natAbs : ℚ) < (2 : ℚ) ^ (a + 1) := A2
      _ = (2 : ℚ) ^ (a + 1) / (2 : ℚ) ^ b * (2 : ℚ) ^ b := by field_simp
      _ ≤ (2 : ℚ) ^ (a + 1) / (2 : ℚ) ^ b * (q.den : ℚ) := by
        apply mul_le_mul_of_nonneg_left B1
        positivity
  have hlo : (2 : ℚ) ^ ((a : Int) - b - 1) ≤ |q| := by
    rw [habs, le_div_iff₀ hdq]
    have e : (2 : ℚ) ^ ((a : Int) - b - 1) = (2 : ℚ) ^ a / (2 : ℚ) ^ (b + 1) := by
      rw [eq_div_iff (by positivity), ← zpow_natCast, ← zpow_natCast, ← zpow_add₀ (by norm_num)]
      congr 1
      push_cast
      ring
    rw [e]
    calc (2 : ℚ) ^ a / (2 : ℚ) ^ (b + 1) * (q.den : ℚ)
        ≤ (2 : ℚ) ^ a / (2 : ℚ) ^ (b + 1) * (2 : ℚ) ^ (b + 1) := by
          apply mul_le_mul_of_nonneg_left (le_of_lt B2)
          positivity
      _ = (2 : ℚ) ^ a := by field_simp
      _ ≤ (q.num.natAbs : ℚ) := A1
  by_cases h : (2 : ℚ) ^ ((a : Int) - b) ≤ |q|
  · rw [if_pos h]
    exact ⟨h, hup⟩
  · rw [if_neg h]
    refine ⟨hlo, ?_⟩
    have : (a : Int) - b - 1 + 1 = (a : Int) - b := by ring
    rw [this]
    exact lt_of_not_le h

theorem roundHalfEven_spec (x : ℚ) :
    |(roundHalfEven x : ℚ) - x| ≤ 1 / 2 ∧
    (∀ n : Int, (n : ℚ) ≤ x → (n : ℚ) ≤ (roundHalfEven x : ℚ)) ∧
    (∀ n : Int, x ≤ (n : ℚ) → (roundHalfEven x : ℚ) ≤ (n : ℚ)) := by
  have h1 : ((⌊x⌋ : Int) : ℚ) ≤ x := Int.floor_le x
  have h2 : x < ((⌊x⌋ : Int) : ℚ) + 1 := Int.lt_floor_add_one x
  have hrange : roundHalfEven x = ⌊x⌋ ∧ x - ((⌊x⌋ : Int) : ℚ) ≤ 1 / 2 ∨
      roundHalfEven x = ⌊x⌋ + 1 ∧ 1 / 2 ≤ x - ((⌊x⌋ : Int) : ℚ) := by
    unfold roundHalfEven
    simp only
    split_ifs with c1 c2 c3
    · exact Or.inl ⟨rfl, le_of_lt c1⟩
    · exact Or.inr ⟨rfl, le_of_lt c2⟩
    · exact Or.inl ⟨rfl, not_lt.1 c2⟩
    · exact Or.inr ⟨rfl, not_lt.1 c1⟩
  rcases hrange with ⟨hr, hf⟩ | ⟨hr, hf⟩
  · rw [hr]
    refine ⟨?_, ?_, ?_⟩
    · rw [abs_le]
      constructor <;> linarith
    · intro n hn
      exact_mod_cast Int.le_floor.2 hn
    · intro n hn
      linarith
  · rw [hr]
    refine ⟨?_, ?_, ?_⟩
    · rw [abs_le]
      push_cast
      constructor <;> linarith
    · intro n hn
      have : n ≤ ⌊x⌋ := Int.le_floor.2 hn
      have : (n : ℚ) ≤ ((⌊x⌋ : Int) : ℚ) := by exact_mod_cast this
      push_cast
      linarith
    · intro n hn
      have hlt : ((⌊x⌋ : Int) : ℚ) < (n : ℚ) := by linarith
      have : ⌊x⌋ < n := by exact_mod_cast hlt
      have : ⌊x⌋ + 1 ≤ n := by omega
      exact_mod_cast this

theorem binaryExponent_le (q : ℚ) (hq : q ≠ 0) (k : Int) (h : |q| < (2 : ℚ) ^ (k + 1)) :
    binaryExponent q ≤ k := by
  have h1 := (binaryExponent_spec q hq).1
  have h2 : (2 : ℚ) ^ binaryExponent q < (2 : ℚ) ^ (k + 1) := lt_of_le_of_lt h1 h
  have h3 : binaryExponent q < k + 1 := (zpow_lt_zpow_iff_right₀ (by norm_num)).1 h2
  omega

theorem binary64_zero : binary64 0 = 0 := by
  unfold binary64
  rw [if_pos rfl]

theorem binary64_error (q : ℚ) (k : Int) (hk : -1022 ≤ k) (hq : |q| ≤ (2 : ℚ) ^ k) :
    |binary64 q - q| ≤ (2 : ℚ) ^ (k - 53) := by
  by_cases h0 : q = 0
  · subst h0
    rw [binary64_zero, sub_zero, abs_zero]
    positivity
  · have hb : binaryExponent q ≤ k := by
      apply binaryExponent_le q h0
      refine lt_of_le_of_lt hq ?_
      exact (zpow_lt_zpow_iff_right₀ (by norm_num)).2 (by omega)
    unfold binary64
    rw [if_neg h0]
    simp only
    generalize he : max (binaryExponent q) (-1022) = e
    have hek : e ≤ k := by rw [← he]; exact max_le hb hk
    rw [pow2_eq]
    have hQ : (0 : ℚ) < (2 : ℚ) ^ (e - 52) := by positivity
    have hr := (roundHalfEven_spec (q / (2 : ℚ) ^ (e - 52))).1
    have e1 : (roundHalfEven (q / (2 : ℚ) ^ (e - 52)) : ℚ) * (2 : ℚ) ^ (e - 52) - q
        = ((roundHalfEven (q / (2 : ℚ) ^ (e - 52)) : ℚ) - q / (2 : ℚ) ^ (e - 52))
          * (2 : ℚ) ^ (e - 52) := by
      field_simp
    rw [e1, abs_mul, abs_of_pos hQ]
    have e2 : (2 : ℚ) ^ (e - 53) = 1 / 2 * (2 : ℚ) ^ (e - 52) := by
      have : e - 52 = (e - 53) + 1 := by ring
      rw [this, zpow_add₀ (by norm_num), zpow_one]
      ring
    calc |(roundHalfEven (q / (2 : ℚ) ^ (e - 52)) : ℚ) - q / (2 : ℚ) ^ (e - 52)|
          * (2 : ℚ) ^ (e - 52)
        ≤ 1 / 2 * (2 : ℚ) ^ (e - 52) := mul_le_mul_of_nonneg_right hr (le_of_lt hQ)
      _ = (2 : ℚ) ^ (e - 53) := e2.symm
      _ ≤ (2 : ℚ) ^ (k - 53) := (zpow_le_zpow_iff_right₀ (by norm_num)).2 (by omega)

theorem binary64_int_order (q : ℚ) (hq : |q| < (2 : ℚ) ^ (53 : Int)) (n : Int) :
    ((n : ℚ) ≤ q → (n : ℚ) ≤ binary64 q) ∧ (q ≤ (n : ℚ) → binary64 q ≤ (n : ℚ)) := by
  by_cases h0 : q = 0
  · subst h0
    rw [binary64_zero]
    exact ⟨fun h => h, fun h => h⟩
  · have hb : binaryExponent q ≤ 52 := binaryExponent_le q h0 52 (by norm_num at hq ⊢; exact hq)
    unfold binary64
    rw [if_neg h0]
    simp only
    generalize he : max (binaryExponent q) (-1022) = e
    have he52 : e ≤ 52 := by rw [← he]; exact max_le hb (by norm_num)
    rw [pow2_eq]
    have hQ : (0 : ℚ) < (2 : ℚ) ^ (e - 52) := by positivity
    obtain ⟨j, hj⟩ : ∃ j : Nat, e - 52 = -(j : Int) := ⟨(52 - e).toNat, by omega⟩
    have hM : ∀ n : Int, (n : ℚ) / (2 : ℚ) ^ (e - 52) = ((n * 2 ^ j : Int) : ℚ) := by
      intro n
      rw [hj, zpow_neg, zpow_natCast]
      push_cast
      field_simp
    obtain ⟨_, hlo, hhi⟩ := roundHalfEven_spec (q / (2 : ℚ) ^ (e - 52))
    constructor
    · intro h
      have h1 : ((n * 2 ^ j : Int) : ℚ) ≤ q / (2 : ℚ) ^ (e - 52) := by
        rw [← hM]
        exact div_le_div_of_nonneg_right h (le_of_lt hQ)
      have h2 := hlo _ h1
      rw [← hM] at h2
      calc (n : ℚ) = (n : ℚ) / (2 : ℚ) ^ (e - 52) * (2 : ℚ) ^ (e - 52) := by field_simp
        _ ≤ _ := mul_le_mul_of_nonneg_right h2 (le_of_lt hQ)
    · intro h
      have h1 : q / (2 : ℚ) ^ (e - 52) ≤ ((n * 2 ^ j : Int) : ℚ) := by
        rw [← hM]
        exact div_le_div_of_nonneg_right h (le_of_lt hQ)
      have h2 := hhi _ h1
      rw [← hM] at h2
      calc _ ≤ (n : ℚ) / (2 : ℚ) ^ (e - 52) * (2 : ℚ) ^ (e - 52) :=
            mul_le_mul_of_nonneg_right h2 (le_of_lt hQ)
        _ = (n : ℚ) := by field_simp

theorem binary64_int (n : Int) (h : |(n : ℚ)| < (2 : ℚ) ^ (53 : Int)) :
    binary64 (n : ℚ) = (n : ℚ) := by
  obtain ⟨h1, h2⟩ := binary64_int_order (n : ℚ) h n
  exact le_antisymm (h2 le_rfl) (h1 le_rfl)

theorem degrees_minutes_error (v m : ℚ) (D K : Nat) (hv : v = 100 * (D : ℚ) + m)
    (hm0 : 0 ≤ m) (hm : m ≤ 99) (hK : K ≤ 37)
    (hD : 100 * (D : ℚ) + 99 ≤ (2 : ℚ) ^ K) :
    truncToInt (binary64 (binary64 v / 100)) = (D : Int) ∧
    |binary64 ((D : ℚ) + binary64 (binary64 (binary64 v - binary64 ((D : ℚ) * 100)) / 60))
        - ((D : ℚ) + m / 60)| ≤ (2 : ℚ) ^ K / 2 ^ 52 := by
  have hD0 : (0 : ℚ) ≤ (D : ℚ) := Nat.cast_nonneg D
  have hc64 : (99 : ℚ) ≤ (2 : ℚ) ^ K := by linarith
  have hc37 : (2 : ℚ) ^ K ≤ 137438953472 := by
    have : (2 : ℚ) ^ K ≤ (2 : ℚ) ^ 37 := pow_le_pow_right₀ (by norm_num) hK
    norm_num at this
    exact this
  have z53 : (2 : ℚ) ^ (53 : Int) = 9007199254740992 := by norm_num
  have zK : (2 : ℚ) ^ ((K : Int) - 53) = (2 : ℚ) ^ K / 9007199254740992 := by
    rw [zpow_sub₀ (by norm_num), zpow_natCast]
    norm_num
  have zKK : (2 : ℚ) ^ (K : Int) = (2 : ℚ) ^ K := zpow_natCast 2 K
  generalize (2 : ℚ) ^ K = c at hD hc64 hc37 zK zKK ⊢
  -- the numeral, rounded
  have hv0 : 0 ≤ v := by rw [hv]; linarith
  have hvabs : |v| = v := abs_of_nonneg hv0
  have hv53 : |v| < (2 : ℚ) ^ (53 : Int) := by rw [hvabs, z53, hv]; linarith
  have ha_lo : 100 * (D : ℚ) ≤ binary64 v := by
    have h := (binary64_int_order v hv53 ((100 * D : Nat) : Int)).1
    push_cast at h
    exact h (by rw [hv]; linarith)
  have ha_hi : binary64 v ≤ 100 * (D : ℚ) + 99 := by
    have h := (binary64_int_order v hv53 ((100 * D + 99 : Nat) : Int)).2
    push_cast at h
    exact h (by rw [hv]; linarith)
  have ha_err : |binary64 v - v| ≤ c / 9007199254740992 := by
    rw [← zK]
    exact binary64_error v K (by omega) (by rw [hvabs, zKK, hv]; linarith)
  generalize binary64 v = a at ha_lo ha_hi ha_err ⊢
  -- the quotient and the cast
  have hx_abs : |a / 100| = a / 100 := abs_of_nonneg (by linarith)
  have hq_lo : (D : ℚ) ≤ binary64 (a / 100) := by
    have h := (binary64_int_order (a / 100) (by rw [hx_abs, z53]; linarith) (D : Int)).1
    push_cast at h
    exact h (by linarith)
  have hq_err : |binary64 (a / 100) - a / 100| ≤ 1 / 4194304 := by
    have h := binary64_error (a / 100) 31 (by norm_num) (by rw [hx_abs]; norm_num; linarith)
    norm_num at h
    exact h
  have hq_hi : binary64 (a / 100) < (D : ℚ) + 1 := by
    have := (abs_le.1 hq_err).2
    linarith
  have hdeg : truncToInt (binary64 (a / 100)) = (D : Int) := by
    unfold truncToInt
    have hr : -(2 : ℚ) ^ 31 - 1 < binary64 (a / 100) ∧ binary64 (a / 100) < (2 : ℚ) ^ 31 := by
      constructor
      · norm_num; linarith
      · norm_num; linarith
    rw [if_pos hr, if_pos (by linarith)]
    rw [Int.floor_eq_iff]
    exact ⟨by exact_mod_cast hq_lo, by exact_mod_cast hq_hi⟩
  refine ⟨hdeg, ?_⟩
  -- the product is exact
  have hp : binary64 ((D : ℚ) * 100) = (D : ℚ) * 100 := by
    have h := binary64_int ((D * 100 : Nat) : Int) (by
      push_cast
      rw [abs_of_nonneg (by linarith), z53]
      linarith)
    push_cast at h
    exact h
  rw [hp]
  -- the minutes
  have hy0 : 0 ≤ a - (D : ℚ) * 100 := by linarith
  have hy60 : a - (D : ℚ) * 100 ≤ 99 := by linarith
  have hy_abs : |a - (D : ℚ) * 100| = a - (D : ℚ) * 100 := abs_of_nonneg hy0
  have hr0 : 0 ≤ binary64 (a - (D : ℚ) * 100) := by
    have h := (binary64_int_order (a - (D : ℚ) * 100) (by rw [hy_abs, z53]; linarith) 0).1
    push_cast at h
    exact h hy0
  have hr60 : binary64 (a - (D : ℚ) * 100) ≤ 99 := by
    have h := (binary64_int_order (a - (D : ℚ) * 100) (by rw [hy_abs, z53]; linarith) 99).2
    push_cast at h
    exact h hy60
  have hr_err : |binary64 (a - (D : ℚ) * 100) - (a - (D : ℚ) * 100)| ≤ 128 / 9007199254740992 := by
    have h := binary64_error (a - (D : ℚ) * 100) 7 (by norm_num)
      (by rw [hy_abs]; norm_num; linarith)
    norm_num at h ⊢
    exact h
  generalize binary64 (a - (D : ℚ) * 100) = r at hr0 hr60 hr_err ⊢
  have hz_abs : |r / 60| = r / 60 := abs_of_nonneg (by linarith)
  have ht0 : 0 ≤ binary64 (r / 60) := by
    have h := (binary64_int_order (r / 60) (by rw [hz_abs, z53]; linarith) 0).1
    push_cast at h
    exact h (by linarith)
  have ht1 : binary64 (r / 60) ≤ 2 := by
    have h := (binary64_int_order (r / 60) (by rw [hz_abs, z53]; linarith) 2).2
    push_cast at h
    exact h (by linarith)
  have ht_err : |binary64 (r / 60) - r / 60| ≤ 2 / 9007199254740992 := by
    have h := binary64_error (r / 60) 1 (by norm_num) (by rw [hz_abs]; norm_num; linarith)
    norm_num at h ⊢
    exact h
  generalize binary64 (r / 60) = t at ht0 ht1 ht_err ⊢
  have hw_abs : |(D : ℚ) + t| = (D : ℚ) + t := abs_of_nonneg (by linarith)
  have hres_err : |binary64 ((D : ℚ) + t) - ((D : ℚ) + t)| ≤ c / 9007199254740992 := by
    rw [← zK]
    exact binary64_error ((D : ℚ) + t) K (by omega) (by rw [hw_abs, zKK]; linarith)
  generalize binary64 ((D : ℚ) + t) = res at hres_err ⊢
  have hm_eq : m = v - 100 * (D : ℚ) := by rw [hv]; ring
  rw [abs_le] at ha_err hr_err ht_err hres_err ⊢
  rw [hm_eq]
  constructor
  · norm_num
    linarith [ha_err.1, ha_err.2, hr_err.1, hr_err.2, ht_err.1, ht_err.2, hres_err.1,
      hres_err.2]
  · norm_num
    linarith [ha_err.1, ha_err.2, hr_err.1, hr_err.2, ht_err.1, ht_err.2, hres_err.1,
      hres_err.2]

/-! ### Decimal numerals -/

theorem split_no_sep (sep : Char) : ∀ s : QString, (∀ c ∈ s, c ≠ sep) → split sep s = [s] := by
  intro s
  induction s with
  | nil => intro _; rfl
  | cons c cs ih =>
    intro h
    have hc : c ≠ sep := h c (List.mem_cons_self _ _)
    unfold split
    rw [if_neg hc, ih (fun x hx => h x (List.mem_cons_of_mem _ hx))]

theorem split_at_sep (sep : Char) : ∀ a b : QString, (∀ c ∈ a, c ≠ sep) →
    split sep (a ++ sep :: b) = a :: split sep b := by
  intro a
  induction a with
  | nil =>
    intro b _
    rw [List.nil_append]
    conv_lhs => unfold split
    rw [if_pos rfl]
  | cons c cs ih =>
    intro b h
    have hc : c ≠ sep := h c (List.mem_cons_self _ _)
    rw [List.cons_append]
    conv_lhs => unfold split
    rw [if_neg hc, ih b (fun x hx => h x (List.mem_cons_of_mem _ hx))]

theorem trimmed_no_space (s : QString) (h : ∀ c ∈ s, isSpace c = false) : trimmed s = s := by
  have hd : ∀ l : QString, (∀ c ∈ l, isSpace c = false) → l.dropWhile isSpace = l := by
    intro l hl
    cases l with
    | nil => rfl
    | cons c cs =>
      rw [List.dropWhile_cons_of_neg]
      rw [hl c (List.mem_cons_self _ _)]
      exact Bool.false_ne_true
  unfold trimmed
  rw [hd s h, hd s.reverse (fun c hc => h c (List.mem_reverse.1 hc)), List.reverse_reverse]

theorem digitsValue_digits : ∀ ds : QString, IsDigits ds → ds ≠ [] →
    digitsValue 10 ds = some (digitsNat ds) := by
  intro ds hd hne
  have key : ∀ (l : QString) (a : Nat), IsDigits l →
      l.foldl (fun acc c => do
        let a ← acc
        let d ← digitValue 10 c
        pure (a * 10 + d)) (some a)
      = some (l.foldl (fun acc c => 10 * acc + (c.toNat - 48)) a) := by
    intro l
    induction l with
    | nil => intro a _; rfl
    | cons c cs ih =>
      intro a hl
      have hc := hl c (List.mem_cons_self _ _)
      have hv : digitValue 10 c = some (c.toNat - 48) := by
        unfold digitValue
        dsimp only
        rw [if_pos hc, if_pos (by omega)]
      rw [List.foldl_cons, List.foldl_cons]
      have e : (do
          let a ← some a
          let d ← digitValue 10 c
          pure (a * 10 + d) : Option Nat) = some (10 * a + (c.toNat - 48)) := by
        rw [hv]
        simp only [bind, Option.bind, pure, Option.some.injEq]
        ring
      rw [e]
      exact ih _ (fun x hx => hl x (List.mem_cons_of_mem _ hx))
  unfold digitsValue digitsNat
  rw [if_neg hne]
  exact key ds 0 hd

theorem toLower_not_upper (c : Char) (h : c.toNat ≤ 57) : c.toLower = c := by
  unfold Char.toLower
  dsimp only
  rw [if_neg (by omega)]

theorem map_toLower_not_upper : ∀ s : QString, (∀ c ∈ s, c.toNat ≤ 57) → s.map Char.toLower = s := by
  intro s
  induction s with
  | nil => intro _; rfl
  | cons c cs ih =>
    intro h
    rw [List.map_cons, toLower_not_upper c (h c (List.mem_cons_self _ _)),
      ih (fun x hx => h x (List.mem_cons_of_mem _ hx))]

theorem splitSign_digit (c : Char) (cs : QString) (h : 48 ≤ c.toNat) :
    splitSign (c :: cs) = (false, c :: cs) := by
  unfold splitSign
  split
  · rename_i r heq
    injection heq with h1 h2
    rw [h1] at h
    exact absurd h (by decide)
  · rename_i r heq
    injection heq with h1 h2
    rw [h1] at h
    exact absurd h (by decide)
  · rfl

theorem digit_facts (c : Char) (h : 48 ≤ c.toNat ∧ c.toNat ≤ 57) :
    isSpace c = false ∧ c ≠ 'e' ∧ c ≠ '.' ∧ c.toNat ≤ 57 := by
  refine ⟨?_, ?_, ?_, h.2⟩
  · unfold isSpace
    simp only [Bool.or_eq_false_iff, Bool.and_eq_false_iff, decide_eq_false_iff_not,
      beq_eq_false_iff_ne, ne_eq]
    omega
  · intro e
    rw [e] at h
    exact absurd h.2 (by decide)
  · intro e
    rw [e] at h
    exact absurd h.1 (by decide)

theorem toDouble_integer (ip : QString) (hip : IsDigits ip) (hne : ip ≠ []) :
    toDouble ip = decimalValue ip [] := by
  have hsp : trimmed ip = ip := trimmed_no_space ip (fun c hc => (digit_facts c (hip c hc)).1)
  have hlow : ip.map Char.toLower = ip :=
    map_toLower_not_upper ip (fun c hc => (hip c hc).2)
  have hE : split 'e' ip = [ip] := split_no_sep 'e' ip (fun c hc => (digit_facts c (hip c hc)).2.1)
  have hP : split '.' ip = [ip] :=
    split_no_sep '.' ip (fun c hc => (digit_facts c (hip c hc)).2.2.1)
  have hS : splitSign ip = (false, ip) := by
    cases ip with
    | nil => exact absurd rfl hne
    | cons c cs => exact splitSign_digit c cs (hip c (List.mem_cons_self _ _)).1
  unfold toDouble
  rw [hsp, hS]
  simp only [hlow, hE, List.headD_cons, hP, List.tail_cons, List.headD_nil, List.length_cons,
    List.length_nil, if_neg hne, digitsValue_digits ip hip hne]
  simp [decimalValue, digitsNat, hne]

theorem toDouble_decimal (ip fp : QString) (hip : IsDigits ip) (hfp : IsDigits fp)
    (hne : ip ≠ []) : toDouble (ip ++ '.' :: fp) = decimalValue ip fp := by
  have hall : ∀ c ∈ ip ++ '.' :: fp, (48 ≤ c.toNat ∧ c.toNat ≤ 57) ∨ c = '.' := by
    intro c hc
    rcases List.mem_append.1 hc with h | h
    · exact Or.inl (hip c h)
    · rcases List.mem_cons.1 h with h | h
      · exact Or.inr h
      · exact Or.inl (hfp c h)
  have hsp : trimmed (ip ++ '.' :: fp) = ip ++ '.' :: fp := by
    apply trimmed_no_space
    intro c hc
    rcases hall c hc with h | h
    · exact (digit_facts c h).1
    · rw [h]; rfl
  have hlow : (ip ++ '.' :: fp).map Char.toLower = ip ++ '.' :: fp := by
    apply map_toLower_not_upper
    intro c hc
    rcases hall c hc with h | h
    · exact h.2
    · rw [h]; decide
  have hE : split 'e' (ip ++ '.' :: fp) = [ip ++ '.' :: fp] := by
    apply split_no_sep
    intro c hc
    rcases hall c hc with h | h
    · exact (digit_facts c h).2.1
    · rw [h]; decide
  have hP : split '.' (ip ++ '.' :: fp) = [ip, fp] := by
    rw [split_at_sep '.' ip fp (fun c hc => (digit_facts c (hip c hc)).2.2.1),
      split_no_sep '.' fp (fun c hc => (digit_facts c (hfp c hc)).2.2.1)]
  have hS : splitSign (ip ++ '.' :: fp) = (false, ip ++ '.' :: fp) := by
    cases ip with
    | nil => exact absurd rfl hne
    | cons c cs => exact splitSign_digit c _ (hip c (List.mem_cons_self _ _)).1
  unfold toDouble
  rw [hsp, hS]
  simp only [hlow, hE, List.headD_cons, hP, List.tail_cons, List.length_cons,
    List.length_nil, if_neg hne, digitsValue_digits ip hip hne]
  by_cases hf : fp = []
  · subst hf
    simp [decimalValue, digitsNat, hne]
  · rw [if_neg hf, digitsValue_digits fp hfp hf]
    simp [decimalValue, hne, hf]

/-! ### Degrees and minutes -/

theorem toDegrees_short (s dir : QString) (h : s.length ≤ 5) : toDegrees s dir = 0 := by
  have hl : ¬ s.length > 5 := by omega
  unfold toDegrees
  simp only [hl, if_false]
  split_ifs <;> simp

theorem toDegrees_near_formula (s dir : QString) (v : ℚ) (K : Nat) (hs : 5 < s.length)
    (hv : toDouble s = v) (hv0 : 0 ≤ v)
    (hm : v - 100 * ((⌊v / 100⌋ : Int) : ℚ) ≤ 99) (hK : K ≤ 37)
    (hD : 100 * ((⌊v / 100⌋ : Int) : ℚ) + 99 ≤ (2 : ℚ) ^ K) :
    |toDegrees s dir - (if dir = ['W'] ∨ dir = ['S'] then -1 else 1) * degreesAndMinutes v|
      ≤ (2 : ℚ) ^ K / 2 ^ 52 := by
  have hf0 : 0 ≤ ⌊v / 100⌋ := Int.floor_nonneg.2 (div_nonneg hv0 (by norm_num))
  obtain ⟨D, hDn⟩ := Int.eq_ofNat_of_zero_le hf0
  have hDq : ((⌊v / 100⌋ : Int) : ℚ) = (D : ℚ) := by rw [hDn]; simp
  rw [hDq] at hm hD
  have hfl : (D : ℚ) ≤ v / 100 := by rw [← hDq]; exact Int.floor_le _
  have hm0 : 0 ≤ v - 100 * (D : ℚ) := by
    have := (le_div_iff₀ (by norm_num : (0 : ℚ) < 100)).1 hfl
    linarith
  obtain ⟨h1, h2⟩ := degrees_minutes_error v (v - 100 * (D : ℚ)) D K (by ring) hm0 hm hK hD
  have hdm : degreesAndMinutes v = (D : ℚ) + (v - 100 * (D : ℚ)) / 60 := by
    unfold degreesAndMinutes
    rw [hDq]
  have hsl : s.length > 5 := hs
  unfold toDegrees
  simp only [hsl, if_true, hv, h1, Int.cast_natCast, hdm]
  split_ifs
  · rw [show ∀ a b : ℚ, -a - -1 * b = -(a - b) from fun a b => by ring, abs_neg]
    exact h2
  · rw [one_mul]
    exact h2

/-- Claim C33 fails as stated, in two ways. The numeral `0099.99999999999999999`
has more than 5 characters and a value below 100, for which the formula gives
`v / 60`, about 1.6667; its nearest `double` is 100, the cast yields 1 degree,
and `toDegrees` returns 1. The numeral `300000000000` has the value 3 * 10^11,
for which the formula gives 3000000000; the quotient by 100 is outside the
range of `int`, and with the cast delivering `INT_MIN` the function returns
`-2^31 + (3 * 10^11 + 2^31 * 100) / 60`, about 6431655765.33. -/
theorem toDegrees_differs_from_formula :
    IsDigits "0099".toList ∧ IsDigits "99999999999999999".toList ∧
    decimalValue "0099".toList "99999999999999999".toList
      = 9999999999999999999 / 100000000000000000 ∧
    degreesAndMinutes (decimalValue "0099".toList "99999999999999999".toList)
      = 9999999999999999999 / 6000000000000000000 ∧
    toDegrees "0099.99999999999999999".toList "N".toList = 1 ∧
    IsDigits "300000000000".toList ∧
    decimalValue "300000000000".toList [] = 300000000000 ∧
    degreesAndMinutes (decimalValue "300000000000".toList []) = 3000000000 ∧
    toDegrees "300000000000".toList "N".toList = 6744079875790165 / 1048576 := by
  unfold IsDigits
  decide!

/-- Claim C33, amended. Let `s` be a decimal numeral of more than 5 characters:
digits `ip` (at least one), then optionally a point and digits `fp`; let `v` be
its value, with `v - 100 * floor(v / 100) ≤ 99` and
`100 * floor(v / 100) + 99 ≤ 2^K` for some `K ≤ 37`. Then `toDegrees s dir`
differs from `floor(v / 100) + (v - 100 * floor(v / 100)) / 60`, negated
exactly when `dir` is `W` or `S`, by at most `2^K / 2^52`: the roundings of the
`double` operations. For a text of 5 or fewer characters the result is 0. -/
theorem toDegrees_within_rounding_of_formula :
    (∀ (ip fp s dir : QString) (K : Nat), IsDigits ip → IsDigits fp → ip ≠ [] →
      (s = ip ++ '.' :: fp ∨ (s = ip ∧ fp = [])) → 5 < s.length →
      decimalValue ip fp - 100 * ((⌊decimalValue ip fp / 100⌋ : Int) : ℚ) ≤ 99 →
      K ≤ 37 → 100 * ((⌊decimalValue ip fp / 100⌋ : Int) : ℚ) + 99 ≤ (2 : ℚ) ^ K →
      |toDegrees s dir
          - (if dir = ['W'] ∨ dir = ['S'] then -1 else 1) * degreesAndMinutes (decimalValue ip fp)|
        ≤ (2 : ℚ) ^ K / 2 ^ 52) ∧
    (∀ (s dir : QString), s.length ≤ 5 → toDegrees s dir = 0) := by
  refine ⟨?_, toDegrees_short⟩
  intro ip fp s dir K hip hfp hne hs hlen hm hK hD
  have hv : toDouble s = decimalValue ip fp := by
    rcases hs with h | ⟨h, hf⟩
    · rw [h]
      exact toDouble_decimal ip fp hip hfp hne
    · rw [h, hf]
      exact toDouble_integer ip hip hne
  have hv0 : 0 ≤ decimalValue ip fp := by
    unfold decimalValue
    positivity
  exact toDegrees_near_formula s dir _ K hlen hv hv0 hm hK hD

set_option maxRecDepth 100000 in
/-- Claim C33, amended, at the latitude `4807.038`, `S`: the result is within
`2^13 / 2^52` of `-(48 + 7.038 / 60)`. -/
theorem toDegrees_within_rounding_of_formula_witness :
    IsDigits "4807".toList ∧ IsDigits "038".toList ∧
    decimalValue "4807".toList "038".toList = 4807038 / 1000 ∧
    degreesAndMinutes (decimalValue "4807".toList "038".toList) = 48 + (7038 / 1000) / 60 ∧
    |toDegrees "4807.038".toList "S".toList
        - (if "S".toList = ['W'] ∨ "S".toList = ['S'] then -1 else 1)
          * degreesAndMinutes (decimalValue "4807".toList "038".toList)|
      ≤ (2 : ℚ) ^ 13 / 2 ^ 52 :=
  ⟨by unfold IsDigits; decide, by unfold IsDigits; decide, by decide!, by decide!,
    toDegrees_within_rounding_of_formula.1 "4807".toList "038".toList "4807.038".toList
      "S".toList 13 (by unfold IsDigits; decide) (by unfold IsDigits; decide) (by decide)
      (Or.inl (by decide)) (by decide) (by decide!) (by decide) (by decide!)⟩

/-! ## RTCM3 frames built around a payload (C37) -/

theorem and_ff (x : Nat) : x &&& 0xFF = x % 256 := by
  have h := Nat.and_pow_two_sub_one_eq_mod x 8
  norm_num at h
  exact h

theorem rtcm3_decodeFrame_eq (ub : Nat → Nat → Nat) (s : Rtcm3.Rtcm3Decoder)
    (data : QByteArray) (L : Nat) (hL : (byteAt data 1 % 4) * 256 + byteAt data 2 = L)
    (h : Rtcm3FrameAtStart data) :
    Rtcm3.decodeFrame ub s data =
      if (Rtcm3.parseMessage ub { s with m_lastMessage := { s.m_lastMessage with valid := false } }
          (((data.take (3 + L + 3)).drop 3).take L)).1 then
        ⟨true, 3 + L + 3,
          { (Rtcm3.parseMessage ub
              { s with m_lastMessage := { s.m_lastMessage with valid := false } }
              (((data.take (3 + L + 3)).drop 3).take L)).2 with
            m_lastMessage :=
              { (Rtcm3.parseMessage ub
                  { s with m_lastMessage := { s.m_lastMessage with valid := false } }
                  (((data.take (3 + L + 3)).drop 3).take L)).2.m_lastMessage with
                valid := true, length := L }
            m_totalMessages :=
              ((Rtcm3.parseMessage ub
                  { s with m_lastMessage := { s.m_lastMessage with valid := false } }
                  (((data.take (3 + L + 3)).drop 3).take L)).2.m_totalMessages + 1) % 2 ^ 32
            m_messageStats :=
              bumpStat
                (Rtcm3.parseMessage ub
                  { s with m_lastMessage := { s.m_lastMessage with valid := false } }
                  (((data.take (3 + L + 3)).drop 3).take L)).2.m_messageStats
                (Rtcm3.parseMessage ub
                  { s with m_lastMessage := { s.m_lastMessage with valid := false } }
                  (((data.take (3 + L + 3)).drop 3).take L)).2.m_lastMessage.type }⟩
      else
        ⟨false, 3 + L + 3,
          (Rtcm3.parseMessage ub
            { s with m_lastMessage := { s.m_lastMessage with valid := false } }
            (((data.take (3 + L + 3)).drop 3).take L)).2⟩ := by
  subst hL
  obtain ⟨h0, hlen, hcrc⟩ := h
  have hf := rtcm3_findNextFrame_zero data h0 (by omega)
  have hv := (rtcm3_validateCrc_take data _ hlen).2 hcrc
  have hL := rtcm3_lenAt_eq data 0
  simp only [Rtcm3.lenAt, Nat.zero_add] at hL
  unfold Rtcm3.decodeFrame
  simp only [hf, Rtcm3.RTCM3_HEADER_LEN, Rtcm3.RTCM3_CRC_LEN, hL]
  have h3' : ¬ data.length < 3 := by omega
  have hlen' : ¬ data.length < 3 + ((byteAt data 1 % 4) * 256 + byteAt data 2) + 3 := by omega
  simp only [gt_iff_lt, lt_self_iff_false, if_false, h3', hlen', hv, Bool.not_true,
    Bool.false_eq_true]

theorem rtcm3Frame_shape (reserved : Nat) (p rest : QByteArray)
    (hr : reserved < 64) (hp : p.length ≤ 1023) :
    (byteAt (rtcm3Frame reserved p ++ rest) 1 % 4) * 256
        + byteAt (rtcm3Frame reserved p ++ rest) 2 = p.length ∧
    Rtcm3FrameAtStart (rtcm3Frame reserved p ++ rest) ∧
    (((rtcm3Frame reserved p ++ rest).take (3 + p.length + 3)).drop 3).take p.length = p := by
  have hb1 : (reserved <<< 2) ||| (p.length >>> 8) = reserved * 4 + p.length / 256 := by
    rw [Nat.shiftRight_eq_div_pow, shl_or _ _ 2 (by norm_num; omega)]
    norm_num
  generalize hcrc : Rtcm3.calculateCrc24q
    ([0xD3, Fin.ofNat ((reserved <<< 2) ||| (p.length >>> 8)), Fin.ofNat (p.length &&& 0xFF)]
      ++ p) = crc
  have hcl : crc < 2 ^ 24 := by
    rw [← hcrc, calculateCrc24q_eq_fold]
    exact crc_fold_lt _ 0 (by norm_num)
  have hfr : rtcm3Frame reserved p ++ rest =
      ([0xD3, Fin.ofNat ((reserved <<< 2) ||| (p.length >>> 8)), Fin.ofNat (p.length &&& 0xFF)]
        ++ p) ++
      ([Fin.ofNat ((crc >>> 16) &&& 0xFF), Fin.ofNat ((crc >>> 8) &&& 0xFF),
        Fin.ofNat (crc &&& 0xFF)] ++ rest) := by
    unfold rtcm3Frame
    simp only [hcrc, List.append_assoc]
  have hlen : ([0xD3, Fin.ofNat ((reserved <<< 2) ||| (p.length >>> 8)),
      Fin.ofNat (p.length &&& 0xFF)] ++ p : QByteArray).length = 3 + p.length := by
    simp only [List.length_append, List.length_cons, List.length_nil]
  have e0 : byteAt (rtcm3Frame reserved p ++ rest) 0 = 0xD3 := by
    rw [hfr]
    rfl
  have e1 : byteAt (rtcm3Frame reserved p ++ rest) 1 = reserved * 4 + p.length / 256 := by
    rw [hfr]
    show ((reserved <<< 2) ||| (p.length >>> 8)) % 256 = _
    rw [hb1]
    omega
  have e2 : byteAt (rtcm3Frame reserved p ++ rest) 2 = p.length % 256 := by
    rw [hfr]
    show (p.length &&& 0xFF) % 256 = _
    rw [and_ff]
    omega
  have c0 : byteAt (rtcm3Frame reserved p ++ rest) (3 + p.length) = crc / 65536 := by
    have h := byteAt_append_right
      ([0xD3, Fin.ofNat ((reserved <<< 2) ||| (p.length >>> 8)),
        Fin.ofNat (p.length &&& 0xFF)] ++ p)
      ([Fin.ofNat ((crc >>> 16) &&& 0xFF), Fin.ofNat ((crc >>> 8) &&& 0xFF),
        Fin.ofNat (crc &&& 0xFF)] ++ rest) 0
    rw [hlen, ← hfr, Nat.add_zero] at h
    rw [h]
    show ((crc >>> 16) &&& 0xFF) % 256 = _
    rw [and_ff, Nat.shiftRight_eq_div_pow]
    norm_num at hcl ⊢
    omega
  have c1 : byteAt (rtcm3Frame reserved p ++ rest) (4 + p.length) = crc / 256 % 256 := by
    have h := byteAt_append_right
      ([0xD3, Fin.ofNat ((reserved <<< 2) ||| (p.length >>> 8)),
        Fin.ofNat (p.length &&& 0xFF)] ++ p)
      ([Fin.ofNat ((crc >>> 16) &&& 0xFF), Fin.ofNat ((crc >>> 8) &&& 0xFF),
        Fin.ofNat (crc &&& 0xFF)] ++ rest) 1
    rw [hlen, ← hfr] at h
    have e : 4 + p.length = 3 + p.length + 1 := by omega
    rw [e, h]
    show ((crc >>> 8) &&& 0xFF) % 256 = _
    rw [and_ff, Nat.shiftRight_eq_div_pow]
    norm_num
  have c2 : byteAt (rtcm3Frame reserved p ++ rest) (5 + p.length) = crc % 256 := by
    have h := byteAt_append_right
      ([0xD3, Fin.ofNat ((reserved <<< 2) ||| (p.length >>> 8)),
        Fin.ofNat (p.length &&& 0xFF)] ++ p)
      ([Fin.ofNat ((crc >>> 16) &&& 0xFF), Fin.ofNat ((crc >>> 8) &&& 0xFF),
        Fin.ofNat (crc &&& 0xFF)] ++ rest) 2
    rw [hlen, ← hfr] at h
    have e : 5 + p.length = 3 + p.length + 2 := by omega
    rw [e, h]
    show (crc &&& 0xFF) % 256 = _
    rw [and_ff]
    omega
  have hL : (byteAt (rtcm3Frame reserved p ++ rest) 1 % 4) * 256
      + byteAt (rtcm3Frame reserved p ++ rest) 2 = p.length := by
    rw [e1, e2]
    omega
  have htake : (rtcm3Frame reserved p ++ rest).take (3 + p.length) =
      [0xD3, Fin.ofNat ((reserved <<< 2) ||| (p.length >>> 8)), Fin.ofNat (p.length &&& 0xFF)]
        ++ p := by
    rw [hfr, ← hlen, List.take_left']
    rfl
  refine ⟨hL, ?_, ?_⟩
  · unfold Rtcm3FrameAtStart
    rw [hL, htake, hcrc, c0, c1, c2]
    refine ⟨e0, ?_, ?_⟩
    · rw [hfr]
      simp only [List.length_append, List.length_cons, List.length_nil]
      omega
    · norm_num at hcl
      omega
  · rw [hfr]
    simp only [List.append_assoc, List.cons_append, List.nil_append, List.take_succ_cons,
      List.drop_succ_cons, List.drop_zero]
    have e : 3 + p.length + 3 = (p.length + 3) + 3 := by omega
    rw [List.take_take]
    simp

/-- Claim C37: for every payload `p` with `3 ≤ |p| ≤ 1023` whose 12-bit type is not
1005, 1006 or 1029, every value of the six reserved header bits and any bytes
`rest` behind the frame, `Rtcm3Decoder::decodeFrame` answers the frame
`rtcm3Frame reserved p` with true and `bytesProcessed = |p| + 6`; the descriptor
holds the type (bits 0..11 of `p`) and the station id (bits 12..23 of `p`),
`length = |p|` and `valid = true`. No table of type names is consulted. -/
theorem rtcm3_built_frame_is_accepted (ub : Nat → Nat → Nat) (s : Rtcm3.Rtcm3Decoder)
    (reserved : Nat) (p rest : QByteArray) (hr : reserved < 64) (h3 : 3 ≤ p.length)
    (hp : p.length ≤ 1023)
    (ht : Rtcm3.getbitu p 0 12 ≠ 1005 ∧ Rtcm3.getbitu p 0 12 ≠ 1006 ∧
      Rtcm3.getbitu p 0 12 ≠ 1029) :
    (Rtcm3.decodeFrame ub s (rtcm3Frame reserved p ++ rest)).ok = true ∧
    (Rtcm3.decodeFrame ub s (rtcm3Frame reserved p ++ rest)).bytesProcessed = p.length + 6 ∧
    (Rtcm3.decodeFrame ub s (rtcm3Frame reserved p ++ rest)).state.m_lastMessage.type
      = Rtcm3.getbitu p 0 12 ∧
    (Rtcm3.decodeFrame ub s (rtcm3Frame reserved p ++ rest)).state.m_lastMessage.stationId
      = Rtcm3.getbitu p 12 12 ∧
    (Rtcm3.decodeFrame ub s (rtcm3Frame reserved p ++ rest)).state.m_lastMessage.length
      = p.length ∧
    (Rtcm3.decodeFrame ub s (rtcm3Frame reserved p ++ rest)).state.m_lastMessage.valid
      = true := by
  obtain ⟨hL, hF, hmsg⟩ := rtcm3Frame_shape reserved p rest hr hp
  have ht12 : Rtcm3.getbitu p 0 12 % 2 ^ 16 = Rtcm3.getbitu p 0 12 := by
    have h := bitField_lt p 0 12
    rw [← getbitu_eq_bitField p 0 12 (by norm_num)] at h
    exact Nat.mod_eq_of_lt (by norm_num at h ⊢; omega)
  have hs12 : Rtcm3.getbitu p 12 12 % 2 ^ 16 = Rtcm3.getbitu p 12 12 := by
    have h := bitField_lt p 12 12
    rw [← getbitu_eq_bitField p 12 12 (by norm_num)] at h
    exact Nat.mod_eq_of_lt (by norm_num at h ⊢; omega)
  have hl2 : ¬ p.length < 2 := by omega
  have hpm : ∀ s0 : Rtcm3.Rtcm3Decoder, Rtcm3.parseMessage ub s0 p =
      (true, { s0 with m_lastMessage :=
        { s0.m_lastMessage with
          type := Rtcm3.getbitu p 0 12, stationId := Rtcm3.getbitu p 12 12 } }) := by
    intro s0
    unfold Rtcm3.parseMessage
    simp only [hl2, if_false, ht12, hs12, ht.1, ht.2.1, ht.2.2, or_self]
  rw [rtcm3_decodeFrame_eq ub s _ p.length hL hF, hmsg, hpm]
  refine ⟨rfl, by simp only [if_true]; omega, rfl, rfl, rfl, rfl⟩

/-- Claim C37 at the payload `43 50 07` (type 1077), reserved bits 5, one byte behind the frame. -/
theorem rtcm3_built_frame_is_accepted_witness :
    (Rtcm3.decodeFrame Rtcm3.maskedShl rtcm3Init
      (rtcm3Frame 5 [0x43, 0x50, 0x07] ++ [0xAA])).ok = true ∧
    (Rtcm3.decodeFrame Rtcm3.maskedShl rtcm3Init
      (rtcm3Frame 5 [0x43, 0x50, 0x07] ++ [0xAA])).bytesProcessed = 9 :=
  have h := rtcm3_built_frame_is_accepted Rtcm3.maskedShl rtcm3Init 5 [0x43, 0x50, 0x07] [0xAA]
    (by decide) (by decide) (by decide) (by decide)
  ⟨h.1, h.2.1⟩

/-! ## NAV-PVT fields (C32) -/

theorem getU4_eq (data : QByteArray) (i : Nat) : getU4 data i = le32 data i := by
  unfold getU4 le32
  have h0 := byteAt_lt data i
  have h1 := byteAt_lt data (i + 1)
  have h2 := byteAt_lt data (i + 2)
  have h3 := byteAt_lt data (i + 3)
  have e1 : byteAt data i ||| (byteAt data (i + 1) <<< 8)
      = byteAt data i + 256 * byteAt data (i + 1) := or_shl8 _ _ h0
  have e2 : byteAt data i + 256 * byteAt data (i + 1) ||| (byteAt data (i + 2) <<< 16)
      = byteAt data i + 256 * byteAt data (i + 1) + 65536 * byteAt data (i + 2) := by
    rw [Nat.lor_comm, shl_or _ _ 16 (by norm_num; omega)]
    norm_num
    omega
  have e3 : byteAt data i + 256 * byteAt data (i + 1) + 65536 * byteAt data (i + 2)
        ||| (byteAt data (i + 3) <<< 24)
      = byteAt data i + 256 * byteAt data (i + 1) + 65536 * byteAt data (i + 2)
        + 16777216 * byteAt data (i + 3) := by
    rw [Nat.lor_comm, shl_or _ _ 24 (by norm_num; omega)]
    norm_num
    omega
  rw [e1, e2, e3]

theorem getI4_eq (data : QByteArray) (i : Nat) :
    getI4 data i = twosComplement32 (le32 data i) := by
  unfold getI4 toInt32 twosComplement32
  rw [getU4_eq]
  have h : le32 data i < 2 ^ 32 := by
    unfold le32
    have h0 := byteAt_lt data i
    have h1 := byteAt_lt data (i + 1)
    have h2 := byteAt_lt data (i + 2)
    have h3 := byteAt_lt data (i + 3)
    norm_num
    omega
  rw [Nat.mod_eq_of_lt h]

theorem ublox_oversize_rejected (s : Ublox.UbloxDecoder) (data : QByteArray)
    (h : 4096 < byteAt data 4 + 256 * byteAt data 5) :
    (Ublox.decodePacket s data).ok = false := by
  unfold Ublox.decodePacket
  cases hf : Ublox.findNextPacket data 0 with
  | none => rfl
  | some k =>
    obtain ⟨hk, _, _, _⟩ := scanFrom_some _ _ _ hf
    by_cases hk0 : k > 0
    · simp [hk0]
    · have hk0' : k = 0 := by omega
      subst hk0'
      exfalso
      simp only [syncAt, Ublox.lenAt, getU2_eq, Bool.and_eq_true, decide_eq_true_eq] at hk
      have h2 := hk.2
      simp only [Nat.zero_add, Nat.reduceAdd] at h2
      omega

theorem fletcher_zeros (n : Nat) : ∀ (a b : Nat), a < 256 → b < 256 →
    (List.replicate n (0 : Byte)).foldl fletcherStep (a, b) = (a, (b + n * a) % 256) := by
  induction n with
  | zero =>
    intro a b _ hb
    rw [Nat.zero_mul, Nat.add_zero, Nat.mod_eq_of_lt hb]
    rfl
  | succ n ih =>
    intro a b ha hb
    have hs : fletcherStep (a, b) (0 : Byte) = (a, (b + a) % 256) := by
      unfold fletcherStep
      have e : ((0 : Byte).val) = 0 := rfl
      simp only [e, Nat.add_zero, Nat.mod_eq_of_lt ha]
    rw [List.replicate_succ, List.foldl_cons, hs, ih a ((b + a) % 256) ha
      (Nat.mod_lt _ (by norm_num)), Nat.succ_mul]
    congr 1
    omega

/-- Claim C32 fails without a bound on the payload length: `oversizedPvtFrame` is a
checksum-correct UBX frame with class 0x01, id 0x07 and a payload of 4097
bytes (length field `01 10`), and `decodePacket` answers it with false, because
the sync scan skips every header whose length field exceeds 4096. -/
theorem oversized_nav_pvt_is_not_decoded :
    oversizedPvtFrame = ubxFrame 0x01 0x07 0x01 0x10 (List.replicate 4097 0x00) 0x19 0x44 ∧
    (List.replicate 4097 (0x00 : Byte)).length = 0x01 + 256 * 0x10 ∧
    92 ≤ (List.replicate 4097 (0x00 : Byte)).length ∧
    calculateChecksum ([0x01, 0x07, 0x01, 0x10] ++ List.replicate 4097 0x00) = (0x19, 0x44) ∧
    (Ublox.decodePacket ubloxInit oversizedPvtFrame).ok = false := by
  obtain ⟨_, _, _, _, h4, h5⟩ := ubxFrame_header 0x01 0x07 0x01 0x10 (List.replicate 4097 0x00)
    0x19 0x44 oversizedPvtFrame (fun i _ => rfl)
  have hck : calculateChecksum ([0x01, 0x07, 0x01, 0x10] ++ List.replicate 4097 0x00)
      = (0x19, 0x44) := by
    unfold calculateChecksum
    rw [List.foldl_append]
    have h0 : List.foldl fletcherStep (0, 0) [(0x01 : Byte), 0x07, 0x01, 0x10] = (25, 43) := by
      decide
    rw [h0, fletcher_zeros 4097 25 43 (by norm_num) (by norm_num)]
  refine ⟨rfl, by rw [List.length_replicate], by rw [List.length_replicate]; norm_num, hck,
    ublox_oversize_rejected ubloxInit oversizedPvtFrame ?_⟩
  rw [h4, h5]
  decide

/-- Claim C32, amended. For every checksum-correct UBX frame with class 0x01, id 0x07
and a payload `p` of at most 4096 bytes, followed by any bytes `rest`: if `p` has
at least 92 bytes, `decodePacket` returns true, consumes `|p| + 8` bytes and stores
`year = p[4] + 256 * p[5]`, `month = p[6]`, `day = p[7]`, `hour = p[8]`, `min = p[9]`,
`sec = p[10]`, `fixType = p[20]`, `numSV = p[23]`, `lon`, `lat`, `height`, `hMSL` = the
little-endian two's-complement 32-bit integers at offsets 24, 28, 32, 36 and
`hAcc`, `vAcc` = the little-endian unsigned 32-bit integers at offsets 40 and 44;
if `p` has fewer than 92 bytes, it returns false, consumes `|p| + 8` bytes and
leaves the total and the per-key counters unchanged. -/
theorem nav_pvt_fields (s : Ublox.UbloxDecoder) (lenLo lenHi : Byte) (p : QByteArray)
    (ckA ckB : Byte) (rest : QByteArray) (d : Decoded Ublox.UbloxDecoder)
    (hlen : p.length = lenLo.val + 256 * lenHi.val) (hmax : p.length ≤ 4096)
    (hck : calculateChecksum ([0x01, 0x07, lenLo, lenHi] ++ p) = (ckA.val, ckB.val))
    (hd : d = Ublox.decodePacket s (ubxFrame 0x01 0x07 lenLo lenHi p ckA ckB ++ rest)) :
    (92 ≤ p.length →
      d.ok = true ∧ d.bytesProcessed = p.length + 8 ∧
      d.state.m_lastNavPvt.year = byteAt p 4 + 256 * byteAt p 5 ∧
      d.state.m_lastNavPvt.month = byteAt p 6 ∧
      d.state.m_lastNavPvt.day = byteAt p 7 ∧
      d.state.m_lastNavPvt.hour = byteAt p 8 ∧
      d.state.m_lastNavPvt.min = byteAt p 9 ∧
      d.state.m_lastNavPvt.sec = byteAt p 10 ∧
      d.state.m_lastNavPvt.fixType = byteAt p 20 ∧
      d.state.m_lastNavPvt.numSV = byteAt p 23 ∧
      d.state.m_lastNavPvt.lon = twosComplement32 (le32 p 24) ∧
      d.state.m_lastNavPvt.lat = twosComplement32 (le32 p 28) ∧
      d.state.m_lastNavPvt.height = twosComplement32 (le32 p 32) ∧
      d.state.m_lastNavPvt.hMSL = twosComplement32 (le32 p 36) ∧
      d.state.m_lastNavPvt.hAcc = le32 p 40 ∧
      d.state.m_lastNavPvt.vAcc = le32 p 44) ∧
    (p.length < 92 →
      d.ok = false ∧ d.bytesProcessed = p.length + 8 ∧
      d.state.m_totalPackets = s.m_totalPackets ∧
      d.state.m_packetStats = s.m_packetStats) := by
  have hl := ubxFrame_length 0x01 0x07 lenLo lenHi p ckA ckB
  obtain ⟨h0, h1, h2, h3, h4, h5⟩ := ubxFrame_header 0x01 0x07 lenLo lenHi p ckA ckB
    (ubxFrame 0x01 0x07 lenLo lenHi p ckA ckB ++ rest)
    (fun i hi => byteAt_append_left _ _ _ (by omega))
  have e3 : ubxFrame 0x01 0x07 lenLo lenHi p ckA ckB ++ rest
      = ([0xB5, 0x62, 0x01, 0x07, lenLo, lenHi] ++ p) ++ ([ckA, ckB] ++ rest) := by
    simp [ubxFrame]
  have e4 : ([(0xB5 : Byte), 0x62, 0x01, 0x07, lenLo, lenHi] ++ p).length = 6 + p.length := by
    simp; omega
  generalize hD : ubxFrame 0x01 0x07 lenLo lenHi p ckA ckB ++ rest = D at *
  have hDl : 6 + p.length + 2 ≤ D.length := by
    rw [e3, List.length_append, e4]
    simp
  have hL : byteAt D 4 + 256 * byteAt D 5 = p.length := by
    rw [h4, h5]; omega
  have hf := ublox_findNextPacket_zero D h0 h1 (by omega) (by rw [getU2_eq, hL]; exact hmax)
  have hv : Ublox.validateChecksum (D.take (6 + p.length + 2)) = true := by
    rw [ublox_validateChecksum_take D _ hDl]
    have e1 : D.drop 2 = ([0x01, 0x07, lenLo, lenHi] ++ p) ++ ([ckA, ckB] ++ rest) := by
      rw [e3]
      simp
    have e2 : ([(0x01 : Byte), 0x07, lenLo, lenHi] ++ p).length = 4 + p.length := by
      simp; omega
    have e5 : 7 + p.length
        = ([(0xB5 : Byte), 0x62, 0x01, 0x07, lenLo, lenHi] ++ p).length + 1 := by omega
    rw [e1, ← e2, List.take_left, hck]
    rw [e3, e5, byteAt_append_right, ← e4, ← Nat.add_zero (List.length _),
      byteAt_append_right]
    simp [byteAt]
  have hpay : List.take p.length (List.drop 6 (List.take (6 + p.length + 2) D)) = p := by
    rw [e3]
    simp only [List.append_assoc, List.cons_append, List.nil_append]
    have e : 6 + p.length + 2 = (p.length + 2) + 6 := by omega
    rw [e]
    simp only [List.take_succ_cons, List.drop_succ_cons, List.drop_zero]
    rw [List.take_take]
    simp
  have h6' : ¬ D.length < 6 := by omega
  have hlen' : ¬ D.length < 6 + p.length + 2 := by omega
  have h17 : (0x01 : Byte).val = Ublox.UBX_CLASS_NAV ∧ (0x07 : Byte).val = Ublox.UBX_NAV_PVT :=
    ⟨rfl, rfl⟩
  subst hd
  unfold Ublox.decodePacket
  simp only [hf, Ublox.UBX_HEADER_LEN, Ublox.UBX_CHECKSUM_LEN, getU2_eq, Nat.reduceAdd, hL,
    gt_iff_lt, lt_self_iff_false, if_false, h6', hlen', hv, Bool.not_true,
    Bool.false_eq_true, hpay, h2, h3, Ublox.parsePacket, h17.1, h17.2, if_true,
    Ublox.parseNavPvt]
  constructor
  · intro h92
    have hn : ¬ p.length < 92 := by omega
    simp only [hn, if_false, if_true, getI4_eq, getU4_eq, true_and]
    exact ⟨by omega, trivial⟩
  · intro h92
    simp only [h92, if_true, Bool.false_eq_true, if_false, true_and]
    exact ⟨by omega, trivial⟩

set_option maxRecDepth 100000 in
/-- Claim C32, amended, at the frame built around `navPvtPayload` on a fresh decoder. -/
theorem nav_pvt_fields_witness :
    (Ublox.decodePacket ubloxInit
      (ubxFrame 0x01 0x07 0x5C 0x00 navPvtPayload 0xC8 0x79 ++ [])).ok = true ∧
    (Ublox.decodePacket ubloxInit
      (ubxFrame 0x01 0x07 0x5C 0x00 navPvtPayload 0xC8 0x79 ++ [])).state.m_lastNavPvt.year
      = byteAt navPvtPayload 4 + 256 * byteAt navPvtPayload 5 :=
  have h := (nav_pvt_fields ubloxInit 0x5C 0x00 navPvtPayload 0xC8 0x79 [] _
    (by decide) (by decide) (by decide) rfl).1 (by decide)
  ⟨h.1, h.2.2.1⟩

/-! ## Statistics counters (C34) -/

theorem statSum_bump (f : Nat → Nat) (key : Nat) (hk : key < 65536) :
    statSum (bumpStat f key) % 2 ^ 32 = (statSum f + 1) % 2 ^ 32 := by
  unfold statSum
  have hm : key ∈ Finset.range 65536 := Finset.mem_range.2 hk
  rw [← Finset.add_sum_erase _ (bumpStat f key) hm, ← Finset.add_sum_erase _ f hm]
  have e : ∑ x in (Finset.range 65536).erase key, bumpStat f key x
      = ∑ x in (Finset.range 65536).erase key, f x := by
    apply Finset.sum_congr rfl
    intro x hx
    have hne : x ≠ key := Finset.ne_of_mem_erase hx
    simp [bumpStat, hne]
  have e2 : bumpStat f key key = (f key + 1) % 2 ^ 32 := by simp [bumpStat]
  rw [e, e2]
  generalize ∑ x in (Finset.range 65536).erase key, f x = R
  norm_num
  omega

theorem bumpStat_step (key t : Nat) (f : Nat → Nat) (hk : key < 65536) :
    CounterStep true key t f ((t + 1) % 2 ^ 32) (bumpStat f key) := by
  refine ⟨fun _ => ⟨hk, rfl, by simp [bumpStat], fun k hne => by simp [bumpStat, hne]⟩, ?_⟩
  intro h
  exact Bool.noConfusion h

theorem keep_step (key t : Nat) (f : Nat → Nat) : CounterStep false key t f t f :=
  ⟨fun h => Bool.noConfusion h, fun _ => ⟨rfl, rfl⟩⟩

theorem counterStep_agree (ok : Bool) (key t : Nat) (f : Nat → Nat) (t1 : Nat) (f1 : Nat → Nat)
    (h : CounterStep ok key t f t1 f1) (ha : CountersAgree t f) : CountersAgree t1 f1 := by
  unfold CountersAgree at *
  cases ok with
  | false =>
    obtain ⟨rfl, rfl⟩ := h.2 rfl
    exact ha
  | true =>
    obtain ⟨hk, ht, hf, hrest⟩ := h.1 rfl
    have e : f1 = bumpStat f key := by
      funext k
      by_cases hkk : k = key
      · subst hkk
        simp [bumpStat, hf]
      · simp [bumpStat, hkk, hrest k hkk]
    rw [e, statSum_bump f key hk, ht]
    norm_num at ha ⊢
    omega

theorem key16 (c i : Nat) (hc : c < 256) (hi : i < 256) : (c <<< 8) ||| i < 65536 := by
  rw [shl_or c i 8 (by norm_num; omega)]
  norm_num
  omega

theorem ublox_counterStep (s : Ublox.UbloxDecoder) (data : QByteArray) :
    CounterStep (Ublox.decodePacket s data).ok
      (((Ublox.decodePacket s data).state.m_lastPacket.msgClass <<< 8) |||
        (Ublox.decodePacket s data).state.m_lastPacket.msgId)
      s.m_totalPackets s.m_packetStats
      (Ublox.decodePacket s data).state.m_totalPackets
      (Ublox.decodePacket s data).state.m_packetStats := by
  unfold Ublox.decodePacket
  cases h : Ublox.findNextPacket data 0 with
  | none => exact keep_step _ _ _
  | some k =>
    dsimp only
    split_ifs with h1 h2 h3 h4 h5
    · exact keep_step _ _ _
    · exact keep_step _ _ _
    · exact keep_step _ _ _
    · exact keep_step _ _ _
    · obtain ⟨hp, ht, hf⟩ := ublox_parsePacket_keeps
        { s with m_lastPacket :=
          { msgClass := byteAt data 2, msgId := byteAt data 3, length := getU2 data 4,
            valid := false,
            payload := List.take (getU2 data 4) (List.drop Ublox.UBX_HEADER_LEN
              (List.take (Ublox.UBX_HEADER_LEN + getU2 data 4 + Ublox.UBX_CHECKSUM_LEN) data)) } }
        (List.take (getU2 data 4) (List.drop Ublox.UBX_HEADER_LEN
          (List.take (Ublox.UBX_HEADER_LEN + getU2 data 4 + Ublox.UBX_CHECKSUM_LEN) data)))
      rw [ht, hf, hp]
      exact bumpStat_step _ _ _ (key16 _ _ (byteAt_lt data 2) (byteAt_lt data 3))
    · obtain ⟨hp, ht, hf⟩ := ublox_parsePacket_keeps
        { s with m_lastPacket :=
          { msgClass := byteAt data 2, msgId := byteAt data 3, length := getU2 data 4,
            valid := false,
            payload := List.take (getU2 data 4) (List.drop Ublox.UBX_HEADER_LEN
              (List.take (Ublox.UBX_HEADER_LEN + getU2 data 4 + Ublox.UBX_CHECKSUM_LEN) data)) } }
        (List.take (getU2 data 4) (List.drop Ublox.UBX_HEADER_LEN
          (List.take (Ublox.UBX_HEADER_LEN + getU2 data 4 + Ublox.UBX_CHECKSUM_LEN) data)))
      rw [ht, hf]
      exact keep_step _ _ _

theorem allystar_counterStep (s : Allystar.AllystarDecoder) (data : QByteArray) :
    CounterStep (Allystar.decodePacket s data).ok
      (((Allystar.decodePacket s data).state.m_lastPacket.msgClass <<< 8) |||
        (Allystar.decodePacket s data).state.m_lastPacket.msgId)
      s.m_totalPackets s.m_packetStats
      (Allystar.decodePacket s data).state.m_totalPackets
      (Allystar.decodePacket s data).state.m_packetStats := by
  unfold Allystar.decodePacket Allystar.parsePacket
  cases h : Allystar.findNextPacket data 0 with
  | none => exact keep_step _ _ _
  | some k =>
    dsimp only
    split_ifs with h1 h2 h3 h4
    · exact keep_step _ _ _
    · exact keep_step _ _ _
    · exact keep_step _ _ _
    · exact keep_step _ _ _
    · exact bumpStat_step _ _ _ (key16 _ _ (byteAt_lt data 2) (byteAt_lt data 3))
    · exact keep_step _ _ _

theorem goldfish_counterStep (s : Goldfish.GoldfishDecoder) (data : QByteArray) :
    CounterStep (Goldfish.decodePacket s data).ok
      (Goldfish.decodePacket s data).state.m_lastPacket.msgId
      s.m_totalPackets s.m_packetStats
      (Goldfish.decodePacket s data).state.m_totalPackets
      (Goldfish.decodePacket s data).state.m_packetStats := by
  unfold Goldfish.decodePacket
  cases h : Goldfish.findNextPacket data 0 with
  | none => exact keep_step _ _ _
  | some k =>
    dsimp only
    split_ifs with h1 h2 h3
    · exact keep_step _ _ _
    · exact keep_step _ _ _
    · exact keep_step _ _ _
    · exact bumpStat_step _ _ _ (key16 _ _ (byteAt_lt data 4) (byteAt_lt data 5))

theorem rtcm3_parseMessage_type16 (ub : Nat → Nat → Nat) (s : Rtcm3.Rtcm3Decoder)
    (data : QByteArray) (h : (Rtcm3.parseMessage ub s data).1 = true) :
    (Rtcm3.parseMessage ub s data).2.m_lastMessage.type < 65536 := by
  have hl : ¬ data.length < 2 := by
    intro hl
    simp [Rtcm3.parseMessage, hl] at h
  rw [(parseMessage_type ub s data (by omega)).1]
  exact Nat.mod_lt _ (by norm_num)

theorem rtcm3_counterStep (ub : Nat → Nat → Nat) (s : Rtcm3.Rtcm3Decoder) (data : QByteArray) :
    CounterStep (Rtcm3.decodeFrame ub s data).ok
      (Rtcm3.decodeFrame ub s data).state.m_lastMessage.type
      s.m_totalMessages s.m_messageStats
      (Rtcm3.decodeFrame ub s data).state.m_totalMessages
      (Rtcm3.decodeFrame ub s data).state.m_messageStats := by
  unfold Rtcm3.decodeFrame
  cases h : Rtcm3.findNextFrame data 0 with
  | none => exact keep_step _ _ _
  | some k =>
    dsimp only
    split_ifs with h1 h2 h3 h4 h5
    · exact keep_step _ _ _
    · exact keep_step _ _ _
    · exact keep_step _ _ _
    · exact keep_step _ _ _
    · obtain ⟨_, ht, hf⟩ := rtcm3_parseMessage_keeps ub
        { s with m_lastMessage := { s.m_lastMessage with valid := false } }
        (List.take (((byteAt data 1 &&& 0x03) <<< 8) ||| byteAt data 2)
          (List.drop Rtcm3.RTCM3_HEADER_LEN
            (List.take (Rtcm3.RTCM3_HEADER_LEN + (((byteAt data 1 &&& 0x03) <<< 8) |||
              byteAt data 2) + Rtcm3.RTCM3_CRC_LEN) data)))
      rw [ht, hf]
      exact bumpStat_step _ _ _ (rtcm3_parseMessage_type16 ub _ _ h5)
    · obtain ⟨_, ht, hf⟩ := rtcm3_parseMessage_keeps ub
        { s with m_lastMessage := { s.m_lastMessage with valid := false } }
        (List.take (((byteAt data 1 &&& 0x03) <<< 8) ||| byteAt data 2)
          (List.drop Rtcm3.RTCM3_HEADER_LEN
            (List.take (Rtcm3.RTCM3_HEADER_LEN + (((byteAt data 1 &&& 0x03) <<< 8) |||
              byteAt data 2) + Rtcm3.RTCM3_CRC_LEN) data)))
      rw [ht, hf]
      exact keep_step _ _ _

theorem statSum_zero : statSum (fun _ => 0) = 0 := Finset.sum_const_zero

theorem agree_zero : CountersAgree 0 (fun _ => 0) := by
  rw [CountersAgree, statSum_zero]

theorem ublox_call_agree (s : Ublox.UbloxDecoder) (c : DecoderCall)
    (h : CountersAgree s.m_totalPackets s.m_packetStats) :
    CountersAgree (Ublox.call s c).m_totalPackets (Ublox.call s c).m_packetStats := by
  cases c with
  | decode data => exact counterStep_agree _ _ _ _ _ _ (ublox_counterStep s data) h
  | reset => exact agree_zero

theorem allystar_call_agree (s : Allystar.AllystarDecoder) (c : DecoderCall)
    (h : CountersAgree s.m_totalPackets s.m_packetStats) :
    CountersAgree (Allystar.call s c).m_totalPackets (Allystar.call s c).m_packetStats := by
  cases c with
  | decode data => exact counterStep_agree _ _ _ _ _ _ (allystar_counterStep s data) h
  | reset => exact agree_zero

theorem goldfish_call_agree (s : Goldfish.GoldfishDecoder) (c : DecoderCall)
    (h : CountersAgree s.m_totalPackets s.m_packetStats) :
    CountersAgree (Goldfish.call s c).m_totalPackets (Goldfish.call s c).m_packetStats := by
  cases c with
  | decode data => exact counterStep_agree _ _ _ _ _ _ (goldfish_counterStep s data) h
  | reset => exact agree_zero

theorem rtcm3_call_agree (ub : Nat → Nat → Nat) (s : Rtcm3.Rtcm3Decoder) (c : DecoderCall)
    (h : CountersAgree s.m_totalMessages s.m_messageStats) :
    CountersAgree (Rtcm3.call ub s c).m_totalMessages (Rtcm3.call ub s c).m_messageStats := by
  cases c with
  | decode data => exact counterStep_agree _ _ _ _ _ _ (rtcm3_counterStep ub s data) h
  | reset => exact agree_zero

theorem foldl_agree {σ : Type} (call : σ → DecoderCall → σ) (tot : σ → Nat)
    (st : σ → Nat → Nat)
    (hstep : ∀ s c, CountersAgree (tot s) (st s) → CountersAgree (tot (call s c)) (st (call s c))) :
    ∀ (calls : List DecoderCall) (s : σ), CountersAgree (tot s) (st s) →
      CountersAgree (tot (calls.foldl call s)) (st (calls.foldl call s)) := by
  intro calls
  induction calls with
  | nil => intro s h; exact h
  | cons c rest ih => intro s h; exact ih (call s c) (hstep s c h)

theorem counterStep_monotone (ok : Bool) (key t : Nat) (f : Nat → Nat) (t1 : Nat)
    (f1 : Nat → Nat) (h : CounterStep ok key t f t1 f1) :
    (t < 2 ^ 32 - 1 → t ≤ t1) ∧ ∀ k, f k < 2 ^ 32 - 1 → f k ≤ f1 k := by
  cases ok with
  | false =>
    obtain ⟨rfl, rfl⟩ := h.2 rfl
    exact ⟨fun _ => le_rfl, fun _ _ => le_rfl⟩
  | true =>
    obtain ⟨_, ht, hf, hrest⟩ := h.1 rfl
    refine ⟨fun hlt => ?_, fun k hlt => ?_⟩
    · rw [ht]
      norm_num at hlt ⊢
      omega
    · by_cases hk : k = key
      · subst hk
        rw [hf]
        norm_num at hlt ⊢
        omega
      · rw [hrest k hk]

theorem ack_decodes (s : Ublox.UbloxDecoder) :
    (Ublox.decodePacket s ackFrame).ok = true ∧
    (Ublox.decodePacket s ackFrame).state.m_totalPackets = (s.m_totalPackets + 1) % 2 ^ 32 := by
  have h := ubxFrame_accept s 0x05 0x01 0x02 0x00 [0x06, 0x01] 0x0F 0x38 (by decide)
    (by decide) (by decide) (by decide) (by decide) []
  rw [List.append_nil] at h
  have hs := ublox_counterStep s ackFrame
  exact ⟨h.1, (hs.1 h.1).2.1⟩

theorem ack_run (n : Nat) : ∀ s : Ublox.UbloxDecoder,
    ((List.replicate n (DecoderCall.decode ackFrame)).foldl Ublox.call s).m_totalPackets
      = if n = 0 then s.m_totalPackets else (s.m_totalPackets + n) % 2 ^ 32 := by
  induction n with
  | zero => intro s; rfl
  | succ n ih =>
    intro s
    rw [List.replicate_succ, List.foldl_cons, ih]
    have h1 : (Ublox.call s (DecoderCall.decode ackFrame)).m_totalPackets
        = (s.m_totalPackets + 1) % 2 ^ 32 := (ack_decodes s).2
    rw [h1]
    by_cases hn : n = 0
    · subst hn
      simp
    · rw [if_neg hn, if_neg (by omega)]
      norm_num
      omega

/-- Claim C34 fails at the end of the `uint32_t` range: after `2 ^ 32 - 1` accepted
frames the total counter of a fresh `UbloxDecoder` is `4294967295`, and the next
decode call, which returns true, leaves it at 0: the counter has decreased
without a reset. -/
theorem total_counter_wraps_to_zero :
    ((List.replicate 4294967295 (DecoderCall.decode ackFrame)).foldl Ublox.call
      ubloxInit).m_totalPackets = 4294967295 ∧
    (Ublox.decodePacket
      ((List.replicate 4294967295 (DecoderCall.decode ackFrame)).foldl Ublox.call ubloxInit)
      ackFrame).ok = true ∧
    (Ublox.decodePacket
      ((List.replicate 4294967295 (DecoderCall.decode ackFrame)).foldl Ublox.call ubloxInit)
      ackFrame).state.m_totalPackets = 0 := by
  have h1 := ack_run 4294967295 ubloxInit
  rw [if_neg (by norm_num)] at h1
  have h2 := ack_decodes
    ((List.replicate 4294967295 (DecoderCall.decode ackFrame)).foldl Ublox.call ubloxInit)
  have e : ubloxInit.m_totalPackets = 0 := rfl
  rw [e] at h1
  norm_num at h1
  refine ⟨h1, h2.1, ?_⟩
  rw [h2.2, h1]
  norm_num

/-- Claim C34, amended. For each of the four decoders, one decode call relates the
counters before and after it by `CounterStep`: a call that returns true adds 1
modulo `2 ^ 32` to the total and to the counter of the decoded frame's key
(`(class << 8) | id`, the message id, the message type; always below 65536) and
keeps every other counter, a call that returns false keeps them all. Hence a
counter below `2 ^ 32 - 1` never decreases in a decode call. `resetStatistics`
sets the total and every per-key counter to 0. After any sequence of decode
and reset calls on a fresh decoder the total and the sum of the per-key
counters agree modulo `2 ^ 32`. -/
theorem counters_follow_decode_results :
    (∀ (s : Ublox.UbloxDecoder) (data : QByteArray),
      CounterStep (Ublox.decodePacket s data).ok
        (((Ublox.decodePacket s data).state.m_lastPacket.msgClass <<< 8) |||
          (Ublox.decodePacket s data).state.m_lastPacket.msgId)
        s.m_totalPackets s.m_packetStats
        (Ublox.decodePacket s data).state.m_totalPackets
        (Ublox.decodePacket s data).state.m_packetStats) ∧
    (∀ (s : Allystar.AllystarDecoder) (data : QByteArray),
      CounterStep (Allystar.decodePacket s data).ok
        (((Allystar.decodePacket s data).state.m_lastPacket.msgClass <<< 8) |||
          (Allystar.decodePacket s data).state.m_lastPacket.msgId)
        s.m_totalPackets s.m_packetStats
        (Allystar.decodePacket s data).state.m_totalPackets
        (Allystar.decodePacket s data).state.m_packetStats) ∧
    (∀ (s : Goldfish.GoldfishDecoder) (data : QByteArray),
      CounterStep (Goldfish.decodePacket s data).ok
        (Goldfish.decodePacket s data).state.m_lastPacket.msgId
        s.m_totalPackets s.m_packetStats
        (Goldfish.decodePacket s data).state.m_totalPackets
        (Goldfish.decodePacket s data).state.m_packetStats) ∧
    (∀ (ub : Nat → Nat → Nat) (s : Rtcm3.Rtcm3Decoder) (data : QByteArray),
      CounterStep (Rtcm3.decodeFrame ub s data).ok
        (Rtcm3.decodeFrame ub s data).state.m_lastMessage.type
        s.m_totalMessages s.m_messageStats
        (Rtcm3.decodeFrame ub s data).state.m_totalMessages
        (Rtcm3.decodeFrame ub s data).state.m_messageStats) ∧
    (∀ (ok : Bool) (key t : Nat) (f : Nat → Nat) (t1 : Nat) (f1 : Nat → Nat),
      CounterStep ok key t f t1 f1 →
        (t < 2 ^ 32 - 1 → t ≤ t1) ∧ ∀ k, f k < 2 ^ 32 - 1 → f k ≤ f1 k) ∧
    (∀ (s : Ublox.UbloxDecoder), (Ublox.resetStatistics s).m_totalPackets = 0 ∧
      ∀ k, (Ublox.resetStatistics s).m_packetStats k = 0) ∧
    (∀ (s : Allystar.AllystarDecoder), (Allystar.resetStatistics s).m_totalPackets = 0 ∧
      ∀ k, (Allystar.resetStatistics s).m_packetStats k = 0) ∧
    (∀ (s : Goldfish.GoldfishDecoder), (Goldfish.resetStatistics s).m_totalPackets = 0 ∧
      ∀ k, (Goldfish.resetStatistics s).m_packetStats k = 0) ∧
    (∀ (s : Rtcm3.Rtcm3Decoder), (Rtcm3.resetStatistics s).m_totalMessages = 0 ∧
      ∀ k, (Rtcm3.resetStatistics s).m_messageStats k = 0) ∧
    (∀ (calls : List DecoderCall),
      CountersAgree (calls.foldl Ublox.call ubloxInit).m_totalPackets
        (calls.foldl Ublox.call ubloxInit).m_packetStats) ∧
    (∀ (calls : List DecoderCall),
      CountersAgree (calls.foldl Allystar.call allystarInit).m_totalPackets
        (calls.foldl Allystar.call allystarInit).m_packetStats) ∧
    (∀ (calls : List DecoderCall),
      CountersAgree (calls.foldl Goldfish.call goldfishInit).m_totalPackets
        (calls.foldl Goldfish.call goldfishInit).m_packetStats) ∧
    (∀ (ub : Nat → Nat → Nat) (calls : List DecoderCall),
      CountersAgree (calls.foldl (Rtcm3.call ub) rtcm3Init).m_totalMessages
        (calls.foldl (Rtcm3.call ub) rtcm3Init).m_messageStats) :=
  ⟨ublox_counterStep, allystar_counterStep, goldfish_counterStep, rtcm3_counterStep,
    counterStep_monotone,
    fun _ => ⟨rfl, fun _ => rfl⟩, fun _ => ⟨rfl, fun _ => rfl⟩, fun _ => ⟨rfl, fun _ => rfl⟩,
    fun _ => ⟨rfl, fun _ => rfl⟩,
    fun calls => foldl_agree Ublox.call (fun s => s.m_totalPackets) (fun s => s.m_packetStats)
      ublox_call_agree calls ubloxInit agree_zero,
    fun calls => foldl_agree Allystar.call (fun s => s.m_totalPackets)
      (fun s => s.m_packetStats) allystar_call_agree calls allystarInit agree_zero,
    fun calls => foldl_agree Goldfish.call (fun s => s.m_totalPackets)
      (fun s => s.m_packetStats) goldfish_call_agree calls goldfishInit agree_zero,
    fun ub calls => foldl_agree (Rtcm3.call ub) (fun s => s.m_totalMessages)
      (fun s => s.m_messageStats) (rtcm3_call_agree ub) calls rtcm3Init agree_zero⟩

/-! ## Receive buffers of the main window (C40) -/

theorem indexOf_lt (c : Byte) : ∀ (l : QByteArray) (i : Nat),
    QByteArray.indexOf c l = some i → i < l.length := by
  intro l
  induction l with
  | nil => intro i h; simp [QByteArray.indexOf] at h
  | cons b rest ih =>
    intro i h
    unfold QByteArray.indexOf at h
    by_cases hb : b = c
    · rw [if_pos hb] at h
      obtain rfl := Option.some.inj h
      simp
    · rw [if_neg hb] at h
      cases hr : QByteArray.indexOf c rest with
      | none => rw [hr] at h; simp at h
      | some j =>
        rw [hr] at h
        simp at h
        subst h
        have := ih j hr
        simp
        omega

theorem lineStep_length (buffer : QByteArray) :
    (lineStep buffer).buffer.length ≤ buffer.length ∧
    ((lineStep buffer).again = true → (lineStep buffer).buffer.length < buffer.length) := by
  unfold lineStep
  dsimp only
  split
  · split_ifs <;> simp
  · rename_i i _
    split
    · split_ifs <;> simp
    · rename_i endIdx hend
      simp only [List.length_drop, forall_true_left]
      unfold QByteArray.indexOfFrom at hend
      cases hj : QByteArray.indexOf 0x0A
          (List.drop 1 (if i > 0 then List.drop i buffer else buffer)) with
      | none => rw [hj] at hend; simp at hend
      | some j =>
        rw [hj] at hend
        simp at hend
        have hlt := indexOf_lt _ _ _ hj
        rw [List.length_drop] at hlt
        have hb : (if i > 0 then List.drop i buffer else buffer).length ≤ buffer.length := by
          split_ifs
          · rw [List.length_drop]; omega
          · exact le_rfl
        generalize (if i > 0 then List.drop i buffer else buffer) = B at hlt hb ⊢
        omega

theorem lineLoop_total : ∀ (fuel : Nat) (buffer : QByteArray), buffer.length < fuel →
    ∃ rest sentences, lineLoop fuel buffer = some (rest, sentences) ∧
      rest.length ≤ buffer.length := by
  intro fuel
  induction fuel with
  | zero => intro buffer h; omega
  | succ fuel ih =>
    intro buffer h
    obtain ⟨h1, h2⟩ := lineStep_length buffer
    unfold lineLoop
    dsimp only
    by_cases ha : (lineStep buffer).again = true
    · rw [if_pos ha]
      obtain ⟨rest, sentences, hr, hl⟩ := ih (lineStep buffer).buffer (by have := h2 ha; omega)
      rw [hr]
      exact ⟨rest, _, rfl, by have := h2 ha; omega⟩
    · rw [if_neg ha]
      exact ⟨_, _, rfl, h1⟩

theorem appendAndCap_spec (buffer data : QByteArray) :
    (appendAndCap buffer data).length ≤ MAX_RX_BUFFER_SIZE ∧
    (MAX_RX_BUFFER_SIZE < (buffer ++ data).length →
      (appendAndCap buffer data).length = MAX_RX_BUFFER_SIZE ∧
      appendAndCap buffer data
        = (buffer ++ data).drop ((buffer ++ data).length - MAX_RX_BUFFER_SIZE) ∧
      (buffer ++ data).take ((buffer ++ data).length - MAX_RX_BUFFER_SIZE)
        ++ appendAndCap buffer data = buffer ++ data) ∧
    ((buffer ++ data).length ≤ MAX_RX_BUFFER_SIZE → appendAndCap buffer data = buffer ++ data) := by
  unfold appendAndCap QByteArray.right
  by_cases h : (buffer ++ data).length > MAX_RX_BUFFER_SIZE
  · rw [if_pos h]
    refine ⟨by rw [List.length_drop]; omega, fun _ => ⟨by rw [List.length_drop]; omega, rfl,
      List.take_append_drop _ _⟩, fun h2 => by omega⟩
  · rw [if_neg h]
    exact ⟨by omega, fun h2 => by omega, fun _ => rfl⟩

theorem processRawData_spec (w : MainWindow) (data : QByteArray) (source : String) :
    ∃ w1 out, MainWindow.processRawData w data source = some (w1, out) ∧
      (w1.m_rxBuffers source).length ≤ MAX_RX_BUFFER_SIZE ∧
      ∀ other, other ≠ source → w1.m_rxBuffers other = w.m_rxBuffers other := by
  obtain ⟨rest, sentences, hr, hl⟩ := lineLoop_total
    ((appendAndCap (w.m_rxBuffers source) data).length + 1)
    (appendAndCap (w.m_rxBuffers source) data) (by omega)
  have hc := (appendAndCap_spec (w.m_rxBuffers source) data).1
  unfold MainWindow.processRawData
  dsimp only
  rw [hr]
  refine ⟨_, _, rfl, ?_, ?_⟩
  · simp only [if_true]
    omega
  · intro other hne
    simp only [hne, if_false]

theorem feed_spec : ∀ (calls : List (QByteArray × String)) (w : MainWindow),
    (∀ source, (w.m_rxBuffers source).length ≤ MAX_RX_BUFFER_SIZE) →
    ∃ w1 out, MainWindow.feed w calls = some (w1, out) ∧
      ∀ source, (w1.m_rxBuffers source).length ≤ MAX_RX_BUFFER_SIZE := by
  intro calls
  induction calls with
  | nil => intro w h; exact ⟨w, [], rfl, h⟩
  | cons c rest ih =>
    intro w h
    obtain ⟨data, source⟩ := c
    obtain ⟨w1, out1, h1, hcap, hother⟩ := processRawData_spec w data source
    have hw1 : ∀ k, (w1.m_rxBuffers k).length ≤ MAX_RX_BUFFER_SIZE := by
      intro k
      by_cases hk : k = source
      · rw [hk]; exact hcap
      · rw [hother k hk]; exact h k
    obtain ⟨w2, out2, h2, hcap2⟩ := ih w1 hw1
    refine ⟨w2, out1 ++ out2, ?_, hcap2⟩
    unfold MainWindow.feed
    rw [h1]
    dsimp only
    rw [h2]

set_option maxRecDepth 100000 in
/-- Claim C40: every `processRawData` call returns (the extraction loop ends within
`length + 1` turns), leaves at most 65536 bytes in the receive buffer of its
source and does not touch the buffer of any other source; so after each call
of any sequence of calls on a fresh window every receive buffer holds at most
65536 bytes. When appending the chunk makes the buffer exceed 65536 bytes,
the bytes kept for line extraction are the last 65536 of buffer plus chunk:
the oldest bytes are the ones dropped. For instance the chunk
`xx$GPRMC,1,2*48\r\n$GP` hands the line `$GPRMC,1,2*48` to the parser and keeps
`$GP`. -/
theorem rx_buffer_holds_at_most_64k :
    (∀ (w : MainWindow) (data : QByteArray) (source : String),
      ∃ w1 out, MainWindow.processRawData w data source = some (w1, out) ∧
        (w1.m_rxBuffers source).length ≤ 65536 ∧
        ∀ other, other ≠ source → w1.m_rxBuffers other = w.m_rxBuffers other) ∧
    (∀ (calls : List (QByteArray × String)) (source : String),
      ∃ w out, MainWindow.feed MainWindow.fresh calls = some (w, out) ∧
        (w.m_rxBuffers source).length ≤ 65536) ∧
    (∀ (buffer data : QByteArray), 65536 < (buffer ++ data).length →
      (appendAndCap buffer data).length = 65536 ∧
      appendAndCap buffer data = (buffer ++ data).drop ((buffer ++ data).length - 65536) ∧
      (buffer ++ data).take ((buffer ++ data).length - 65536) ++ appendAndCap buffer data
        = buffer ++ data) ∧
    (MainWindow.processRawData MainWindow.fresh
        (asciiBytes "xx$GPRMC,1,2*48\r\n$GP") "Serial A").map
        (fun r => (r.1.m_rxBuffers "Serial A", r.2))
      = some (asciiBytes "$GP", [asciiBytes "$GPRMC,1,2*48"]) := by
  have hM : MAX_RX_BUFFER_SIZE = 65536 := rfl
  refine ⟨?_, ?_, ?_, by decide⟩
  · intro w data source
    have h := processRawData_spec w data source
    rw [hM] at h
    exact h
  · intro calls source
    obtain ⟨w, out, h1, h2⟩ := feed_spec calls MainWindow.fresh (fun _ => Nat.zero_le _)
    have h3 := h2 source
    rw [hM] at h3
    exact ⟨w, out, h1, h3⟩
  · intro buffer data h
    have h2 := (appendAndCap_spec buffer data).2.1
    rw [hM] at h2
    exact h2 h

end GnssView
